import Mathlib

/-!
# System V semaphores (`sys/kern/sysv_sem.c`): shallow embedding and properties

The kernel state touched by `sysv_sem.c` is the record `State`; every C function
of the file becomes a Lean function that takes the state and returns the new one.

Conventions of the embedding:

* `u_short` fields are `Nat` and every C assignment to one is followed by an
  explicit `% 65536`; `short` fields are `Int` and assignments go through
  `toShort`.
* the pointer `sem_base` is represented by the offset `sem_base - sem` into the
  semaphore pool, a pointer to a `struct sem_undo` by the index `ix` of `SEMU(ix)`.
* `un_ent` holds the `un_cnt` live entries of the undo vector (`un_cnt` is the
  length of the list); the slots past `un_cnt` are never read by the C code.
* the mutexes are not represented: each function runs atomically up to the point
  where it sleeps (`msleep` in `sys_semop`).
* `MAC` hooks (`#ifdef MAC`) are compiled out; `RACCT` hooks are oracles of `Kernel`.
-/

namespace SysvSem

/-! ## Constants of the headers -/

/-- Modelled from the spec: `sys/errno.h` is not among the sources; FreeBSD's
numbering is used and only distinctness from each other and from 0 matters. -/
def ENOENT : Int := 2
/-- Modelled from the spec: errno of an interrupted sleep (`sys/errno.h`). -/
def EINTR : Int := 4
/-- Modelled from the spec: errno of an over-long operation vector (`sys/errno.h`). -/
def E2BIG : Int := 7
/-- Modelled from the spec: errno "already exists" (`sys/errno.h`). -/
def EEXIST : Int := 17
/-- Modelled from the spec: errno "invalid argument" (`sys/errno.h`). -/
def EINVAL : Int := 22
/-- Modelled from the spec: errno "too big" (`sys/errno.h`). -/
def EFBIG : Int := 27
/-- Modelled from the spec: errno "no space" (`sys/errno.h`). -/
def ENOSPC : Int := 28
/-- Modelled from the spec: errno "range error" (`sys/errno.h`). -/
def ERANGE : Int := 34
/-- Modelled from the spec: errno "would block" (`sys/errno.h`). -/
def EAGAIN : Int := 35
/-- Modelled from the spec: errno of a jail without SysV IPC (`sys/errno.h`). -/
def ENOSYS : Int := 78
/-- Modelled from the spec: errno "identifier removed" (`sys/errno.h`). -/
def EIDRM : Int := 82

/-- Modelled from the spec: `IPC_CREAT` of `sys/ipc.h` (create-requested flag). -/
def IPC_CREAT : Nat := 0o1000
/-- Modelled from the spec: `IPC_EXCL` of `sys/ipc.h` (create-exclusive flag). -/
def IPC_EXCL : Nat := 0o2000
/-- Modelled from the spec: `IPC_NOWAIT` of `sys/ipc.h` (the NOWAIT flag). -/
def IPC_NOWAIT : Nat := 0o4000
/-- Modelled from the spec: `IPC_PRIVATE` of `sys/ipc.h` (the private key). -/
def IPC_PRIVATE : Int := 0
/-- Modelled from the spec: `IPC_R` of `sys/ipc.h` (read access). -/
def IPC_R : Nat := 0o400
/-- Modelled from the spec: `IPC_W` of `sys/ipc.h` (write access). -/
def IPC_W : Nat := 0o200
/-- Modelled from the spec: `IPC_M` of `sys/ipc.h` (manage access). -/
def IPC_M : Nat := 0o10000
/-- Modelled from the spec: `SEM_UNDO` of `sys/sem.h` (the UNDO flag). -/
def SEM_UNDO : Nat := 0o10000
/-- Modelled from the spec: `SEM_ALLOC` of `sys/sem.h` (slot allocated bit of the mode). -/
def SEM_ALLOC : Nat := 0o1000
/-- Modelled from the spec: `SEM_R` of `sys/sem.h`, the same bit as `IPC_R`. -/
def SEM_R : Nat := IPC_R
/-- Modelled from the spec: `SEM_A` of `sys/sem.h`, the same bit as `IPC_W`. -/
def SEM_A : Nat := IPC_W

/-- Value of a C `int` stored into a `short`. -/
def toShort (x : Int) : Int := (x + 32768) % 65536 - 32768

/-- The 32 bits of a C `int`, as an unsigned number. -/
def toU32 (x : Int) : Nat := (x % 4294967296).toNat

/-- The C `int` with the given 32 bits. -/
def toI32 (n : Nat) : Int :=
  if n % 4294967296 < 2147483648 then (n % 4294967296 : Nat) else (n % 4294967296 : Nat) - 4294967296

/-! ## Data model -/

/-- Tunables `struct seminfo` (all C `int`). -/
structure Seminfo where
  semmni : Int
  semmns : Int
  semmnu : Int
  semmsl : Int
  semopm : Int
  semume : Int
  semusz : Int
  semvmx : Int
  semaem : Int
deriving DecidableEq

/-- The compiled-in defaults `SEMMNI`, `SEMMNS`, ... of `sysv_sem.c`. -/
def seminfo : Seminfo :=
  { semmni := 50, semmns := 340, semmnu := 150, semmsl := 340, semopm := 100,
    semume := 50, semusz := 616, semvmx := 32767, semaem := 16384 }

/-- One semaphore, `struct sem`. -/
structure Sem where
  semval : Nat
  sempid : Int
  semncnt : Nat
  semzcnt : Nat
deriving DecidableEq

instance : Inhabited Sem := ⟨⟨0, 0, 0, 0⟩⟩

/-- Permission block `struct ipc_perm` (`sys/ipc.h`). -/
structure IpcPerm where
  cuid : Nat
  cgid : Nat
  uid : Nat
  gid : Nat
  mode : Nat
  seq : Nat
  key : Int
deriving DecidableEq

instance : Inhabited IpcPerm := ⟨⟨0, 0, 0, 0, 0, 0, 0⟩⟩

/-- User-visible descriptor `struct semid_ds` (`sys/sem.h`); `sem_base` is the
offset of the set's first semaphore in the pool. -/
structure SemidDs where
  sem_perm : IpcPerm
  sem_base : Nat
  sem_nsems : Nat
  sem_otime : Int
  sem_ctime : Int
deriving DecidableEq

instance : Inhabited SemidDs := ⟨⟨default, 0, 0, 0, 0⟩⟩

/-- Credentials `struct ucred`, the two fields read by `sysv_sem.c`. -/
structure Ucred where
  cr_uid : Nat
  cr_gid : Nat
deriving DecidableEq

/-- Kernel descriptor `struct semid_kernel`. -/
structure SemidKernel where
  u : SemidDs
  cred : Option Ucred
deriving DecidableEq

instance : Inhabited SemidKernel := ⟨⟨default, none⟩⟩

/-- One undo entry, `struct undo`. -/
structure Undo where
  un_adjval : Int
  un_num : Int
  un_id : Int
  un_seq : Nat
deriving DecidableEq

instance : Inhabited Undo := ⟨⟨0, 0, 0, 0⟩⟩

/-- Undo vector of one process, `struct sem_undo`; `un_proc` is the address of the
owning `struct proc` (`none` for `NULL`). -/
structure SemUndo where
  un_proc : Option Nat
  un_ent : List Undo
deriving DecidableEq

instance : Inhabited SemUndo := ⟨⟨none, []⟩⟩

/-- Number of active entries `un_cnt`. -/
def SemUndo.un_cnt (su : SemUndo) : Nat := su.un_ent.length

/-- The calling thread: address of its process, the pid and the credentials. -/
structure Thread where
  td_proc : Nat
  p_pid : Int
  td_ucred : Ucred
deriving DecidableEq

/-- One operation of a batch, `struct sembuf` (`sys/sem.h`). -/
structure Sembuf where
  sem_num : Nat
  sem_op : Int
  sem_flg : Nat
deriving DecidableEq

/-- Argument `union semun` of `semctl`; the command selects the member read. -/
structure Semun where
  val : Int
  buf : SemidDs
  array : List Nat

/-- The `semctl` commands of `sys/sem.h` and `sys/ipc.h`; `other` is any other number. -/
inductive Cmd where
  | IPC_RMID
  | IPC_SET
  | IPC_STAT
  | GETNCNT
  | GETPID
  | GETVAL
  | GETALL
  | GETZCNT
  | SETVAL
  | SETALL
  | SEM_STAT
  | other
deriving DecidableEq

/-- The globals of `sysv_sem.c`: `semtot`, `sema`, `sem`, the undo pool `semu`
and the two lists of undo structures. -/
structure State where
  semtot : Nat
  sema : List SemidKernel
  sem : List Sem
  semu : List SemUndo
  semu_list : List Nat
  semu_free_list : List Nat
deriving DecidableEq

/-- External collaborators of the semaphore code: jail check, `ipcperm` of
`sysv_ipc.c`, the resource-accounting hooks and the clock. -/
structure Kernel where
  prison_allow : Thread → Bool
  ipcperm : Thread → IpcPerm → Nat → Int
  racct_enable : Bool
  racct_add : Thread → Int → Int
  racct_get_available : Thread → Int
  time_second : Int

/-! ## Identifier encoding (`sys/ipc.h`) -/

/-- Modelled from the spec: `IPCID_TO_IX(id)` is `id & 0xffff`. -/
def IPCID_TO_IX (id : Int) : Nat := toU32 id &&& 0xffff

/-- Modelled from the spec: `IPCID_TO_SEQ(id)` is `(id >> 16) & 0xffff`. -/
def IPCID_TO_SEQ (id : Int) : Nat := (toU32 id >>> 16) &&& 0xffff

/-- Modelled from the spec: `IXSEQ_TO_IPCID(ix, perm)` is
`(perm.seq << 16) | (ix & 0xffff)`, a C `int`. -/
def IXSEQ_TO_IPCID (ix : Nat) (perm : IpcPerm) : Int :=
  toI32 ((perm.seq <<< 16) ||| (ix &&& 0xffff))

/-! ## Undo registry -/

/-- The undo structure `SEMU(ix)`. -/
def SEMU (st : State) (ix : Nat) : SemUndo := st.semu.getD ix default

/-- Store through a `struct sem_undo *`. -/
def setSEMU (st : State) (ix : Nat) (su : SemUndo) : State :=
  { st with semu := st.semu.set ix su }

/-- `semu_alloc`: take the first free undo structure, put it at the head of the
active list, with no entries and the caller as owner. -/
def semu_alloc (td : Thread) (st : State) : Option Nat × State :=
  match st.semu_free_list with
  | [] => (none, st)
  | suptr :: rest =>
    (some suptr,
      { st with
        semu_free_list := rest
        semu_list := suptr :: st.semu_list
        semu := st.semu.set suptr { un_proc := some td.td_proc, un_ent := [] } })

/-- `semu_try_free`: when the structure has no entries, `LIST_REMOVE` it from the
list it is on and insert it at the head of the free list. -/
def semu_try_free (suptr : Nat) (st : State) : Int × State :=
  if (SEMU st suptr).un_cnt ≠ 0 then (0, st)
  else
    (1, { st with
          semu_list := st.semu_list.erase suptr
          semu_free_list := suptr :: (st.semu_free_list.erase suptr) })

/-- Index of the first entry with `un_id == semid && un_num == semnum`
(the scan of `semundo_adjust`). -/
def undo_find (semid : Int) (semnum : Int) : List Undo → Option Nat
  | [] => none
  | e :: es =>
    if e.un_id = semid ∧ e.un_num = semnum then some 0
    else (undo_find semid semnum es).map (· + 1)

/-- Deletion of entry `i`: `un_cnt--; if (i < un_cnt) un_ent[i] = un_ent[un_cnt];`. -/
def undo_delete (ents : List Undo) (i : Nat) : List Undo :=
  let cnt := ents.length - 1
  if i < cnt then (ents.set i (ents.getD cnt default)).take cnt else ents.take cnt

/-- Second half of `semundo_adjust` (from "Look for the requested entry"), run on
the undo structure `suptr`. -/
def semundo_adjust_entry (cfg : Seminfo) (suptr : Nat) (semid : Int) (semseq : Nat)
    (semnum : Int) (adjval : Int) (st : State) : Int × State :=
  let su := SEMU st suptr
  match undo_find semid semnum su.un_ent with
  | some i =>
    let sunptr := su.un_ent.getD i default
    let adjval1 := if adjval ≠ 0 then adjval + sunptr.un_adjval else adjval
    if adjval ≠ 0 ∧ (adjval1 > cfg.semaem ∨ adjval1 < -cfg.semaem) then (ERANGE, st)
    else if toShort adjval1 = 0 then
      let ents := undo_delete su.un_ent i
      let st1 := setSEMU st suptr { su with un_ent := ents }
      if ents.length = 0 then (0, (semu_try_free suptr st1).2) else (0, st1)
    else
      (0, setSEMU st suptr
            { su with un_ent := su.un_ent.set i { sunptr with un_adjval := toShort adjval1 } })
  | none =>
    if adjval = 0 then (0, st)
    else if adjval > cfg.semaem ∨ adjval < -cfg.semaem then (ERANGE, st)
    else if (su.un_cnt : Int) ≠ cfg.semume then
      (0, setSEMU st suptr
            { su with
              un_ent := su.un_ent ++
                [{ un_adjval := toShort adjval, un_id := semid, un_num := toShort semnum,
                   un_seq := semseq % 65536 }] })
    else (EINVAL, st)

/-- `semundo_adjust`: the caller's cached pointer `*supptr` is used when it is not
`NULL`; otherwise the active list is searched for the process and, failing that,
a structure is allocated. Returns the error, the new `*supptr` and the state. -/
def semundo_adjust (cfg : Seminfo) (td : Thread) (supptr : Option Nat) (semid : Int)
    (semseq : Nat) (semnum : Int) (adjval : Int) (st : State) : Int × Option Nat × State :=
  match supptr with
  | some suptr =>
    let r := semundo_adjust_entry cfg suptr semid semseq semnum adjval st
    (r.1, some suptr, r.2)
  | none =>
    match st.semu_list.find? (fun ix => (SEMU st ix).un_proc = some td.td_proc) with
    | some suptr =>
      let r := semundo_adjust_entry cfg suptr semid semseq semnum adjval st
      (r.1, some suptr, r.2)
    | none =>
      if adjval = 0 then (0, none, st)
      else
        match semu_alloc td st with
        | (none, st1) => (ENOSPC, none, st1)
        | (some suptr, st1) =>
          let r := semundo_adjust_entry cfg suptr semid semseq semnum adjval st1
          (r.1, some suptr, r.2)

/-- Inner `for` loop of `semundo_clear` over the entries of one undo structure,
from index `i`; the Boolean tells whether `semu_try_free` was called. -/
def semundo_clear_ents (semid : Int) (semnum : Int) : Nat → Nat → List Undo → List Undo × Bool
  | 0, _, ents => (ents, false)
  | fuel + 1, i, ents =>
    if i < ents.length then
      let sunptr := ents.getD i default
      if sunptr.un_id ≠ semid then semundo_clear_ents semid semnum fuel (i + 1) ents
      else if semnum = -1 ∨ sunptr.un_num = semnum then
        let cnt := ents.length - 1
        if i < cnt then
          semundo_clear_ents semid semnum fuel (i + 1) ((ents.set i (ents.getD cnt default)).take cnt)
        else if semnum ≠ -1 then (ents.take cnt, true)
        else ((semundo_clear_ents semid semnum fuel (i + 1) (ents.take cnt)).1, true)
      else if semnum ≠ -1 then (ents, false)
      else semundo_clear_ents semid semnum fuel (i + 1) ents
    else (ents, false)

/-- Body of the `LIST_FOREACH_SAFE` of `semundo_clear` for one undo structure. -/
def semundo_clear_one (semid : Int) (semnum : Int) (st : State) (suptr : Nat) : State :=
  let su := SEMU st suptr
  let r := semundo_clear_ents semid semnum su.un_cnt 0 su.un_ent
  let st1 := setSEMU st suptr { su with un_ent := r.1 }
  if r.2 then (semu_try_free suptr st1).2 else st1

/-- `semundo_clear`: remove the entries of set `semid` (all of them when
`semnum == -1`) from the structures of the active list. -/
def semundo_clear (semid : Int) (semnum : Int) (st : State) : State :=
  st.semu_list.foldl (semundo_clear_one semid semnum) st

/-- `semvalid`: `EINVAL` unless the slot is allocated and its sequence number is the
one encoded in the identifier. -/
def semvalid (semid : Int) (semakptr : SemidKernel) : Int :=
  if semakptr.u.sem_perm.mode &&& SEM_ALLOC = 0 ∨ semakptr.u.sem_perm.seq ≠ IPCID_TO_SEQ semid
  then EINVAL else 0

/-- Whether the slot is allocated: `(mode & SEM_ALLOC) != 0`. -/
def sem_alloc (semakptr : SemidKernel) : Bool :=
  semakptr.u.sem_perm.mode &&& SEM_ALLOC != 0

/-! ## `semctl` -/

/-- What `kern_semctl` hands back: the error, `*rval`, the descriptor copied to
`arg->buf`, the values copied out to `arg->array`, and the new state. -/
structure SemctlResult where
  error : Int
  rval : Int
  buf : Option SemidDs
  array : Option (List Nat)
  st : State

/-- `IPC_RMID` past the checks: free the slot, clear its undo entries, close the
gap in the semaphore pool and move the bases of the sets behind it. A read past
the end of the pool yields a zeroed semaphore. -/
def semctl_rmid (td : Thread) (semidx : Nat) (st : State) : State :=
  let semakptr := st.sema.getD semidx default
  let perm := { semakptr.u.sem_perm with
                cuid := td.td_ucred.cr_uid, uid := td.td_ucred.cr_uid, mode := 0 }
  let st1 := { st with
               sema := st.sema.set semidx { u := { semakptr.u with sem_perm := perm }, cred := none } }
  let st2 := semundo_clear semidx (-1) st1
  let base := semakptr.u.sem_base
  let nsems := semakptr.u.sem_nsems
  { st2 with
    sem := (List.range' base (st.semtot - base)).foldl
      (fun pool i => pool.set i (pool.getD (i + nsems) default)) st2.sem
    sema := st2.sema.map (fun k =>
      if sem_alloc k ∧ k.u.sem_base > base
      then { k with u := { k.u with sem_base := k.u.sem_base - nsems } } else k)
    semtot := st.semtot - nsems }

/-- The `SETALL` loop from index `i`: stops with `ERANGE` at the first element above
`semvmx`, having stored the elements before it. -/
def semctl_setall (cfg : Seminfo) (base : Nat) (array : List Nat) :
    Nat → Nat → List Sem → Int × List Sem
  | 0, _, pool => (0, pool)
  | n + 1, i, pool =>
    let usval := array.getD i 0 % 65536
    if (usval : Int) > cfg.semvmx then (ERANGE, pool)
    else
      semctl_setall cfg base array n (i + 1)
        (pool.set (base + i) { pool.getD (base + i) default with semval := usval })

/-- `kern_semctl`. -/
def kern_semctl (K : Kernel) (cfg : Seminfo) (td : Thread) (semid : Int) (semnum : Int)
    (cmd : Cmd) (arg : Semun) (st : State) : SemctlResult :=
  let fail (e : Int) : SemctlResult := ⟨e, 0, none, none, st⟩
  if ¬ K.prison_allow td then fail ENOSYS
  else if cmd = Cmd.SEM_STAT then
    if semid < 0 ∨ semid ≥ cfg.semmni then fail EINVAL
    else
      let semakptr := st.sema.getD semid.toNat default
      if ¬ sem_alloc semakptr then fail EINVAL
      else if K.ipcperm td semakptr.u.sem_perm IPC_R ≠ 0 then
        fail (K.ipcperm td semakptr.u.sem_perm IPC_R)
      else ⟨0, IXSEQ_TO_IPCID semid.toNat semakptr.u.sem_perm, some semakptr.u, none, st⟩
  else
    let semidx := IPCID_TO_IX semid
    if (semidx : Int) ≥ cfg.semmni then fail EINVAL
    else
      let semakptr := st.sema.getD semidx default
      let nsems := semakptr.u.sem_nsems
      let semptr := st.sem.getD (semakptr.u.sem_base + semnum.toNat) default
      let read (access : Nat) (indexed : Bool) (ok : SemctlResult) : SemctlResult :=
        if semvalid semid semakptr ≠ 0 then fail (semvalid semid semakptr)
        else if K.ipcperm td semakptr.u.sem_perm access ≠ 0 then
          fail (K.ipcperm td semakptr.u.sem_perm access)
        else if indexed ∧ (semnum < 0 ∨ semnum ≥ nsems) then fail EINVAL
        else ok
      match cmd with
      | Cmd.IPC_RMID => read IPC_M false ⟨0, 0, none, none, semctl_rmid td semidx st⟩
      | Cmd.IPC_SET =>
        let perm := { semakptr.u.sem_perm with
                      uid := arg.buf.sem_perm.uid
                      gid := arg.buf.sem_perm.gid
                      mode := (semakptr.u.sem_perm.mode &&& (0xffff ^^^ 0o777)) |||
                        (arg.buf.sem_perm.mode &&& 0o777) }
        read IPC_M false ⟨0, 0, none, none,
          { st with
            sema := st.sema.set semidx
              { semakptr with u := { semakptr.u with sem_perm := perm, sem_ctime := K.time_second } } }⟩
      | Cmd.IPC_STAT => read IPC_R false ⟨0, 0, some semakptr.u, none, st⟩
      | Cmd.GETNCNT => read IPC_R true ⟨0, semptr.semncnt, none, none, st⟩
      | Cmd.GETPID => read IPC_R true ⟨0, semptr.sempid, none, none, st⟩
      | Cmd.GETVAL => read IPC_R true ⟨0, semptr.semval, none, none, st⟩
      | Cmd.GETALL =>
        read IPC_R false ⟨0, 0, none,
          some ((List.range nsems).map (fun i => (st.sem.getD (semakptr.u.sem_base + i) default).semval)),
          st⟩
      | Cmd.GETZCNT => read IPC_R true ⟨0, semptr.semzcnt, none, none, st⟩
      | Cmd.SETVAL =>
        read IPC_W true
          (if arg.val < 0 ∨ arg.val > cfg.semvmx then fail ERANGE
           else
             ⟨0, 0, none, none,
               semundo_clear semidx semnum
                 { st with
                   sem := st.sem.set (semakptr.u.sem_base + semnum.toNat)
                     { semptr with semval := (arg.val % 65536).toNat } }⟩)
      | Cmd.SETALL =>
        read IPC_W false
          (let r := semctl_setall cfg semakptr.u.sem_base arg.array nsems 0 st.sem
           ⟨r.1, 0, none, none, semundo_clear semidx (-1) { st with sem := r.2 }⟩)
      | Cmd.SEM_STAT => fail EINVAL
      | Cmd.other => fail EINVAL

/-! ## `semget` -/

/-- What `sys_semget` hands back: the error, `td_retval[0]` and the new state. -/
structure SemgetResult where
  error : Int
  retval : Int
  st : State

/-- Index at which a scan `for (semid = 0; ...; semid++) if (p(sema[semid])) break;`
stops, `none` when it runs to the end. -/
def first_slot (p : SemidKernel → Bool) : List SemidKernel → Option Nat
  | [] => none
  | k :: ks => if p k then some 0 else (first_slot p ks).map (· + 1)

/-- The allocation branch of `sys_semget` past its checks, on the free slot `semid`. -/
def semget_create (K : Kernel) (td : Thread) (key : Int) (nsems : Int) (semflg : Nat)
    (semid : Nat) (st : State) : State :=
  let old := st.sema.getD semid default
  let perm : IpcPerm :=
    { key := key
      cuid := td.td_ucred.cr_uid
      uid := td.td_ucred.cr_uid
      cgid := td.td_ucred.cr_gid
      gid := td.td_ucred.cr_gid
      mode := (semflg &&& 0o777) ||| SEM_ALLOC
      seq := (old.u.sem_perm.seq + 1) &&& 0x7fff }
  let u : SemidDs :=
    { sem_perm := perm
      sem_nsems := nsems.toNat % 65536
      sem_otime := 0
      sem_ctime := K.time_second
      sem_base := st.semtot }
  { st with
    sema := st.sema.set semid { u := u, cred := some td.td_ucred }
    semtot := st.semtot + nsems.toNat
    sem := (List.range' st.semtot nsems.toNat).foldl (fun pool i => pool.set i default) st.sem }

/-- `sys_semget`. -/
def sys_semget (K : Kernel) (cfg : Seminfo) (td : Thread) (key : Int) (nsems : Int)
    (semflg : Nat) (st : State) : SemgetResult :=
  let fail (e : Int) : SemgetResult := ⟨e, 0, st⟩
  let table := st.sema.take cfg.semmni.toNat
  let create : SemgetResult :=
    if key = IPC_PRIVATE ∨ semflg &&& IPC_CREAT ≠ 0 then
      if nsems ≤ 0 ∨ nsems > cfg.semmsl then fail EINVAL
      else if nsems > cfg.semmns - st.semtot then fail ENOSPC
      else
        match first_slot (fun k => ! sem_alloc k) table with
        | none => fail ENOSPC
        | some semid =>
          if K.racct_enable ∧ K.racct_add td nsems ≠ 0 then fail ENOSPC
          else
            let st1 := semget_create K td key nsems semflg semid st
            ⟨0, IXSEQ_TO_IPCID semid (st1.sema.getD semid default).u.sem_perm, st1⟩
    else fail ENOENT
  if ¬ K.prison_allow td then fail ENOSYS
  else if key ≠ IPC_PRIVATE then
    match first_slot (fun k => sem_alloc k && k.u.sem_perm.key == key) table with
    | some semid =>
      let k := st.sema.getD semid default
      if semflg &&& IPC_CREAT ≠ 0 ∧ semflg &&& IPC_EXCL ≠ 0 then fail EEXIST
      else if K.ipcperm td k.u.sem_perm (semflg &&& 0o700) ≠ 0 then
        fail (K.ipcperm td k.u.sem_perm (semflg &&& 0o700))
      else if nsems > 0 ∧ (k.u.sem_nsems : Int) < nsems then fail EINVAL
      else ⟨0, IXSEQ_TO_IPCID semid k.u.sem_perm, st⟩
    | none => create
  else create

/-! ## `semop` -/

instance : Inhabited Sembuf := ⟨⟨0, 0, 0⟩⟩

/-- How a call of `sys_semop` stands when it stops running: it has returned `error`
(0 for success), it sleeps in `msleep` because `sops[i]` cannot proceed, or the
kernel has panicked. -/
inductive SemopResult where
  | ret (error : Int) (st : State)
  | sleep (i : Nat) (st : State)
  | panic
deriving DecidableEq

/-- The assignment `semval += d` on the semaphore at pool offset `idx` (`u_short`). -/
def semval_add (pool : List Sem) (idx : Nat) (d : Int) : List Sem :=
  pool.set idx
    { pool.getD idx default with semval := (((pool.getD idx default).semval + d) % 65536).toNat }

/-- The first loop over `sops`: `EFBIG` (here `none`) at the first index out of the
set, else the access mode `j` needed. -/
def semop_check (nsems : Nat) : List Sembuf → Nat → Option Nat
  | [], j => some j
  | sopptr :: rest, j =>
    if sopptr.sem_num ≥ nsems then none
    else semop_check nsems rest (j ||| (if sopptr.sem_op = 0 then SEM_R else SEM_A))

/-- The flag `do_undos` computed by the first loop over `sops`. -/
def semop_do_undos (sops : List Sembuf) : Bool :=
  sops.any (fun sopptr => sopptr.sem_flg &&& SEM_UNDO != 0 && sopptr.sem_op != 0)

/-- The walk `for (i = 0; i < nsops; i++)` of one attempt, from operation `i` on:
returns the index where it stopped (`nsops` when it got through), `error`,
`do_wakeup` and the pool with the operations before the stop applied. -/
def semop_try (cfg : Seminfo) (base : Nat) :
    List Sembuf → Nat → Bool → List Sem → Nat × Int × Bool × List Sem
  | [], i, do_wakeup, pool => (i, 0, do_wakeup, pool)
  | sopptr :: rest, i, do_wakeup, pool =>
    let semptr := pool.getD (base + sopptr.sem_num) default
    if sopptr.sem_op < 0 then
      if (semptr.semval : Int) + sopptr.sem_op < 0 then (i, 0, do_wakeup, pool)
      else
        let pool1 := semval_add pool (base + sopptr.sem_num) sopptr.sem_op
        let semptr1 := pool1.getD (base + sopptr.sem_num) default
        semop_try cfg base rest (i + 1)
          (do_wakeup || (semptr1.semval == 0 && decide (semptr.semzcnt > 0))) pool1
    else if sopptr.sem_op = 0 then
      if semptr.semval ≠ 0 then (i, 0, do_wakeup, pool)
      else semop_try cfg base rest (i + 1) do_wakeup pool
    else if (semptr.semval : Int) + sopptr.sem_op > cfg.semvmx then (i, ERANGE, do_wakeup, pool)
    else
      semop_try cfg base rest (i + 1) (do_wakeup || decide (semptr.semncnt > 0))
        (semval_add pool (base + sopptr.sem_num) sopptr.sem_op)

/-- The rollback loop `semval -= sops[j].sem_op` over the given operations. -/
def semop_rollback (base : Nat) (sops : List Sembuf) (pool : List Sem) : List Sem :=
  sops.foldl (fun pl sopptr => semval_add pl (base + sopptr.sem_num) (-sopptr.sem_op)) pool

/-- Rollback of the undo adjustments, over the operations `i-1, ..., 0` in that
order; `none` is `panic("semop - can't undo undos")`. -/
def semop_undo_rollback (cfg : Seminfo) (td : Thread) (semid : Nat) (seq : Nat) :
    List Sembuf → Option Nat → State → Option (Option Nat × State)
  | [], suptr, st => some (suptr, st)
  | sopptr :: rest, suptr, st =>
    if sopptr.sem_flg &&& SEM_UNDO = 0 then semop_undo_rollback cfg td semid seq rest suptr st
    else if sopptr.sem_op = 0 then semop_undo_rollback cfg td semid seq rest suptr st
    else
      let r := semundo_adjust cfg td suptr semid seq sopptr.sem_num sopptr.sem_op st
      if r.1 ≠ 0 then none else semop_undo_rollback cfg td semid seq rest r.2.1 r.2.2

/-- Outcome of the `SEM_UNDO` processing: done, failed with `error` after the
adjustments were rolled back, or panicked. -/
inductive UndoResult where
  | ok (st : State)
  | fail (error : Int) (st : State)
  | panic
deriving DecidableEq

/-- The loop "Process any SEM_UNDO requests" over the operations still to do;
`prev` holds the operations already done, the last one first. -/
def semop_undos (cfg : Seminfo) (td : Thread) (semid : Nat) (seq : Nat) :
    List Sembuf → List Sembuf → Option Nat → State → UndoResult
  | _, [], _, st => UndoResult.ok st
  | prev, sopptr :: rest, suptr, st =>
    if sopptr.sem_flg &&& SEM_UNDO = 0 then
      semop_undos cfg td semid seq (sopptr :: prev) rest suptr st
    else if sopptr.sem_op = 0 then
      semop_undos cfg td semid seq (sopptr :: prev) rest suptr st
    else
      let r := semundo_adjust cfg td suptr semid seq sopptr.sem_num (-sopptr.sem_op) st
      if r.1 = 0 then semop_undos cfg td semid seq (sopptr :: prev) rest r.2.1 r.2.2
      else
        match semop_undo_rollback cfg td semid seq prev r.2.1 r.2.2 with
        | none => UndoResult.panic
        | some r1 => UndoResult.fail r.1 r1.2

/-- The final loop: stamp `sempid` on the semaphore of every operation. -/
def semop_stamp (base : Nat) (pid : Int) (sops : List Sembuf) (pool : List Sem) : List Sem :=
  sops.foldl
    (fun pl sopptr =>
      pl.set (base + sopptr.sem_num) { pl.getD (base + sopptr.sem_num) default with sempid := pid })
    pool

/-- From label `done:` to the return, after a walk that got through the vector. -/
def semop_done (K : Kernel) (cfg : Seminfo) (td : Thread) (semid : Nat) (sops : List Sembuf)
    (st : State) : SemopResult :=
  let semakptr := st.sema.getD semid default
  let base := semakptr.u.sem_base
  match (if semop_do_undos sops then
           semop_undos cfg td semid semakptr.u.sem_perm.seq [] sops none st
         else UndoResult.ok st) with
  | UndoResult.panic => SemopResult.panic
  | UndoResult.fail error st1 =>
    SemopResult.ret error { st1 with sem := semop_rollback base sops st1.sem }
  | UndoResult.ok st1 =>
    SemopResult.ret 0
      { st1 with
        sem := semop_stamp base td.p_pid sops st1.sem
        sema := st1.sema.set semid
          { semakptr with u := { semakptr.u with sem_otime := K.time_second } } }

/-- One turn of the loop `for (;;)`: an attempt at the whole vector, up to the
return or to `msleep`. -/
def semop_loop (K : Kernel) (cfg : Seminfo) (td : Thread) (semid : Nat) (sops : List Sembuf)
    (st : State) : SemopResult :=
  let semakptr := st.sema.getD semid default
  let base := semakptr.u.sem_base
  let r := semop_try cfg base sops 0 false st.sem
  if r.1 ≥ sops.length then semop_done K cfg td semid sops { st with sem := r.2.2.2 }
  else
    let pool := semop_rollback base (sops.take r.1) r.2.2.2
    if r.2.1 ≠ 0 then SemopResult.ret r.2.1 { st with sem := pool }
    else
      let sopptr := sops.getD r.1 default
      if sopptr.sem_flg &&& IPC_NOWAIT ≠ 0 then SemopResult.ret EAGAIN { st with sem := pool }
      else
        let semptr := pool.getD (base + sopptr.sem_num) default
        SemopResult.sleep r.1
          { st with
            sem := pool.set (base + sopptr.sem_num)
              (if sopptr.sem_op = 0 then { semptr with semzcnt := (semptr.semzcnt + 1) % 65536 }
               else { semptr with semncnt := (semptr.semncnt + 1) % 65536 }) }

/-- `sys_semop` from the return of `msleep` (with value `error`, the thread having
slept on `sops[i]`) to its next stop; `st` is the state found on waking up. -/
def semop_wakeup (K : Kernel) (cfg : Seminfo) (td : Thread) (uap_semid : Int)
    (sops : List Sembuf) (i : Nat) (error : Int) (st : State) : SemopResult :=
  let semid := IPCID_TO_IX uap_semid
  let semakptr := st.sema.getD semid default
  if ¬ sem_alloc semakptr ∨ semakptr.u.sem_perm.seq ≠ IPCID_TO_SEQ uap_semid then
    SemopResult.ret EIDRM st
  else
    let sopptr := sops.getD i default
    let semptr := st.sem.getD (semakptr.u.sem_base + sopptr.sem_num) default
    let st1 :=
      { st with
        sem := st.sem.set (semakptr.u.sem_base + sopptr.sem_num)
          (if sopptr.sem_op = 0 then { semptr with semzcnt := (semptr.semzcnt + 65535) % 65536 }
           else { semptr with semncnt := (semptr.semncnt + 65535) % 65536 }) }
    if error ≠ 0 then SemopResult.ret EINTR st1
    else semop_loop K cfg td semid sops st1

/-- `sys_semop` from its entry to its first stop; `sops` is the vector as copied in. -/
def sys_semop (K : Kernel) (cfg : Seminfo) (td : Thread) (uap_semid : Int)
    (sops : List Sembuf) (st : State) : SemopResult :=
  let semid := IPCID_TO_IX uap_semid
  let nsops : Int := sops.length
  if ¬ K.prison_allow td then SemopResult.ret ENOSYS st
  else if (semid : Int) ≥ cfg.semmni then SemopResult.ret EINVAL st
  else if nsops > 8 ∧ nsops > cfg.semopm then SemopResult.ret E2BIG st
  else if nsops > 8 ∧ K.racct_enable ∧ nsops > K.racct_get_available td then
    SemopResult.ret E2BIG st
  else
    let semakptr := st.sema.getD semid default
    if ¬ sem_alloc semakptr then SemopResult.ret EINVAL st
    else if semakptr.u.sem_perm.seq ≠ IPCID_TO_SEQ uap_semid then SemopResult.ret EINVAL st
    else
      match semop_check semakptr.u.sem_nsems sops 0 with
      | none => SemopResult.ret EFBIG st
      | some j =>
        if K.ipcperm td semakptr.u.sem_perm j ≠ 0 then
          SemopResult.ret (K.ipcperm td semakptr.u.sem_perm j) st
        else semop_loop K cfg td semid sops st

/-! ## Process exit -/

/-- The loop of `semexit_myhook` over the entries of the exiting process;
`none` is `panic("semexit - semnum out of range")`. -/
def semexit_apply : List Undo → State → Option State
  | [], st => some st
  | e :: es, st =>
    let semakptr := st.sema.getD e.un_id.toNat default
    if ¬ sem_alloc semakptr ∨ semakptr.u.sem_perm.seq ≠ e.un_seq then semexit_apply es st
    else if e.un_num ≥ semakptr.u.sem_nsems then none
    else
      let idx := semakptr.u.sem_base + e.un_num.toNat
      let semptr := st.sem.getD idx default
      semexit_apply es
        { st with
          sem :=
            if e.un_adjval < 0 ∧ (semptr.semval : Int) < -e.un_adjval then
              st.sem.set idx { semptr with semval := 0 }
            else semval_add st.sem idx e.un_adjval }

/-- `semexit_myhook` for the process at address `p`. -/
def semexit_myhook (p : Nat) (st : State) : Option State :=
  match st.semu_list.find? (fun ix => (SEMU st ix).un_proc = some p) with
  | none => some st
  | some suptr =>
    match semexit_apply (SEMU st suptr).un_ent { st with semu_list := st.semu_list.erase suptr } with
    | none => none
    | some st1 =>
      some { st1 with
             semu := st1.semu.set suptr { un_proc := none, un_ent := [] }
             semu_free_list := suptr :: st1.semu_free_list }

/-! ## Initial state and runs -/

/-- `seminit`: the state after module load. Every slot is free with sequence
number 0, the active undo list is empty and `LIST_INSERT_HEAD` has put the
undo structures on the free list, the last one first. -/
def seminit (cfg : Seminfo) : State :=
  { semtot := 0
    sema := List.replicate cfg.semmni.toNat default
    sem := List.replicate cfg.semmns.toNat default
    semu := List.replicate cfg.semmnu.toNat default
    semu_list := []
    semu_free_list := (List.range cfg.semmnu.toNat).reverse }

/-- One uninterrupted stretch of kernel code run on behalf of some thread: a
system call from its entry, the part of `semop` that follows a wakeup, or the
exit hook of a process. -/
inductive Call where
  | semget (td : Thread) (key : Int) (nsems : Int) (semflg : Nat)
  | semctl (td : Thread) (semid : Int) (semnum : Int) (cmd : Cmd) (arg : Semun)
  | semop (td : Thread) (semid : Int) (sops : List Sembuf)
  | wakeup (td : Thread) (semid : Int) (sops : List Sembuf) (i : Nat) (error : Int)
  | exit (p : Nat)

/-- State in which a `semop` stretch leaves the kernel; a panic stops the kernel
in the state `st` it was entered with. -/
def SemopResult.state (st : State) : SemopResult → State
  | SemopResult.ret _ st1 => st1
  | SemopResult.sleep _ st1 => st1
  | SemopResult.panic => st

/-- State after one stretch. -/
def step (K : Kernel) (cfg : Seminfo) (c : Call) (st : State) : State :=
  match c with
  | Call.semget td key nsems semflg => (sys_semget K cfg td key nsems semflg st).st
  | Call.semctl td semid semnum cmd arg => (kern_semctl K cfg td semid semnum cmd arg st).st
  | Call.semop td semid sops => (sys_semop K cfg td semid sops st).state st
  | Call.wakeup td semid sops i error => (semop_wakeup K cfg td semid sops i error st).state st
  | Call.exit p => (semexit_myhook p st).getD st

/-- State after a sequence of stretches, run one after the other. -/
def run (K : Kernel) (cfg : Seminfo) : List Call → State → State
  | [], st => st
  | c :: cs, st => run K cfg cs (step K cfg c st)

/-- Whether the stretch `c`, run in `st`, is a `semget` that allocates slot `i`:
the slot is free before and allocated after. -/
def creates_slot (K : Kernel) (cfg : Seminfo) (i : Nat) (c : Call) (st : State) : Bool :=
  match c with
  | Call.semget _ _ _ _ =>
    ! sem_alloc (st.sema.getD i default) && sem_alloc ((step K cfg c st).sema.getD i default)
  | _ => false

/-- Number of times slot `i` is allocated by a `semget` in the course of a run. -/
def creations (K : Kernel) (cfg : Seminfo) (i : Nat) : List Call → State → Nat
  | [], _ => 0
  | c :: cs, st =>
    (if creates_slot K cfg i c st then 1 else 0) + creations K cfg i cs (step K cfg c st)

/-- Pool offset of semaphore `semnum` of the set in slot `semid`. -/
def sem_index (st : State) (semid : Nat) (semnum : Nat) : Nat :=
  (st.sema.getD semid default).u.sem_base + semnum

/-- Value `semval` of semaphore `semnum` of the set in slot `semid`. -/
def semval_of (st : State) (semid : Nat) (semnum : Nat) : Nat :=
  (st.sem.getD (sem_index st semid semnum) default).semval

/-! ## Predicates and specification-side functions used by the properties -/

/-- Every `semval` of the pool is a `u_short`. -/
def PoolWf (pool : List Sem) : Prop := ∀ s ∈ pool, s.semval < 65536

/-- The pool after the operations `sops` have been applied in order. -/
def semop_apply (base : Nat) (sops : List Sembuf) (pool : List Sem) : List Sem :=
  sops.foldl (fun pl sopptr => semval_add pl (base + sopptr.sem_num) sopptr.sem_op) pool

/-- State `b` has the semaphore sets of `a`: the same pool, descriptors and `semtot`. -/
def SameSets (a b : State) : Prop := b.sem = a.sem ∧ b.sema = a.sema ∧ b.semtot = a.semtot

instance (pool : List Sem) : Decidable (PoolWf pool) := by
  unfold PoolWf; infer_instance

/-- The call gets past the checks that `sys_semop` makes before its loop: the jail
allows SysV IPC, the vector is not too long, the identifier names an allocated slot
with the stored sequence number, every `sem_num` is inside the set and `ipcperm`
grants the access mode `j` that the first loop over `sops` has put together from
`SEM_R` and `SEM_A`. -/
def SemopAdmitted (K : Kernel) (cfg : Seminfo) (td : Thread) (uap_semid : Int)
    (sops : List Sembuf) (st : State) : Prop :=
  K.prison_allow td = true ∧
  (IPCID_TO_IX uap_semid : Int) < cfg.semmni ∧
  ¬ ((sops.length : Int) > 8 ∧ (sops.length : Int) > cfg.semopm) ∧
  ¬ ((sops.length : Int) > 8 ∧ K.racct_enable = true ∧
      (sops.length : Int) > K.racct_get_available td) ∧
  semvalid uap_semid (st.sema.getD (IPCID_TO_IX uap_semid) default) = 0 ∧
  (∀ o ∈ sops, o.sem_num < (st.sema.getD (IPCID_TO_IX uap_semid) default).u.sem_nsems) ∧
  (∀ j, semop_check (st.sema.getD (IPCID_TO_IX uap_semid) default).u.sem_nsems sops 0 = some j →
    K.ipcperm td (st.sema.getD (IPCID_TO_IX uap_semid) default).u.sem_perm j = 0)

/-- The values of the semaphores of the set in slot `semid`, by semaphore index. -/
def set_values (st : State) (semid : Nat) : Nat → Int :=
  fun semnum => (semval_of st semid semnum : Int)

/-- How the walk of step 3 of the operate algorithm ends. -/
inductive WalkResult where
  | complete (vals : Nat → Int)
  | cannot_proceed (i : Nat)
  | range_error (i : Nat)

/-- The walk over the operation list in the words of the specification (operate,
step 3), on unbounded integers: `delta < 0` cannot proceed when
`value + delta < 0`; `delta == 0` cannot proceed when `value != 0`; `delta > 0` is
a range error when `value + delta > semvmx`; otherwise the delta is applied and the
walk goes on. `vals` maps a semaphore index to its current value and `i` is the
index of the first operation of the list. -/
def walk (semvmx : Int) : List Sembuf → Nat → (Nat → Int) → WalkResult
  | [], _, vals => WalkResult.complete vals
  | o :: os, i, vals =>
    if o.sem_op < 0 then
      if vals o.sem_num + o.sem_op < 0 then WalkResult.cannot_proceed i
      else walk semvmx os (i + 1) (Function.update vals o.sem_num (vals o.sem_num + o.sem_op))
    else if o.sem_op = 0 then
      if vals o.sem_num ≠ 0 then WalkResult.cannot_proceed i
      else walk semvmx os (i + 1) vals
    else if vals o.sem_num + o.sem_op > semvmx then WalkResult.range_error i
    else walk semvmx os (i + 1) (Function.update vals o.sem_num (vals o.sem_num + o.sem_op))

/-- Sum of the deltas of the operations of the batch addressed to semaphore `s`. -/
def delta_sum (sops : List Sembuf) (s : Nat) : Int :=
  ((sops.filter (fun o => o.sem_num = s)).map Sembuf.sem_op).sum

/-- Sequence number stored in slot `i`. -/
def slot_seq (st : State) (i : Nat) : Nat := (st.sema.getD i default).u.sem_perm.seq

/-- Sequence number of a slot that held `s` and has since been allocated `n` times:
each allocation stores `(seq + 1) & 0x7fff`. -/
def seq_after (s n : Nat) : Nat := if n = 0 then s else (s + n) % 32768

/-- The undo adjustment stored for process `p` on semaphore `semnum` of slot
`semid`, read from the undo structure of `p` on the active list; 0 when `p` has
none there or it has no such entry. -/
def undo_adjval (st : State) (p : Nat) (semid : Int) (semnum : Int) : Int :=
  match st.semu_list.find? (fun ix => (SEMU st ix).un_proc = some p) with
  | none => 0
  | some suptr =>
    match undo_find semid semnum (SEMU st suptr).un_ent with
    | none => 0
    | some i => ((SEMU st suptr).un_ent.getD i default).un_adjval

/-! ## Concrete inputs of the examples -/

/-- A kernel whose jail, permission and accounting checks all pass. -/
def exKernel : Kernel :=
  { prison_allow := fun _ => true
    ipcperm := fun _ _ _ => 0
    racct_enable := false
    racct_add := fun _ _ => 0
    racct_get_available := fun _ => 0
    time_second := 1000 }

/-- A kernel whose `ipcperm` looks at the mode of the set: it grants the access
bits asked for when the mode has them all and returns `EACCES` (13) otherwise. -/
def exKernelMode : Kernel :=
  { exKernel with ipcperm := fun _ perm j => if j &&& perm.mode = j then 0 else 13 }

/-- A small configuration: 2 identifiers, 4 semaphores, 2 undo structures and the
default limits otherwise. -/
def exCfg : Seminfo := { seminfo with semmni := 2, semmns := 4, semmnu := 2 }

/-- A thread of the process at address 100 with pid 7. -/
def exThread : Thread := ⟨100, 7, ⟨0, 0⟩⟩

/-- The state reached from `seminit` by a `semget` of a private set of two
semaphores (slot 0, identifier 65536) and a `SETALL` to the values `a`, `b`. -/
def exState (a b : Nat) : State :=
  (kern_semctl exKernel exCfg exThread 65536 0 Cmd.SETALL ⟨0, default, [a, b]⟩
    (sys_semget exKernel exCfg exThread IPC_PRIVATE 2 0o600 (seminit exCfg)).st).st

/-- A configuration with a single identifier and a single semaphore. -/
def oneCfg : Seminfo := { seminfo with semmni := 1, semmns := 1, semmnu := 0 }

/-- The state of `oneCfg` in which slot 0 holds a private set of one semaphore,
created by `exThread` with mode 0600, with sequence number `s`;
`oneState 1` is the state after the first `semget` following `seminit`. -/
def oneState (s : Nat) : State :=
  { semtot := 1
    sema := [{ u := { sem_perm := { cuid := 0, cgid := 0, uid := 0, gid := 0, mode := 0o1600,
                                    seq := s, key := 0 }
                      sem_base := 0, sem_nsems := 1, sem_otime := 0, sem_ctime := 1000 }
               cred := some ⟨0, 0⟩ }]
    sem := [default]
    semu := []
    semu_list := []
    semu_free_list := [] }

/-- The calls of `n` rounds of destroying and re-creating the set of slot 0: each
round is an `IPC_RMID` with the identifier current at that time (sequence number
`s` at the start) followed by a `semget` of a private set. -/
def reuse_calls : Nat → Nat → List Call
  | 0, _ => []
  | n + 1, s =>
    Call.semctl exThread (IXSEQ_TO_IPCID 0 { (default : IpcPerm) with seq := s }) 0 Cmd.IPC_RMID
        ⟨0, default, []⟩ ::
      Call.semget exThread IPC_PRIVATE 1 0o600 :: reuse_calls n ((s + 1) % 32768)

/-- The state `exState a b` after `exThread` has done `semop` with the single
operation `{sem 0, -1, SEM_UNDO}`: its undo structure is on the active list and
holds the one entry (slot 0, semaphore 0, adjustment +1). -/
def exStateUndo (a b : Nat) : State :=
  (sys_semop exKernel exCfg exThread 65536 [⟨0, -1, SEM_UNDO⟩] (exState a b)).state (exState a b)

/-- The state `exState a b` after `exThread` has done `semop` with the batch
`{sem 0, -1, SEM_UNDO}, {sem 1, -1, SEM_UNDO}`: its undo structure (number 1) is
on the active list with the entries (slot 0, semaphore 0, +1) and
(slot 0, semaphore 1, +1), in this order. -/
def exStateUndo2 (a b : Nat) : State :=
  (sys_semop exKernel exCfg exThread 65536 [⟨0, -1, SEM_UNDO⟩, ⟨1, -1, SEM_UNDO⟩]
    (exState a b)).state (exState a b)

/-- Layout of the semaphore pool: `semtot` does not exceed the pool, the run
`[sem_base, sem_base + sem_nsems)` of every allocated set lies below `semtot`, and
the runs of two different allocated sets do not overlap. -/
def LayoutWf (st : State) : Prop :=
  st.semtot ≤ st.sem.length ∧
  (∀ i, sem_alloc (st.sema.getD i default) = true →
    (st.sema.getD i default).u.sem_base + (st.sema.getD i default).u.sem_nsems ≤ st.semtot) ∧
  (∀ i j, i ≠ j → sem_alloc (st.sema.getD i default) = true →
    sem_alloc (st.sema.getD j default) = true →
    (st.sema.getD i default).u.sem_base + (st.sema.getD i default).u.sem_nsems ≤
        (st.sema.getD j default).u.sem_base ∨
      (st.sema.getD j default).u.sem_base + (st.sema.getD j default).u.sem_nsems ≤
        (st.sema.getD i default).u.sem_base)

/-- Semaphore `semnum` of the set in slot `semid`, read through the set's `sem_base`. -/
def set_sem (st : State) (semid : Nat) (semnum : Nat) : Sem :=
  st.sem.getD (sem_index st semid semnum) default

/-- The layout conditions of `LayoutWf` with the slots bounded by the length of
the table, in a form that can be decided on a concrete state. -/
def LayoutWfBounded (st : State) : Prop :=
  st.semtot ≤ st.sem.length ∧
  (∀ i ∈ List.range st.sema.length, sem_alloc (st.sema.getD i default) = true →
    (st.sema.getD i default).u.sem_base + (st.sema.getD i default).u.sem_nsems ≤ st.semtot) ∧
  (∀ i ∈ List.range st.sema.length, ∀ j ∈ List.range st.sema.length, i ≠ j →
    sem_alloc (st.sema.getD i default) = true →
    sem_alloc (st.sema.getD j default) = true →
    (st.sema.getD i default).u.sem_base + (st.sema.getD i default).u.sem_nsems ≤
        (st.sema.getD j default).u.sem_base ∨
      (st.sema.getD j default).u.sem_base + (st.sema.getD j default).u.sem_nsems ≤
        (st.sema.getD i default).u.sem_base)

instance (st : State) : Decidable (LayoutWfBounded st) := by
  unfold LayoutWfBounded; infer_instance

/-- The state reached from `seminit exCfg` by two `semget` calls for private sets of
two semaphores each (slots 0 and 1, identifiers 65536 and 65537) and a `SETALL` of
the second set to the values 3 and 4. -/
def exStateTwo : State :=
  run exKernel exCfg
    [Call.semget exThread IPC_PRIVATE 2 0o600,
     Call.semget exThread IPC_PRIVATE 2 0o600,
     Call.semctl exThread 65537 0 Cmd.SETALL ⟨0, default, [3, 4]⟩] (seminit exCfg)

/-- The call of `sys_semget` takes the creation path: the key is `IPC_PRIVATE`, or
no allocated slot of the table has the key and `IPC_CREAT` is set. -/
def CreationPath (cfg : Seminfo) (key : Int) (semflg : Nat) (st : State) : Prop :=
  key = IPC_PRIVATE ∨
  (first_slot (fun k => sem_alloc k && k.u.sem_perm.key == key)
      (st.sema.take cfg.semmni.toNat) = none ∧ semflg &&& IPC_CREAT ≠ 0)

/-- Descriptor `y` is the same set as `x`: same allocation status, key, sequence
number and semaphore count. -/
def SlotSame (x y : SemidKernel) : Prop :=
  sem_alloc y = sem_alloc x ∧ y.u.sem_perm.key = x.u.sem_perm.key ∧
  y.u.sem_perm.seq = x.u.sem_perm.seq ∧ y.u.sem_nsems = x.u.sem_nsems

/-- Whether the stretch is a `semctl` call with command `IPC_RMID`. -/
def is_rmid : Call → Bool
  | Call.semctl _ _ _ Cmd.IPC_RMID _ => true
  | _ => false

/-- The set table of `b` holds the same sets as the one of `a`: same length and,
slot by slot, the same allocation status, key, sequence number and count. -/
def TableKept (a b : State) : Prop :=
  b.sema.length = a.sema.length ∧ ∀ i, SlotSame (a.sema.getD i default) (b.sema.getD i default)

/-- Slot `f` is where the key lookup of `sys_semget` stops for `key`: the first slot
of the table that is allocated with that key. -/
def KeyFirst (cfg : Seminfo) (key : Int) (f : Nat) (st : State) : Prop :=
  first_slot (fun k => sem_alloc k && k.u.sem_perm.key == key)
    (st.sema.take cfg.semmni.toNat) = some f

/-- The undo structure that `semundo_adjust` works on when it does not allocate
one: the caller's cached pointer `*supptr` when it is not `NULL`, otherwise the
first structure of the active list owned by the process. -/
def undo_located (td : Thread) (supptr : Option Nat) (st : State) : Option Nat :=
  match supptr with
  | some suptr => some suptr
  | none => st.semu_list.find? (fun ix => (SEMU st ix).un_proc = some td.td_proc)

/-- The configuration `exCfg` with room for two undo entries per process. -/
def fullCfg : Seminfo := { exCfg with semume := 2 }

/-- A second thread, of the process at address 200 with pid 8. -/
def exThreadB : Thread := ⟨200, 8, ⟨0, 0⟩⟩

/-- The state reached under `fullCfg` from `seminit` by two `semget` calls for
private sets of two semaphores each (identifiers 65536 and 65537), a `SETALL` of
both sets to the values 3 and 4, and a `semop` of `exThread` on the second set
with the batch `{sem 0, -1, SEM_UNDO}, {sem 1, -1, SEM_UNDO}`: the undo structure
of `exThread` (number 1) holds two entries, which is `semume`. -/
def fullState : State :=
  run exKernel fullCfg
    [Call.semget exThread IPC_PRIVATE 2 0o600,
     Call.semget exThread IPC_PRIVATE 2 0o600,
     Call.semctl exThread 65536 0 Cmd.SETALL ⟨0, default, [3, 4]⟩,
     Call.semctl exThread 65537 0 Cmd.SETALL ⟨0, default, [3, 4]⟩,
     Call.semop exThread 65537 [⟨0, -1, SEM_UNDO⟩, ⟨1, -1, SEM_UNDO⟩]] (seminit fullCfg)

/-- Whether the loop of `semexit_myhook` skips the entry `e`: the slot `un_id` is
not allocated or its sequence number is not `un_seq`. -/
def exit_skips (sema : List SemidKernel) (e : Undo) : Bool :=
  !(sem_alloc (sema.getD e.un_id.toNat default)) ||
    (sema.getD e.un_id.toNat default).u.sem_perm.seq != e.un_seq

/-- The adjustment that the loop of `semexit_myhook` makes for an entry it does
not skip: `semval = 0` when `adjval < 0 && semval < -adjval`, else
`semval += adjval`, on semaphore `un_num` of the set in slot `un_id`. -/
def exit_adjust (sema : List SemidKernel) (pool : List Sem) (e : Undo) : List Sem :=
  let idx := (sema.getD e.un_id.toNat default).u.sem_base + e.un_num.toNat
  if e.un_adjval < 0 ∧ ((pool.getD idx default).semval : Int) < -e.un_adjval then
    pool.set idx { pool.getD idx default with semval := 0 }
  else semval_add pool idx e.un_adjval

/-- No record of the active list other than `r` belongs to process `p`. -/
def SoleOwner (st : State) (p : Nat) (r : Nat) : Prop :=
  ∀ q ∈ st.semu_list, q ≠ r → (SEMU st q).un_proc ≠ some p

instance (st : State) (p r : Nat) : Decidable (SoleOwner st p r) := by
  unfold SoleOwner; infer_instance

/-- Every semaphore of every allocated set has a value of at most `semvmx`. -/
def ValuesInRange (cfg : Seminfo) (st : State) : Prop :=
  ∀ i ∈ List.range st.sema.length, sem_alloc (st.sema.getD i default) = true →
    ∀ j ∈ List.range (st.sema.getD i default).u.sem_nsems,
      ((set_sem st i j).semval : Int) ≤ cfg.semvmx

instance (cfg : Seminfo) (st : State) : Decidable (ValuesInRange cfg st) := by
  unfold ValuesInRange; infer_instance

/-- Every undo structure that holds entries is on the active list and not on the
free list. -/
def InUseActive (st : State) : Prop :=
  ∀ r ∈ List.range st.semu.length, (SEMU st r).un_cnt > 0 →
    r ∈ st.semu_list ∧ r ∉ st.semu_free_list

instance (st : State) : Decidable (InUseActive st) := by
  unfold InUseActive; infer_instance

/-- The calls that take the value of a semaphore above `semvmx`: `exThread` creates
a set of two semaphores and sets the values 1 and 0, takes 1 from semaphore 0
with `SEM_UNDO`; `exThreadB` adds 32767 to semaphore 0; the process of `exThread`
exits. -/
def overflow_calls : List Call :=
  [Call.semget exThread IPC_PRIVATE 2 0o600,
   Call.semctl exThread 65536 0 Cmd.SETALL ⟨0, default, [1, 0]⟩,
   Call.semop exThread 65536 [⟨0, -1, SEM_UNDO⟩],
   Call.semop exThreadB 65536 [⟨0, 32767, 0⟩],
   Call.exit 100]

/-- The calls after which an undo structure with an entry is on the free list:
`exThread` creates a set of two semaphores, sets the values 5 and 7 and does one
`semop` with the batch `-1, +1, -1` on semaphore 0, every operation with
`SEM_UNDO`. -/
def stale_calls : List Call :=
  [Call.semget exThread IPC_PRIVATE 2 0o600,
   Call.semctl exThread 65536 0 Cmd.SETALL ⟨0, default, [5, 7]⟩,
   Call.semop exThread 65536 [⟨0, -1, SEM_UNDO⟩, ⟨0, 1, SEM_UNDO⟩, ⟨0, -1, SEM_UNDO⟩]]

/-- The fields of a descriptor that say which set the slot holds and where its
semaphores lie: allocation status, key, sequence number, `sem_nsems` and
`sem_base`. -/
def slot_layout (k : SemidKernel) : Bool × Int × Nat × Nat × Nat :=
  (sem_alloc k, k.u.sem_perm.key, k.u.sem_perm.seq, k.u.sem_nsems, k.u.sem_base)

/-- State `b` holds the sets of `a` at the same place: `semtot` and, slot by slot,
the fields of `slot_layout` are the same. -/
def TableSame (a b : State) : Prop :=
  b.semtot = a.semtot ∧ b.sema.map slot_layout = a.sema.map slot_layout

/-- No two allocated slots hold the same key other than `IPC_PRIVATE`. -/
def KeysUnique (st : State) : Prop :=
  ∀ i j, sem_alloc (st.sema.getD i default) = true → sem_alloc (st.sema.getD j default) = true →
    (st.sema.getD i default).u.sem_perm.key = (st.sema.getD j default).u.sem_perm.key →
    (st.sema.getD i default).u.sem_perm.key ≠ IPC_PRIVATE → i = j

/-- Number of semaphores that the slot takes from the pool: `sem_nsems` when it is
allocated, 0 otherwise. -/
def slot_count (k : SemidKernel) : Nat := if sem_alloc k then k.u.sem_nsems else 0

/-- Layout of the semaphore pool: `semtot ≤ semmns`; the run
`[sem_base, sem_base + sem_nsems)` of every allocated set lies below `semtot`;
the runs of two different allocated sets do not overlap; every offset below
`semtot` lies in the run of an allocated set; and `semtot` is the sum of the
counts of the allocated sets. -/
def PoolLayout (cfg : Seminfo) (st : State) : Prop :=
  (st.semtot : Int) ≤ cfg.semmns ∧
  (∀ i, sem_alloc (st.sema.getD i default) = true →
    (st.sema.getD i default).u.sem_base + (st.sema.getD i default).u.sem_nsems ≤ st.semtot) ∧
  (∀ i j, i ≠ j → sem_alloc (st.sema.getD i default) = true →
    sem_alloc (st.sema.getD j default) = true →
    (st.sema.getD i default).u.sem_base + (st.sema.getD i default).u.sem_nsems ≤
        (st.sema.getD j default).u.sem_base ∨
      (st.sema.getD j default).u.sem_base + (st.sema.getD j default).u.sem_nsems ≤
        (st.sema.getD i default).u.sem_base) ∧
  (∀ k, k < st.semtot → ∃ i, sem_alloc (st.sema.getD i default) = true ∧
    (st.sema.getD i default).u.sem_base ≤ k ∧
    k < (st.sema.getD i default).u.sem_base + (st.sema.getD i default).u.sem_nsems) ∧
  (st.sema.map slot_count).sum = st.semtot

/-- The pool offsets read by the compaction loop of `IPC_RMID`,
`for (i = sem_base - sem; i < semtot; i++) sem[i] = sem[i + sem_nsems]`, in the
order of the loop; `semtot` is lowered only after the loop. -/
def semctl_rmid_reads (semidx : Nat) (st : State) : List Nat :=
  let semakptr := st.sema.getD semidx default
  (List.range' semakptr.u.sem_base (st.semtot - semakptr.u.sem_base)).map
    (fun i => i + semakptr.u.sem_nsems)

/-- The calls that fill the pool of `exCfg`: two `semget` calls for private sets of
two semaphores each. -/
def full_pool_calls : List Call :=
  [Call.semget exThread IPC_PRIVATE 2 0o600, Call.semget exThread IPC_PRIVATE 2 0o600]

/-- The wait counters `(semncnt, semzcnt)` of the semaphores of the pool. -/
def wait_counts (pool : List Sem) : List (Nat × Nat) :=
  pool.map (fun s => (s.semncnt, s.semzcnt))

/-- The counters after one more waiter on the semaphore at offset `idx`: a waiter
for zero when the operation has `sem_op == 0`, a waiter for an increase otherwise. -/
def wait_incr (l : List (Nat × Nat)) (idx : Nat) (op : Int) : List (Nat × Nat) :=
  l.set idx (if op = 0 then ((l.getD idx (0, 0)).1, (l.getD idx (0, 0)).2 + 1)
             else ((l.getD idx (0, 0)).1 + 1, (l.getD idx (0, 0)).2))

/-- The counters after one waiter less on the semaphore at offset `idx`. -/
def wait_decr (l : List (Nat × Nat)) (idx : Nat) (op : Int) : List (Nat × Nat) :=
  l.set idx (if op = 0 then ((l.getD idx (0, 0)).1, (l.getD idx (0, 0)).2 - 1)
             else ((l.getD idx (0, 0)).1 - 1, (l.getD idx (0, 0)).2))

/-- The pair (slot index, semaphore number) that an undo entry is for. -/
def undo_key (e : Undo) : Int × Int := (e.un_id, e.un_num)

/-- Invariants of the live entries of one undo structure: the entries are for
pairwise distinct (slot, semaphore) pairs, every stored adjustment is non-zero
and of magnitude at most `semaem`, and there are at most `semume` entries. -/
def RecInv (cfg : Seminfo) (ents : List Undo) : Prop :=
  (∀ a b, a < ents.length → b < ents.length →
    undo_key (ents.getD a default) = undo_key (ents.getD b default) → a = b) ∧
  (∀ a, a < ents.length →
    (ents.getD a default).un_adjval ≠ 0 ∧ -cfg.semaem ≤ (ents.getD a default).un_adjval ∧
      (ents.getD a default).un_adjval ≤ cfg.semaem) ∧
  (ents.length : Int) ≤ cfg.semume

/-- Every undo structure satisfies `RecInv`. -/
def RegInv (cfg : Seminfo) (st : State) : Prop := ∀ r, RecInv cfg (SEMU st r).un_ent

/-- Every allocated set has at most 32767 semaphores, so that a semaphore number
of the set fits the `short` field `un_num`. -/
def NsemsShort (st : State) : Prop :=
  ∀ i, sem_alloc (st.sema.getD i default) = true → (st.sema.getD i default).u.sem_nsems ≤ 32767

/-- The vector of a wakeup stretch names semaphore numbers below 32768; the
vector of a `semop` that went to sleep has passed the `EFBIG` check at entry. -/
def WakeupShort : Call → Prop
  | Call.wakeup _ _ sops _ _ => ∀ o ∈ sops, o.sem_num < 32768
  | _ => True

/-- The second half of `semundo_adjust` on the entries of the undo structure
alone: the error and the entries afterwards. -/
def adjust_ents (cfg : Seminfo) (semid : Int) (semseq : Nat) (semnum adjval : Int)
    (ents : List Undo) : Int × List Undo :=
  match undo_find semid semnum ents with
  | some i =>
    let sunptr := ents.getD i default
    let adjval1 := if adjval ≠ 0 then adjval + sunptr.un_adjval else adjval
    if adjval ≠ 0 ∧ (adjval1 > cfg.semaem ∨ adjval1 < -cfg.semaem) then (ERANGE, ents)
    else if toShort adjval1 = 0 then (0, undo_delete ents i)
    else (0, ents.set i { sunptr with un_adjval := toShort adjval1 })
  | none =>
    if adjval = 0 then (0, ents)
    else if adjval > cfg.semaem ∨ adjval < -cfg.semaem then (ERANGE, ents)
    else if (ents.length : Int) ≠ cfg.semume then
      (0, ents ++ [{ un_adjval := toShort adjval, un_id := semid, un_num := toShort semnum,
                     un_seq := semseq % 65536 }])
    else (EINVAL, ents)

/-- The undo structures are well linked and owned by one process each: no
structure is twice on the active list or twice on the free list, none is on both
lists, and no two structures of the active list have the same process as their
`un_proc`. -/
def OwnerInv (st : State) : Prop :=
  st.semu_list.Nodup ∧ st.semu_free_list.Nodup ∧
  (∀ r ∈ st.semu_list, r ∉ st.semu_free_list) ∧
  ∀ p, ∀ a ∈ st.semu_list, ∀ b ∈ st.semu_list,
    (SEMU st a).un_proc = some p → (SEMU st b).un_proc = some p → a = b

/-! ## Locking -/

/-- The mutexes of the module: `sem_mtx`, the slot mutexes `sema_mtx[i]` and
`sem_undo_mtx`. -/
inductive Mtx where
  | sem_mtx
  | sema_mtx (i : Nat)
  | sem_undo_mtx
deriving DecidableEq

/-- An operation on a mutex. -/
inductive LockOp where
  | mtx_lock (m : Mtx)
  | mtx_unlock (m : Mtx)
deriving DecidableEq

/-- The operations on mutexes that `kern_semctl` performs, in order. The slots
locked for the compaction of `IPC_RMID` are the allocated slots whose base lies
above the base of the set removed. -/
def kern_semctl_locks (K : Kernel) (cfg : Seminfo) (td : Thread) (semid : Int) (semnum : Int)
    (cmd : Cmd) (arg : Semun) (st : State) : List LockOp :=
  if ¬ K.prison_allow td then []
  else if cmd = Cmd.SEM_STAT then
    if semid < 0 ∨ semid ≥ cfg.semmni then []
    else [LockOp.mtx_lock (Mtx.sema_mtx semid.toNat), LockOp.mtx_unlock (Mtx.sema_mtx semid.toNat)]
  else
    let semidx := IPCID_TO_IX semid
    if (semidx : Int) ≥ cfg.semmni then []
    else
      let semakptr := st.sema.getD semidx default
      let nsems := semakptr.u.sem_nsems
      let sema_mtxp := Mtx.sema_mtx semidx
      let read (access : Nat) (indexed : Bool) (ok : List LockOp) : List LockOp :=
        if semvalid semid semakptr ≠ 0 then []
        else if K.ipcperm td semakptr.u.sem_perm access ≠ 0 then []
        else if indexed ∧ (semnum < 0 ∨ semnum ≥ nsems) then []
        else ok
      let behind := (List.range cfg.semmni.toNat).filter (fun i =>
        sem_alloc (st.sema.getD i default) &&
          decide ((st.sema.getD i default).u.sem_base > semakptr.u.sem_base))
      let body : List LockOp :=
        match cmd with
        | Cmd.IPC_RMID =>
          read IPC_M false
            ([LockOp.mtx_lock Mtx.sem_undo_mtx, LockOp.mtx_unlock Mtx.sem_undo_mtx] ++
              behind.map (fun i => LockOp.mtx_lock (Mtx.sema_mtx i)) ++
              behind.map (fun i => LockOp.mtx_unlock (Mtx.sema_mtx i)))
        | Cmd.GETALL =>
          [LockOp.mtx_unlock sema_mtxp, LockOp.mtx_lock sema_mtxp] ++
            read IPC_R false [LockOp.mtx_unlock sema_mtxp, LockOp.mtx_lock sema_mtxp]
        | Cmd.SETVAL =>
          read IPC_W true
            (if arg.val < 0 ∨ arg.val > cfg.semvmx then []
             else [LockOp.mtx_lock Mtx.sem_undo_mtx, LockOp.mtx_unlock Mtx.sem_undo_mtx])
        | Cmd.SETALL =>
          [LockOp.mtx_unlock sema_mtxp, LockOp.mtx_lock sema_mtxp] ++
            read IPC_W false [LockOp.mtx_lock Mtx.sem_undo_mtx, LockOp.mtx_unlock Mtx.sem_undo_mtx]
        | _ => []
      (if cmd = Cmd.IPC_RMID then [LockOp.mtx_lock Mtx.sem_mtx] else []) ++
        [LockOp.mtx_lock sema_mtxp] ++ body ++ [LockOp.mtx_unlock sema_mtxp] ++
        (if cmd = Cmd.IPC_RMID then [LockOp.mtx_unlock Mtx.sem_mtx] else [])

/-- The operations on mutexes that `sys_semget` performs, in order. -/
def sys_semget_locks (K : Kernel) (cfg : Seminfo) (td : Thread) (key : Int) (nsems : Int)
    (semflg : Nat) (st : State) : List LockOp :=
  let table := st.sema.take cfg.semmni.toNat
  let create : List LockOp :=
    if key = IPC_PRIVATE ∨ semflg &&& IPC_CREAT ≠ 0 then
      if nsems ≤ 0 ∨ nsems > cfg.semmsl then []
      else if nsems > cfg.semmns - st.semtot then []
      else
        match first_slot (fun k => ! sem_alloc k) table with
        | none => []
        | some semid =>
          if K.racct_enable ∧ K.racct_add td nsems ≠ 0 then []
          else [LockOp.mtx_lock (Mtx.sema_mtx semid), LockOp.mtx_unlock (Mtx.sema_mtx semid)]
    else []
  if ¬ K.prison_allow td then []
  else
    [LockOp.mtx_lock Mtx.sem_mtx] ++
      (if key ≠ IPC_PRIVATE then
        match first_slot (fun k => sem_alloc k && k.u.sem_perm.key == key) table with
        | some _ => []
        | none => create
      else create) ++
      [LockOp.mtx_unlock Mtx.sem_mtx]

/-- The operations on mutexes from label `done:` of `sys_semop` to the return; a
panic stops the trace. -/
def semop_done_locks (cfg : Seminfo) (td : Thread) (semid : Nat) (sops : List Sembuf)
    (st : State) : List LockOp :=
  let semakptr := st.sema.getD semid default
  if semop_do_undos sops then
    LockOp.mtx_lock Mtx.sem_undo_mtx ::
      (match semop_undos cfg td semid semakptr.u.sem_perm.seq [] sops none st with
       | UndoResult.panic => []
       | UndoResult.fail _ _ =>
         [LockOp.mtx_unlock Mtx.sem_undo_mtx, LockOp.mtx_unlock (Mtx.sema_mtx semid)]
       | UndoResult.ok _ =>
         [LockOp.mtx_unlock Mtx.sem_undo_mtx, LockOp.mtx_unlock (Mtx.sema_mtx semid)])
  else [LockOp.mtx_unlock (Mtx.sema_mtx semid)]

/-- The operations on mutexes of one turn of the loop `for (;;)` of `sys_semop`:
the slot mutex is released at `done2:` or by `msleep`. -/
def semop_loop_locks (cfg : Seminfo) (td : Thread) (semid : Nat) (sops : List Sembuf)
    (st : State) : List LockOp :=
  let semakptr := st.sema.getD semid default
  let base := semakptr.u.sem_base
  let r := semop_try cfg base sops 0 false st.sem
  if r.1 ≥ sops.length then semop_done_locks cfg td semid sops { st with sem := r.2.2.2 }
  else [LockOp.mtx_unlock (Mtx.sema_mtx semid)]

/-- The operations on mutexes that `sys_semop` performs from its entry to its
first stop. -/
def sys_semop_locks (K : Kernel) (cfg : Seminfo) (td : Thread) (uap_semid : Int)
    (sops : List Sembuf) (st : State) : List LockOp :=
  let semid := IPCID_TO_IX uap_semid
  let nsops : Int := sops.length
  if ¬ K.prison_allow td then []
  else if (semid : Int) ≥ cfg.semmni then []
  else if nsops > 8 ∧ nsops > cfg.semopm then []
  else if nsops > 8 ∧ K.racct_enable ∧ nsops > K.racct_get_available td then []
  else
    let semakptr := st.sema.getD semid default
    LockOp.mtx_lock (Mtx.sema_mtx semid) ::
      (if ¬ sem_alloc semakptr then [LockOp.mtx_unlock (Mtx.sema_mtx semid)]
       else if semakptr.u.sem_perm.seq ≠ IPCID_TO_SEQ uap_semid then
         [LockOp.mtx_unlock (Mtx.sema_mtx semid)]
       else
         match semop_check semakptr.u.sem_nsems sops 0 with
         | none => [LockOp.mtx_unlock (Mtx.sema_mtx semid)]
         | some j =>
           if K.ipcperm td semakptr.u.sem_perm j ≠ 0 then [LockOp.mtx_unlock (Mtx.sema_mtx semid)]
           else semop_loop_locks cfg td semid sops st)

/-- The operations on mutexes that `sys_semop` performs from the return of
`msleep`, which takes the slot mutex again, to its next stop. -/
def semop_wakeup_locks (cfg : Seminfo) (td : Thread) (uap_semid : Int)
    (sops : List Sembuf) (i : Nat) (error : Int) (st : State) : List LockOp :=
  let semid := IPCID_TO_IX uap_semid
  let semakptr := st.sema.getD semid default
  LockOp.mtx_lock (Mtx.sema_mtx semid) ::
    (if ¬ sem_alloc semakptr ∨ semakptr.u.sem_perm.seq ≠ IPCID_TO_SEQ uap_semid then
       [LockOp.mtx_unlock (Mtx.sema_mtx semid)]
     else
       let sopptr := sops.getD i default
       let semptr := st.sem.getD (semakptr.u.sem_base + sopptr.sem_num) default
       let st1 :=
         { st with
           sem := st.sem.set (semakptr.u.sem_base + sopptr.sem_num)
             (if sopptr.sem_op = 0 then { semptr with semzcnt := (semptr.semzcnt + 65535) % 65536 }
              else { semptr with semncnt := (semptr.semncnt + 65535) % 65536 }) }
       if error ≠ 0 then [LockOp.mtx_unlock (Mtx.sema_mtx semid)]
       else semop_loop_locks cfg td semid sops st1)

/-- The operations on mutexes of the loop of `semexit_myhook` over the entries,
and whether the loop ran to its end (it stops at the panic). -/
def semexit_apply_locks : List Undo → State → List LockOp × Bool
  | [], _ => ([], true)
  | e :: es, st =>
    let semakptr := st.sema.getD e.un_id.toNat default
    if ¬ sem_alloc semakptr ∨ semakptr.u.sem_perm.seq ≠ e.un_seq then
      let r := semexit_apply_locks es st
      (LockOp.mtx_lock (Mtx.sema_mtx e.un_id.toNat) ::
        LockOp.mtx_unlock (Mtx.sema_mtx e.un_id.toNat) :: r.1, r.2)
    else if e.un_num ≥ semakptr.u.sem_nsems then
      ([LockOp.mtx_lock (Mtx.sema_mtx e.un_id.toNat)], false)
    else
      let idx := semakptr.u.sem_base + e.un_num.toNat
      let semptr := st.sem.getD idx default
      let r := semexit_apply_locks es
        { st with
          sem :=
            if e.un_adjval < 0 ∧ (semptr.semval : Int) < -e.un_adjval then
              st.sem.set idx { semptr with semval := 0 }
            else semval_add st.sem idx e.un_adjval }
      (LockOp.mtx_lock (Mtx.sema_mtx e.un_id.toNat) ::
        LockOp.mtx_unlock (Mtx.sema_mtx e.un_id.toNat) :: r.1, r.2)

/-- The operations on mutexes that `semexit_myhook` performs, in order. -/
def semexit_myhook_locks (p : Nat) (st : State) : List LockOp :=
  match st.semu_list.find? (fun ix => (SEMU st ix).un_proc = some p) with
  | none => [LockOp.mtx_lock Mtx.sem_undo_mtx, LockOp.mtx_unlock Mtx.sem_undo_mtx]
  | some suptr =>
    if (SEMU st suptr).un_cnt > 0 then
      let r := semexit_apply_locks (SEMU st suptr).un_ent
        { st with semu_list := st.semu_list.erase suptr }
      [LockOp.mtx_lock Mtx.sem_undo_mtx, LockOp.mtx_unlock Mtx.sem_undo_mtx] ++ r.1 ++
        (if r.2 then [LockOp.mtx_lock Mtx.sem_undo_mtx, LockOp.mtx_unlock Mtx.sem_undo_mtx]
         else [])
    else [LockOp.mtx_lock Mtx.sem_undo_mtx, LockOp.mtx_unlock Mtx.sem_undo_mtx]

/-- The operations on mutexes of one stretch. -/
def step_locks (K : Kernel) (cfg : Seminfo) (c : Call) (st : State) : List LockOp :=
  match c with
  | Call.semget td key nsems semflg => sys_semget_locks K cfg td key nsems semflg st
  | Call.semctl td semid semnum cmd arg => kern_semctl_locks K cfg td semid semnum cmd arg st
  | Call.semop td semid sops => sys_semop_locks K cfg td semid sops st
  | Call.wakeup td semid sops i error => semop_wakeup_locks cfg td semid sops i error st
  | Call.exit p => semexit_myhook_locks p st

/-- The acquisitions of a sequence of operations on mutexes, run by a thread that
holds the mutexes `held`: each mutex locked, with the mutexes held at that
moment (the last one taken first). -/
def acquisitions : List Mtx → List LockOp → List (Mtx × List Mtx)
  | _, [] => []
  | held, LockOp.mtx_lock m :: es => (m, held) :: acquisitions (m :: held) es
  | held, LockOp.mtx_unlock m :: es => acquisitions (held.erase m) es

/-- The mutexes held after a sequence of operations on mutexes. -/
def held_after : List Mtx → List LockOp → List Mtx
  | held, [] => held
  | held, LockOp.mtx_lock m :: es => held_after (m :: held) es
  | held, LockOp.mtx_unlock m :: es => held_after (held.erase m) es

/-- The releases of a sequence of operations on mutexes, run by a thread that
holds the mutexes `held`: each mutex unlocked, with the mutexes held just before
(the one unlocked among them). -/
def releases : List Mtx → List LockOp → List (Mtx × List Mtx)
  | _, [] => []
  | held, LockOp.mtx_lock m :: es => releases (m :: held) es
  | held, LockOp.mtx_unlock m :: es => (m, held) :: releases (held.erase m) es

/-- Whether the mutex is a slot mutex `sema_mtx[i]`. -/
def is_slot : Mtx → Bool
  | Mtx.sema_mtx _ => true
  | _ => false

/-- Whether an acquisition leaves the thread with a slot mutex and
`sem_undo_mtx` held together. -/
def holds_both (a : Mtx × List Mtx) : Bool :=
  (a.1 == Mtx.sem_undo_mtx && a.2.any is_slot) ||
  (is_slot a.1 && a.2.contains Mtx.sem_undo_mtx)

/-- The adjustment stored for (`semid`, `semnum`) in the entries of an undo
structure: the `un_adjval` of the entry that the scan of `semundo_adjust` finds. -/
def undo_lookup (semid semnum : Int) (ents : List Undo) : Option Int :=
  (undo_find semid semnum ents).map (fun i => (ents.getD i default).un_adjval)

/-- Two entry arrays store the same adjustments: they have the same number of
entries and the same adjustment for every (`semid`, `semnum`). -/
def EntsEq (a b : List Undo) : Prop :=
  a.length = b.length ∧ ∀ semid semnum, undo_lookup semid semnum a = undo_lookup semid semnum b

/-- The rollback loop of `sys_semop` on the entries of the undo structure it
works on: whether every `semundo_adjust` returns 0. The flag `live` tells whether
the stores reach the structure. -/
def rollback_ents (cfg : Seminfo) (semid : Int) (seq : Nat) (live : Bool) :
    List Sembuf → List Undo → Bool
  | [], _ => true
  | sopptr :: rest, ents =>
    if sopptr.sem_flg &&& SEM_UNDO = 0 then rollback_ents cfg semid seq live rest ents
    else if sopptr.sem_op = 0 then rollback_ents cfg semid seq live rest ents
    else
      let r := adjust_ents cfg semid seq sopptr.sem_num sopptr.sem_op ents
      if r.1 ≠ 0 then false
      else rollback_ents cfg semid seq live rest (if live then r.2 else ents)

/-- The configuration `exCfg` with the limit `kern.ipc.semaem` set to 40000. -/
def wideCfg : Seminfo := { exCfg with semaem := 40000 }

/-- The calls before the `semop` that panics under `wideCfg`: `exThread` creates a
set of two semaphores and sets the values 20000 and 5. -/
def wide_calls : List Call :=
  [Call.semget exThread IPC_PRIVATE 2 0o600,
   Call.semctl exThread 65536 0 Cmd.SETALL ⟨0, default, [20000, 5]⟩]

/-- The batch that panics under `wideCfg`: on semaphore 0, take 20000 with
`SEM_UNDO`, give 20000 back without it, take 20000 with `SEM_UNDO` again, and
give 20000 with `SEM_UNDO`. -/
def wide_sops : List Sembuf :=
  [⟨0, -20000, SEM_UNDO⟩, ⟨0, 20000, 0⟩, ⟨0, -20000, SEM_UNDO⟩, ⟨0, 20000, SEM_UNDO⟩]

/-- Whether the stretch `c`, run in `st`, ends in
`panic("semop - can't undo undos")`. -/
def step_panics (K : Kernel) (cfg : Seminfo) (c : Call) (st : State) : Bool :=
  match c with
  | Call.semop td semid sops => decide (sys_semop K cfg td semid sops st = SemopResult.panic)
  | Call.wakeup td semid sops i error =>
    decide (semop_wakeup K cfg td semid sops i error st = SemopResult.panic)
  | _ => false

/-- The calls before a `semop` whose undo adjustment fails: `exThread` creates a
set of two semaphores, sets the values 5 and 20000 and takes 1 from semaphore 0
with `SEM_UNDO`. -/
def rollback_calls : List Call :=
  [Call.semget exThread IPC_PRIVATE 2 0o600,
   Call.semctl exThread 65536 0 Cmd.SETALL ⟨0, default, [5, 20000]⟩,
   Call.semop exThread 65536 [⟨0, -1, SEM_UNDO⟩]]

/-- The configuration `exCfg` with a single undo structure. -/
def scarceCfg : Seminfo := { exCfg with semmnu := 1 }

/-- The state reached under `scarceCfg` from `seminit` when `exThread` has created
a set of two semaphores, set the values 20000 and 5 and taken 1 from semaphore 1
with `SEM_UNDO`: the only undo structure belongs to the process of `exThread`
and the free list is empty. -/
def scarceState : State :=
  run exKernel scarceCfg
    [Call.semget exThread IPC_PRIVATE 2 0o600,
     Call.semctl exThread 65536 0 Cmd.SETALL ⟨0, default, [20000, 5]⟩,
     Call.semop exThread 65536 [⟨1, -1, SEM_UNDO⟩]] (seminit scarceCfg)

/-! # Properties -/

/-! ## Arithmetic of the identifier encoding -/

theorem and_ffff (x : Nat) : x &&& 0xffff = x % 65536 := by
  have h := Nat.and_pow_two_sub_one_eq_mod x 16
  simpa using h

theorem and_7fff (x : Nat) : x &&& 0x7fff = x % 32768 := by
  have h := Nat.and_pow_two_sub_one_eq_mod x 15
  simpa using h

theorem shl_16 (x : Nat) : x <<< 16 = 65536 * x := by
  rw [Nat.shiftLeft_eq]; omega

theorem shr_16 (x : Nat) : x >>> 16 = x / 65536 := by
  rw [Nat.shiftRight_eq_div_pow]

theorem ipcid_bits (ix seq : Nat) :
    (seq <<< 16) ||| (ix &&& 0xffff) = 65536 * seq + ix % 65536 := by
  rw [and_ffff, shl_16]
  have h : ix % 65536 < 2 ^ 16 := by
    have := Nat.mod_lt ix (show 0 < 65536 by decide)
    simpa using this
  have h2 := Nat.mul_add_lt_is_or h seq
  simpa using h2.symm

theorem toU32_toI32 (n : Nat) : toU32 (toI32 n) = n % 4294967296 := by
  unfold toU32 toI32
  split <;> omega

theorem ipcid_to_seq_ixseq (ix : Nat) (perm : IpcPerm) :
    IPCID_TO_SEQ (IXSEQ_TO_IPCID ix perm) = perm.seq % 65536 := by
  unfold IPCID_TO_SEQ IXSEQ_TO_IPCID
  rw [toU32_toI32, ipcid_bits, and_ffff, shr_16]
  omega

theorem ipcid_to_ix_ixseq (ix : Nat) (perm : IpcPerm) :
    IPCID_TO_IX (IXSEQ_TO_IPCID ix perm) = ix % 65536 := by
  unfold IPCID_TO_IX IXSEQ_TO_IPCID
  rw [toU32_toI32, ipcid_bits, and_ffff]
  omega

theorem ipcid_to_ix_lt (id : Int) : IPCID_TO_IX id < 65536 := by
  unfold IPCID_TO_IX
  rw [and_ffff]; omega

theorem ipcid_to_seq_lt (id : Int) : IPCID_TO_SEQ id < 65536 := by
  unfold IPCID_TO_SEQ
  rw [and_ffff]; omega

/-- C7. The identifier encoding is invertible: for a slot index `ix < semmni`
with `semmni ≤ 65536` and a sequence number below `0x8000`, decoding
`IXSEQ_TO_IPCID` gives back the index and the sequence number, and the
identifier is a non-negative 32-bit integer. -/
theorem ipcid_roundtrip (cfg : Seminfo) (ix : Nat) (perm : IpcPerm)
    (hmni : cfg.semmni ≤ 65536) (hix : (ix : Int) < cfg.semmni) (hseq : perm.seq < 0x8000) :
    IPCID_TO_IX (IXSEQ_TO_IPCID ix perm) = ix ∧
    IPCID_TO_SEQ (IXSEQ_TO_IPCID ix perm) = perm.seq ∧
    0 ≤ IXSEQ_TO_IPCID ix perm ∧ IXSEQ_TO_IPCID ix perm < 2147483648 := by
  refine ⟨?_, ?_, ?_, ?_⟩
  · rw [ipcid_to_ix_ixseq]; omega
  · rw [ipcid_to_seq_ixseq]; omega
  · unfold IXSEQ_TO_IPCID toI32
    rw [ipcid_bits]
    split <;> omega
  · unfold IXSEQ_TO_IPCID toI32
    rw [ipcid_bits]
    split <;> omega

theorem ipcid_roundtrip_witness :
    IPCID_TO_IX (IXSEQ_TO_IPCID 49 { (default : IpcPerm) with seq := 0x7fff }) = 49 ∧
    IPCID_TO_SEQ (IXSEQ_TO_IPCID 49 { (default : IpcPerm) with seq := 0x7fff }) = 0x7fff ∧
    0 ≤ IXSEQ_TO_IPCID 49 { (default : IpcPerm) with seq := 0x7fff } ∧
    IXSEQ_TO_IPCID 49 { (default : IpcPerm) with seq := 0x7fff } < 2147483648 :=
  ipcid_roundtrip seminfo 49 { (default : IpcPerm) with seq := 0x7fff }
    (by decide) (by decide) (by decide)

/-! ## The value pass and its rollback -/


theorem semval_add_getElem? (pool : List Sem) (idx : Nat) (d : Int) (j : Nat) :
    (semval_add pool idx d)[j]? =
      (pool[j]?).map (fun s =>
        if idx = j then { s with semval := ((s.semval + d) % 65536).toNat } else s) := by
  unfold semval_add
  rw [List.getElem?_set]
  by_cases h : idx = j
  · subst h
    by_cases h2 : idx < pool.length
    · simp [h2, List.getD_eq_getElem?_getD, List.getElem?_eq_getElem h2]
    · simp [h2, List.getElem?_eq_none (Nat.le_of_not_lt h2)]
  · simp [h]

theorem semval_add_length (pool : List Sem) (idx : Nat) (d : Int) :
    (semval_add pool idx d).length = pool.length := by
  simp [semval_add]

theorem semval_add_comm (pool : List Sem) (i j : Nat) (a b : Int) :
    semval_add (semval_add pool i a) j b = semval_add (semval_add pool j b) i a := by
  apply List.ext_getElem?
  intro n
  simp only [semval_add_getElem?, Option.map_map]
  congr 1
  funext s
  by_cases h1 : i = n <;> by_cases h2 : j = n <;> simp [h1, h2]
  omega

theorem semval_add_cancel (pool : List Sem) (hwf : PoolWf pool) (i : Nat) (a : Int) :
    semval_add (semval_add pool i a) i (-a) = pool := by
  apply List.ext_getElem?
  intro n
  simp only [semval_add_getElem?, Option.map_map]
  cases hn : pool[n]? with
  | none => simp
  | some s =>
    have hs : s.semval < 65536 := hwf s (List.getElem?_mem hn)
    by_cases h1 : i = n
    · simp only [Option.map_some', Function.comp_apply, h1, if_true]
      congr 1
      cases s with
      | mk v p nc zc =>
        simp only [Sem.mk.injEq, and_true]
        simp only at hs
        omega
    · simp [h1]

theorem semval_add_wf (pool : List Sem) (hwf : PoolWf pool) (i : Nat) (a : Int) :
    PoolWf (semval_add pool i a) := by
  intro s hs
  unfold semval_add at hs
  rcases List.mem_or_eq_of_mem_set hs with h | h
  · exact hwf s h
  · subst h
    simp only
    omega


theorem semop_apply_add (base : Nat) (sops : List Sembuf) (pool : List Sem) (i : Nat) (a : Int) :
    semop_apply base sops (semval_add pool i a) = semval_add (semop_apply base sops pool) i a := by
  induction sops generalizing pool with
  | nil => rfl
  | cons o os ih =>
    simp only [semop_apply, List.foldl_cons]
    have := ih (semval_add pool (base + o.sem_num) o.sem_op)
    simp only [semop_apply] at this
    rw [← this, semval_add_comm]

theorem semop_apply_wf (base : Nat) (sops : List Sembuf) (pool : List Sem) (hwf : PoolWf pool) :
    PoolWf (semop_apply base sops pool) := by
  induction sops generalizing pool with
  | nil => exact hwf
  | cons o os ih => exact ih _ (semval_add_wf pool hwf _ _)

theorem semop_rollback_apply (base : Nat) (sops : List Sembuf) (pool : List Sem)
    (hwf : PoolWf pool) : semop_rollback base sops (semop_apply base sops pool) = pool := by
  induction sops generalizing pool with
  | nil => rfl
  | cons o os ih =>
    have h1 : semop_apply base (o :: os) pool =
        semval_add (semop_apply base os pool) (base + o.sem_num) o.sem_op := by
      rw [← semop_apply_add]; rfl
    rw [h1]
    simp only [semop_rollback, List.foldl_cons]
    have hc := semval_add_cancel (semop_apply base os pool) ?_ (base + o.sem_num) o.sem_op
    · rw [hc]; exact ih pool hwf
    · exact semop_apply_wf base os pool hwf

theorem semval_add_zero (pool : List Sem) (hwf : PoolWf pool) (i : Nat) :
    semval_add pool i 0 = pool := by
  apply List.ext_getElem?
  intro n
  rw [semval_add_getElem?]
  cases hn : pool[n]? with
  | none => simp
  | some s =>
    have hs : s.semval < 65536 := hwf s (List.getElem?_mem hn)
    by_cases h1 : i = n
    · simp only [Option.map_some', h1, if_true]
      congr 1
      cases s with
      | mk v p nc zc =>
        simp only [Sem.mk.injEq, and_true]
        simp only at hs
        omega
    · simp [h1]

theorem semop_try_apply (cfg : Seminfo) (base : Nat) (sops : List Sembuf) (i : Nat) (w : Bool)
    (pool : List Sem) (hwf : PoolWf pool) :
    ∃ k, k ≤ sops.length ∧ (semop_try cfg base sops i w pool).1 = i + k ∧
      (semop_try cfg base sops i w pool).2.2.2 = semop_apply base (sops.take k) pool := by
  induction sops generalizing i w pool with
  | nil => exact ⟨0, by simp [semop_try, semop_apply]⟩
  | cons o os ih =>
    unfold semop_try
    simp only
    split
    · split
      · exact ⟨0, by simp [semop_apply]⟩
      · obtain ⟨k, hk, h1, h2⟩ := ih (i + 1) _ (semval_add pool (base + o.sem_num) o.sem_op) (semval_add_wf pool hwf _ _)
        exact ⟨k + 1, by simpa using hk, by rw [h1]; omega, by rw [h2]; rfl⟩
    · split
      · split
        · exact ⟨0, by simp [semop_apply]⟩
        · obtain ⟨k, hk, h1, h2⟩ := ih (i + 1) w pool hwf
          refine ⟨k + 1, by simpa using hk, by rw [h1]; omega, ?_⟩
          rw [h2]
          rename_i h0 _
          simp only [List.take_succ_cons, semop_apply, List.foldl_cons, h0]
          rw [semval_add_zero pool hwf]
      · split
        · exact ⟨0, by simp [semop_apply]⟩
        · obtain ⟨k, hk, h1, h2⟩ := ih (i + 1) _ (semval_add pool (base + o.sem_num) o.sem_op) (semval_add_wf pool hwf _ _)
          exact ⟨k + 1, by simpa using hk, by rw [h1]; omega, by rw [h2]; rfl⟩

/-! ## The undo registry code leaves the semaphore sets alone -/

theorem SameSets.rfl (a : State) : SameSets a a := ⟨Eq.refl _, Eq.refl _, Eq.refl _⟩

theorem SameSets.trans {a b c : State} (h1 : SameSets a b) (h2 : SameSets b c) : SameSets a c :=
  ⟨h2.1.trans h1.1, h2.2.1.trans h1.2.1, h2.2.2.trans h1.2.2⟩

theorem semu_try_free_sets (suptr : Nat) (st : State) : SameSets st (semu_try_free suptr st).2 := by
  unfold semu_try_free
  split <;> exact ⟨rfl, rfl, rfl⟩

theorem semu_alloc_sets (td : Thread) (st : State) : SameSets st (semu_alloc td st).2 := by
  unfold semu_alloc
  split <;> exact ⟨rfl, rfl, rfl⟩

theorem semundo_adjust_entry_sets (cfg : Seminfo) (suptr : Nat) (semid : Int) (semseq : Nat)
    (semnum adjval : Int) (st : State) :
    SameSets st (semundo_adjust_entry cfg suptr semid semseq semnum adjval st).2 := by
  unfold semundo_adjust_entry
  simp only
  repeat' split
  all_goals
    first
    | exact SameSets.rfl st
    | exact ⟨rfl, rfl, rfl⟩
    | exact SameSets.trans (b := setSEMU st suptr _) ⟨rfl, rfl, rfl⟩ (semu_try_free_sets _ _)

theorem semundo_adjust_sets (cfg : Seminfo) (td : Thread) (supptr : Option Nat) (semid : Int)
    (semseq : Nat) (semnum adjval : Int) (st : State) :
    SameSets st (semundo_adjust cfg td supptr semid semseq semnum adjval st).2.2 := by
  unfold semundo_adjust
  split
  · exact semundo_adjust_entry_sets ..
  · split
    · exact semundo_adjust_entry_sets ..
    · split
      · exact SameSets.rfl st
      · split
        · rename_i h
          have := semu_alloc_sets td st
          rw [h] at this
          exact this
        · rename_i h
          have := semu_alloc_sets td st
          rw [h] at this
          exact SameSets.trans this (semundo_adjust_entry_sets ..)

theorem semop_undo_rollback_sets (cfg : Seminfo) (td : Thread) (semid seq : Nat)
    (prev : List Sembuf) (suptr : Option Nat) (st : State) (r : Option Nat × State)
    (h : semop_undo_rollback cfg td semid seq prev suptr st = some r) : SameSets st r.2 := by
  induction prev generalizing suptr st with
  | nil =>
    simp only [semop_undo_rollback, Option.some.injEq] at h
    subst h; exact SameSets.rfl st
  | cons o os ih =>
    unfold semop_undo_rollback at h
    split at h
    · exact ih _ _ h
    · split at h
      · exact ih _ _ h
      · simp only at h
        split at h
        · exact absurd h (by simp)
        · exact SameSets.trans (semundo_adjust_sets ..) (ih _ _ h)

theorem semop_undos_sets (cfg : Seminfo) (td : Thread) (semid seq : Nat)
    (prev sops : List Sembuf) (suptr : Option Nat) (st : State) :
    (∀ s, semop_undos cfg td semid seq prev sops suptr st = UndoResult.ok s → SameSets st s) ∧
    (∀ e s, semop_undos cfg td semid seq prev sops suptr st = UndoResult.fail e s →
      SameSets st s ∧ e ≠ 0) := by
  induction sops generalizing prev suptr st with
  | nil =>
    constructor
    · intro s h
      simp only [semop_undos, UndoResult.ok.injEq] at h
      subst h; exact SameSets.rfl st
    · intro e s h
      simp [semop_undos] at h
  | cons o os ih =>
    unfold semop_undos
    split
    · exact ih _ _ _
    · split
      · exact ih _ _ _
      · simp only
        split
        · have h1 := semundo_adjust_sets cfg td suptr semid seq o.sem_num (-o.sem_op) st
          have h2 := ih (o :: prev)
            (semundo_adjust cfg td suptr semid seq o.sem_num (-o.sem_op) st).2.1
            (semundo_adjust cfg td suptr semid seq o.sem_num (-o.sem_op) st).2.2
          exact ⟨fun s h => SameSets.trans h1 (h2.1 s h),
            fun e s h => ⟨SameSets.trans h1 (h2.2 e s h).1, (h2.2 e s h).2⟩⟩
        · rename_i hne
          split
          · exact ⟨fun s h => by simp at h, fun e s h => by simp at h⟩
          · rename_i r1 hr
            constructor
            · intro s h; simp at h
            · intro e s h
              simp only [UndoResult.fail.injEq] at h
              obtain ⟨he, hs⟩ := h
              subst he; subst hs
              exact ⟨SameSets.trans (semundo_adjust_sets ..)
                (semop_undo_rollback_sets _ _ _ _ _ _ _ _ hr), hne⟩

/-! ## Atomicity of `semop` -/

theorem semop_done_failure (K : Kernel) (cfg : Seminfo) (td : Thread) (semid : Nat)
    (sops : List Sembuf) (st : State) (e : Int) (st' : State)
    (h : semop_done K cfg td semid sops st = SemopResult.ret e st') (he : e ≠ 0) :
    st'.sem = semop_rollback (st.sema.getD semid default).u.sem_base sops st.sem ∧
    st'.sema = st.sema ∧ st'.semtot = st.semtot := by
  unfold semop_done at h
  simp only at h
  split at h
  · exact absurd h (by simp)
  · rename_i error st1 hu
    simp only [SemopResult.ret.injEq] at h
    obtain ⟨_, hs⟩ := h
    subst hs
    have hsets : SameSets st st1 := by
      split at hu
      · exact ((semop_undos_sets _ _ _ _ _ _ _ _).2 _ _ hu).1
      · exact absurd hu (by simp)
    simp only [hsets.1, hsets.2.1, hsets.2.2, and_self]
  · simp only [SemopResult.ret.injEq] at h
    exact absurd h.1.symm he

theorem semop_loop_failure (K : Kernel) (cfg : Seminfo) (td : Thread) (semid : Nat)
    (sops : List Sembuf) (st : State) (hwf : PoolWf st.sem) (e : Int) (st' : State)
    (h : semop_loop K cfg td semid sops st = SemopResult.ret e st') (he : e ≠ 0) :
    SameSets st st' := by
  obtain ⟨k, hk, h1, h2⟩ :=
    semop_try_apply cfg (st.sema.getD semid default).u.sem_base sops 0 false st.sem hwf
  unfold semop_loop at h
  simp only at h
  rw [h2, h1, Nat.zero_add] at h
  split at h
  · have hk2 : k = sops.length := by omega
    subst hk2
    rw [List.take_length] at h
    have := semop_done_failure K cfg td semid sops _ e st' h he
    simp only [semop_rollback_apply _ _ _ hwf] at this
    exact this
  · rw [semop_rollback_apply _ _ _ hwf] at h
    split at h
    · simp only [SemopResult.ret.injEq] at h
      rw [← h.2]; exact SameSets.rfl st
    · split at h
      · simp only [SemopResult.ret.injEq] at h
        rw [← h.2]; exact SameSets.rfl st
      · exact absurd h (by simp)

theorem map_semval_set (pool : List Sem) (idx : Nat) (s : Sem)
    (h : s.semval = (pool.getD idx default).semval) :
    (pool.set idx s).map Sem.semval = pool.map Sem.semval := by
  apply List.ext_getElem?
  intro n
  simp only [List.getElem?_map, List.getElem?_set]
  by_cases h1 : idx = n
  · subst h1
    by_cases h2 : idx < pool.length
    · simp [h2, h, List.getD_eq_getElem?_getD, List.getElem?_eq_getElem h2]
    · simp [h2, List.getElem?_eq_none (Nat.le_of_not_lt h2)]
  · simp [h1]

theorem poolwf_set (pool : List Sem) (hwf : PoolWf pool) (idx : Nat) (s : Sem)
    (h : s.semval < 65536) : PoolWf (pool.set idx s) := by
  intro x hx
  rcases List.mem_or_eq_of_mem_set hx with h1 | h1
  · exact hwf x h1
  · subst h1; exact h

theorem poolwf_getD (pool : List Sem) (hwf : PoolWf pool) (idx : Nat) :
    (pool.getD idx default).semval < 65536 := by
  rw [List.getD_eq_getElem?_getD]
  cases h : pool[idx]? with
  | none => simp [default]
  | some s => exact hwf s (List.getElem?_mem h)

/-- C1. Atomicity of values: when `sys_semop` returns an error (in particular
`ERANGE`, `EAGAIN` for a NOWAIT operation, or the error of a failed undo adjustment
after a complete value pass), the semaphore pool, the descriptors and `semtot` are
those of the state in which the call was entered, so every semaphore of every set
has its value of before the call; and when the call has slept and returns an error
after a wakeup, every `semval` is the one found at that wakeup. -/
theorem semop_failure_keeps_values (K : Kernel) (cfg : Seminfo) (td : Thread) (uap_semid : Int)
    (sops : List Sembuf) (st : State) (hwf : PoolWf st.sem) :
    (∀ e st', sys_semop K cfg td uap_semid sops st = SemopResult.ret e st' → e ≠ 0 →
      st'.sem = st.sem ∧ st'.sema = st.sema ∧ st'.semtot = st.semtot) ∧
    (∀ i error e st',
      semop_wakeup K cfg td uap_semid sops i error st = SemopResult.ret e st' → e ≠ 0 →
      st'.sem.map Sem.semval = st.sem.map Sem.semval) := by
  constructor
  · intro e st' h he
    unfold sys_semop at h
    simp only at h
    repeat' split at h
    all_goals
      first
      | (simp only [SemopResult.ret.injEq] at h; rw [← h.2]; exact ⟨rfl, rfl, rfl⟩)
      | exact semop_loop_failure K cfg td _ sops st hwf e st' h he
  · intro i error e st' h he
    unfold semop_wakeup at h
    simp only at h
    split at h
    · simp only [SemopResult.ret.injEq] at h; rw [← h.2]
    · split at h
      · simp only [SemopResult.ret.injEq] at h
        rw [← h.2]
        apply map_semval_set
        split <;> rfl
      · have h3 := semop_loop_failure K cfg td _ sops _ ?_ e st' h he
        · rw [h3.1]
          apply map_semval_set
          split <;> rfl
        · apply poolwf_set _ hwf
          split <;> simp only <;> exact poolwf_getD _ hwf _

/-! ## The walk of the specification and the walk of the code -/

theorem pool_values_add (pool : List Sem) (base num : Nat) (d : Int)
    (hlt : base + num < pool.length)
    (h0 : 0 ≤ ((pool.getD (base + num) default).semval : Int) + d)
    (h1 : ((pool.getD (base + num) default).semval : Int) + d < 65536) :
    (fun n => (((semval_add pool (base + num) d).getD (base + n) default).semval : Int)) =
      Function.update (fun n => (((pool.getD (base + n) default).semval : Nat) : Int)) num
        (((pool.getD (base + num) default).semval : Int) + d) := by
  funext n
  by_cases hn : n = num
  · subst hn
    simp only [Function.update_same]
    simp only [List.getD_eq_getElem?_getD, semval_add_getElem?]
    rw [List.getElem?_eq_getElem hlt]
    simp only [Option.map_some', if_true, Option.getD_some]
    simp only [List.getD_eq_getElem?_getD, List.getElem?_eq_getElem hlt, Option.getD_some] at h0 h1
    omega
  · rw [Function.update_noteq hn]
    simp only [List.getD_eq_getElem?_getD, semval_add_getElem?]
    have : ¬ (base + num = base + n) := by omega
    cases h : pool[base + n]? <;> simp [this]

theorem semop_try_walk (cfg : Seminfo) (base : Nat) (hvmx : cfg.semvmx ≤ 65535)
    (sops : List Sembuf) (i : Nat) (w : Bool) (pool : List Sem) (hwf : PoolWf pool)
    (hin : ∀ o ∈ sops, base + o.sem_num < pool.length) :
    match walk cfg.semvmx sops i (fun n => ((pool.getD (base + n) default).semval : Int)) with
    | WalkResult.complete vals =>
      (semop_try cfg base sops i w pool).1 = i + sops.length ∧
      (semop_try cfg base sops i w pool).2.1 = 0 ∧
      vals = (fun n =>
        ((((semop_try cfg base sops i w pool).2.2.2).getD (base + n) default).semval : Int))
    | WalkResult.cannot_proceed k =>
      (semop_try cfg base sops i w pool).1 = k ∧ (semop_try cfg base sops i w pool).2.1 = 0 ∧
      i ≤ k ∧ k < i + sops.length
    | WalkResult.range_error k =>
      (semop_try cfg base sops i w pool).1 = k ∧ (semop_try cfg base sops i w pool).2.1 = ERANGE ∧
      i ≤ k ∧ k < i + sops.length := by
  induction sops generalizing i w pool with
  | nil => simp [walk, semop_try]
  | cons o os ih =>
    have hlt : base + o.sem_num < pool.length := hin o (List.mem_cons_self _ _)
    have hin' : ∀ o' ∈ os, base + o'.sem_num < pool.length :=
      fun o' h => hin o' (List.mem_cons_of_mem _ h)
    have hv := poolwf_getD pool hwf (base + o.sem_num)
    unfold walk semop_try
    simp only
    by_cases hneg : o.sem_op < 0
    · simp only [hneg, if_true]
      by_cases hb : ((pool.getD (base + o.sem_num) default).semval : Int) + o.sem_op < 0
      · simp only [hb, if_true]
        exact ⟨trivial, trivial, Nat.le_refl _, by simp⟩
      · simp only [hb, if_false]
        have hupd := pool_values_add pool base o.sem_num o.sem_op hlt (by omega) (by omega)
        rw [← hupd]
        have := ih (i + 1)
          (w || ((semval_add pool (base + o.sem_num) o.sem_op).getD (base + o.sem_num) default).semval == 0 &&
            decide ((pool.getD (base + o.sem_num) default).semzcnt > 0))
          (semval_add pool (base + o.sem_num) o.sem_op)
          (semval_add_wf pool hwf _ _) (by simpa [semval_add_length] using hin')
        revert this
        split <;> simp only [List.length_cons] <;> intro h <;>
          (refine ⟨by omega, ?_⟩) <;> first | exact ⟨h.2.1, h.2.2⟩ | exact ⟨h.2.1, by omega, by omega⟩
    · simp only [hneg, if_false]
      by_cases hz : o.sem_op = 0
      · simp only [hz, if_true]
        by_cases hb : (pool.getD (base + o.sem_num) default).semval ≠ 0
        · have hb' : ((pool.getD (base + o.sem_num) default).semval : Int) ≠ 0 := by omega
          simp only [hb, hb', ne_eq, not_false_eq_true, if_true]
          exact ⟨trivial, trivial, Nat.le_refl _, by simp⟩
        · have hb' : ¬ ((pool.getD (base + o.sem_num) default).semval : Int) ≠ 0 := by omega
          simp only [hb, hb', if_false]
          have := ih (i + 1) w pool hwf hin'
          revert this
          split <;> simp only [List.length_cons] <;> intro h <;>
            (refine ⟨by omega, ?_⟩) <;> first | exact ⟨h.2.1, h.2.2⟩ | exact ⟨h.2.1, by omega, by omega⟩
      · simp only [hz, if_false]
        by_cases hb : ((pool.getD (base + o.sem_num) default).semval : Int) + o.sem_op > cfg.semvmx
        · simp only [hb, if_true]
          exact ⟨trivial, trivial, Nat.le_refl _, by simp⟩
        · simp only [hb, if_false]
          have hupd := pool_values_add pool base o.sem_num o.sem_op hlt (by omega) (by omega)
          rw [← hupd]
          have := ih (i + 1) (w || decide ((pool.getD (base + o.sem_num) default).semncnt > 0))
            (semval_add pool (base + o.sem_num) o.sem_op)
            (semval_add_wf pool hwf _ _) (by simpa [semval_add_length] using hin')
          revert this
          split <;> simp only [List.length_cons] <;> intro h <;>
            (refine ⟨by omega, ?_⟩) <;> first | exact ⟨h.2.1, h.2.2⟩ | exact ⟨h.2.1, by omega, by omega⟩

theorem semop_check_some (nsems : Nat) (sops : List Sembuf) (j : Nat)
    (h : ∀ o ∈ sops, o.sem_num < nsems) : ∃ j', semop_check nsems sops j = some j' := by
  induction sops generalizing j with
  | nil => exact ⟨j, rfl⟩
  | cons o os ih =>
    unfold semop_check
    have h1 : ¬ o.sem_num ≥ nsems := by
      have := h o (List.mem_cons_self _ _); omega
    simp only [h1, if_false]
    exact ih _ (fun o' ho => h o' (List.mem_cons_of_mem _ ho))

theorem semvalid_eq_zero (semid : Int) (k : SemidKernel) :
    semvalid semid k = 0 ↔ sem_alloc k = true ∧ k.u.sem_perm.seq = IPCID_TO_SEQ semid := by
  unfold semvalid sem_alloc
  by_cases h1 : k.u.sem_perm.mode &&& SEM_ALLOC = 0 <;>
    by_cases h2 : k.u.sem_perm.seq = IPCID_TO_SEQ semid <;> simp [h1, h2, EINVAL]

theorem sys_semop_admitted (K : Kernel) (cfg : Seminfo) (td : Thread) (uap_semid : Int)
    (sops : List Sembuf) (st : State) (hadm : SemopAdmitted K cfg td uap_semid sops st) :
    sys_semop K cfg td uap_semid sops st =
      semop_loop K cfg td (IPCID_TO_IX uap_semid) sops st := by
  obtain ⟨h1, h2, h3, h4, h5, h6, h7⟩ := hadm
  obtain ⟨j, hj⟩ := semop_check_some _ sops 0 h6
  rw [semvalid_eq_zero] at h5
  unfold sys_semop
  simp only [h1, not_true_eq_false, if_false, h3, h4, h5.1, h5.2, hj, h7 j hj, ne_eq]
  rw [if_neg (by omega)]

/-- C2. Multi-op indivisibility: in a call that gets past the initial checks, when
the in-order walk of the batch reaches, before any range error, an operation `i`
that cannot proceed (`delta < 0` with `value + delta < 0`, or `delta == 0` with
`value != 0`) and that operation carries `IPC_NOWAIT`, `sys_semop` returns `EAGAIN`
and the whole state, so every semaphore value and wait counter, is as before;
the flags of the other operations play no part. -/
theorem semop_nowait_indivisible (K : Kernel) (cfg : Seminfo) (td : Thread) (uap_semid : Int)
    (sops : List Sembuf) (st : State) (i : Nat)
    (hwf : PoolWf st.sem) (hvmx : cfg.semvmx ≤ 65535)
    (hadm : SemopAdmitted K cfg td uap_semid sops st)
    (hlay : (st.sema.getD (IPCID_TO_IX uap_semid) default).u.sem_base +
      (st.sema.getD (IPCID_TO_IX uap_semid) default).u.sem_nsems ≤ st.sem.length)
    (hwalk : walk cfg.semvmx sops 0 (set_values st (IPCID_TO_IX uap_semid)) =
      WalkResult.cannot_proceed i)
    (hnowait : (sops.getD i default).sem_flg &&& IPC_NOWAIT ≠ 0) :
    sys_semop K cfg td uap_semid sops st = SemopResult.ret EAGAIN st := by
  rw [sys_semop_admitted K cfg td uap_semid sops st hadm]
  have hin : ∀ o ∈ sops,
      (st.sema.getD (IPCID_TO_IX uap_semid) default).u.sem_base + o.sem_num < st.sem.length := by
    intro o ho
    have := hadm.2.2.2.2.2.1 o ho
    omega
  have hw := semop_try_walk cfg (st.sema.getD (IPCID_TO_IX uap_semid) default).u.sem_base hvmx
    sops 0 false st.sem hwf hin
  have hwalk' : walk cfg.semvmx sops 0
      (fun n => (((st.sem.getD ((st.sema.getD (IPCID_TO_IX uap_semid) default).u.sem_base + n)
        default).semval : Nat) : Int)) = WalkResult.cannot_proceed i := hwalk
  rw [hwalk'] at hw
  simp only at hw
  obtain ⟨k, hk, h1, h2⟩ :=
    semop_try_apply cfg (st.sema.getD (IPCID_TO_IX uap_semid) default).u.sem_base sops 0 false
      st.sem hwf
  unfold semop_loop
  simp only
  rw [h2, hw.1, hw.2.1]
  have hki : k = i := by rw [hw.1] at h1; omega
  subst hki
  rw [semop_rollback_apply _ _ _ hwf]
  rw [if_neg (by omega)]
  simp only [ne_eq, not_true_eq_false, if_false]
  rw [if_pos hnowait]

theorem delta_sum_cons (o : Sembuf) (os : List Sembuf) (s : Nat) :
    delta_sum (o :: os) s = (if o.sem_num = s then o.sem_op else 0) + delta_sum os s := by
  unfold delta_sum
  by_cases h : o.sem_num = s <;> simp [List.filter_cons, h]

theorem walk_complete_sum (semvmx : Int) (sops : List Sembuf) (i : Nat) (vals vals' : Nat → Int)
    (h : walk semvmx sops i vals = WalkResult.complete vals') (s : Nat) :
    vals' s = vals s + delta_sum sops s := by
  induction sops generalizing i vals with
  | nil =>
    simp only [walk, WalkResult.complete.injEq] at h
    subst h; simp [delta_sum]
  | cons o os ih =>
    rw [delta_sum_cons]
    unfold walk at h
    split at h
    · split at h
      · exact absurd h (by simp)
      · rw [ih _ _ h]
        by_cases hs : o.sem_num = s
        · subst hs; simp only [Function.update_same, if_true]; omega
        · rw [Function.update_noteq (Ne.symm hs)]; simp [hs]
    · split at h
      · split at h
        · exact absurd h (by simp)
        · rw [ih _ _ h]
          rename_i hz _
          simp [hz]
      · split at h
        · exact absurd h (by simp)
        · rw [ih _ _ h]
          by_cases hs : o.sem_num = s
          · subst hs; simp only [Function.update_same, if_true]; omega
          · rw [Function.update_noteq (Ne.symm hs)]; simp [hs]

theorem semop_stamp_semval (base : Nat) (pid : Int) (sops : List Sembuf) (pool : List Sem) :
    (semop_stamp base pid sops pool).map Sem.semval = pool.map Sem.semval := by
  induction sops generalizing pool with
  | nil => rfl
  | cons o os ih =>
    simp only [semop_stamp, List.foldl_cons]
    have := ih (pool.set (base + o.sem_num) { pool.getD (base + o.sem_num) default with sempid := pid })
    simp only [semop_stamp] at this
    rw [this]
    exact map_semval_set _ _ _ rfl

theorem semval_getD_of_map_eq (l1 l2 : List Sem) (h : l1.map Sem.semval = l2.map Sem.semval)
    (i : Nat) : (l1.getD i default).semval = (l2.getD i default).semval := by
  have h1 := congrArg (fun l => l[i]?) h
  simp only [List.getElem?_map] at h1
  simp only [List.getD_eq_getElem?_getD]
  cases h2 : l1[i]? <;> cases h3 : l2[i]? <;> simp_all

theorem sem_base_set_otime (sema : List SemidKernel) (semid : Nat) (t : Int) :
    ((sema.set semid { sema.getD semid default with
        u := { (sema.getD semid default).u with sem_otime := t } }).getD semid default).u.sem_base =
      (sema.getD semid default).u.sem_base := by
  simp only [List.getD_eq_getElem?_getD, List.getElem?_set]
  by_cases h : semid < sema.length
  · simp [h]
  · simp [h, List.getElem?_eq_none (Nat.le_of_not_lt h)]

/-- C3. Committed result of operate: in a call that gets past the initial checks,
when the in-order walk of the batch (each test seeing the values left by the
operations before it) gets through the whole batch and the undo bookkeeping
succeeds, `sys_semop` returns 0 and every semaphore `s` of the set ends with the
value the walk computed, which is its value at the start plus the sum of the deltas
of the operations addressed to `s` (so a semaphore that is not addressed keeps its
value). -/
theorem semop_commit (K : Kernel) (cfg : Seminfo) (td : Thread) (uap_semid : Int)
    (sops : List Sembuf) (st : State) (vals : Nat → Int)
    (hwf : PoolWf st.sem) (hvmx : cfg.semvmx ≤ 65535)
    (hadm : SemopAdmitted K cfg td uap_semid sops st)
    (hlay : (st.sema.getD (IPCID_TO_IX uap_semid) default).u.sem_base +
      (st.sema.getD (IPCID_TO_IX uap_semid) default).u.sem_nsems ≤ st.sem.length)
    (hwalk : walk cfg.semvmx sops 0 (set_values st (IPCID_TO_IX uap_semid)) =
      WalkResult.complete vals)
    (hundo : semop_do_undos sops = true → ∃ s,
      semop_undos cfg td (IPCID_TO_IX uap_semid)
        (st.sema.getD (IPCID_TO_IX uap_semid) default).u.sem_perm.seq [] sops none
        { st with
          sem := semop_apply (st.sema.getD (IPCID_TO_IX uap_semid) default).u.sem_base sops st.sem } =
        UndoResult.ok s) :
    ∃ st', sys_semop K cfg td uap_semid sops st = SemopResult.ret 0 st' ∧
      ∀ s, set_values st' (IPCID_TO_IX uap_semid) s = vals s ∧
        vals s = set_values st (IPCID_TO_IX uap_semid) s + delta_sum sops s := by
  rw [sys_semop_admitted K cfg td uap_semid sops st hadm]
  have hin : ∀ o ∈ sops,
      (st.sema.getD (IPCID_TO_IX uap_semid) default).u.sem_base + o.sem_num < st.sem.length := by
    intro o ho
    have := hadm.2.2.2.2.2.1 o ho
    omega
  have hw := semop_try_walk cfg (st.sema.getD (IPCID_TO_IX uap_semid) default).u.sem_base hvmx
    sops 0 false st.sem hwf hin
  have hwalk' : walk cfg.semvmx sops 0
      (fun n => (((st.sem.getD ((st.sema.getD (IPCID_TO_IX uap_semid) default).u.sem_base + n)
        default).semval : Nat) : Int)) = WalkResult.complete vals := hwalk
  rw [hwalk'] at hw
  simp only at hw
  obtain ⟨k, hk, h1, h2⟩ :=
    semop_try_apply cfg (st.sema.getD (IPCID_TO_IX uap_semid) default).u.sem_base sops 0 false
      st.sem hwf
  have hkl : k = sops.length := by rw [hw.1] at h1; omega
  subst hkl
  rw [List.take_length] at h2
  have hvals := hw.2.2
  rw [h2] at hvals
  unfold semop_loop
  simp only
  rw [h2, hw.1, if_pos (by omega)]
  unfold semop_done
  simp only
  have key : ∀ s1 : State,
      SameSets { st with sem := semop_apply (st.sema.getD (IPCID_TO_IX uap_semid) default).u.sem_base sops st.sem } s1 →
      ∀ s, set_values
        { s1 with
          sem := semop_stamp (st.sema.getD (IPCID_TO_IX uap_semid) default).u.sem_base td.p_pid sops s1.sem
          sema := s1.sema.set (IPCID_TO_IX uap_semid)
            { st.sema.getD (IPCID_TO_IX uap_semid) default with
              u := { (st.sema.getD (IPCID_TO_IX uap_semid) default).u with sem_otime := K.time_second } } }
        (IPCID_TO_IX uap_semid) s = vals s ∧
        vals s = set_values st (IPCID_TO_IX uap_semid) s + delta_sum sops s := by
    intro s1 hs1 s
    refine ⟨?_, walk_complete_sum _ _ _ _ _ hwalk s⟩
    obtain ⟨e1, e2, _⟩ := hs1
    simp only at e1 e2
    unfold set_values semval_of sem_index
    simp only [e2, sem_base_set_otime]
    rw [semval_getD_of_map_eq _ _ (semop_stamp_semval _ _ _ _), e1, hvals]
  by_cases hu : semop_do_undos sops = true
  · obtain ⟨s1, hs1⟩ := hundo hu
    simp only [hu, if_true, hs1]
    exact ⟨_, rfl, key s1 ((semop_undos_sets _ _ _ _ _ _ _ _).1 s1 hs1)⟩
  · simp only [hu]
    exact ⟨_, rfl, key _ (SameSets.rfl _)⟩

/-! ## Examples for the `semop` properties -/

theorem semop_failure_keeps_values_witness :
    PoolWf (exState 5 20000).sem ∧
    ((sys_semop exKernel exCfg exThread 65536
        [⟨0, -1, SEM_UNDO⟩, ⟨1, -20000, SEM_UNDO⟩] (exState 5 20000)).state (exState 5 20000)).sem =
      (exState 5 20000).sem :=
  ⟨by decide,
   ((semop_failure_keeps_values exKernel exCfg exThread 65536
      [⟨0, -1, SEM_UNDO⟩, ⟨1, -20000, SEM_UNDO⟩] (exState 5 20000) (by decide)).1 ERANGE
      ((sys_semop exKernel exCfg exThread 65536
        [⟨0, -1, SEM_UNDO⟩, ⟨1, -20000, SEM_UNDO⟩] (exState 5 20000)).state (exState 5 20000))
      (by rfl) (by decide)).1⟩

theorem semop_nowait_indivisible_witness :
    exKernelMode.ipcperm exThread ((exState 1 0).sema.getD 0 default).u.sem_perm 1 ≠ 0 ∧
    sys_semop exKernelMode exCfg exThread 65536
        [⟨0, -1, IPC_NOWAIT⟩, ⟨1, -1, IPC_NOWAIT⟩] (exState 1 0) =
      SemopResult.ret EAGAIN (exState 1 0) ∧
    semval_of (exState 1 0) 0 0 = 1 ∧ semval_of (exState 1 0) 0 1 = 0 :=
  ⟨by decide, semop_nowait_indivisible exKernelMode exCfg exThread 65536
      [⟨0, -1, IPC_NOWAIT⟩, ⟨1, -1, IPC_NOWAIT⟩] (exState 1 0) 1 (by decide) (by decide)
      ⟨rfl, by decide, by decide, by decide, by decide, by decide,
        fun j hj => by cases hj; decide⟩
      (by decide) (by rfl) (by decide),
   by decide, by decide⟩

theorem semop_commit_witness :
    ∃ st', sys_semop exKernelMode exCfg exThread 65536 [⟨0, -3, SEM_UNDO⟩, ⟨1, 2, 0⟩, ⟨0, 1, 0⟩]
        (exState 5 7) = SemopResult.ret 0 st' ∧
      ∀ s, set_values st' (IPCID_TO_IX 65536) s =
          Function.update (Function.update (Function.update (set_values (exState 5 7) 0) 0 2) 1 9) 0 3 s ∧
        Function.update (Function.update (Function.update (set_values (exState 5 7) 0) 0 2) 1 9) 0 3 s =
          set_values (exState 5 7) (IPCID_TO_IX 65536) s +
            delta_sum [⟨0, -3, SEM_UNDO⟩, ⟨1, 2, 0⟩, ⟨0, 1, 0⟩] s :=
  semop_commit exKernelMode exCfg exThread 65536 [⟨0, -3, SEM_UNDO⟩, ⟨1, 2, 0⟩, ⟨0, 1, 0⟩]
    (exState 5 7)
    (Function.update (Function.update (Function.update (set_values (exState 5 7) 0) 0 2) 1 9) 0 3)
    (by decide) (by decide)
    ⟨rfl, by decide, by decide, by decide, by decide, by decide,
      fun j hj => by cases hj; decide⟩
    (by decide) (by rfl) (fun _ => ⟨_, rfl⟩)

/-! ## Stale identifiers -/

theorem semvalid_stale (semid : Int) (k : SemidKernel)
    (h : sem_alloc k = false ∨ k.u.sem_perm.seq ≠ IPCID_TO_SEQ semid) :
    semvalid semid k = EINVAL := by
  unfold semvalid
  unfold sem_alloc at h
  by_cases h1 : k.u.sem_perm.mode &&& SEM_ALLOC = 0
  · simp [h1]
  · rcases h with h | h
    · simp [h1] at h
    · simp [h]

/-- C4. Stale or invalid identifiers are rejected without effect: when the slot
decoded from the identifier is not allocated, or its stored sequence number is not
the one decoded from the identifier, `sys_semop` (for a vector within the length
limits) and `kern_semctl` with every command that takes an encoded identifier (every
command but `SEM_STAT`) return `EINVAL` and leave the whole state unchanged: set
table, pool, `semtot` and undo registry. (The jail is assumed to allow SysV IPC.) -/
theorem stale_identifier_rejected (K : Kernel) (cfg : Seminfo) (td : Thread) (semid : Int)
    (st : State) (hjail : K.prison_allow td = true)
    (hstale : sem_alloc (st.sema.getD (IPCID_TO_IX semid) default) = false ∨
      (st.sema.getD (IPCID_TO_IX semid) default).u.sem_perm.seq ≠ IPCID_TO_SEQ semid) :
    (∀ sops : List Sembuf,
      ¬ ((sops.length : Int) > 8 ∧ (sops.length : Int) > cfg.semopm) →
      ¬ ((sops.length : Int) > 8 ∧ K.racct_enable = true ∧
          (sops.length : Int) > K.racct_get_available td) →
      sys_semop K cfg td semid sops st = SemopResult.ret EINVAL st) ∧
    (∀ (semnum : Int) (cmd : Cmd) (arg : Semun), cmd ≠ Cmd.SEM_STAT →
      (kern_semctl K cfg td semid semnum cmd arg st).error = EINVAL ∧
      (kern_semctl K cfg td semid semnum cmd arg st).st = st) := by
  have hv := semvalid_stale semid _ hstale
  constructor
  · intro sops h1 h2
    unfold sys_semop
    simp only [hjail, not_true_eq_false, if_false, h1, h2]
    split
    · rfl
    · rcases hstale with h | h
      · rw [if_pos (by rw [h]; decide)]
      · by_cases ha : sem_alloc (st.sema.getD (IPCID_TO_IX semid) default) = true
        · rw [if_neg (by rw [ha]; decide), if_pos h]
        · rw [if_pos ha]
  · intro semnum cmd arg hcmd
    unfold kern_semctl
    simp only [hjail, not_true_eq_false, if_false, hcmd, hv]
    split
    · exact ⟨rfl, rfl⟩
    · cases cmd <;> simp [EINVAL]

theorem stale_identifier_rejected_witness :
    sys_semop exKernel exCfg exThread 65536 [⟨0, 1, 0⟩]
        (run exKernel exCfg
          [Call.semctl exThread 65536 0 Cmd.IPC_RMID ⟨0, default, []⟩,
           Call.semget exThread IPC_PRIVATE 2 0o600] (exState 5 7)) =
      SemopResult.ret EINVAL
        (run exKernel exCfg
          [Call.semctl exThread 65536 0 Cmd.IPC_RMID ⟨0, default, []⟩,
           Call.semget exThread IPC_PRIVATE 2 0o600] (exState 5 7)) :=
  (stale_identifier_rejected exKernel exCfg exThread 65536
    (run exKernel exCfg
      [Call.semctl exThread 65536 0 Cmd.IPC_RMID ⟨0, default, []⟩,
       Call.semget exThread IPC_PRIVATE 2 0o600] (exState 5 7))
    rfl (Or.inr (by decide))).1 [⟨0, 1, 0⟩] (by decide) (by decide)

/-! ## Sequence numbers change only in `semget` -/

theorem getD_set_eq {α : Type} (l : List α) (j i : Nat) (a d : α) :
    (l.set j a).getD i d = if j = i ∧ j < l.length then a else l.getD i d := by
  simp only [List.getD_eq_getElem?_getD, List.getElem?_set]
  by_cases h1 : j = i
  · subst h1
    by_cases h2 : j < l.length
    · simp [h2]
    · simp [h2, List.getElem?_eq_none (Nat.le_of_not_lt h2)]
  · simp [h1]

theorem getD_set_seq (l : List SemidKernel) (j : Nat) (k : SemidKernel)
    (hk : k.u.sem_perm.seq = (l.getD j default).u.sem_perm.seq) (i : Nat) :
    ((l.set j k).getD i default).u.sem_perm.seq = (l.getD i default).u.sem_perm.seq := by
  rw [getD_set_eq]
  split
  · rename_i h; rw [hk, h.1]
  · rfl

theorem getD_map_seq (l : List SemidKernel) (f : SemidKernel → SemidKernel)
    (hf : ∀ k, (f k).u.sem_perm.seq = k.u.sem_perm.seq) (i : Nat) :
    ((l.map f).getD i default).u.sem_perm.seq = (l.getD i default).u.sem_perm.seq := by
  simp only [List.getD_eq_getElem?_getD, List.getElem?_map]
  cases l[i]? <;> simp [hf]

theorem semundo_clear_one_sets (semid semnum : Int) (st : State) (suptr : Nat) :
    SameSets st (semundo_clear_one semid semnum st suptr) := by
  unfold semundo_clear_one
  simp only
  split
  · exact SameSets.trans (b := setSEMU st suptr _) ⟨rfl, rfl, rfl⟩ (semu_try_free_sets _ _)
  · exact ⟨rfl, rfl, rfl⟩

theorem semundo_clear_sets (semid semnum : Int) (st : State) :
    SameSets st (semundo_clear semid semnum st) := by
  unfold semundo_clear
  generalize st.semu_list = l
  induction l generalizing st with
  | nil => exact SameSets.rfl st
  | cons r rs ih =>
    simp only [List.foldl_cons]
    exact SameSets.trans (semundo_clear_one_sets semid semnum st r) (ih _)

theorem slot_seq_sets {a b : State} (h : SameSets a b) (i : Nat) : slot_seq b i = slot_seq a i := by
  unfold slot_seq; rw [h.2.1]

theorem semctl_rmid_seq (td : Thread) (semidx : Nat) (st : State) (i : Nat) :
    slot_seq (semctl_rmid td semidx st) i = slot_seq st i := by
  unfold semctl_rmid slot_seq
  simp only
  rw [getD_map_seq _ _ (by intro k; split <;> rfl), (semundo_clear_sets _ _ _).2.1]
  refine getD_set_seq _ _ _ ?_ i
  rfl

theorem kern_semctl_seq (K : Kernel) (cfg : Seminfo) (td : Thread) (semid semnum : Int)
    (cmd : Cmd) (arg : Semun) (st : State) (i : Nat) :
    slot_seq (kern_semctl K cfg td semid semnum cmd arg st).st i = slot_seq st i := by
  unfold kern_semctl
  simp only
  split
  · rfl
  · split
    · repeat' split
      all_goals rfl
    · split
      · rfl
      · cases cmd <;> simp only <;> repeat' split
        all_goals first
          | rfl
          | exact semctl_rmid_seq ..
          | exact slot_seq_sets (SameSets.trans (b := { st with sem := _ }) ⟨rfl, rfl, rfl⟩
              (semundo_clear_sets _ _ _)) i
          | (unfold slot_seq; refine getD_set_seq _ _ _ ?_ i; rfl)

theorem semop_done_seq (K : Kernel) (cfg : Seminfo) (td : Thread) (semid : Nat)
    (sops : List Sembuf) (st fb : State) (i : Nat) (hfb : slot_seq fb i = slot_seq st i) :
    slot_seq ((semop_done K cfg td semid sops st).state fb) i = slot_seq st i := by
  unfold semop_done
  simp only
  split
  · exact hfb
  · rename_i error st1 hu
    have hsets : SameSets st st1 := by
      split at hu
      · exact ((semop_undos_sets _ _ _ _ _ _ _ _).2 _ _ hu).1
      · exact absurd hu (by simp)
    simp only [SemopResult.state]
    exact slot_seq_sets (SameSets.trans (b := st1) hsets ⟨rfl, rfl, rfl⟩) i
  · rename_i st1 hu
    have hsets : SameSets st st1 := by
      split at hu
      · exact (semop_undos_sets _ _ _ _ _ _ _ _).1 _ hu
      · simp only [UndoResult.ok.injEq] at hu
        rw [← hu]; exact SameSets.rfl st
    simp only [SemopResult.state]
    unfold slot_seq
    simp only [hsets.2.1]
    refine getD_set_seq _ _ _ ?_ i
    rfl

theorem semop_loop_seq (K : Kernel) (cfg : Seminfo) (td : Thread) (semid : Nat)
    (sops : List Sembuf) (st fb : State) (i : Nat) (hfb : slot_seq fb i = slot_seq st i) :
    slot_seq ((semop_loop K cfg td semid sops st).state fb) i = slot_seq st i := by
  unfold semop_loop
  simp only
  split
  · exact semop_done_seq K cfg td semid sops _ fb i hfb
  · repeat' split
    all_goals rfl

theorem sys_semop_seq (K : Kernel) (cfg : Seminfo) (td : Thread) (uap_semid : Int)
    (sops : List Sembuf) (st : State) (i : Nat) :
    slot_seq ((sys_semop K cfg td uap_semid sops st).state st) i = slot_seq st i := by
  unfold sys_semop
  simp only
  repeat' split
  all_goals first
    | rfl
    | exact semop_loop_seq K cfg td _ sops st st i rfl

theorem semop_wakeup_seq (K : Kernel) (cfg : Seminfo) (td : Thread) (uap_semid : Int)
    (sops : List Sembuf) (k : Nat) (error : Int) (st : State) (i : Nat) :
    slot_seq ((semop_wakeup K cfg td uap_semid sops k error st).state st) i = slot_seq st i := by
  unfold semop_wakeup
  simp only
  repeat' split
  all_goals first
    | rfl
    | exact semop_loop_seq K cfg td _ sops _ st i rfl

theorem semexit_apply_sets (ents : List Undo) (st st' : State)
    (h : semexit_apply ents st = some st') : st'.sema = st.sema := by
  induction ents generalizing st with
  | nil =>
    simp only [semexit_apply, Option.some.injEq] at h
    rw [← h]
  | cons e es ih =>
    unfold semexit_apply at h
    simp only at h
    split at h
    · exact ih _ h
    · split at h
      · exact absurd h (by simp)
      · exact (ih _ h).trans rfl

theorem semexit_myhook_seq (p : Nat) (st : State) (i : Nat) :
    slot_seq ((semexit_myhook p st).getD st) i = slot_seq st i := by
  unfold semexit_myhook
  split
  · rfl
  · split
    · rfl
    · rename_i st1 h
      have := semexit_apply_sets _ _ _ h
      simp only [Option.getD_some]
      unfold slot_seq
      simp only [this]

theorem or_and_self_right (a b : Nat) : (a ||| b) &&& b = b := by
  apply Nat.eq_of_testBit_eq
  intro i
  simp only [Nat.testBit_and, Nat.testBit_or]
  cases a.testBit i <;> cases b.testBit i <;> rfl

theorem first_slot_some (p : SemidKernel → Bool) (l : List SemidKernel) (i : Nat)
    (h : first_slot p l = some i) : i < l.length ∧ p (l.getD i default) = true := by
  induction l generalizing i with
  | nil => simp [first_slot] at h
  | cons k ks ih =>
    unfold first_slot at h
    split at h
    · simp only [Option.some.injEq] at h
      subst h
      rename_i hp
      exact ⟨by simp, by simpa using hp⟩
    · simp only [Option.map_eq_some'] at h
      obtain ⟨j, hj, hi⟩ := h
      subst hi
      have := ih j hj
      exact ⟨by simp; omega, by simpa using this.2⟩

theorem first_slot_take (p : SemidKernel → Bool) (l : List SemidKernel) (n i : Nat)
    (h : first_slot p (l.take n) = some i) : i < l.length ∧ i < n ∧ p (l.getD i default) = true := by
  have := first_slot_some p _ i h
  rw [List.length_take] at this
  refine ⟨by omega, by omega, ?_⟩
  have h2 := this.2
  simp only [List.getD_eq_getElem?_getD, List.getElem?_take] at h2 ⊢
  rw [if_pos (by omega)] at h2
  exact h2

/-- The two ways `sys_semget` can end: without touching the state, or by allocating
the first free slot. -/
theorem sys_semget_cases (K : Kernel) (cfg : Seminfo) (td : Thread) (key nsems : Int)
    (semflg : Nat) (st : State) :
    (sys_semget K cfg td key nsems semflg st).st = st ∨
    ∃ semid, first_slot (fun k => ! sem_alloc k) (st.sema.take cfg.semmni.toNat) = some semid ∧
      (sys_semget K cfg td key nsems semflg st).error = 0 ∧
      (sys_semget K cfg td key nsems semflg st).st =
        semget_create K td key nsems semflg semid st ∧
      (sys_semget K cfg td key nsems semflg st).retval =
        IXSEQ_TO_IPCID semid
          ((semget_create K td key nsems semflg semid st).sema.getD semid default).u.sem_perm := by
  unfold sys_semget
  simp only
  repeat' split
  all_goals first
    | exact Or.inl rfl
    | (rename_i semid h _; exact Or.inr ⟨semid, h, rfl, rfl, rfl⟩)

theorem semget_create_slot (K : Kernel) (td : Thread) (key nsems : Int) (semflg semid : Nat)
    (st : State) (hlt : semid < st.sema.length) (i : Nat) :
    (i = semid →
      sem_alloc ((semget_create K td key nsems semflg semid st).sema.getD i default) = true ∧
      slot_seq (semget_create K td key nsems semflg semid st) i = (slot_seq st i + 1) % 32768) ∧
    (i ≠ semid →
      (semget_create K td key nsems semflg semid st).sema.getD i default = st.sema.getD i default) := by
  unfold semget_create slot_seq
  simp only [getD_set_eq]
  constructor
  · intro h
    subst h
    simp only [hlt, and_self, if_true, and_7fff, and_true]
    unfold sem_alloc
    simp only [or_and_self_right]
    decide
  · intro h
    rw [if_neg (by omega)]

theorem creates_slot_semget (K : Kernel) (cfg : Seminfo) (td : Thread) (key nsems : Int)
    (semflg : Nat) (st : State) (i : Nat) :
    (creates_slot K cfg i (Call.semget td key nsems semflg) st = true ∧
      slot_seq (sys_semget K cfg td key nsems semflg st).st i = (slot_seq st i + 1) % 32768 ∧
      (sys_semget K cfg td key nsems semflg st).error = 0 ∧
      (sys_semget K cfg td key nsems semflg st).retval =
        IXSEQ_TO_IPCID i ((sys_semget K cfg td key nsems semflg st).st.sema.getD i default).u.sem_perm) ∨
    (creates_slot K cfg i (Call.semget td key nsems semflg) st = false ∧
      slot_seq (sys_semget K cfg td key nsems semflg st).st i = slot_seq st i) := by
  unfold creates_slot step
  simp only
  rcases sys_semget_cases K cfg td key nsems semflg st with h | ⟨semid, hs, he, hst, hr⟩
  · right
    rw [h]
    simp
  · obtain ⟨h1, _, h3⟩ := first_slot_take _ _ _ _ hs
    have hc := semget_create_slot K td key nsems semflg semid st h1 i
    by_cases hi : i = semid
    · left
      obtain ⟨ha, hq⟩ := hc.1 hi
      rw [hst, ha, hq]
      subst hi
      simp only [Bool.not_eq_true'] at h3
      exact ⟨by rw [h3]; rfl, rfl, he, by rw [hr]⟩
    · right
      have hq := hc.2 hi
      rw [hst]
      unfold slot_seq
      rw [hq]
      simp

theorem step_seq (K : Kernel) (cfg : Seminfo) (c : Call) (st : State) (i : Nat) :
    slot_seq (step K cfg c st) i =
      if creates_slot K cfg i c st then (slot_seq st i + 1) % 32768 else slot_seq st i := by
  cases c with
  | semget td key nsems semflg =>
    rcases creates_slot_semget K cfg td key nsems semflg st i with h | h
    · rw [h.1]; exact h.2.1
    · rw [h.1]; exact h.2
  | semctl td semid semnum cmd arg =>
    simp only [creates_slot, step]
    exact kern_semctl_seq ..
  | semop td semid sops =>
    simp only [creates_slot, step]
    exact sys_semop_seq ..
  | wakeup td semid sops k error =>
    simp only [creates_slot, step]
    exact semop_wakeup_seq ..
  | exit p =>
    simp only [creates_slot, step]
    exact semexit_myhook_seq ..

theorem run_seq (K : Kernel) (cfg : Seminfo) (cs : List Call) (st : State) (i : Nat) :
    slot_seq (run K cfg cs st) i = seq_after (slot_seq st i) (creations K cfg i cs st) := by
  induction cs generalizing st with
  | nil => simp [run, creations, seq_after]
  | cons c rest ih =>
    simp only [run, creations]
    rw [ih, step_seq]
    unfold seq_after
    by_cases hc : creates_slot K cfg i c st = true
    · simp only [hc, if_true]
      split <;> rename_i h
      · simp [h]
      · rw [if_neg (by omega)]; omega
    · simp only [hc, Bool.false_eq_true, if_false, Nat.zero_add]

/-- C5. Sequence safety, one reuse: when a `semget` allocates slot `i` and returns
`id1`, and after any calls that do not allocate slot `i` again (among them the
`IPC_RMID` that frees it) another `semget` allocates slot `i` and returns `id2`,
both calls succeed, the stored sequence number has become `(old + 1) mod 0x8000`
and `id2` differs from `id1`. -/
theorem semget_reuse_new_identifier (K : Kernel) (cfg : Seminfo) (i : Nat) (st0 : State)
    (td1 : Thread) (key1 nsems1 : Int) (semflg1 : Nat) (mid : List Call)
    (td2 : Thread) (key2 nsems2 : Int) (semflg2 : Nat)
    (h1 : creates_slot K cfg i (Call.semget td1 key1 nsems1 semflg1) st0 = true)
    (hmid : creations K cfg i mid (sys_semget K cfg td1 key1 nsems1 semflg1 st0).st = 0)
    (h2 : creates_slot K cfg i (Call.semget td2 key2 nsems2 semflg2)
      (run K cfg mid (sys_semget K cfg td1 key1 nsems1 semflg1 st0).st) = true) :
    (sys_semget K cfg td1 key1 nsems1 semflg1 st0).error = 0 ∧
    (sys_semget K cfg td2 key2 nsems2 semflg2
      (run K cfg mid (sys_semget K cfg td1 key1 nsems1 semflg1 st0).st)).error = 0 ∧
    slot_seq (sys_semget K cfg td2 key2 nsems2 semflg2
        (run K cfg mid (sys_semget K cfg td1 key1 nsems1 semflg1 st0).st)).st i =
      (slot_seq (run K cfg mid (sys_semget K cfg td1 key1 nsems1 semflg1 st0).st) i + 1) % 0x8000 ∧
    (sys_semget K cfg td2 key2 nsems2 semflg2
      (run K cfg mid (sys_semget K cfg td1 key1 nsems1 semflg1 st0).st)).retval ≠
      (sys_semget K cfg td1 key1 nsems1 semflg1 st0).retval := by
  rcases creates_slot_semget K cfg td1 key1 nsems1 semflg1 st0 i with ⟨_, hq1, he1, hr1⟩ | ⟨hf, _⟩
  swap
  · rw [hf] at h1; exact absurd h1 (by decide)
  rcases creates_slot_semget K cfg td2 key2 nsems2 semflg2
    (run K cfg mid (sys_semget K cfg td1 key1 nsems1 semflg1 st0).st) i with
    ⟨_, hq2, he2, hr2⟩ | ⟨hf, _⟩
  swap
  · rw [hf] at h2; exact absurd h2 (by decide)
  refine ⟨he1, he2, hq2, ?_⟩
  intro heq
  have hs1 := congrArg IPCID_TO_SEQ hr1
  have hs2 := congrArg IPCID_TO_SEQ hr2
  rw [ipcid_to_seq_ixseq] at hs1 hs2
  rw [heq, hs1] at hs2
  have hrun := run_seq K cfg mid (sys_semget K cfg td1 key1 nsems1 semflg1 st0).st i
  rw [hmid] at hrun
  simp only [seq_after, if_true] at hrun
  rw [hrun] at hq2
  unfold slot_seq at hq1 hq2
  omega

theorem semget_reuse_new_identifier_witness :
    (sys_semget exKernel exCfg exThread IPC_PRIVATE 2 0o600 (seminit exCfg)).retval = 65536 ∧
    (sys_semget exKernel exCfg exThread IPC_PRIVATE 1 0o600
      (run exKernel exCfg [Call.semctl exThread 65536 0 Cmd.IPC_RMID ⟨0, default, []⟩]
        (sys_semget exKernel exCfg exThread IPC_PRIVATE 2 0o600 (seminit exCfg)).st)).retval ≠
      (sys_semget exKernel exCfg exThread IPC_PRIVATE 2 0o600 (seminit exCfg)).retval :=
  ⟨by decide,
   (semget_reuse_new_identifier exKernel exCfg 0 (seminit exCfg) exThread IPC_PRIVATE 2 0o600
      [Call.semctl exThread 65536 0 Cmd.IPC_RMID ⟨0, default, []⟩] exThread IPC_PRIVATE 1 0o600
      (by decide) (by decide) (by decide)).2.2.2⟩

/-- C6 (amended). Reuse of a slot is detectable unless the slot has been
re-allocated a multiple of 0x8000 times: for an identifier that is valid in `st`,
after any run in which its slot is allocated by `semget` a number of times `n`
that is not a multiple of 0x8000 (in particular `1 ≤ n < 0x8000`), `semvalid`
rejects the identifier with `EINVAL`. -/
theorem stale_after_reuse (K : Kernel) (cfg : Seminfo) (semid : Int) (st : State)
    (cs : List Call)
    (hvalid : semvalid semid (st.sema.getD (IPCID_TO_IX semid) default) = 0)
    (hn : creations K cfg (IPCID_TO_IX semid) cs st % 0x8000 ≠ 0) :
    semvalid semid ((run K cfg cs st).sema.getD (IPCID_TO_IX semid) default) = EINVAL := by
  apply semvalid_stale
  right
  rw [semvalid_eq_zero] at hvalid
  have hrun := run_seq K cfg cs st (IPCID_TO_IX semid)
  unfold slot_seq at hrun
  rw [hrun, hvalid.2]
  unfold seq_after
  split
  · rename_i h0; rw [h0] at hn; exact absurd rfl hn
  · omega

theorem stale_after_reuse_witness :
    semvalid 65536
      ((run exKernel exCfg
        [Call.semctl exThread 65536 0 Cmd.IPC_RMID ⟨0, default, []⟩,
         Call.semget exThread IPC_PRIVATE 2 0o600] (exState 5 7)).sema.getD (IPCID_TO_IX 65536)
        default) = EINVAL :=
  stale_after_reuse exKernel exCfg 65536 (exState 5 7)
    [Call.semctl exThread 65536 0 Cmd.IPC_RMID ⟨0, default, []⟩,
     Call.semget exThread IPC_PRIVATE 2 0o600] (by decide) (by decide)

theorem oneState_init :
    (sys_semget exKernel oneCfg exThread IPC_PRIVATE 1 0o600 (seminit oneCfg)).st = oneState 1 := by
  decide

theorem oneState_rmid (s : Nat) (hs : s < 32768) :
    step exKernel oneCfg
      (Call.semctl exThread (IXSEQ_TO_IPCID 0 { (default : IpcPerm) with seq := s }) 0 Cmd.IPC_RMID
        ⟨0, default, []⟩) (oneState s) =
      { oneState s with
        semtot := 0
        sema := [{ u := { sem_perm := { cuid := 0, cgid := 0, uid := 0, gid := 0, mode := 0,
                                        seq := s, key := 0 }
                          sem_base := 0, sem_nsems := 1, sem_otime := 0, sem_ctime := 1000 }
                   cred := none }] } := by
  have h1 : IPCID_TO_IX (IXSEQ_TO_IPCID 0 { (default : IpcPerm) with seq := s }) = 0 := by
    rw [ipcid_to_ix_ixseq]
  have h2 : IPCID_TO_SEQ (IXSEQ_TO_IPCID 0 { (default : IpcPerm) with seq := s }) = s := by
    rw [ipcid_to_seq_ixseq]; simp only; omega
  simp only [step, kern_semctl, h1, h2, semvalid, oneState, exKernel, oneCfg, seminfo]
  simp [semctl_rmid, semundo_clear, sem_alloc, SEM_ALLOC, exThread, List.range']

theorem oneState_semget (s : Nat) :
    step exKernel oneCfg (Call.semget exThread IPC_PRIVATE 1 0o600)
      { oneState s with
        semtot := 0
        sema := [{ u := { sem_perm := { cuid := 0, cgid := 0, uid := 0, gid := 0, mode := 0,
                                        seq := s, key := 0 }
                          sem_base := 0, sem_nsems := 1, sem_otime := 0, sem_ctime := 1000 }
                   cred := none }] } = oneState ((s + 1) % 32768) := by
  simp only [step, sys_semget, oneState, exKernel, oneCfg, seminfo, IPC_PRIVATE]
  simp [first_slot, sem_alloc, SEM_ALLOC, semget_create, exThread, List.range', and_7fff]
  rfl

theorem reuse_calls_run (n s : Nat) (hs : s < 32768) :
    run exKernel oneCfg (reuse_calls n s) (oneState s) = oneState ((s + n) % 32768) ∧
    creations exKernel oneCfg 0 (reuse_calls n s) (oneState s) = n := by
  induction n generalizing s with
  | zero => simp [reuse_calls, run, creations, Nat.mod_eq_of_lt hs]
  | succ n ih =>
    have hlt : (s + 1) % 32768 < 32768 := Nat.mod_lt _ (by decide)
    obtain ⟨ih1, ih2⟩ := ih ((s + 1) % 32768) hlt
    simp only [reuse_calls, run, creations]
    rw [oneState_rmid s hs, oneState_semget s, ih1, ih2]
    refine ⟨by congr 1; omega, ?_⟩
    have hc : creates_slot exKernel oneCfg 0 (Call.semget exThread IPC_PRIVATE 1 0o600)
        { oneState s with
          semtot := 0
          sema := [{ u := { sem_perm := { cuid := 0, cgid := 0, uid := 0, gid := 0, mode := 0,
                                          seq := s, key := 0 }
                            sem_base := 0, sem_nsems := 1, sem_otime := 0, sem_ctime := 1000 }
                     cred := none }] } = true := by
      unfold creates_slot
      simp only
      rw [oneState_semget s]
      simp [oneState, sem_alloc, SEM_ALLOC]
    rw [hc]
    simp only [creates_slot, Bool.false_eq_true, if_false, if_true]
    omega

/-- C6 (as stated) fails at `n = 0x8000`: identifier 65536 is issued for the set
created in slot 0 right after `seminit`; the set is then destroyed and a new one
created in slot 0, 32768 times over; the validity check still accepts 65536. -/
theorem reuse_undetected_at_0x8000 :
    (sys_semget exKernel oneCfg exThread IPC_PRIVATE 1 0o600 (seminit oneCfg)).retval = 65536 ∧
    creations exKernel oneCfg (IPCID_TO_IX 65536) (reuse_calls 32768 1)
      (sys_semget exKernel oneCfg exThread IPC_PRIVATE 1 0o600 (seminit oneCfg)).st = 32768 ∧
    semvalid 65536
      ((run exKernel oneCfg (reuse_calls 32768 1)
        (sys_semget exKernel oneCfg exThread IPC_PRIVATE 1 0o600 (seminit oneCfg)).st).sema.getD
        (IPCID_TO_IX 65536) default) = 0 := by
  rw [oneState_init]
  obtain ⟨h1, h2⟩ := reuse_calls_run 32768 1 (by decide)
  refine ⟨by decide, ?_, ?_⟩
  · rw [show IPCID_TO_IX 65536 = 0 by decide]; exact h2
  · rw [h1]; decide

/-! ## The undo structure cached across one `semop` call -/

/-- The example of the specification for the UNDO round trip: value 5, `delta = -3`
with `SEM_UNDO` gives value 2 and the undo entry +3; the exit hook gives value 5. -/
theorem undo_roundtrip_example :
    semval_of (exState 5 7) 0 0 = 5 ∧
    (∃ st1, sys_semop exKernel exCfg exThread 65536 [⟨0, -3, SEM_UNDO⟩] (exState 5 7) =
        SemopResult.ret 0 st1 ∧
      semval_of st1 0 0 = 2 ∧ undo_adjval st1 100 0 0 = 3 ∧
      ∃ st2, semexit_myhook 100 st1 = some st2 ∧ semval_of st2 0 0 = 5) := by
  refine ⟨by decide, _, rfl, by decide, by decide, _, rfl, by decide⟩

/-- C8 at its failing input. The process has no undo structure; semaphore 0 holds 5.
Its batch `-1, +1, -1` on semaphore 0, all with `SEM_UNDO` (adjustment +1 in total),
succeeds and leaves the value 4, but the second operation has emptied the
undo structure, which went to the free list, and the third entry was written into
it there: the active list is empty, the exit hook finds nothing and the value stays 4
instead of returning to 5. -/
theorem undo_roundtrip_lost :
    (exState 5 7).semu_list = [] ∧ semval_of (exState 5 7) 0 0 = 5 ∧
    ∃ st1, sys_semop exKernel exCfg exThread 65536
        [⟨0, -1, SEM_UNDO⟩, ⟨0, 1, SEM_UNDO⟩, ⟨0, -1, SEM_UNDO⟩] (exState 5 7) =
        SemopResult.ret 0 st1 ∧
      semval_of st1 0 0 = 4 ∧ st1.semu_list = [] ∧ st1.semu_free_list = [1, 0] ∧
      (SEMU st1 1).un_ent = [⟨1, 0, 0, 1⟩] ∧
      semexit_myhook 100 st1 = some st1 := by
  refine ⟨by decide, by decide, _, rfl, by decide, by decide, by decide, by decide, by decide⟩

/-- C9 at its failing input. The process holds the single undo entry (slot 0,
semaphore 0, +1). Its batch `{sem 0, +1, UNDO}, {sem 1, -16385, UNDO}` fails with
`ERANGE` in the second undo adjustment; the first adjustment had emptied the
undo structure and sent it to the free list, and the rollback re-creates the entry
in it there. After the call the structure is on the free list, not on the active list. -/
theorem undo_failure_changes_registry :
    (exStateUndo 1 20000).semu_list = [1] ∧ (exStateUndo 1 20000).semu_free_list = [0] ∧
    undo_adjval (exStateUndo 1 20000) 100 0 0 = 1 ∧
    ∃ st1, sys_semop exKernel exCfg exThread 65536
        [⟨0, 1, SEM_UNDO⟩, ⟨1, -16385, SEM_UNDO⟩] (exStateUndo 1 20000) =
        SemopResult.ret ERANGE st1 ∧
      st1.semu_list = [] ∧ st1.semu_free_list = [1, 0] ∧
      (SEMU st1 1).un_ent = [⟨1, 0, 0, 1⟩] ∧ undo_adjval st1 100 0 0 = 0 ∧
      st1.sem = (exStateUndo 1 20000).sem := by
  refine ⟨by decide, by decide, by decide, _, rfl, by decide, by decide, by decide, by decide,
    by decide⟩

/-- C10 at its failing input. The process holds the single undo entry (slot 0,
semaphore 0, +1). Its batch `{sem 0, +1, UNDO}, {sem 1, -1, UNDO}` succeeds; the
adjustment for semaphore 1 should go from 0 to +1, but it was written into the
undo structure after that structure had been moved to the free list, so the
adjustment read from the active list is still 0. -/
theorem undo_commit_lost :
    undo_adjval (exStateUndo 1 7) 100 0 1 = 0 ∧
    ∃ st1, sys_semop exKernel exCfg exThread 65536
        [⟨0, 1, SEM_UNDO⟩, ⟨1, -1, SEM_UNDO⟩] (exStateUndo 1 7) = SemopResult.ret 0 st1 ∧
      semval_of st1 0 1 = 6 ∧
      undo_adjval st1 100 0 1 = 0 ∧ st1.semu_list = [] ∧ st1.semu_free_list = [1, 0] ∧
      (SEMU st1 1).un_ent = [⟨1, 1, 0, 1⟩] := by
  refine ⟨by decide, _, rfl, by decide, by decide, by decide, by decide, by decide⟩

/-! ## Checks made before and during the walk -/

theorem semop_check_none (nsems : Nat) (sops : List Sembuf) (j : Nat)
    (h : ∃ o ∈ sops, o.sem_num ≥ nsems) : semop_check nsems sops j = none := by
  induction sops generalizing j with
  | nil => obtain ⟨o, ho, _⟩ := h; exact absurd ho (List.not_mem_nil o)
  | cons a as ih =>
    unfold semop_check
    by_cases ha : a.sem_num ≥ nsems
    · simp only [ha, if_true]
    · simp only [ha, if_false]
      apply ih
      obtain ⟨o, ho, hn⟩ := h
      rcases List.mem_cons.mp ho with h1 | h1
      · subst h1; exact absurd hn ha
      · exact ⟨o, h1, hn⟩

/-- C11. Out-of-range index fails before any attempt: for an identifier that names
an allocated set of `sem_nsems` semaphores and a batch (within the length limits)
in which at least one operation has `sem_num >= sem_nsems`, `sys_semop` returns
`EFBIG` and the state is the one of before the call (no semaphore value, wait
counter, undo entry, pid or time changes), whatever the other operations, the
current values and the permissions are. -/
theorem semop_index_too_big (K : Kernel) (cfg : Seminfo) (td : Thread) (uap_semid : Int)
    (sops : List Sembuf) (st : State)
    (hjail : K.prison_allow td = true)
    (hix : (IPCID_TO_IX uap_semid : Int) < cfg.semmni)
    (hlen : ¬ ((sops.length : Int) > 8 ∧ (sops.length : Int) > cfg.semopm))
    (hracct : ¬ ((sops.length : Int) > 8 ∧ K.racct_enable = true ∧
      (sops.length : Int) > K.racct_get_available td))
    (hvalid : semvalid uap_semid (st.sema.getD (IPCID_TO_IX uap_semid) default) = 0)
    (hbig : ∃ o ∈ sops,
      o.sem_num ≥ (st.sema.getD (IPCID_TO_IX uap_semid) default).u.sem_nsems) :
    sys_semop K cfg td uap_semid sops st = SemopResult.ret EFBIG st := by
  rw [semvalid_eq_zero] at hvalid
  unfold sys_semop
  simp only [hjail, not_true_eq_false, if_false, hlen, hracct, hvalid.1, hvalid.2,
    semop_check_none _ sops 0 hbig, ne_eq]
  rw [if_neg (by omega)]

theorem semop_index_too_big_witness :
    sys_semop exKernel exCfg exThread 65536 [⟨0, 1, 0⟩, ⟨2, 0, 0⟩, ⟨1, -1, 0⟩] (exState 5 7) =
      SemopResult.ret EFBIG (exState 5 7) :=
  semop_index_too_big exKernel exCfg exThread 65536 [⟨0, 1, 0⟩, ⟨2, 0, 0⟩, ⟨1, -1, 0⟩]
    (exState 5 7) rfl (by decide) (by decide) (by decide) (by decide)
    ⟨⟨2, 0, 0⟩, by decide, by decide⟩

/-- C12. Range error is a hard error: in a call that gets past the initial checks,
when the in-order walk of the batch reaches, before any operation that cannot
proceed, an operation with `delta > 0` and `value + delta > semvmx`, `sys_semop`
returns `ERANGE` at once, whatever the flags of that operation: it does not sleep
and the state, wait counters included, is the one of before the call. -/
theorem semop_range_error (K : Kernel) (cfg : Seminfo) (td : Thread) (uap_semid : Int)
    (sops : List Sembuf) (st : State) (i : Nat)
    (hwf : PoolWf st.sem) (hvmx : cfg.semvmx ≤ 65535)
    (hadm : SemopAdmitted K cfg td uap_semid sops st)
    (hlay : (st.sema.getD (IPCID_TO_IX uap_semid) default).u.sem_base +
      (st.sema.getD (IPCID_TO_IX uap_semid) default).u.sem_nsems ≤ st.sem.length)
    (hwalk : walk cfg.semvmx sops 0 (set_values st (IPCID_TO_IX uap_semid)) =
      WalkResult.range_error i) :
    sys_semop K cfg td uap_semid sops st = SemopResult.ret ERANGE st := by
  rw [sys_semop_admitted K cfg td uap_semid sops st hadm]
  have hin : ∀ o ∈ sops,
      (st.sema.getD (IPCID_TO_IX uap_semid) default).u.sem_base + o.sem_num < st.sem.length := by
    intro o ho
    have := hadm.2.2.2.2.2.1 o ho
    omega
  have hw := semop_try_walk cfg (st.sema.getD (IPCID_TO_IX uap_semid) default).u.sem_base hvmx
    sops 0 false st.sem hwf hin
  have hwalk' : walk cfg.semvmx sops 0
      (fun n => (((st.sem.getD ((st.sema.getD (IPCID_TO_IX uap_semid) default).u.sem_base + n)
        default).semval : Nat) : Int)) = WalkResult.range_error i := hwalk
  rw [hwalk'] at hw
  simp only at hw
  obtain ⟨k, hk, h1, h2⟩ :=
    semop_try_apply cfg (st.sema.getD (IPCID_TO_IX uap_semid) default).u.sem_base sops 0 false
      st.sem hwf
  unfold semop_loop
  simp only
  rw [h2, hw.1, hw.2.1]
  have hki : k = i := by rw [hw.1] at h1; omega
  subst hki
  rw [semop_rollback_apply _ _ _ hwf]
  rw [if_neg (by omega)]
  rw [if_pos (by decide)]

theorem semop_range_error_witness :
    sys_semop exKernelMode exCfg exThread 65536 [⟨0, 1, 0⟩, ⟨1, 32761, 0⟩, ⟨0, -9, 0⟩]
        (exState 5 7) =
      SemopResult.ret ERANGE (exState 5 7) :=
  semop_range_error exKernelMode exCfg exThread 65536 [⟨0, 1, 0⟩, ⟨1, 32761, 0⟩, ⟨0, -9, 0⟩]
    (exState 5 7) 1 (by decide) (by decide)
    ⟨rfl, by decide, by decide, by decide, by decide, by decide,
      fun j hj => by cases hj; decide⟩
    (by decide) (by rfl)

/-! ## `SETVAL` and `GETVAL` -/

theorem kern_semctl_setval (K : Kernel) (cfg : Seminfo) (td : Thread) (semid semnum : Int)
    (arg : Semun) (st : State)
    (hjail : K.prison_allow td = true)
    (hix : (IPCID_TO_IX semid : Int) < cfg.semmni)
    (hvalid : semvalid semid (st.sema.getD (IPCID_TO_IX semid) default) = 0)
    (hperm : K.ipcperm td (st.sema.getD (IPCID_TO_IX semid) default).u.sem_perm IPC_W = 0)
    (hnum : 0 ≤ semnum ∧ semnum < (st.sema.getD (IPCID_TO_IX semid) default).u.sem_nsems) :
    kern_semctl K cfg td semid semnum Cmd.SETVAL arg st =
      if arg.val < 0 ∨ arg.val > cfg.semvmx then ⟨ERANGE, 0, none, none, st⟩
      else
        ⟨0, 0, none, none,
          semundo_clear (IPCID_TO_IX semid) semnum
            { st with
              sem := st.sem.set
                ((st.sema.getD (IPCID_TO_IX semid) default).u.sem_base + semnum.toNat)
                { st.sem.getD
                    ((st.sema.getD (IPCID_TO_IX semid) default).u.sem_base + semnum.toNat)
                    default with semval := (arg.val % 65536).toNat } }⟩ := by
  unfold kern_semctl
  simp only [hjail, not_true_eq_false, if_false, hvalid, hperm, ne_eq]
  rw [if_neg (by decide), if_neg (by omega)]
  simp only [if_false, true_and]
  rw [if_neg (by omega)]

theorem kern_semctl_getval (K : Kernel) (cfg : Seminfo) (td : Thread) (semid semnum : Int)
    (arg : Semun) (st : State)
    (hjail : K.prison_allow td = true)
    (hix : (IPCID_TO_IX semid : Int) < cfg.semmni)
    (hvalid : semvalid semid (st.sema.getD (IPCID_TO_IX semid) default) = 0)
    (hperm : K.ipcperm td (st.sema.getD (IPCID_TO_IX semid) default).u.sem_perm IPC_R = 0)
    (hnum : 0 ≤ semnum ∧ semnum < (st.sema.getD (IPCID_TO_IX semid) default).u.sem_nsems) :
    kern_semctl K cfg td semid semnum Cmd.GETVAL arg st =
      ⟨0, (st.sem.getD ((st.sema.getD (IPCID_TO_IX semid) default).u.sem_base + semnum.toNat)
          default).semval, none, none, st⟩ := by
  unfold kern_semctl
  simp only [hjail, not_true_eq_false, if_false, hvalid, hperm, ne_eq]
  rw [if_neg (by decide), if_neg (by omega)]
  simp only [if_false, true_and]
  rw [if_neg (by omega)]

/-- C13. `SETVAL` range enforcement: for a valid identifier, a semaphore index inside
the set and write permission granted, `SETVAL` with a negative value or a value
above `semvmx` (so with `semvmx + 1`) returns `ERANGE` and leaves the whole state,
the value and the undo entries included, unchanged; with a value `v` in
`[0, semvmx]` (so with `semvmx` itself) it returns 0 and a `GETVAL` of that
semaphore made next, by any thread with read permission, returns `v`. -/
theorem setval_range (K : Kernel) (cfg : Seminfo) (td : Thread) (semid semnum : Int)
    (arg : Semun) (st : State)
    (hvmx : cfg.semvmx ≤ 65535)
    (hjail : K.prison_allow td = true)
    (hix : (IPCID_TO_IX semid : Int) < cfg.semmni)
    (hvalid : semvalid semid (st.sema.getD (IPCID_TO_IX semid) default) = 0)
    (hperm : K.ipcperm td (st.sema.getD (IPCID_TO_IX semid) default).u.sem_perm IPC_W = 0)
    (hnum : 0 ≤ semnum ∧ semnum < (st.sema.getD (IPCID_TO_IX semid) default).u.sem_nsems)
    (hlay : (st.sema.getD (IPCID_TO_IX semid) default).u.sem_base +
      (st.sema.getD (IPCID_TO_IX semid) default).u.sem_nsems ≤ st.sem.length) :
    ((arg.val < 0 ∨ arg.val > cfg.semvmx) →
      (kern_semctl K cfg td semid semnum Cmd.SETVAL arg st).error = ERANGE ∧
      (kern_semctl K cfg td semid semnum Cmd.SETVAL arg st).st = st) ∧
    ((0 ≤ arg.val ∧ arg.val ≤ cfg.semvmx) →
      (kern_semctl K cfg td semid semnum Cmd.SETVAL arg st).error = 0 ∧
      ∀ (td2 : Thread) (arg2 : Semun), K.prison_allow td2 = true →
        K.ipcperm td2 (st.sema.getD (IPCID_TO_IX semid) default).u.sem_perm IPC_R = 0 →
        (kern_semctl K cfg td2 semid semnum Cmd.GETVAL arg2
          (kern_semctl K cfg td semid semnum Cmd.SETVAL arg st).st).error = 0 ∧
        (kern_semctl K cfg td2 semid semnum Cmd.GETVAL arg2
          (kern_semctl K cfg td semid semnum Cmd.SETVAL arg st).st).rval = arg.val) := by
  rw [kern_semctl_setval K cfg td semid semnum arg st hjail hix hvalid hperm hnum]
  constructor
  · intro h
    rw [if_pos h]
    exact ⟨rfl, rfl⟩
  · intro h
    rw [if_neg (by omega)]
    refine ⟨rfl, ?_⟩
    intro td2 arg2 hjail2 hperm2
    simp only
    have hs := semundo_clear_sets (IPCID_TO_IX semid) semnum
      { st with
        sem := st.sem.set
          ((st.sema.getD (IPCID_TO_IX semid) default).u.sem_base + semnum.toNat)
          { st.sem.getD
              ((st.sema.getD (IPCID_TO_IX semid) default).u.sem_base + semnum.toNat)
              default with semval := (arg.val % 65536).toNat } }
    obtain ⟨hs1, hs2, _⟩ := hs
    simp only at hs1 hs2
    rw [kern_semctl_getval K cfg td2 semid semnum arg2 _ hjail2 hix (by rw [hs2]; exact hvalid)
      (by rw [hs2]; exact hperm2) (by rw [hs2]; exact hnum)]
    refine ⟨rfl, ?_⟩
    simp only [hs1, hs2, getD_set_eq]
    split
    · simp only
      omega
    · rename_i hneg
      exact absurd ⟨trivial, by omega⟩ hneg

theorem setval_range_witness :
    ((kern_semctl exKernel exCfg exThread 65536 1 Cmd.SETVAL ⟨32768, default, []⟩
        (exState 5 7)).error = ERANGE ∧
      (kern_semctl exKernel exCfg exThread 65536 1 Cmd.SETVAL ⟨32768, default, []⟩
        (exState 5 7)).st = exState 5 7) ∧
    (kern_semctl exKernel exCfg exThread 65536 1 Cmd.GETVAL ⟨0, default, []⟩
      (kern_semctl exKernel exCfg exThread 65536 1 Cmd.SETVAL ⟨32767, default, []⟩
        (exState 5 7)).st).rval = 32767 :=
  ⟨(setval_range exKernel exCfg exThread 65536 1 ⟨32768, default, []⟩ (exState 5 7)
      (by decide) rfl (by decide) (by decide) rfl (by decide) (by decide)).1 (Or.inr (by decide)),
   (((setval_range exKernel exCfg exThread 65536 1 ⟨32767, default, []⟩ (exState 5 7)
      (by decide) rfl (by decide) (by decide) rfl (by decide) (by decide)).2
      ⟨by decide, by decide⟩).2 exThread ⟨0, default, []⟩ rfl rfl).2⟩

/-! ## `SETALL` -/

theorem semctl_setall_stop (cfg : Seminfo) (base : Nat) (array : List Nat) (n i k : Nat)
    (pool : List Sem) (hik : i ≤ k) (hkn : k < i + n)
    (hbefore : ∀ j, i ≤ j → j < k → ((array.getD j 0 % 65536 : Nat) : Int) ≤ cfg.semvmx)
    (hk : ((array.getD k 0 % 65536 : Nat) : Int) > cfg.semvmx) :
    (semctl_setall cfg base array n i pool).1 = ERANGE ∧
    ∀ idx, (semctl_setall cfg base array n i pool).2.getD idx default =
      if base + i ≤ idx ∧ idx < base + k ∧ idx < pool.length then
        { pool.getD idx default with semval := array.getD (idx - base) 0 % 65536 }
      else pool.getD idx default := by
  induction n generalizing i pool with
  | zero => omega
  | succ n ih =>
    unfold semctl_setall
    simp only
    by_cases hi : i = k
    · subst hi
      rw [if_pos hk]
      refine ⟨rfl, fun idx => ?_⟩
      rw [if_neg (by omega)]
    · have h1 := hbefore i (Nat.le_refl i) (by omega)
      rw [if_neg (by omega)]
      obtain ⟨e, hget⟩ := ih (i + 1)
        (pool.set (base + i) { pool.getD (base + i) default with semval := array.getD i 0 % 65536 })
        (by omega) (by omega) (fun j hj1 hj2 => hbefore j (by omega) hj2)
      refine ⟨e, fun idx => ?_⟩
      rw [hget idx, getD_set_eq, List.length_set]
      by_cases hidx : base + i = idx
      · subst hidx
        by_cases hlen : base + i < pool.length
        · rw [if_neg (by omega), if_pos ⟨rfl, hlen⟩, if_pos ⟨Nat.le_refl _, by omega, hlen⟩]
          simp
        · rw [if_neg (by omega), if_neg (by omega), if_neg (by omega)]
      · by_cases hc : base + (i + 1) ≤ idx ∧ idx < base + k ∧ idx < pool.length
        · rw [if_pos hc, if_neg (by omega), if_pos ⟨by omega, hc.2.1, hc.2.2⟩]
        · rw [if_neg hc, if_neg (by omega), if_neg (by omega)]

/-- C14 (as stated) fails: `SETALL` of the array `[9, 40000]` on the set with values
5 and 7 returns `ERANGE` for the second element, but the first semaphore has already
been given the value 9. -/
theorem setall_partial_commit :
    semval_of (exState 5 7) 0 0 = 5 ∧
    (kern_semctl exKernel exCfg exThread 65536 0 Cmd.SETALL ⟨0, default, [9, 40000]⟩
      (exState 5 7)).error = ERANGE ∧
    semval_of (kern_semctl exKernel exCfg exThread 65536 0 Cmd.SETALL ⟨0, default, [9, 40000]⟩
      (exState 5 7)).st 0 0 = 9 := by
  decide

/-- C14 (amended). `SETALL` checks the elements in index order while it stores
them: for a valid identifier with write permission, when `k` is the first index of
the set whose element exceeds `semvmx`, `SETALL` returns `ERANGE`, the descriptors
are unchanged, every semaphore outside the indices before `k` of the set (so the
one at `k`, those after it and those of other sets) is unchanged, and the
semaphores of the set before `k` hold the elements of the array. -/
theorem setall_stops_at_first_bad (K : Kernel) (cfg : Seminfo) (td : Thread) (semid semnum : Int)
    (arg : Semun) (st : State) (k : Nat)
    (hjail : K.prison_allow td = true)
    (hix : (IPCID_TO_IX semid : Int) < cfg.semmni)
    (hvalid : semvalid semid (st.sema.getD (IPCID_TO_IX semid) default) = 0)
    (hperm : K.ipcperm td (st.sema.getD (IPCID_TO_IX semid) default).u.sem_perm IPC_W = 0)
    (hlay : (st.sema.getD (IPCID_TO_IX semid) default).u.sem_base +
      (st.sema.getD (IPCID_TO_IX semid) default).u.sem_nsems ≤ st.sem.length)
    (hk : k < (st.sema.getD (IPCID_TO_IX semid) default).u.sem_nsems)
    (hbefore : ∀ j, j < k → ((arg.array.getD j 0 % 65536 : Nat) : Int) ≤ cfg.semvmx)
    (hbad : ((arg.array.getD k 0 % 65536 : Nat) : Int) > cfg.semvmx) :
    (kern_semctl K cfg td semid semnum Cmd.SETALL arg st).error = ERANGE ∧
    (kern_semctl K cfg td semid semnum Cmd.SETALL arg st).st.sema = st.sema ∧
    (∀ idx, (idx < (st.sema.getD (IPCID_TO_IX semid) default).u.sem_base ∨
        (st.sema.getD (IPCID_TO_IX semid) default).u.sem_base + k ≤ idx) →
      (kern_semctl K cfg td semid semnum Cmd.SETALL arg st).st.sem.getD idx default =
        st.sem.getD idx default) ∧
    (∀ j, j < k →
      semval_of (kern_semctl K cfg td semid semnum Cmd.SETALL arg st).st (IPCID_TO_IX semid) j =
        arg.array.getD j 0 % 65536) := by
  obtain ⟨he, hget⟩ := semctl_setall_stop cfg (st.sema.getD (IPCID_TO_IX semid) default).u.sem_base
    arg.array (st.sema.getD (IPCID_TO_IX semid) default).u.sem_nsems 0 k st.sem (Nat.zero_le k)
    (by omega) (fun j _ hj => hbefore j hj) hbad
  have hs := semundo_clear_sets (IPCID_TO_IX semid) (-1)
    { st with
      sem := (semctl_setall cfg (st.sema.getD (IPCID_TO_IX semid) default).u.sem_base arg.array
        (st.sema.getD (IPCID_TO_IX semid) default).u.sem_nsems 0 st.sem).2 }
  obtain ⟨hs1, hs2, _⟩ := hs
  simp only at hs1 hs2
  have hres : kern_semctl K cfg td semid semnum Cmd.SETALL arg st =
      ⟨(semctl_setall cfg (st.sema.getD (IPCID_TO_IX semid) default).u.sem_base arg.array
          (st.sema.getD (IPCID_TO_IX semid) default).u.sem_nsems 0 st.sem).1, 0, none, none,
        semundo_clear (IPCID_TO_IX semid) (-1)
          { st with
            sem := (semctl_setall cfg (st.sema.getD (IPCID_TO_IX semid) default).u.sem_base
              arg.array (st.sema.getD (IPCID_TO_IX semid) default).u.sem_nsems 0 st.sem).2 }⟩ := by
    unfold kern_semctl
    simp only [hjail, not_true_eq_false, if_false, hvalid, hperm, ne_eq]
    rw [if_neg (by decide), if_neg (by omega)]
    simp
  rw [hres]
  simp only [he, hs1, hs2, true_and]
  constructor
  · intro idx hidx
    rw [hget idx, if_neg (by omega)]
  · intro j hj
    unfold semval_of sem_index
    simp only [hs1, hs2]
    rw [hget, if_pos ⟨by omega, by omega, by omega⟩]
    simp

theorem setall_stops_at_first_bad_witness :
    (kern_semctl exKernel exCfg exThread 65536 0 Cmd.SETALL ⟨0, default, [9, 40000]⟩
      (exState 5 7)).error = ERANGE ∧
    semval_of (kern_semctl exKernel exCfg exThread 65536 0 Cmd.SETALL ⟨0, default, [9, 40000]⟩
      (exState 5 7)).st (IPCID_TO_IX 65536) 0 = [9, 40000].getD 0 0 % 65536 :=
  ⟨(setall_stops_at_first_bad exKernel exCfg exThread 65536 0 ⟨0, default, [9, 40000]⟩
      (exState 5 7) 1 rfl (by decide) (by decide) rfl (by decide) (by decide)
      (fun j hj => by have h0 : j = 0 := by omega
                      subst h0; decide) (by decide)).1,
   (setall_stops_at_first_bad exKernel exCfg exThread 65536 0 ⟨0, default, [9, 40000]⟩
      (exState 5 7) 1 rfl (by decide) (by decide) rfl (by decide) (by decide)
      (fun j hj => by have h0 : j = 0 := by omega
                      subst h0; decide) (by decide)).2.2.2 0 (by decide)⟩

/-! ## `semundo_clear` on an undo structure with several entries of one set -/

/-- C15 at its failing input. The process holds the undo entries (slot 0, sem 0, +1)
and (slot 0, sem 1, +1). `IPC_RMID` of the set in slot 0 succeeds, but
`semundo_clear` deletes the first entry by copying the last one into its place and
goes on with the next index, so the copied entry (slot 0, sem 1, +1) is never
looked at and stays in the structure, which stays on the active list. -/
theorem rmid_leaves_undo_entry :
    (exStateUndo2 5 7).semu_list = [1] ∧
    (SEMU (exStateUndo2 5 7) 1).un_ent = [⟨1, 0, 0, 1⟩, ⟨1, 1, 0, 1⟩] ∧
    (kern_semctl exKernel exCfg exThread 65536 0 Cmd.IPC_RMID ⟨0, default, []⟩
      (exStateUndo2 5 7)).error = 0 ∧
    sem_alloc ((kern_semctl exKernel exCfg exThread 65536 0 Cmd.IPC_RMID ⟨0, default, []⟩
      (exStateUndo2 5 7)).st.sema.getD 0 default) = false ∧
    (kern_semctl exKernel exCfg exThread 65536 0 Cmd.IPC_RMID ⟨0, default, []⟩
      (exStateUndo2 5 7)).st.semu_list = [1] ∧
    (SEMU (kern_semctl exKernel exCfg exThread 65536 0 Cmd.IPC_RMID ⟨0, default, []⟩
      (exStateUndo2 5 7)).st 1).un_ent = [⟨1, 1, 0, 1⟩] := by
  decide

/-- C16 at its failing input. The process holds the undo entries (slot 0, sem 0, +1)
and (slot 0, sem 1, +1). `SETVAL` of semaphore 1 to 3 succeeds, but
`semundo_clear` stops its scan at the first entry of slot 0, which is the one of
semaphore 0, so the entry (slot 0, sem 1, +1) stays in the structure. -/
theorem setval_leaves_undo_entry :
    (SEMU (exStateUndo2 5 7) 1).un_ent = [⟨1, 0, 0, 1⟩, ⟨1, 1, 0, 1⟩] ∧
    (kern_semctl exKernel exCfg exThread 65536 1 Cmd.SETVAL ⟨3, default, []⟩
      (exStateUndo2 5 7)).error = 0 ∧
    semval_of (kern_semctl exKernel exCfg exThread 65536 1 Cmd.SETVAL ⟨3, default, []⟩
      (exStateUndo2 5 7)).st 0 1 = 3 ∧
    (kern_semctl exKernel exCfg exThread 65536 1 Cmd.SETVAL ⟨3, default, []⟩
      (exStateUndo2 5 7)).st.semu_list = [1] ∧
    (SEMU (kern_semctl exKernel exCfg exThread 65536 1 Cmd.SETVAL ⟨3, default, []⟩
      (exStateUndo2 5 7)).st 1).un_ent = [⟨1, 0, 0, 1⟩, ⟨1, 1, 0, 1⟩] ∧
    undo_adjval (kern_semctl exKernel exCfg exThread 65536 1 Cmd.SETVAL ⟨3, default, []⟩
      (exStateUndo2 5 7)).st 100 0 1 = 1 ∧
    (semexit_myhook 100 (kern_semctl exKernel exCfg exThread 65536 1 Cmd.SETVAL ⟨3, default, []⟩
      (exStateUndo2 5 7)).st).map (fun s => semval_of s 0 1) = some 4 := by
  decide

/-! ## `IPC_RMID`: compaction of the pool -/

theorem rmid_compact_getD (n : Nat) (m start : Nat) (pool : List Sem) (idx : Nat) :
    ((List.range' start m).foldl (fun p i => p.set i (p.getD (i + n) default)) pool).getD idx
        default =
      if start ≤ idx ∧ idx < start + m ∧ idx < pool.length then pool.getD (idx + n) default
      else pool.getD idx default := by
  induction m generalizing start pool with
  | zero =>
    simp only [List.range', List.foldl_nil]
    rw [if_neg (by omega)]
  | succ m ih =>
    simp only [List.range', List.foldl_cons]
    rw [ih, List.length_set]
    by_cases hc : start + 1 ≤ idx ∧ idx < start + 1 + m ∧ idx < pool.length
    · rw [if_pos hc, if_pos ⟨by omega, by omega, hc.2.2⟩, getD_set_eq, if_neg (by omega)]
    · rw [if_neg hc, getD_set_eq]
      by_cases hs : start = idx
      · subst hs
        by_cases hl : start < pool.length
        · rw [if_pos ⟨rfl, hl⟩, if_pos ⟨Nat.le_refl _, by omega, hl⟩]
        · rw [if_neg (by omega), if_neg (by omega)]
      · rw [if_neg (by omega), if_neg (by omega)]

theorem getD_map_lt (l : List SemidKernel) (f : SemidKernel → SemidKernel) (i : Nat)
    (h : i < l.length) : (l.map f).getD i default = f (l.getD i default) := by
  simp only [List.getD_eq_getElem?_getD, List.getElem?_map, List.getElem?_eq_getElem h,
    Option.map_some', Option.getD_some]

theorem sem_alloc_lt (l : List SemidKernel) (i : Nat)
    (h : sem_alloc (l.getD i default) = true) : i < l.length := by
  by_contra hn
  rw [List.getD_eq_getElem?_getD, List.getElem?_eq_none (Nat.le_of_not_lt hn)] at h
  exact absurd h (by decide)

theorem kern_semctl_rmid (K : Kernel) (cfg : Seminfo) (td : Thread) (semid semnum : Int)
    (arg : Semun) (st : State)
    (hjail : K.prison_allow td = true)
    (hix : (IPCID_TO_IX semid : Int) < cfg.semmni)
    (hvalid : semvalid semid (st.sema.getD (IPCID_TO_IX semid) default) = 0)
    (hperm : K.ipcperm td (st.sema.getD (IPCID_TO_IX semid) default).u.sem_perm IPC_M = 0) :
    kern_semctl K cfg td semid semnum Cmd.IPC_RMID arg st =
      ⟨0, 0, none, none, semctl_rmid td (IPCID_TO_IX semid) st⟩ := by
  unfold kern_semctl
  simp only [hjail, not_true_eq_false, if_false, hvalid, hperm, ne_eq]
  rw [if_neg (by decide), if_neg (by omega)]
  simp

theorem semctl_rmid_sema (td : Thread) (semidx : Nat) (st : State) :
    (semctl_rmid td semidx st).sema =
      (st.sema.set semidx
        { u := { (st.sema.getD semidx default).u with
                 sem_perm := { (st.sema.getD semidx default).u.sem_perm with
                               cuid := td.td_ucred.cr_uid, uid := td.td_ucred.cr_uid, mode := 0 } }
          cred := none }).map (fun k =>
        if sem_alloc k ∧ k.u.sem_base > (st.sema.getD semidx default).u.sem_base
        then { k with u := { k.u with
                 sem_base := k.u.sem_base - (st.sema.getD semidx default).u.sem_nsems } }
        else k) := by
  unfold semctl_rmid
  simp only
  rw [(semundo_clear_sets _ _ _).2.1]

theorem semctl_rmid_sem (td : Thread) (semidx : Nat) (st : State) (idx : Nat) :
    (semctl_rmid td semidx st).sem.getD idx default =
      if (st.sema.getD semidx default).u.sem_base ≤ idx ∧ idx < st.semtot ∧ idx < st.sem.length
      then st.sem.getD (idx + (st.sema.getD semidx default).u.sem_nsems) default
      else st.sem.getD idx default := by
  unfold semctl_rmid
  simp only
  rw [rmid_compact_getD, (semundo_clear_sets _ _ _).1]
  simp only
  by_cases h : (st.sema.getD semidx default).u.sem_base ≤ idx ∧ idx < st.semtot ∧
      idx < st.sem.length
  · rw [if_pos h, if_pos ⟨h.1, by omega, h.2.2⟩]
  · rw [if_neg h, if_neg (by omega)]

/-- C17. `IPC_RMID` preserves every other set: after a successful `IPC_RMID` of the
set in slot `r` with `n` semaphores, in a state with a well-formed pool layout, slot
`r` is free, `semtot` has decreased by exactly `n`, and every other allocated slot
`k` keeps its descriptor (count, permissions, key, sequence number, times) except
that its base is reduced by exactly `n` when it was above the base of `r` and is
untouched otherwise; read through the new base, each of its semaphores has the same
contents (value, pid, both wait counters) as before. -/
theorem rmid_preserves_other_sets (K : Kernel) (cfg : Seminfo) (td : Thread) (semid semnum : Int)
    (arg : Semun) (st : State)
    (hjail : K.prison_allow td = true)
    (hix : (IPCID_TO_IX semid : Int) < cfg.semmni)
    (hvalid : semvalid semid (st.sema.getD (IPCID_TO_IX semid) default) = 0)
    (hperm : K.ipcperm td (st.sema.getD (IPCID_TO_IX semid) default).u.sem_perm IPC_M = 0)
    (hlay : LayoutWf st) :
    (kern_semctl K cfg td semid semnum Cmd.IPC_RMID arg st).error = 0 ∧
    sem_alloc ((kern_semctl K cfg td semid semnum Cmd.IPC_RMID arg st).st.sema.getD
      (IPCID_TO_IX semid) default) = false ∧
    (kern_semctl K cfg td semid semnum Cmd.IPC_RMID arg st).st.semtot +
      (st.sema.getD (IPCID_TO_IX semid) default).u.sem_nsems = st.semtot ∧
    ∀ k, k ≠ IPCID_TO_IX semid → sem_alloc (st.sema.getD k default) = true →
      (kern_semctl K cfg td semid semnum Cmd.IPC_RMID arg st).st.sema.getD k default =
        { st.sema.getD k default with
          u := { (st.sema.getD k default).u with
                 sem_base :=
                   if (st.sema.getD k default).u.sem_base >
                       (st.sema.getD (IPCID_TO_IX semid) default).u.sem_base
                   then (st.sema.getD k default).u.sem_base -
                       (st.sema.getD (IPCID_TO_IX semid) default).u.sem_nsems
                   else (st.sema.getD k default).u.sem_base } } ∧
      ((st.sema.getD k default).u.sem_base >
          (st.sema.getD (IPCID_TO_IX semid) default).u.sem_base →
        (st.sema.getD (IPCID_TO_IX semid) default).u.sem_nsems ≤
          (st.sema.getD k default).u.sem_base) ∧
      ∀ j, j < (st.sema.getD k default).u.sem_nsems →
        set_sem (kern_semctl K cfg td semid semnum Cmd.IPC_RMID arg st).st k j = set_sem st k j := by
  rw [kern_semctl_rmid K cfg td semid semnum arg st hjail hix hvalid hperm]
  simp only
  obtain ⟨hlen, hin, hdis⟩ := hlay
  have hr := ((semvalid_eq_zero _ _).mp hvalid).1
  have hrlt := sem_alloc_lt _ _ hr
  refine ⟨trivial, ?_, ?_, ?_⟩
  · rw [semctl_rmid_sema, getD_map_lt _ _ _ (by rw [List.length_set]; exact hrlt), getD_set_eq]
    simp only [hrlt, and_self, if_true]
    rw [if_neg (by simp [sem_alloc])]
    simp [sem_alloc]
  · have := hin _ hr
    show st.semtot - _ + _ = st.semtot
    omega
  · intro k hk hka
    have hklt := sem_alloc_lt _ _ hka
    have hd := hdis k (IPCID_TO_IX semid) hk hka hr
    have hkin := hin k hka
    have hsema : (semctl_rmid td (IPCID_TO_IX semid) st).sema.getD k default =
        { st.sema.getD k default with
          u := { (st.sema.getD k default).u with
                 sem_base :=
                   if (st.sema.getD k default).u.sem_base >
                       (st.sema.getD (IPCID_TO_IX semid) default).u.sem_base
                   then (st.sema.getD k default).u.sem_base -
                       (st.sema.getD (IPCID_TO_IX semid) default).u.sem_nsems
                   else (st.sema.getD k default).u.sem_base } } := by
      rw [semctl_rmid_sema, getD_map_lt _ _ _ (by rw [List.length_set]; exact hklt), getD_set_eq]
      simp only [if_neg (fun h : IPCID_TO_IX semid = k ∧ IPCID_TO_IX semid < st.sema.length =>
        hk h.1.symm)]
      by_cases hab : (st.sema.getD k default).u.sem_base >
          (st.sema.getD (IPCID_TO_IX semid) default).u.sem_base
      · rw [if_pos ⟨hka, hab⟩, if_pos hab]
      · rw [if_neg (by tauto), if_neg hab]
    refine ⟨hsema, fun hab => by omega, fun j hj => ?_⟩
    unfold set_sem sem_index
    rw [hsema, semctl_rmid_sem]
    simp only
    by_cases hab : (st.sema.getD k default).u.sem_base >
        (st.sema.getD (IPCID_TO_IX semid) default).u.sem_base
    · rw [if_pos hab, if_pos ⟨by omega, by omega, by omega⟩]
      congr 1
      omega
    · rw [if_neg hab]
      by_cases hz : (st.sema.getD (IPCID_TO_IX semid) default).u.sem_nsems = 0
      · rw [hz]
        split <;> rfl
      · rw [if_neg (by omega)]

theorem layout_of_bounded (st : State) (h : LayoutWfBounded st) : LayoutWf st := by
  obtain ⟨h1, h2, h3⟩ := h
  exact ⟨h1, fun i hi => h2 i (List.mem_range.mpr (sem_alloc_lt _ _ hi)) hi,
    fun i j hij hi hj => h3 i (List.mem_range.mpr (sem_alloc_lt _ _ hi)) j
      (List.mem_range.mpr (sem_alloc_lt _ _ hj)) hij hi hj⟩

theorem rmid_preserves_other_sets_witness :
    (set_sem exStateTwo 1 0).semval = 3 ∧ (exStateTwo.sema.getD 1 default).u.sem_base = 2 ∧
    ((kern_semctl exKernel exCfg exThread 65536 0 Cmd.IPC_RMID ⟨0, default, []⟩
      exStateTwo).st.sema.getD 1 default).u.sem_base = 0 ∧
    set_sem (kern_semctl exKernel exCfg exThread 65536 0 Cmd.IPC_RMID ⟨0, default, []⟩
      exStateTwo).st 1 0 = set_sem exStateTwo 1 0 :=
  ⟨by decide, by decide, by decide,
   ((rmid_preserves_other_sets exKernel exCfg exThread 65536 0 ⟨0, default, []⟩ exStateTwo
      rfl (by decide) (by decide) rfl (layout_of_bounded _ (by decide))).2.2.2 1
      (by decide) (by decide)).2.2 0 (by decide)⟩

/-! ## `semget`: the creation path -/

theorem first_slot_none (p : SemidKernel → Bool) (l : List SemidKernel) :
    first_slot p l = none ↔ ∀ k ∈ l, p k = false := by
  induction l with
  | nil => simp [first_slot]
  | cons a as ih =>
    unfold first_slot
    by_cases ha : p a = true
    · simp [ha]
    · simp only [ha, Bool.false_eq_true, if_false, Option.map_eq_none', ih, List.mem_cons,
        forall_eq_or_imp]
      simp only [Bool.not_eq_true] at ha
      simp [ha]

theorem sys_semget_create_path (K : Kernel) (cfg : Seminfo) (td : Thread) (key nsems : Int)
    (semflg : Nat) (st : State) (hjail : K.prison_allow td = true)
    (hpath : CreationPath cfg key semflg st) :
    sys_semget K cfg td key nsems semflg st =
      if nsems ≤ 0 ∨ nsems > cfg.semmsl then ⟨EINVAL, 0, st⟩
      else if nsems > cfg.semmns - st.semtot then ⟨ENOSPC, 0, st⟩
      else
        match first_slot (fun k => ! sem_alloc k) (st.sema.take cfg.semmni.toNat) with
        | none => ⟨ENOSPC, 0, st⟩
        | some semid =>
          if K.racct_enable ∧ K.racct_add td nsems ≠ 0 then ⟨ENOSPC, 0, st⟩
          else
            ⟨0, IXSEQ_TO_IPCID semid
                ((semget_create K td key nsems semflg semid st).sema.getD semid default).u.sem_perm,
              semget_create K td key nsems semflg semid st⟩ := by
  unfold sys_semget
  simp only [hjail, not_true_eq_false, if_false]
  rcases hpath with h | ⟨h1, h2⟩
  · simp [h]
  · by_cases hk : key = IPC_PRIVATE
    · simp [hk]
    · simp [hk, h1, h2]

/-- C18. Capacity limits: when `sys_semget` takes the creation path (private key, or
key not found and `IPC_CREAT` set), a count `<= 0` or `> semmsl` gives `EINVAL`;
otherwise a count `> semmns - semtot` gives `ENOSPC`; otherwise, when every slot of
the table is allocated, `ENOSPC`; and when there is a free slot and the accounting
hook accepts, the call succeeds. -/
theorem semget_capacity (K : Kernel) (cfg : Seminfo) (td : Thread) (key nsems : Int)
    (semflg : Nat) (st : State) (hjail : K.prison_allow td = true)
    (hpath : CreationPath cfg key semflg st) :
    ((nsems ≤ 0 ∨ nsems > cfg.semmsl) →
      (sys_semget K cfg td key nsems semflg st).error = EINVAL) ∧
    (¬ (nsems ≤ 0 ∨ nsems > cfg.semmsl) →
      (nsems > cfg.semmns - st.semtot →
        (sys_semget K cfg td key nsems semflg st).error = ENOSPC) ∧
      (¬ nsems > cfg.semmns - st.semtot →
        ((∀ k ∈ st.sema.take cfg.semmni.toNat, sem_alloc k = true) →
          (sys_semget K cfg td key nsems semflg st).error = ENOSPC) ∧
        ((∃ k ∈ st.sema.take cfg.semmni.toNat, sem_alloc k = false) →
          ¬ (K.racct_enable = true ∧ K.racct_add td nsems ≠ 0) →
          (sys_semget K cfg td key nsems semflg st).error = 0))) := by
  rw [sys_semget_create_path K cfg td key nsems semflg st hjail hpath]
  refine ⟨fun h => by rw [if_pos h], fun h => ?_⟩
  rw [if_neg h]
  refine ⟨fun h2 => by rw [if_pos h2], fun h2 => ?_⟩
  rw [if_neg h2]
  constructor
  · intro hall
    have : first_slot (fun k => ! sem_alloc k) (st.sema.take cfg.semmni.toNat) = none := by
      rw [first_slot_none]
      intro k hk
      simp [hall k hk]
    rw [this]
  · intro ⟨k, hk, hfree⟩ hracct
    cases hfs : first_slot (fun k => ! sem_alloc k) (st.sema.take cfg.semmni.toNat) with
    | none =>
      rw [first_slot_none] at hfs
      have := hfs k hk
      simp [hfree] at this
    | some semid =>
      simp only
      rw [if_neg hracct]

theorem semget_capacity_witness :
    (sys_semget exKernel exCfg exThread IPC_PRIVATE 0 0o600 (exState 5 7)).error = EINVAL ∧
    (sys_semget exKernel exCfg exThread IPC_PRIVATE 3 0o600 (exState 5 7)).error = ENOSPC ∧
    (sys_semget exKernel exCfg exThread IPC_PRIVATE 2 0o600 (exState 5 7)).error = 0 ∧
    (sys_semget exKernel exCfg exThread IPC_PRIVATE 1 0o600 exStateTwo).error = ENOSPC :=
  ⟨(semget_capacity exKernel exCfg exThread IPC_PRIVATE 0 0o600 (exState 5 7) rfl
      (Or.inl rfl)).1 (Or.inl (by decide)),
   ((semget_capacity exKernel exCfg exThread IPC_PRIVATE 3 0o600 (exState 5 7) rfl
      (Or.inl rfl)).2 (by decide)).1 (by decide),
   (((semget_capacity exKernel exCfg exThread IPC_PRIVATE 2 0o600 (exState 5 7) rfl
      (Or.inl rfl)).2 (by decide)).2 (by decide)).2 (by decide) (by decide),
   by decide⟩

theorem first_slot_min (p : SemidKernel → Bool) (l : List SemidKernel) (i : Nat)
    (h : first_slot p l = some i) : ∀ j, j < i → p (l.getD j default) = false := by
  induction l generalizing i with
  | nil => simp [first_slot] at h
  | cons k ks ih =>
    unfold first_slot at h
    split at h
    · simp only [Option.some.injEq] at h
      subst h
      intro j hj
      omega
    · rename_i hp
      simp only [Option.map_eq_some'] at h
      obtain ⟨i', hi', hi⟩ := h
      subst hi
      intro j hj
      cases j with
      | zero => simpa using hp
      | succ j => simpa using ih i' hi' j (by omega)

theorem first_slot_take_min (p : SemidKernel → Bool) (l : List SemidKernel) (n i : Nat)
    (h : first_slot p (l.take n) = some i) : ∀ j, j < i → p (l.getD j default) = false := by
  intro j hj
  have h1 := first_slot_min p _ i h j hj
  have h2 := (first_slot_take p l n i h).2.1
  simp only [List.getD_eq_getElem?_getD, List.getElem?_take] at h1 ⊢
  rw [if_pos (by omega)] at h1
  exact h1

theorem bzero_getD (m start : Nat) (pool : List Sem) (idx : Nat) :
    ((List.range' start m).foldl (fun p i => p.set i default) pool).getD idx default =
      if start ≤ idx ∧ idx < start + m then default else pool.getD idx default := by
  induction m generalizing start pool with
  | zero =>
    simp only [List.range', List.foldl_nil]
    rw [if_neg (by omega)]
  | succ m ih =>
    simp only [List.range', List.foldl_cons]
    rw [ih, getD_set_eq]
    by_cases hc : start + 1 ≤ idx ∧ idx < start + 1 + m
    · rw [if_pos hc, if_pos ⟨by omega, by omega⟩]
    · rw [if_neg hc]
      by_cases hs : start = idx
      · subst hs
        have hR : (if start ≤ start ∧ start < start + (m + 1) then (default : Sem)
            else pool.getD start default) = default := if_pos ⟨Nat.le_refl _, by omega⟩
        rw [hR]
        by_cases hl : start < pool.length
        · exact if_pos ⟨rfl, hl⟩
        · have hL : (if start = start ∧ start < pool.length then (default : Sem)
              else pool.getD start default) = pool.getD start default :=
            if_neg (fun h => hl h.2)
          rw [hL, List.getD_eq_getElem?_getD, List.getElem?_eq_none (by omega)]
          rfl
      · rw [if_neg (by omega), if_neg (by omega)]

theorem sys_semget_created (K : Kernel) (cfg : Seminfo) (td : Thread) (key nsems : Int)
    (semflg : Nat) (st : State) (hjail : K.prison_allow td = true)
    (hpath : CreationPath cfg key semflg st)
    (hok : (sys_semget K cfg td key nsems semflg st).error = 0) :
    ∃ semid, first_slot (fun k => ! sem_alloc k) (st.sema.take cfg.semmni.toNat) = some semid ∧
      0 < nsems ∧ nsems ≤ cfg.semmsl ∧ nsems ≤ cfg.semmns - st.semtot ∧
      sys_semget K cfg td key nsems semflg st =
        ⟨0, IXSEQ_TO_IPCID semid
            ((semget_create K td key nsems semflg semid st).sema.getD semid default).u.sem_perm,
          semget_create K td key nsems semflg semid st⟩ := by
  rw [sys_semget_create_path K cfg td key nsems semflg st hjail hpath] at hok ⊢
  by_cases h1 : nsems ≤ 0 ∨ nsems > cfg.semmsl
  · rw [if_pos h1] at hok; exact absurd hok (by simp [EINVAL, ENOSPC])
  · rw [if_neg h1] at hok ⊢
    by_cases h2 : nsems > cfg.semmns - st.semtot
    · rw [if_pos h2] at hok; exact absurd hok (by simp [EINVAL, ENOSPC])
    · rw [if_neg h2] at hok ⊢
      cases hfs : first_slot (fun k => ! sem_alloc k) (st.sema.take cfg.semmni.toNat) with
      | none => rw [hfs] at hok; exact absurd hok (by simp [EINVAL, ENOSPC])
      | some semid =>
        rw [hfs] at hok
        simp only at hok ⊢
        by_cases h3 : K.racct_enable = true ∧ K.racct_add td nsems ≠ 0
        · rw [if_pos h3] at hok; exact absurd hok (by simp [EINVAL, ENOSPC])
        · rw [if_neg h3]
          exact ⟨semid, rfl, by omega, by omega, by omega, rfl⟩

/-- C19. Create postcondition: a successful call of `sys_semget` on the creation path
with count `nsems` takes the lowest-numbered free slot `semid` of the table; the
slot's descriptor becomes: allocated, the given key, the caller's uid and gid as
owner and creator, the low nine bits of the flags as mode, sequence number
`(old + 1) mod 0x8000`, count `nsems`, base the old `semtot`; `semtot` grows by
exactly `nsems`; the `nsems` semaphores of the set are zero in value, pid and both
wait counters; the identifier returned encodes `semid` and the new sequence number;
the descriptor of every other slot and the pool outside the new run are unchanged,
so (in a well-formed layout) the semaphores of every other set. -/
theorem semget_create_post (K : Kernel) (cfg : Seminfo) (td : Thread) (key nsems : Int)
    (semflg : Nat) (st : State) (hjail : K.prison_allow td = true)
    (hpath : CreationPath cfg key semflg st)
    (hok : (sys_semget K cfg td key nsems semflg st).error = 0)
    (hmsl : cfg.semmsl ≤ 65535) (hmni : cfg.semmni ≤ 65536) :
    ∃ semid : Nat,
      ((semid : Int) < cfg.semmni ∧ sem_alloc (st.sema.getD semid default) = false ∧
        ∀ j, j < semid → sem_alloc (st.sema.getD j default) = true) ∧
      (sys_semget K cfg td key nsems semflg st).st.sema.getD semid default =
        { u := { sem_perm := { key := key
                               cuid := td.td_ucred.cr_uid
                               uid := td.td_ucred.cr_uid
                               cgid := td.td_ucred.cr_gid
                               gid := td.td_ucred.cr_gid
                               mode := (semflg &&& 0o777) ||| SEM_ALLOC
                               seq := (slot_seq st semid + 1) % 0x8000 }
                 sem_base := st.semtot
                 sem_nsems := nsems.toNat
                 sem_otime := 0
                 sem_ctime := K.time_second }
          cred := some td.td_ucred } ∧
      sem_alloc ((sys_semget K cfg td key nsems semflg st).st.sema.getD semid default) = true ∧
      0 < nsems ∧
      (sys_semget K cfg td key nsems semflg st).st.semtot = st.semtot + nsems.toNat ∧
      (∀ j, j < nsems.toNat →
        set_sem (sys_semget K cfg td key nsems semflg st).st semid j = ⟨0, 0, 0, 0⟩) ∧
      (IPCID_TO_IX (sys_semget K cfg td key nsems semflg st).retval = semid ∧
        IPCID_TO_SEQ (sys_semget K cfg td key nsems semflg st).retval =
          slot_seq (sys_semget K cfg td key nsems semflg st).st semid) ∧
      (∀ k, k ≠ semid →
        (sys_semget K cfg td key nsems semflg st).st.sema.getD k default =
          st.sema.getD k default) ∧
      (∀ idx, ¬ (st.semtot ≤ idx ∧ idx < st.semtot + nsems.toNat) →
        (sys_semget K cfg td key nsems semflg st).st.sem.getD idx default =
          st.sem.getD idx default) ∧
      (LayoutWf st → ∀ k, k ≠ semid → sem_alloc (st.sema.getD k default) = true →
        ∀ j, j < (st.sema.getD k default).u.sem_nsems →
          set_sem (sys_semget K cfg td key nsems semflg st).st k j = set_sem st k j) := by
  obtain ⟨semid, hfs, hn0, hnmsl, hnmns, hres⟩ :=
    sys_semget_created K cfg td key nsems semflg st hjail hpath hok
  obtain ⟨hlt, hltn, hfree⟩ := first_slot_take _ _ _ _ hfs
  have hmin := first_slot_take_min _ _ _ _ hfs
  simp only [Bool.not_eq_true'] at hfree
  have hslot : (semget_create K td key nsems semflg semid st).sema.getD semid default =
      { u := { sem_perm := { key := key
                             cuid := td.td_ucred.cr_uid
                             uid := td.td_ucred.cr_uid
                             cgid := td.td_ucred.cr_gid
                             gid := td.td_ucred.cr_gid
                             mode := (semflg &&& 0o777) ||| SEM_ALLOC
                             seq := (slot_seq st semid + 1) % 0x8000 }
               sem_base := st.semtot
               sem_nsems := nsems.toNat
               sem_otime := 0
               sem_ctime := K.time_second }
        cred := some td.td_ucred } := by
    unfold semget_create slot_seq
    simp only [getD_set_eq, hlt, and_self, if_true, and_7fff]
    have : nsems.toNat % 65536 = nsems.toNat := by omega
    rw [this]
  have hother : ∀ k, k ≠ semid →
      (semget_create K td key nsems semflg semid st).sema.getD k default =
        st.sema.getD k default := fun k hk => (semget_create_slot K td key nsems semflg semid st hlt k).2 hk
  have hpoolget : ∀ idx, (semget_create K td key nsems semflg semid st).sem.getD idx default =
      if st.semtot ≤ idx ∧ idx < st.semtot + nsems.toNat then default
      else st.sem.getD idx default := by
    intro idx
    unfold semget_create
    simp only
    rw [bzero_getD]
  rw [hres]
  simp only
  refine ⟨semid, ⟨by omega, hfree, ?_⟩, hslot, ?_, hn0, rfl, ?_, ⟨?_, ?_⟩, hother, ?_, ?_⟩
  · intro j hj
    have := hmin j hj
    simpa using this
  · exact ((semget_create_slot K td key nsems semflg semid st hlt semid).1 rfl).1
  · intro j hj
    unfold set_sem sem_index
    rw [hslot, hpoolget, if_pos ⟨by simp, by simp; omega⟩]
    rfl
  · rw [ipcid_to_ix_ixseq]; omega
  · rw [ipcid_to_seq_ixseq, hslot]
    simp only [slot_seq, hslot]
    omega
  · intro idx hidx
    rw [hpoolget, if_neg hidx]
  · intro hlay k hk hka j hj
    unfold set_sem sem_index
    rw [hother k hk, hpoolget, if_neg]
    have := hlay.2.1 k hka
    omega

theorem semget_create_post_witness :
    ∃ semid : Nat,
      (sys_semget exKernel exCfg exThread 7 2 (IPC_CREAT ||| 0o640) (exState 5 7)).st.semtot =
        (exState 5 7).semtot + (2 : Int).toNat ∧
      ∀ j, j < (2 : Int).toNat →
        set_sem (sys_semget exKernel exCfg exThread 7 2 (IPC_CREAT ||| 0o640) (exState 5 7)).st
          semid j = ⟨0, 0, 0, 0⟩ :=
  (semget_create_post exKernel exCfg exThread 7 2 (IPC_CREAT ||| 0o640) (exState 5 7) rfl
    (Or.inr ⟨by decide, by decide⟩) (by decide) (by decide) (by decide)).imp
    (fun _ h => ⟨h.2.2.2.2.1, h.2.2.2.2.2.1⟩)

/-! ## What a stretch other than `IPC_RMID` does to the set table -/

theorem slot_same_refl (x : SemidKernel) : SlotSame x x := ⟨Eq.refl _, Eq.refl _, Eq.refl _, Eq.refl _⟩

theorem mode_set_keeps_alloc (m x : Nat) :
    ((m &&& (0xffff ^^^ 0o777)) ||| (x &&& 0o777)) &&& SEM_ALLOC = m &&& SEM_ALLOC := by
  apply Nat.eq_of_testBit_eq
  intro i
  simp only [Nat.testBit_and, Nat.testBit_or, SEM_ALLOC]
  have h512 : Nat.testBit 512 i = decide (i = 9) := by
    have := Nat.testBit_two_pow (n := 9) (m := i)
    simpa [eq_comm] using this
  rw [h512]
  by_cases hi : i = 9
  · subst hi
    have h1 : Nat.testBit 65024 9 = true := by decide
    have h2 : Nat.testBit 511 9 = false := by decide
    simp [h1, h2]
  · simp [hi]

theorem getD_set_same (l : List SemidKernel) (j : Nat) (k : SemidKernel)
    (hk : SlotSame (l.getD j default) k) (i : Nat) :
    SlotSame (l.getD i default) ((l.set j k).getD i default) := by
  rw [getD_set_eq]
  split
  · rename_i h; rw [← h.1]; exact hk
  · exact slot_same_refl _

theorem slots_same_sets {a b : State} (h : b.sema = a.sema) (i : Nat) :
    SlotSame (a.sema.getD i default) (b.sema.getD i default) := by
  rw [h]; exact slot_same_refl _

theorem kern_semctl_slots (K : Kernel) (cfg : Seminfo) (td : Thread) (semid semnum : Int)
    (cmd : Cmd) (arg : Semun) (st : State) (hcmd : cmd ≠ Cmd.IPC_RMID) (i : Nat) :
    SlotSame (st.sema.getD i default)
      ((kern_semctl K cfg td semid semnum cmd arg st).st.sema.getD i default) ∧
    (kern_semctl K cfg td semid semnum cmd arg st).st.sema.length = st.sema.length := by
  unfold kern_semctl
  simp only
  split
  · exact ⟨slot_same_refl _, rfl⟩
  · split
    · repeat' split
      all_goals exact ⟨slot_same_refl _, rfl⟩
    · split
      · exact ⟨slot_same_refl _, rfl⟩
      · cases cmd with
        | IPC_RMID => exact absurd rfl hcmd
        | IPC_SET =>
          simp only
          repeat' split
          all_goals first
            | (with_reducible exact ⟨slot_same_refl _, rfl⟩)
            | (refine ⟨getD_set_same _ _ _ ?_ i, by simp⟩
               refine ⟨?_, rfl, rfl, rfl⟩
               simp only [sem_alloc, mode_set_keeps_alloc])
        | SETVAL =>
          simp only
          repeat' split
          all_goals first
            | (with_reducible exact ⟨slot_same_refl _, rfl⟩)
            | (refine ⟨slots_same_sets (semundo_clear_sets _ _ _).2.1 i, ?_⟩
               rw [(semundo_clear_sets _ _ _).2.1])
        | SETALL =>
          simp only
          repeat' split
          all_goals first
            | (with_reducible exact ⟨slot_same_refl _, rfl⟩)
            | (refine ⟨slots_same_sets (semundo_clear_sets _ _ _).2.1 i, ?_⟩
               rw [(semundo_clear_sets _ _ _).2.1])
        | IPC_STAT | GETNCNT | GETPID | GETVAL | GETALL | GETZCNT | SEM_STAT | other =>
          simp only
          repeat' split
          all_goals first
            | (with_reducible exact ⟨slot_same_refl _, rfl⟩)
            | exact ⟨slot_same_refl _, trivial⟩

theorem table_kept_refl (a : State) : TableKept a a := ⟨Eq.refl _, fun _ => slot_same_refl _⟩

theorem table_kept_of_sema {a b : State} (h : b.sema = a.sema) : TableKept a b := by
  unfold TableKept; rw [h]; exact ⟨Eq.refl _, fun _ => slot_same_refl _⟩

theorem kern_semctl_kept (K : Kernel) (cfg : Seminfo) (td : Thread) (semid semnum : Int)
    (cmd : Cmd) (arg : Semun) (st : State) (hcmd : cmd ≠ Cmd.IPC_RMID) :
    TableKept st (kern_semctl K cfg td semid semnum cmd arg st).st :=
  ⟨(kern_semctl_slots K cfg td semid semnum cmd arg st hcmd 0).2,
   fun i => (kern_semctl_slots K cfg td semid semnum cmd arg st hcmd i).1⟩

theorem semop_done_kept (K : Kernel) (cfg : Seminfo) (td : Thread) (semid : Nat)
    (sops : List Sembuf) (st fb : State) (hfb : TableKept st fb) :
    TableKept st ((semop_done K cfg td semid sops st).state fb) := by
  unfold semop_done
  simp only
  split
  · exact hfb
  · rename_i error st1 hu
    have hsets : SameSets st st1 := by
      split at hu
      · exact ((semop_undos_sets _ _ _ _ _ _ _ _).2 _ _ hu).1
      · exact absurd hu (by simp)
    exact table_kept_of_sema hsets.2.1
  · rename_i st1 hu
    have hsets : SameSets st st1 := by
      split at hu
      · exact (semop_undos_sets _ _ _ _ _ _ _ _).1 _ hu
      · simp only [UndoResult.ok.injEq] at hu
        rw [← hu]; exact SameSets.rfl st
    simp only [SemopResult.state]
    unfold TableKept
    simp only [hsets.2.1, List.length_set, true_and]
    intro i
    refine getD_set_same _ _ _ ?_ i
    exact ⟨rfl, rfl, rfl, rfl⟩

theorem semop_loop_kept (K : Kernel) (cfg : Seminfo) (td : Thread) (semid : Nat)
    (sops : List Sembuf) (st fb : State) (hfb : TableKept st fb) :
    TableKept st ((semop_loop K cfg td semid sops st).state fb) := by
  unfold semop_loop
  simp only
  split
  · exact semop_done_kept K cfg td semid sops _ fb hfb
  · repeat' split
    all_goals exact table_kept_of_sema rfl

theorem sys_semop_kept (K : Kernel) (cfg : Seminfo) (td : Thread) (uap_semid : Int)
    (sops : List Sembuf) (st : State) :
    TableKept st ((sys_semop K cfg td uap_semid sops st).state st) := by
  unfold sys_semop
  simp only
  repeat' split
  all_goals first
    | exact table_kept_refl st
    | exact semop_loop_kept K cfg td _ sops st st (table_kept_refl st)

theorem semop_wakeup_kept (K : Kernel) (cfg : Seminfo) (td : Thread) (uap_semid : Int)
    (sops : List Sembuf) (k : Nat) (error : Int) (st : State) :
    TableKept st ((semop_wakeup K cfg td uap_semid sops k error st).state st) := by
  unfold semop_wakeup
  simp only
  repeat' split
  all_goals first
    | exact table_kept_refl st
    | exact table_kept_of_sema rfl
    | exact semop_loop_kept K cfg td _ sops _ st (table_kept_refl st)

theorem semexit_myhook_kept (p : Nat) (st : State) :
    TableKept st ((semexit_myhook p st).getD st) := by
  unfold semexit_myhook
  split
  · exact table_kept_refl st
  · split
    · exact table_kept_refl st
    · rename_i st1 h
      have := semexit_apply_sets _ _ _ h
      exact table_kept_of_sema this

/-! ## Key lookup -/

theorem first_slot_of (p : SemidKernel → Bool) (l : List SemidKernel) (i : Nat)
    (hlt : i < l.length) (hp : p (l.getD i default) = true)
    (hmin : ∀ j, j < i → p (l.getD j default) = false) : first_slot p l = some i := by
  induction l generalizing i with
  | nil => simp at hlt
  | cons k ks ih =>
    unfold first_slot
    cases i with
    | zero =>
      have : p k = true := by simpa using hp
      simp [this]
    | succ i =>
      have h0 : p k = false := by simpa using hmin 0 (by omega)
      simp only [h0, Bool.false_eq_true, if_false]
      rw [ih i (by simpa using hlt) (by simpa using hp)
        (fun j hj => by simpa using hmin (j + 1) (by omega))]
      rfl

theorem getD_take (l : List SemidKernel) (n i : Nat) (h : i < n) :
    (l.take n).getD i default = l.getD i default := by
  simp only [List.getD_eq_getElem?_getD, List.getElem?_take]
  rw [if_pos h]

theorem key_first_iff (cfg : Seminfo) (key : Int) (f : Nat) (st : State) :
    KeyFirst cfg key f st ↔
      f < st.sema.length ∧ f < cfg.semmni.toNat ∧
      (sem_alloc (st.sema.getD f default) = true ∧
        (st.sema.getD f default).u.sem_perm.key = key) ∧
      ∀ j, j < f → ¬ (sem_alloc (st.sema.getD j default) = true ∧
        (st.sema.getD j default).u.sem_perm.key = key) := by
  unfold KeyFirst
  constructor
  · intro h
    obtain ⟨h1, h2, h3⟩ := first_slot_take _ _ _ _ h
    have h4 := first_slot_take_min _ _ _ _ h
    refine ⟨h1, h2, by simpa using h3, fun j hj => ?_⟩
    have := h4 j hj
    simpa using this
  · intro ⟨h1, h2, h3, h4⟩
    apply first_slot_of
    · rw [List.length_take]; omega
    · rw [getD_take _ _ _ h2]; simpa using h3
    · intro j hj
      rw [getD_take _ _ _ (by omega)]
      have := h4 j hj
      simpa using this

theorem key_first_kept (cfg : Seminfo) (key : Int) (f : Nat) (a b : State)
    (h : KeyFirst cfg key f a) (hk : TableKept a b) : KeyFirst cfg key f b := by
  rw [key_first_iff] at h ⊢
  obtain ⟨h1, h2, h3, h4⟩ := h
  obtain ⟨hl, hs⟩ := hk
  refine ⟨by omega, h2, ?_, fun j hj => ?_⟩
  · obtain ⟨e1, e2, _, _⟩ := hs f
    rw [e1, e2]; exact h3
  · obtain ⟨e1, e2, _, _⟩ := hs j
    rw [e1, e2]; exact h4 j hj

theorem sys_semget_cases_path (K : Kernel) (cfg : Seminfo) (td : Thread) (key nsems : Int)
    (semflg : Nat) (st : State) :
    (sys_semget K cfg td key nsems semflg st).st = st ∨
    ∃ semid, first_slot (fun k => ! sem_alloc k) (st.sema.take cfg.semmni.toNat) = some semid ∧
      CreationPath cfg key semflg st ∧
      (sys_semget K cfg td key nsems semflg st).st =
        semget_create K td key nsems semflg semid st := by
  by_cases hjail : K.prison_allow td = true
  swap
  · left
    unfold sys_semget
    simp [hjail]
  by_cases hpath : CreationPath cfg key semflg st
  · rcases sys_semget_cases K cfg td key nsems semflg st with h | ⟨semid, h1, _, h3, _⟩
    · exact Or.inl h
    · exact Or.inr ⟨semid, h1, hpath, h3⟩
  · left
    unfold CreationPath at hpath
    simp only [not_or, not_and, ne_eq, Decidable.not_not] at hpath
    obtain ⟨hk, hc⟩ := hpath
    unfold sys_semget
    simp only [hjail, not_true_eq_false, if_false, hk, ne_eq, not_false_eq_true, if_true,
      false_or]
    cases hfs : first_slot (fun k => sem_alloc k && k.u.sem_perm.key == key)
        (st.sema.take cfg.semmni.toNat) with
    | none =>
      simp only [hc hfs, not_true_eq_false, if_false]
    | some f =>
      simp only
      repeat' split
      all_goals rfl

theorem semget_create_key (K : Kernel) (td : Thread) (key nsems : Int) (semflg semid : Nat)
    (st : State) (hlt : semid < st.sema.length) :
    ((semget_create K td key nsems semflg semid st).sema.getD semid default).u.sem_perm.key = key ∧
    ((semget_create K td key nsems semflg semid st).sema.getD semid default).u.sem_nsems =
      nsems.toNat % 65536 ∧
    (semget_create K td key nsems semflg semid st).sema.length = st.sema.length := by
  unfold semget_create
  simp only [getD_set_eq, hlt, and_self, if_true, List.length_set]

theorem step_key_first (K : Kernel) (cfg : Seminfo) (c : Call) (st : State) (key : Int)
    (f : Nat) (hkey : key ≠ IPC_PRIVATE) (hc : is_rmid c = false)
    (h : KeyFirst cfg key f st) :
    KeyFirst cfg key f (step K cfg c st) ∧
    SlotSame (st.sema.getD f default) ((step K cfg c st).sema.getD f default) := by
  have kept : ∀ b, TableKept st b →
      KeyFirst cfg key f b ∧ SlotSame (st.sema.getD f default) (b.sema.getD f default) :=
    fun b hb => ⟨key_first_kept cfg key f st b h hb, hb.2 f⟩
  cases c with
  | semget td key' nsems semflg =>
    simp only [step]
    rcases sys_semget_cases_path K cfg td key' nsems semflg st with hs | ⟨semid, hfs, hpath, hs⟩
    · rw [hs]; exact kept st (table_kept_refl st)
    · rw [hs]
      obtain ⟨hlt, _, hfree⟩ := first_slot_take _ _ _ _ hfs
      simp only [Bool.not_eq_true'] at hfree
      have hslot := semget_create_slot K td key' nsems semflg semid st hlt
      obtain ⟨hkey', _, hlen⟩ := semget_create_key K td key' nsems semflg semid st hlt
      have hiff := (key_first_iff cfg key f st).mp h
      obtain ⟨h1, h2, h3, h4⟩ := hiff
      have hne : f ≠ semid := by
        intro he; rw [he, hfree] at h3; exact absurd h3.1 (by decide)
      have hkk : key' ≠ key := by
        intro he
        rcases hpath with hp | ⟨hp, _⟩
        · rw [he] at hp; exact hkey hp
        · rw [he] at hp
          unfold KeyFirst at h
          rw [hp] at h
          exact absurd h (by simp)
      refine ⟨(key_first_iff cfg key f _).mpr ⟨by omega, h2, ?_, fun j hj => ?_⟩, ?_⟩
      · rw [(hslot f).2 hne]; exact h3
      · by_cases hj2 : j = semid
        · subst hj2
          rw [hkey']
          exact fun hh => hkk hh.2
        · rw [(hslot j).2 hj2]; exact h4 j hj
      · rw [(hslot f).2 hne]; exact slot_same_refl _
  | semctl td semid semnum cmd arg =>
    simp only [step]
    apply kept
    apply kern_semctl_kept
    intro he
    subst he
    simp [is_rmid] at hc
  | semop td semid sops =>
    simp only [step]
    exact kept _ (sys_semop_kept ..)
  | wakeup td semid sops k error =>
    simp only [step]
    exact kept _ (semop_wakeup_kept ..)
  | exit p =>
    simp only [step]
    exact kept _ (semexit_myhook_kept ..)

theorem run_key_first (K : Kernel) (cfg : Seminfo) (cs : List Call) (st : State) (key : Int)
    (f : Nat) (hkey : key ≠ IPC_PRIVATE) (hcs : ∀ c ∈ cs, is_rmid c = false)
    (h : KeyFirst cfg key f st) :
    KeyFirst cfg key f (run K cfg cs st) ∧
    SlotSame (st.sema.getD f default) ((run K cfg cs st).sema.getD f default) := by
  induction cs generalizing st with
  | nil => exact ⟨h, slot_same_refl _⟩
  | cons c rest ih =>
    simp only [run]
    obtain ⟨h1, h2⟩ := step_key_first K cfg c st key f hkey (hcs c (List.mem_cons_self _ _)) h
    obtain ⟨h3, h4⟩ := ih (step K cfg c st) (fun c' hc' => hcs c' (List.mem_cons_of_mem _ hc')) h1
    exact ⟨h3, h4.1.trans h2.1, h4.2.1.trans h2.2.1, h4.2.2.1.trans h2.2.2.1,
      h4.2.2.2.trans h2.2.2.2⟩

theorem ixseq_congr (ix : Nat) (p q : IpcPerm) (h : p.seq = q.seq) :
    IXSEQ_TO_IPCID ix p = IXSEQ_TO_IPCID ix q := by
  unfold IXSEQ_TO_IPCID; rw [h]

theorem first_slot_none_getD (p : SemidKernel → Bool) (l : List SemidKernel) (n : Nat)
    (h : first_slot p (l.take n) = none) (j : Nat) (hj : j < n) (hl : j < l.length) :
    p (l.getD j default) = false := by
  rw [first_slot_none] at h
  apply h
  rw [← getD_take l n j hj, List.getD_eq_getElem?_getD,
    List.getElem?_eq_getElem (by rw [List.length_take]; omega)]
  exact List.getElem_mem _

theorem sys_semget_found (K : Kernel) (cfg : Seminfo) (td : Thread) (key nsems : Int)
    (semflg : Nat) (st : State) (f : Nat) (hjail : K.prison_allow td = true)
    (hkey : key ≠ IPC_PRIVATE) (hf : KeyFirst cfg key f st) :
    sys_semget K cfg td key nsems semflg st =
      if semflg &&& IPC_CREAT ≠ 0 ∧ semflg &&& IPC_EXCL ≠ 0 then ⟨EEXIST, 0, st⟩
      else if K.ipcperm td (st.sema.getD f default).u.sem_perm (semflg &&& 0o700) ≠ 0 then
        ⟨K.ipcperm td (st.sema.getD f default).u.sem_perm (semflg &&& 0o700), 0, st⟩
      else if nsems > 0 ∧ ((st.sema.getD f default).u.sem_nsems : Int) < nsems then
        ⟨EINVAL, 0, st⟩
      else ⟨0, IXSEQ_TO_IPCID f (st.sema.getD f default).u.sem_perm, st⟩ := by
  unfold KeyFirst at hf
  unfold sys_semget
  simp only [hjail, not_true_eq_false, if_false, hkey, ne_eq, not_false_eq_true, if_true, hf]

/-- After a successful `sys_semget` with a non-private key, the key lookup stops at
the slot whose identifier was returned, and that set has at least the count asked
for. -/
theorem sys_semget_key_first (K : Kernel) (cfg : Seminfo) (td : Thread) (key nsems : Int)
    (semflg : Nat) (st : State) (hkey : key ≠ IPC_PRIVATE) (hmsl : cfg.semmsl ≤ 65535)
    (hok : (sys_semget K cfg td key nsems semflg st).error = 0) :
    ∃ f, KeyFirst cfg key f (sys_semget K cfg td key nsems semflg st).st ∧
      (sys_semget K cfg td key nsems semflg st).retval =
        IXSEQ_TO_IPCID f
          ((sys_semget K cfg td key nsems semflg st).st.sema.getD f default).u.sem_perm ∧
      (0 < nsems →
        nsems ≤ ((sys_semget K cfg td key nsems semflg st).st.sema.getD f default).u.sem_nsems) := by
  have hjail : K.prison_allow td = true := by
    by_contra hj
    unfold sys_semget at hok
    simp [hj, ENOSYS] at hok
  cases hfs : first_slot (fun k => sem_alloc k && k.u.sem_perm.key == key)
      (st.sema.take cfg.semmni.toNat) with
  | some f =>
    have hf : KeyFirst cfg key f st := hfs
    rw [sys_semget_found K cfg td key nsems semflg st f hjail hkey hf] at hok ⊢
    by_cases h1 : semflg &&& IPC_CREAT ≠ 0 ∧ semflg &&& IPC_EXCL ≠ 0
    · rw [if_pos h1] at hok; exact absurd hok (by simp [EEXIST])
    · rw [if_neg h1] at hok ⊢
      by_cases h2 : K.ipcperm td (st.sema.getD f default).u.sem_perm (semflg &&& 0o700) ≠ 0
      · rw [if_pos h2] at hok; exact absurd hok h2
      · rw [if_neg h2] at hok ⊢
        by_cases h3 : nsems > 0 ∧ ((st.sema.getD f default).u.sem_nsems : Int) < nsems
        · rw [if_pos h3] at hok; exact absurd hok (by simp [EINVAL])
        · rw [if_neg h3]
          exact ⟨f, hf, rfl, fun hn => by simp only; omega⟩
  | none =>
    by_cases hc : semflg &&& IPC_CREAT ≠ 0
    · have hpath : CreationPath cfg key semflg st := Or.inr ⟨hfs, hc⟩
      obtain ⟨semid, hfree, hn0, hnmsl, _, hres⟩ :=
        sys_semget_created K cfg td key nsems semflg st hjail hpath hok
      obtain ⟨hlt, hltn, _⟩ := first_slot_take _ _ _ _ hfree
      obtain ⟨hk1, hk2, hk3⟩ := semget_create_key K td key nsems semflg semid st hlt
      have hslot := semget_create_slot K td key nsems semflg semid st hlt
      rw [hres]
      simp only
      refine ⟨semid, (key_first_iff cfg key semid _).mpr ⟨by omega, hltn,
        ⟨((hslot semid).1 rfl).1, hk1⟩, fun j hj => ?_⟩, rfl, fun _ => ?_⟩
      · rw [(hslot j).2 (by omega)]
        have := first_slot_none_getD _ _ _ hfs j (by omega) (by omega)
        simpa using this
      · rw [hk2]
        omega
    · exfalso
      unfold sys_semget at hok
      simp only [hjail, not_true_eq_false, if_false, hkey, ne_eq, not_false_eq_true, if_true,
        hfs, false_or] at hok
      simp only [ne_eq, Decidable.not_not] at hc
      simp [hc, ENOENT] at hok

/-- C20. Key lookup idempotence: when `sys_semget` with a non-private key succeeds
and returns `id`, then, after any stretches of kernel code none of which is an
`IPC_RMID`, a second `sys_semget` with the same key, without create-exclusive, with
a count not above the first one and with `ipcperm` granting the mode `semflg & 0700`
on the set that holds the key returns 0 and the same `id`, and leaves the state as
it found it: no slot is allocated, `semtot` and the sequence numbers are
unchanged. -/
theorem semget_idempotent (K : Kernel) (cfg : Seminfo) (key : Int) (st : State)
    (td1 : Thread) (nsems1 : Int) (semflg1 : Nat) (mid : List Call)
    (td2 : Thread) (nsems2 : Int) (semflg2 : Nat)
    (hkey : key ≠ IPC_PRIVATE) (hmsl : cfg.semmsl ≤ 65535)
    (hok : (sys_semget K cfg td1 key nsems1 semflg1 st).error = 0)
    (hmid : ∀ c ∈ mid, is_rmid c = false)
    (hjail : K.prison_allow td2 = true)
    (hexcl : ¬ (semflg2 &&& IPC_CREAT ≠ 0 ∧ semflg2 &&& IPC_EXCL ≠ 0))
    (hcount : nsems2 ≤ nsems1)
    (hperm : ∀ i,
      sem_alloc ((run K cfg mid (sys_semget K cfg td1 key nsems1 semflg1 st).st).sema.getD i
        default) = true →
      ((run K cfg mid (sys_semget K cfg td1 key nsems1 semflg1 st).st).sema.getD i
        default).u.sem_perm.key = key →
      K.ipcperm td2
        ((run K cfg mid (sys_semget K cfg td1 key nsems1 semflg1 st).st).sema.getD i
          default).u.sem_perm (semflg2 &&& 0o700) = 0) :
    (sys_semget K cfg td2 key nsems2 semflg2
      (run K cfg mid (sys_semget K cfg td1 key nsems1 semflg1 st).st)).error = 0 ∧
    (sys_semget K cfg td2 key nsems2 semflg2
      (run K cfg mid (sys_semget K cfg td1 key nsems1 semflg1 st).st)).retval =
      (sys_semget K cfg td1 key nsems1 semflg1 st).retval ∧
    (sys_semget K cfg td2 key nsems2 semflg2
      (run K cfg mid (sys_semget K cfg td1 key nsems1 semflg1 st).st)).st =
      run K cfg mid (sys_semget K cfg td1 key nsems1 semflg1 st).st := by
  obtain ⟨f, hf, hid, hn⟩ := sys_semget_key_first K cfg td1 key nsems1 semflg1 st hkey hmsl hok
  obtain ⟨hf2, hsame⟩ := run_key_first K cfg mid _ key f hkey hmid hf
  obtain ⟨_, _, hseq, hns⟩ := hsame
  rw [sys_semget_found K cfg td2 key nsems2 semflg2 _ f hjail hkey hf2]
  have hfk := ((key_first_iff cfg key f _).1 hf2).2.2.1
  rw [if_neg hexcl, if_neg (by rw [hperm f hfk.1 hfk.2]; exact fun h => h rfl)]
  rw [if_neg (by rw [hns]; intro h; have := hn (by omega); omega)]
  refine ⟨rfl, ?_, rfl⟩
  rw [hid]
  exact ixseq_congr f _ _ hseq

theorem semget_idempotent_witness :
    (sys_semget exKernelMode exCfg exThread 7 2 (IPC_CREAT ||| 0o600) (exState 5 7)).retval =
      65537 ∧
    (sys_semget exKernelMode exCfg exThread 7 1 0o600
      (run exKernelMode exCfg
        [Call.semop exThread 65537 [⟨0, 1, 0⟩],
         Call.semctl exThread 65537 0 Cmd.GETVAL ⟨0, default, []⟩]
        (sys_semget exKernelMode exCfg exThread 7 2 (IPC_CREAT ||| 0o600)
          (exState 5 7)).st)).retval =
      (sys_semget exKernelMode exCfg exThread 7 2 (IPC_CREAT ||| 0o600) (exState 5 7)).retval :=
  ⟨by decide,
   (semget_idempotent exKernelMode exCfg 7 (exState 5 7) exThread 2 (IPC_CREAT ||| 0o600)
      [Call.semop exThread 65537 [⟨0, 1, 0⟩],
       Call.semctl exThread 65537 0 Cmd.GETVAL ⟨0, default, []⟩]
      exThread 1 0o600 (by decide) (by decide) (by decide) (by decide) rfl (by decide)
      (by decide)
      (fun i ha hk =>
        match i, ha, hk with
        | 0, _, hk => absurd hk (by decide)
        | 1, _, _ => by decide
        | n + 2, ha, _ =>
          absurd (sem_alloc_lt _ (n + 2) ha) (by
            have hl : (run exKernelMode exCfg
              [Call.semop exThread 65537 [⟨0, 1, 0⟩],
               Call.semctl exThread 65537 0 Cmd.GETVAL ⟨0, default, []⟩]
              (sys_semget exKernelMode exCfg exThread 7 2 (IPC_CREAT ||| 0o600)
                (exState 5 7)).st).sema.length = 2 := by decide
            rw [hl]; omega))).2.1⟩

/-! ## A failed `semget` -/

/-- C21. A failed create leaves no new state: a call of `sys_semget` that returns an
error (`ENOSYS`, `EEXIST`, `EINVAL`, `ENOSPC`, `ENOENT` or the error of `ipcperm`)
returns the state it was given: set table, pool, `semtot` and undo registry are
unchanged. -/
theorem semget_failure_keeps_state (K : Kernel) (cfg : Seminfo) (td : Thread) (key nsems : Int)
    (semflg : Nat) (st : State)
    (herr : (sys_semget K cfg td key nsems semflg st).error ≠ 0) :
    (sys_semget K cfg td key nsems semflg st).st = st := by
  rcases sys_semget_cases K cfg td key nsems semflg st with h | ⟨_, _, he, _, _⟩
  · exact h
  · exact absurd he herr

theorem semget_failure_keeps_state_witness :
    (sys_semget exKernel exCfg exThread 7 3 (IPC_CREAT ||| 0o600) (exState 5 7)).error = ENOSPC ∧
    (sys_semget exKernel exCfg exThread 7 3 (IPC_CREAT ||| 0o600) (exState 5 7)).st =
      exState 5 7 :=
  ⟨by decide,
   semget_failure_keeps_state exKernel exCfg exThread 7 3 (IPC_CREAT ||| 0o600) (exState 5 7)
     (by decide)⟩

/-! ## Entries of an undo structure -/

theorem undo_find_some (semid semnum : Int) (ents : List Undo) (i : Nat)
    (h : undo_find semid semnum ents = some i) :
    i < ents.length ∧ (ents.getD i default).un_id = semid ∧
      (ents.getD i default).un_num = semnum := by
  induction ents generalizing i with
  | nil => simp [undo_find] at h
  | cons e es ih =>
    unfold undo_find at h
    split at h
    · rename_i he
      cases h
      simpa using he
    · cases hf : undo_find semid semnum es with
      | none => simp [hf] at h
      | some j =>
        simp [hf] at h
        subst h
        have := ih j hf
        simpa using this

theorem semundo_adjust_located (cfg : Seminfo) (td : Thread) (supptr : Option Nat) (semid : Int)
    (semseq : Nat) (semnum adjval : Int) (st : State) (r : Nat)
    (hloc : undo_located td supptr st = some r) :
    semundo_adjust cfg td supptr semid semseq semnum adjval st =
      ((semundo_adjust_entry cfg r semid semseq semnum adjval st).1, some r,
       (semundo_adjust_entry cfg r semid semseq semnum adjval st).2) := by
  unfold undo_located at hloc
  unfold semundo_adjust
  cases supptr with
  | some s => simp at hloc; subst hloc; rfl
  | none => simp only at hloc ⊢; rw [hloc]

theorem fullState_eval :
    fullState.semu_list = [1] ∧ fullState.semu_free_list = [0] ∧
    SEMU fullState 1 = ⟨some 100, [⟨1, 0, 1, 1⟩, ⟨1, 1, 1, 1⟩]⟩ ∧
    fullState.sem.map (fun s => s.semval) = [3, 4, 2, 3] := by
  decide

/-- C22 (counterexample). Under `fullCfg` (`semume = 2`) the undo structure of
`exThread` in `fullState` holds two entries, none of them for semaphore 0 of the
set in slot 0. An adjustment by -1 for that semaphore is within `semaem`, yet
`semundo_adjust` returns `EINVAL` (22), not `ENOSPC` (28), and so does the
`semop` call with the operation `{sem 0, +1, SEM_UNDO}` on that set. -/
theorem undo_full_record_not_enospc :
    undo_located exThread none fullState = some 1 ∧
    ((SEMU fullState 1).un_cnt : Int) = fullCfg.semume ∧
    undo_find 0 0 (SEMU fullState 1).un_ent = none ∧
    (-1 : Int) ≠ 0 ∧ -fullCfg.semaem ≤ -1 ∧ (-1 : Int) ≤ fullCfg.semaem ∧
    (semundo_adjust fullCfg exThread none 0 1 0 (-1) fullState).1 = EINVAL ∧
    (semundo_adjust fullCfg exThread none 0 1 0 (-1) fullState).1 ≠ ENOSPC ∧
    sys_semop exKernel fullCfg exThread 65536 [⟨0, 1, SEM_UNDO⟩] fullState =
      SemopResult.ret EINVAL fullState := by
  decide

theorem adjust_entry_code_cases (cfg : Seminfo) (r : Nat) (semid : Int) (semseq : Nat)
    (semnum adjval : Int) (st : State) :
    (semundo_adjust_entry cfg r semid semseq semnum adjval st).1 = 0 ∨
    (semundo_adjust_entry cfg r semid semseq semnum adjval st).1 = ERANGE ∨
    (semundo_adjust_entry cfg r semid semseq semnum adjval st).1 = EINVAL := by
  unfold semundo_adjust_entry
  simp only
  repeat' split
  all_goals first
    | exact Or.inl rfl
    | exact Or.inr (Or.inl rfl)
    | exact Or.inr (Or.inr rfl)

theorem undo_located_none (td : Thread) (supptr : Option Nat) (st : State)
    (h : undo_located td supptr st = none) :
    supptr = none ∧
      st.semu_list.find? (fun ix => (SEMU st ix).un_proc = some td.td_proc) = none := by
  unfold undo_located at h
  cases supptr with
  | some s => cases h
  | none => exact ⟨rfl, h⟩

theorem semundo_adjust_no_room (cfg : Seminfo) (td : Thread) (supptr : Option Nat) (semid : Int)
    (semseq : Nat) (semnum adjval : Int) (st : State) (hd : adjval ≠ 0)
    (hloc : undo_located td supptr st = none) (hfree : st.semu_free_list = []) :
    semundo_adjust cfg td supptr semid semseq semnum adjval st = (ENOSPC, none, st) := by
  obtain ⟨hs, hf⟩ := undo_located_none td supptr st hloc
  subst hs
  unfold semundo_adjust
  simp only [hf, hd, if_false]
  unfold semu_alloc
  rw [hfree]

theorem semundo_adjust_fresh (cfg : Seminfo) (td : Thread) (supptr : Option Nat) (semid : Int)
    (semseq : Nat) (semnum adjval : Int) (st : State) (r : Nat) (rest : List Nat)
    (hd : adjval ≠ 0)
    (hloc : undo_located td supptr st = none) (hfree : st.semu_free_list = r :: rest) :
    semundo_adjust cfg td supptr semid semseq semnum adjval st =
      ((semundo_adjust_entry cfg r semid semseq semnum adjval (semu_alloc td st).2).1, some r,
       (semundo_adjust_entry cfg r semid semseq semnum adjval (semu_alloc td st).2).2) ∧
    (SEMU (semu_alloc td st).2 r).un_ent = [] ∧ r ∈ (semu_alloc td st).2.semu_list := by
  obtain ⟨hs, hf⟩ := undo_located_none td supptr st hloc
  subst hs
  have ha : semu_alloc td st =
      (some r, { st with
        semu_free_list := rest
        semu_list := r :: st.semu_list
        semu := st.semu.set r { un_proc := some td.td_proc, un_ent := [] } }) := by
    unfold semu_alloc
    rw [hfree]
  refine ⟨?_, ?_, ?_⟩
  · unfold semundo_adjust
    simp only [hf, hd, if_false]
    rw [ha]
  · rw [ha]
    unfold SEMU
    simp only
    rw [getD_set_eq]
    split
    · rfl
    · rename_i hn
      have hlen : st.semu.length ≤ r := by
        by_contra hc
        exact hn ⟨rfl, by omega⟩
      rw [List.getD_eq_getElem?_getD, List.getElem?_eq_none hlen]
      rfl
  · rw [ha]
    exact List.mem_cons_self _ _

/-- C22 (amended). On the undo structure `r` that `semundo_adjust` works on (the
cached pointer, or the structure of the process found on the active list), when
the structure holds `semume` entries, none of them for (`semid`, `semnum`), a
non-zero adjustment of magnitude at most `semaem` fails with `EINVAL` and the
state, in particular the structure and its entries, is unchanged. `semundo_adjust`
returns `ENOSPC` exactly when the adjustment is non-zero, the caller has no cached
pointer and no structure on the active list, and the free list is empty. -/
theorem undo_full_record_einval (cfg : Seminfo) (td : Thread) (supptr : Option Nat)
    (semid : Int) (semseq : Nat) (semnum adjval : Int) (st : State) :
    (∀ r, undo_located td supptr st = some r →
      ((SEMU st r).un_cnt : Int) = cfg.semume →
      undo_find semid semnum (SEMU st r).un_ent = none →
      adjval ≠ 0 → -cfg.semaem ≤ adjval → adjval ≤ cfg.semaem →
      semundo_adjust cfg td supptr semid semseq semnum adjval st = (EINVAL, some r, st)) ∧
    ((semundo_adjust cfg td supptr semid semseq semnum adjval st).1 = ENOSPC ↔
      adjval ≠ 0 ∧ undo_located td supptr st = none ∧ st.semu_free_list = []) := by
  have h0 : (0 : Int) ≠ ENOSPC := by decide
  have h1 : ERANGE ≠ ENOSPC := by decide
  have h2 : EINVAL ≠ ENOSPC := by decide
  have hentry : ∀ r s, (semundo_adjust_entry cfg r semid semseq semnum adjval s).1 ≠ ENOSPC := by
    intro r s h
    rcases adjust_entry_code_cases cfg r semid semseq semnum adjval s with e | e | e
    · rw [e] at h; exact h0 h
    · rw [e] at h; exact h1 h
    · rw [e] at h; exact h2 h
  constructor
  · intro r hloc hfull hnone hd hlo hhi
    rw [semundo_adjust_located cfg td supptr semid semseq semnum adjval st r hloc]
    have hrange : ¬ (adjval > cfg.semaem ∨ adjval < -cfg.semaem) := by omega
    simp [semundo_adjust_entry, hnone, hd, hrange, hfull]
  · constructor
    · intro h
      cases hloc : undo_located td supptr st with
      | some r =>
        rw [semundo_adjust_located cfg td supptr semid semseq semnum adjval st r hloc] at h
        exact absurd h (hentry r st)
      | none =>
        by_cases hd : adjval = 0
        · exfalso
          obtain ⟨hs, hf⟩ := undo_located_none td supptr st hloc
          subst hs
          unfold semundo_adjust at h
          simp only [hf, hd, if_true] at h
          exact h0 h
        · cases hfree : st.semu_free_list with
          | nil => exact ⟨hd, rfl, rfl⟩
          | cons r rest =>
            rw [(semundo_adjust_fresh cfg td supptr semid semseq semnum adjval st r rest hd hloc
              hfree).1] at h
            exact absurd h (hentry r _)
    · intro ⟨hd, hloc, hfree⟩
      rw [semundo_adjust_no_room cfg td supptr semid semseq semnum adjval st hd hloc hfree]

theorem undo_full_record_einval_witness :
    semundo_adjust fullCfg exThread none 0 1 0 (-1) fullState = (EINVAL, some 1, fullState) ∧
    (semundo_adjust scarceCfg exThreadB none 0 1 0 1 scarceState).1 = ENOSPC :=
  ⟨(undo_full_record_einval fullCfg exThread none 0 1 0 (-1) fullState).1 1
    (by decide) (by decide) (by decide) (by decide) (by decide) (by decide),
   (undo_full_record_einval scarceCfg exThreadB none 0 1 0 1 scarceState).2.2
    ⟨by decide, by decide, by decide⟩⟩

theorem undo_magnitude_located (cfg : Seminfo) (td : Thread) (supptr : Option Nat)
    (semid : Int) (semseq : Nat) (semnum d : Int) (st : State) (r : Nat)
    (hloc : undo_located td supptr st = some r) (hd : d ≠ 0) :
    (∀ i, undo_find semid semnum (SEMU st r).un_ent = some i →
      ((semundo_adjust cfg td supptr semid semseq semnum d st).1 = ERANGE ↔
        |d + ((SEMU st r).un_ent.getD i default).un_adjval| > cfg.semaem) ∧
      ((semundo_adjust cfg td supptr semid semseq semnum d st).1 ≠ ERANGE →
        (semundo_adjust cfg td supptr semid semseq semnum d st).1 = 0) ∧
      ((semundo_adjust cfg td supptr semid semseq semnum d st).1 = ERANGE →
        (semundo_adjust cfg td supptr semid semseq semnum d st).2.2 = st)) ∧
    (undo_find semid semnum (SEMU st r).un_ent = none →
      ((semundo_adjust cfg td supptr semid semseq semnum d st).1 = ERANGE ↔
        |d| > cfg.semaem) ∧
      ((semundo_adjust cfg td supptr semid semseq semnum d st).1 = ERANGE →
        (semundo_adjust cfg td supptr semid semseq semnum d st).2.2 = st)) := by
  rw [semundo_adjust_located cfg td supptr semid semseq semnum d st r hloc]
  have hE : ERANGE ≠ (0 : Int) := by decide
  have hEI : EINVAL ≠ ERANGE := by decide
  constructor
  · intro i hi
    simp only [semundo_adjust_entry, hi, hd, ne_eq, not_false_eq_true, if_true, true_and]
    by_cases hr : d + ((SEMU st r).un_ent.getD i default).un_adjval > cfg.semaem ∨
        d + ((SEMU st r).un_ent.getD i default).un_adjval < -cfg.semaem
    · have habs : |d + ((SEMU st r).un_ent.getD i default).un_adjval| > cfg.semaem := by
        rw [gt_iff_lt, lt_abs]; rcases hr with h | h
        · exact Or.inl h
        · exact Or.inr (by omega)
      simp only [hr, if_true]
      exact ⟨⟨fun _ => habs, fun _ => trivial⟩, fun h => absurd trivial h, fun _ => trivial⟩
    · have habs : ¬ |d + ((SEMU st r).un_ent.getD i default).un_adjval| > cfg.semaem := by
        rw [gt_iff_lt, lt_abs]; omega
      simp only [hr, if_false]
      refine ⟨⟨fun h => ?_, fun h => absurd h habs⟩, fun _ => ?_, fun h => ?_⟩
      · exfalso; revert h; repeat' split
        all_goals simp [ERANGE]
      · repeat' split
        all_goals rfl
      · exfalso; revert h; repeat' split
        all_goals simp [ERANGE]
  · intro hn
    simp only [semundo_adjust_entry, hn, hd, if_false]
    by_cases hr : d > cfg.semaem ∨ d < -cfg.semaem
    · have habs : |d| > cfg.semaem := by
        rw [gt_iff_lt, lt_abs]; rcases hr with h | h
        · exact Or.inl h
        · exact Or.inr (by omega)
      simp only [hr, if_true]
      exact ⟨⟨fun _ => habs, fun _ => trivial⟩, fun _ => trivial⟩
    · have habs : ¬ |d| > cfg.semaem := by
        rw [gt_iff_lt, lt_abs]; omega
      simp only [hr, if_false]
      refine ⟨⟨fun h => ?_, fun h => absurd h habs⟩, fun h => ?_⟩
      · exfalso; revert h; split
        all_goals simp [ERANGE, EINVAL]
      · exfalso; revert h; split
        all_goals simp [ERANGE, EINVAL]

/-- C23 (as stated) fails when the process has no undo structure and none is
free. In `scarceState` the only undo structure belongs to the process of
`exThread`. For `exThreadB` an adjustment by 16385 would create a new entry and
16385 exceeds `semaem` = 16384, yet `semundo_adjust` returns `ENOSPC` (28), not
`ERANGE` (34): `semu_alloc` comes before the test of the range. The `semop` call
with `{sem 0, -16385, SEM_UNDO}` returns `ENOSPC` likewise. -/
theorem undo_range_preempted_by_enospc :
    undo_located exThreadB none scarceState = none ∧
    scarceState.semu_free_list = [] ∧
    (16385 : Int) > scarceCfg.semaem ∧
    (semundo_adjust scarceCfg exThreadB none 0 1 0 16385 scarceState).1 = ENOSPC ∧
    (semundo_adjust scarceCfg exThreadB none 0 1 0 16385 scarceState).1 ≠ ERANGE ∧
    sys_semop exKernel scarceCfg exThreadB 65536 [⟨0, -16385, SEM_UNDO⟩] scarceState =
      SemopResult.ret ENOSPC scarceState := by
  decide

/-- C23 (amended). Undo magnitude limit, for a non-zero adjustment `d`. On the undo
structure `r` that `semundo_adjust` works on without allocating (the cached
pointer, or the structure of the process on the active list): when the structure
has an entry `i` for (`semid`, `semnum`) with stored adjustment `e`, the call
returns `ERANGE` exactly when `|d + e| > semaem`, it returns 0 otherwise, and on
`ERANGE` the state (the stored adjustment and the entry count with it) is
unchanged; when the structure has no such entry, the call returns `ERANGE` exactly
when `|d| > semaem`, and then the state is unchanged, so no entry is added. When
the process has no structure, `semu_alloc` comes first: with an empty free list
the call returns `ENOSPC` whatever `d` is and the state is unchanged; otherwise
the call returns `ERANGE` exactly when `|d| > semaem`, and then the state is the
one `semu_alloc` left: the structure taken from the free list is on the active
list and has no entry. -/
theorem undo_magnitude_limit (cfg : Seminfo) (td : Thread) (supptr : Option Nat)
    (semid : Int) (semseq : Nat) (semnum d : Int) (st : State) (hd : d ≠ 0) :
    (∀ r, undo_located td supptr st = some r →
      (∀ i, undo_find semid semnum (SEMU st r).un_ent = some i →
        ((semundo_adjust cfg td supptr semid semseq semnum d st).1 = ERANGE ↔
          |d + ((SEMU st r).un_ent.getD i default).un_adjval| > cfg.semaem) ∧
        ((semundo_adjust cfg td supptr semid semseq semnum d st).1 ≠ ERANGE →
          (semundo_adjust cfg td supptr semid semseq semnum d st).1 = 0) ∧
        ((semundo_adjust cfg td supptr semid semseq semnum d st).1 = ERANGE →
          (semundo_adjust cfg td supptr semid semseq semnum d st).2.2 = st)) ∧
      (undo_find semid semnum (SEMU st r).un_ent = none →
        ((semundo_adjust cfg td supptr semid semseq semnum d st).1 = ERANGE ↔
          |d| > cfg.semaem) ∧
        ((semundo_adjust cfg td supptr semid semseq semnum d st).1 = ERANGE →
          (semundo_adjust cfg td supptr semid semseq semnum d st).2.2 = st))) ∧
    (undo_located td supptr st = none →
      (st.semu_free_list = [] →
        semundo_adjust cfg td supptr semid semseq semnum d st = (ENOSPC, none, st)) ∧
      (∀ r rest, st.semu_free_list = r :: rest →
        ((semundo_adjust cfg td supptr semid semseq semnum d st).1 = ERANGE ↔
          |d| > cfg.semaem) ∧
        ((semundo_adjust cfg td supptr semid semseq semnum d st).1 = ERANGE →
          (semundo_adjust cfg td supptr semid semseq semnum d st).2.2 = (semu_alloc td st).2 ∧
          r ∈ (semundo_adjust cfg td supptr semid semseq semnum d st).2.2.semu_list ∧
          (SEMU (semundo_adjust cfg td supptr semid semseq semnum d st).2.2 r).un_ent = []))) := by
  refine ⟨fun r hloc => undo_magnitude_located cfg td supptr semid semseq semnum d st r hloc hd,
    fun hloc => ⟨fun hfree =>
      semundo_adjust_no_room cfg td supptr semid semseq semnum d st hd hloc hfree, ?_⟩⟩
  intro r rest hfree
  obtain ⟨heq, hent, hmem⟩ :=
    semundo_adjust_fresh cfg td supptr semid semseq semnum d st r rest hd hloc hfree
  rw [heq]
  have hE : ERANGE ≠ (0 : Int) := by decide
  have hEI : EINVAL ≠ ERANGE := by decide
  have hfind : undo_find semid semnum (SEMU (semu_alloc td st).2 r).un_ent = none := by
    rw [hent]; rfl
  simp only [semundo_adjust_entry, hfind, hd, if_false]
  by_cases hr : d > cfg.semaem ∨ d < -cfg.semaem
  · have habs : |d| > cfg.semaem := by
      rw [gt_iff_lt, lt_abs]; rcases hr with h | h
      · exact Or.inl h
      · exact Or.inr (by omega)
    simp only [hr, if_true]
    exact ⟨⟨fun _ => habs, fun _ => trivial⟩, fun _ => ⟨trivial, hmem, hent⟩⟩
  · have habs : ¬ |d| > cfg.semaem := by
      rw [gt_iff_lt, lt_abs]; omega
    simp only [hr, if_false]
    refine ⟨⟨fun h => ?_, fun h => absurd h habs⟩, fun h => ?_⟩
    · exfalso; revert h; split
      all_goals simp [ERANGE, EINVAL]
    · exfalso; revert h; split
      all_goals simp [ERANGE, EINVAL]

theorem undo_magnitude_limit_witness :
    undo_located exThread none fullState = some 1 ∧
    (undo_find 1 0 (SEMU fullState 1).un_ent = some 0 →
      ((semundo_adjust fullCfg exThread none 1 1 0 16384 fullState).1 = ERANGE ↔
        |16384 + ((SEMU fullState 1).un_ent.getD 0 default).un_adjval| > fullCfg.semaem)) ∧
    undo_located exThreadB none fullState = none ∧
    ((semundo_adjust fullCfg exThreadB none 1 1 0 16385 fullState).1 = ERANGE ↔
      |16385| > fullCfg.semaem) :=
  have h := undo_magnitude_limit fullCfg exThread none 1 1 0 16384 fullState (by decide)
  have hB := undo_magnitude_limit fullCfg exThreadB none 1 1 0 16385 fullState (by decide)
  ⟨by decide, fun hf => ((h.1 1 (by decide)).1 0 hf).1, by decide,
    ((hB.2 (by decide)).2 0 [] (by decide)).1⟩

theorem undo_delete_length (ents : List Undo) (i : Nat) :
    (undo_delete ents i).length = ents.length - 1 := by
  unfold undo_delete
  simp only
  split <;> simp

theorem undo_delete_getD (ents : List Undo) (i j : Nat) (hi : i < ents.length)
    (hj : j < ents.length - 1) :
    (undo_delete ents i).getD j default =
      if j = i then ents.getD (ents.length - 1) default else ents.getD j default := by
  have htake : ∀ l : List Undo, (l.take (ents.length - 1)).getD j default = l.getD j default := by
    intro l
    simp only [List.getD_eq_getElem?_getD, List.getElem?_take]
    rw [if_pos hj]
  unfold undo_delete
  by_cases hlt : i < ents.length - 1
  · simp only [hlt, if_true]
    rw [htake, getD_set_eq]
    by_cases hji : j = i
    · subst hji
      simp [hi]
    · have : ¬ (i = j ∧ i < ents.length) := fun h => hji h.1.symm
      simp only [this, hji, if_false]
  · simp only [hlt, if_false]
    rw [htake]
    have : j ≠ i := by omega
    simp [this]

theorem getD_setSEMU_self (st : State) (r : Nat) (su : SemUndo) (hr : r < st.semu.length) :
    SEMU (setSEMU st r su) r = su := by
  unfold SEMU setSEMU
  simp only
  rw [getD_set_eq]
  simp [hr]

theorem getD_setSEMU_other (st : State) (r q : Nat) (su : SemUndo) (hq : q ≠ r) :
    SEMU (setSEMU st r su) q = SEMU st q := by
  unfold SEMU setSEMU
  simp only
  rw [getD_set_eq]
  have : ¬ (r = q ∧ r < st.semu.length) := fun h => hq h.1.symm
  simp [this]

theorem semu_try_free_semu (r : Nat) (st : State) : (semu_try_free r st).2.semu = st.semu := by
  unfold semu_try_free
  split <;> rfl

/-- C24. Undo entry deletion, on the undo structure `r` that `semundo_adjust`
works on. When a non-zero adjustment `d` meets an entry `i` for (`semid`,
`semnum`) whose stored adjustment is `-d`, the call succeeds and removes the
entry: the entry count of the structure goes down by one, position `i` holds the
former last entry and every other remaining position holds the entry it held
before, the owner of the structure and the other structures are unchanged. When
the count reaches 0 the structure is taken off the active list and becomes the
head of the free list; otherwise both lists are unchanged. -/
theorem undo_entry_deleted (cfg : Seminfo) (td : Thread) (supptr : Option Nat)
    (semid : Int) (semseq : Nat) (semnum d : Int) (st : State) (r i : Nat)
    (hloc : undo_located td supptr st = some r) (hr : r < st.semu.length)
    (haem : 0 ≤ cfg.semaem) (hd : d ≠ 0)
    (hfind : undo_find semid semnum (SEMU st r).un_ent = some i)
    (hzero : d + ((SEMU st r).un_ent.getD i default).un_adjval = 0) :
    (semundo_adjust cfg td supptr semid semseq semnum d st).1 = 0 ∧
    (SEMU (semundo_adjust cfg td supptr semid semseq semnum d st).2.2 r).un_cnt =
      (SEMU st r).un_cnt - 1 ∧
    (∀ j, j < (SEMU st r).un_cnt - 1 →
      (SEMU (semundo_adjust cfg td supptr semid semseq semnum d st).2.2 r).un_ent.getD j default =
        if j = i then (SEMU st r).un_ent.getD ((SEMU st r).un_cnt - 1) default
        else (SEMU st r).un_ent.getD j default) ∧
    (SEMU (semundo_adjust cfg td supptr semid semseq semnum d st).2.2 r).un_proc =
      (SEMU st r).un_proc ∧
    (∀ q, q ≠ r →
      SEMU (semundo_adjust cfg td supptr semid semseq semnum d st).2.2 q = SEMU st q) ∧
    ((SEMU st r).un_cnt = 1 →
      (semundo_adjust cfg td supptr semid semseq semnum d st).2.2.semu_list =
        st.semu_list.erase r ∧
      (semundo_adjust cfg td supptr semid semseq semnum d st).2.2.semu_free_list =
        r :: st.semu_free_list.erase r ∧
      (st.semu_list.Nodup →
        r ∉ (semundo_adjust cfg td supptr semid semseq semnum d st).2.2.semu_list)) ∧
    ((SEMU st r).un_cnt ≠ 1 →
      (semundo_adjust cfg td supptr semid semseq semnum d st).2.2.semu_list = st.semu_list ∧
      (semundo_adjust cfg td supptr semid semseq semnum d st).2.2.semu_free_list =
        st.semu_free_list) := by
  rw [semundo_adjust_located cfg td supptr semid semseq semnum d st r hloc]
  have hi := (undo_find_some semid semnum _ i hfind).1
  have hrange : ¬ ((0 : Int) > cfg.semaem ∨ (0 : Int) < -cfg.semaem) := by omega
  have hlen := undo_delete_length (SEMU st r).un_ent i
  have hself := getD_setSEMU_self st r
    { SEMU st r with un_ent := undo_delete (SEMU st r).un_ent i } hr
  have hother := fun q (hq : q ≠ r) => getD_setSEMU_other st r q
    { SEMU st r with un_ent := undo_delete (SEMU st r).un_ent i } hq
  have hts : toShort 0 = 0 := by decide
  simp only [semundo_adjust_entry, hfind, hd, ne_eq, not_false_eq_true, if_true, hzero,
    hrange, and_false, if_false, hts, SemUndo.un_cnt]
  by_cases hone : (SEMU st r).un_ent.length = 1
  · have h0 : (undo_delete (SEMU st r).un_ent i).length = 0 := by omega
    have hcnt : (SEMU (setSEMU st r { SEMU st r with un_ent := undo_delete (SEMU st r).un_ent i })
        r).un_cnt = 0 := by
      rw [hself]; exact h0
    have hfree : semu_try_free r
        (setSEMU st r { SEMU st r with un_ent := undo_delete (SEMU st r).un_ent i }) =
        (1, { (setSEMU st r { SEMU st r with un_ent := undo_delete (SEMU st r).un_ent i }) with
              semu_list := st.semu_list.erase r
              semu_free_list := r :: st.semu_free_list.erase r }) := by
      unfold semu_try_free
      simp only [hcnt, ne_eq, not_true_eq_false, if_false]
      rfl
    simp only [h0, if_true, hfree]
    have hS : ∀ q, SEMU { (setSEMU st r { SEMU st r with un_ent := undo_delete (SEMU st r).un_ent i }) with
              semu_list := st.semu_list.erase r
              semu_free_list := r :: st.semu_free_list.erase r } q =
          SEMU (setSEMU st r { SEMU st r with un_ent := undo_delete (SEMU st r).un_ent i }) q :=
      fun q => rfl
    refine ⟨trivial, ?_, ?_, ?_, ?_, ?_, ?_⟩
    · rw [hS, hself]; simp only; omega
    · intro j hj; omega
    · rw [hS, hself]
    · intro q hq; rw [hS]; exact hother q hq
    · intro _
      refine ⟨trivial, trivial, fun hnd => ?_⟩
      exact fun hmem => (List.Nodup.mem_erase_iff hnd).1 hmem |>.1 rfl
    · intro h; exact absurd hone h
  · have h0 : ¬ (undo_delete (SEMU st r).un_ent i).length = 0 := by omega
    simp only [h0, if_false]
    refine ⟨trivial, ?_, ?_, ?_, ?_, ?_, ?_⟩
    · rw [hself]; exact hlen
    · intro j hj; rw [hself]; exact undo_delete_getD _ i j hi hj
    · rw [hself]
    · intro q hq; exact hother q hq
    · intro h; exact absurd h hone
    · intro _; exact ⟨rfl, rfl⟩

theorem undo_entry_deleted_witness :
    (semundo_adjust exCfg exThread none 0 1 0 (-1) (exStateUndo 5 7)).1 = 0 ∧
    (SEMU (semundo_adjust exCfg exThread none 0 1 0 (-1) (exStateUndo 5 7)).2.2 1).un_cnt =
      (SEMU (exStateUndo 5 7) 1).un_cnt - 1 ∧
    ((SEMU (exStateUndo 5 7) 1).un_cnt = 1 →
      (semundo_adjust exCfg exThread none 0 1 0 (-1) (exStateUndo 5 7)).2.2.semu_list =
        (exStateUndo 5 7).semu_list.erase 1 ∧
      (semundo_adjust exCfg exThread none 0 1 0 (-1) (exStateUndo 5 7)).2.2.semu_free_list =
        1 :: (exStateUndo 5 7).semu_free_list.erase 1 ∧
      ((exStateUndo 5 7).semu_list.Nodup →
        1 ∉ (semundo_adjust exCfg exThread none 0 1 0 (-1) (exStateUndo 5 7)).2.2.semu_list)) :=
  have h := undo_entry_deleted exCfg exThread none 0 1 0 (-1) (exStateUndo 5 7) 1 0
    (by decide) (by decide) (by decide) (by decide) (by decide) (by decide)
  ⟨h.1, h.2.1, h.2.2.2.2.2.1⟩

/-! ## The exit hook -/

theorem semexit_apply_fold (ents : List Undo) (st : State)
    (hin : ∀ e ∈ ents, exit_skips st.sema e = false →
      e.un_num < (st.sema.getD e.un_id.toNat default).u.sem_nsems) :
    semexit_apply ents st =
      some { st with
             sem := (ents.filter (fun e => !exit_skips st.sema e)).foldl
                      (exit_adjust st.sema) st.sem } := by
  induction ents generalizing st with
  | nil => rfl
  | cons e es ih =>
    rw [semexit_apply]
    simp only
    by_cases hs : exit_skips st.sema e = true
    · have hskip : ¬ sem_alloc (st.sema.getD e.un_id.toNat default) = true ∨
          (st.sema.getD e.un_id.toNat default).u.sem_perm.seq ≠ e.un_seq := by
        simpa [exit_skips] using hs
      rw [if_pos hskip, ih st (fun e' he' => hin e' (List.mem_cons_of_mem _ he'))]
      simp [List.filter_cons, hs]
    · have hs' : exit_skips st.sema e = false := by simpa using hs
      have hskip : ¬ (¬ sem_alloc (st.sema.getD e.un_id.toNat default) = true ∨
          (st.sema.getD e.un_id.toNat default).u.sem_perm.seq ≠ e.un_seq) := by
        simpa [exit_skips] using hs'
      have hnp : ¬ e.un_num ≥ (st.sema.getD e.un_id.toNat default).u.sem_nsems := by
        have := hin e (List.mem_cons_self _ _) hs'
        omega
      rw [if_neg hskip, if_neg hnp]
      have key := ih { st with sem := exit_adjust st.sema st.sem e }
        (fun e' he' => hin e' (List.mem_cons_of_mem _ he'))
      show semexit_apply es { st with sem := exit_adjust st.sema st.sem e } = _
      rw [key]
      simp only [List.filter_cons, hs', Bool.not_false, if_true, List.foldl_cons]

/-- C26. Exit hook bookkeeping. When the process has no undo structure on the
active list, `semexit_myhook` returns the state unchanged. Otherwise, with `r`
the structure found and every entry that is not skipped naming a semaphore of
its set, the hook returns the state in which the pool is the result of applying
the adjustment of each entry that is not skipped (slot allocated, sequence
number equal to the entry's) once, in order, the skipped entries changing
nothing; `r` is off the active list and at the head of the free list, with no
entries and no owner; the descriptors, `semtot` and the other structures are
unchanged; and when `r` was once on the active list and was the only structure
of the process there, the process has no structure on the active list. -/
theorem semexit_bookkeeping (p : Nat) (st : State) :
    (st.semu_list.find? (fun ix => (SEMU st ix).un_proc = some p) = none →
      semexit_myhook p st = some st) ∧
    (∀ r, st.semu_list.find? (fun ix => (SEMU st ix).un_proc = some p) = some r →
      (∀ e ∈ (SEMU st r).un_ent, exit_skips st.sema e = false →
        e.un_num < (st.sema.getD e.un_id.toNat default).u.sem_nsems) →
      semexit_myhook p st =
        some { st with
               sem := ((SEMU st r).un_ent.filter (fun e => !exit_skips st.sema e)).foldl
                        (exit_adjust st.sema) st.sem
               semu := st.semu.set r { un_proc := none, un_ent := [] }
               semu_list := st.semu_list.erase r
               semu_free_list := r :: st.semu_free_list } ∧
      r < st.semu.length ∧
      (∀ st', semexit_myhook p st = some st' →
        r ∈ st'.semu_free_list ∧ (SEMU st' r).un_cnt = 0 ∧ (SEMU st' r).un_proc = none ∧
        (∀ q, q ≠ r → SEMU st' q = SEMU st q) ∧
        (st.semu_list.Nodup → SoleOwner st p r →
          r ∉ st'.semu_list ∧
          st'.semu_list.find? (fun ix => (SEMU st' ix).un_proc = some p) = none))) := by
  constructor
  · intro h
    unfold semexit_myhook
    rw [h]
  · intro r hr hin
    have hmem : r ∈ st.semu_list := List.mem_of_find?_eq_some hr
    have hown : (SEMU st r).un_proc = some p := by
      have := List.find?_some hr
      simpa using this
    have hlen : r < st.semu.length := by
      by_contra hge
      have : SEMU st r = default := by
        unfold SEMU
        rw [List.getD_eq_getElem?_getD, List.getElem?_eq_none (Nat.le_of_not_lt hge)]
        rfl
      have hd : (default : SemUndo).un_proc = none := rfl
      rw [this, hd] at hown
      cases hown
    have heq : semexit_myhook p st =
        some { st with
               sem := ((SEMU st r).un_ent.filter (fun e => !exit_skips st.sema e)).foldl
                        (exit_adjust st.sema) st.sem
               semu := st.semu.set r { un_proc := none, un_ent := [] }
               semu_list := st.semu_list.erase r
               semu_free_list := r :: st.semu_free_list } := by
      unfold semexit_myhook
      rw [hr]
      simp only
      rw [semexit_apply_fold (SEMU st r).un_ent { st with semu_list := st.semu_list.erase r } hin]
    refine ⟨heq, hlen, ?_⟩
    intro st' hst'
    rw [heq] at hst'
    simp only [Option.some.injEq] at hst'
    subst hst'
    have hself : SEMU { st with
               sem := ((SEMU st r).un_ent.filter (fun e => !exit_skips st.sema e)).foldl
                        (exit_adjust st.sema) st.sem
               semu := st.semu.set r { un_proc := none, un_ent := [] }
               semu_list := st.semu_list.erase r
               semu_free_list := r :: st.semu_free_list } r = { un_proc := none, un_ent := [] } := by
      unfold SEMU
      simp only
      rw [getD_set_eq]
      simp [hlen]
    have hother : ∀ q, q ≠ r → SEMU { st with
               sem := ((SEMU st r).un_ent.filter (fun e => !exit_skips st.sema e)).foldl
                        (exit_adjust st.sema) st.sem
               semu := st.semu.set r { un_proc := none, un_ent := [] }
               semu_list := st.semu_list.erase r
               semu_free_list := r :: st.semu_free_list } q = SEMU st q := by
      intro q hq
      unfold SEMU
      simp only
      rw [getD_set_eq]
      have : ¬ (r = q ∧ r < st.semu.length) := fun h => hq h.1.symm
      simp [this]
    refine ⟨by simp, by rw [hself]; rfl, by rw [hself], hother, ?_⟩
    intro hnd hsole
    have hnot : r ∉ st.semu_list.erase r :=
      fun hm => ((List.Nodup.mem_erase_iff hnd).1 hm).1 rfl
    refine ⟨hnot, ?_⟩
    rw [List.find?_eq_none]
    intro q hq
    have hq' : q ∈ st.semu_list := List.mem_of_mem_erase hq
    have hqr : q ≠ r := fun h => hnot (h ▸ hq)
    rw [hother q hqr]
    simpa using hsole q hq' hqr

theorem semexit_bookkeeping_witness :
    semexit_myhook 100 (exStateUndo2 5 7) =
      some { exStateUndo2 5 7 with
             sem := ((SEMU (exStateUndo2 5 7) 1).un_ent.filter
                      (fun e => !exit_skips (exStateUndo2 5 7).sema e)).foldl
                      (exit_adjust (exStateUndo2 5 7).sema) (exStateUndo2 5 7).sem
             semu := (exStateUndo2 5 7).semu.set 1 { un_proc := none, un_ent := [] }
             semu_list := (exStateUndo2 5 7).semu_list.erase 1
             semu_free_list := 1 :: (exStateUndo2 5 7).semu_free_list } ∧
    ((exStateUndo2 5 7).sem.map (fun s => s.semval) = [4, 6, 0, 0]) ∧
    ((((SEMU (exStateUndo2 5 7) 1).un_ent.filter
        (fun e => !exit_skips (exStateUndo2 5 7).sema e)).foldl
        (exit_adjust (exStateUndo2 5 7).sema) (exStateUndo2 5 7).sem).map (fun s => s.semval) =
      [5, 7, 0, 0]) :=
  ⟨((semexit_bookkeeping 100 (exStateUndo2 5 7)).2 1 (by decide) (by decide)).1,
   by decide, by decide⟩

/-! ## `SEM_STAT` -/

/-- C27. `SEM_STAT` takes a slot index. In a jail that allows System V IPC: for
`0 ≤ i < semmni` with slot `i` allocated and read permission granted the call
succeeds, copies out the descriptor of the slot and returns
`IXSEQ_TO_IPCID(i, perm)` with the stored sequence number; for `i < 0`,
`i ≥ semmni` or a slot that is not allocated it fails with `EINVAL`; in every
case the state is unchanged. The identifier returned is the one `semget`
returned when it allocated slot `i`, whatever calls that do not allocate the slot
again came in between. -/
theorem sem_stat_by_index (K : Kernel) (cfg : Seminfo) (td : Thread) (i semnum : Int)
    (arg : Semun) (st : State) (hjail : K.prison_allow td = true) :
    (0 ≤ i → i < cfg.semmni → sem_alloc (st.sema.getD i.toNat default) = true →
      K.ipcperm td (st.sema.getD i.toNat default).u.sem_perm IPC_R = 0 →
      kern_semctl K cfg td i semnum Cmd.SEM_STAT arg st =
        ⟨0, IXSEQ_TO_IPCID i.toNat (st.sema.getD i.toNat default).u.sem_perm,
          some (st.sema.getD i.toNat default).u, none, st⟩) ∧
    (i < 0 ∨ i ≥ cfg.semmni ∨ sem_alloc (st.sema.getD i.toNat default) = false →
      kern_semctl K cfg td i semnum Cmd.SEM_STAT arg st = ⟨EINVAL, 0, none, none, st⟩) ∧
    (kern_semctl K cfg td i semnum Cmd.SEM_STAT arg st).st = st ∧
    (∀ (st0 : State) (td1 : Thread) (key nsems : Int) (semflg : Nat) (mid : List Call),
      creates_slot K cfg i.toNat (Call.semget td1 key nsems semflg) st0 = true →
      creations K cfg i.toNat mid (sys_semget K cfg td1 key nsems semflg st0).st = 0 →
      st = run K cfg mid (sys_semget K cfg td1 key nsems semflg st0).st →
      IXSEQ_TO_IPCID i.toNat (st.sema.getD i.toNat default).u.sem_perm =
        (sys_semget K cfg td1 key nsems semflg st0).retval) := by
  refine ⟨?_, ?_, ?_, ?_⟩
  · intro h0 h1 ha hp
    unfold kern_semctl
    have hr : ¬ (i < 0 ∨ i ≥ cfg.semmni) := by omega
    simp only [hjail, not_true_eq_false, if_false, if_true, hr, ha, hp, ne_eq]
  · intro h
    unfold kern_semctl
    simp only [hjail, not_true_eq_false, if_false, if_true]
    by_cases hr : i < 0 ∨ i ≥ cfg.semmni
    · rw [if_pos hr]
    · rw [if_neg hr]
      have ha : sem_alloc (st.sema.getD i.toNat default) = false := by
        rcases h with h | h | h
        · exact absurd (Or.inl h) hr
        · exact absurd (Or.inr h) hr
        · exact h
      simp only [ha, Bool.false_eq_true, not_false_eq_true, if_true]
  · unfold kern_semctl
    simp only [hjail, not_true_eq_false, if_false, if_true]
    repeat' split
    all_goals rfl
  · intro st0 td1 key nsems semflg mid hc hm hst
    rcases creates_slot_semget K cfg td1 key nsems semflg st0 i.toNat with
      ⟨_, _, _, hret⟩ | ⟨hf, _⟩
    · rw [hret]
      apply ixseq_congr
      have := run_seq K cfg mid (sys_semget K cfg td1 key nsems semflg st0).st i.toNat
      rw [hm] at this
      simp only [seq_after, if_true] at this
      rw [hst]
      exact this
    · rw [hf] at hc; exact absurd hc (by decide)

theorem sem_stat_by_index_witness :
    kern_semctl exKernel exCfg exThread 0 0 Cmd.SEM_STAT ⟨0, default, []⟩ (exState 5 7) =
      ⟨0, IXSEQ_TO_IPCID 0 ((exState 5 7).sema.getD 0 default).u.sem_perm,
        some ((exState 5 7).sema.getD 0 default).u, none, exState 5 7⟩ ∧
    IXSEQ_TO_IPCID 0 ((exState 5 7).sema.getD 0 default).u.sem_perm = 65536 ∧
    kern_semctl exKernel exCfg exThread 1 0 Cmd.SEM_STAT ⟨0, default, []⟩ (exState 5 7) =
      ⟨EINVAL, 0, none, none, exState 5 7⟩ :=
  ⟨(sem_stat_by_index exKernel exCfg exThread 0 0 ⟨0, default, []⟩ (exState 5 7) rfl).1
      (by decide) (by decide) (by decide) (by decide),
   by decide,
   (sem_stat_by_index exKernel exCfg exThread 1 0 ⟨0, default, []⟩ (exState 5 7) rfl).2.1
      (Or.inr (Or.inr (by decide)))⟩

/-! ## Blocking and wakeup -/

theorem semop_loop_blocks (K : Kernel) (cfg : Seminfo) (td : Thread) (X s : Nat) (st : State)
    (hval : (st.sem.getD ((st.sema.getD X default).u.sem_base + s) default).semval = 0) :
    semop_loop K cfg td X [⟨s, -1, 0⟩] st =
      SemopResult.sleep 0
        { st with
          sem := st.sem.set ((st.sema.getD X default).u.sem_base + s)
            { st.sem.getD ((st.sema.getD X default).u.sem_base + s) default with
              semncnt := ((st.sem.getD ((st.sema.getD X default).u.sem_base + s) default).semncnt
                + 1) % 65536 } } := by
  have hc : ((st.sem.getD ((st.sema.getD X default).u.sem_base + s) default).semval : Int) + -1 <
      0 := by omega
  unfold semop_loop
  simp only [semop_try, hc]
  simp [semop_rollback, IPC_NOWAIT]

theorem semop_loop_post (K : Kernel) (cfg : Seminfo) (td : Thread) (X s : Nat) (st : State)
    (hv : ((st.sem.getD ((st.sema.getD X default).u.sem_base + s) default).semval : Int) + 1 ≤
      cfg.semvmx) :
    semop_loop K cfg td X [⟨s, 1, 0⟩] st =
      SemopResult.ret 0
        { st with
          sem := semop_stamp (st.sema.getD X default).u.sem_base td.p_pid [⟨s, 1, 0⟩]
            (semval_add st.sem ((st.sema.getD X default).u.sem_base + s) 1)
          sema := st.sema.set X
            { st.sema.getD X default with
              u := { (st.sema.getD X default).u with sem_otime := K.time_second } } } ∧
    (semop_try cfg (st.sema.getD X default).u.sem_base [⟨s, 1, 0⟩] 0 false st.sem).2.2.1 =
      decide ((st.sem.getD ((st.sema.getD X default).u.sem_base + s) default).semncnt > 0) := by
  have hv' : ¬ ((st.sem.getD ((st.sema.getD X default).u.sem_base + s) default).semval : Int) + 1 >
      cfg.semvmx := by omega
  constructor
  · unfold semop_loop
    simp only [semop_try, hv']
    simp [semop_done, semop_do_undos]
  · simp only [semop_try, hv']
    simp

theorem semop_loop_take (K : Kernel) (cfg : Seminfo) (td : Thread) (X s : Nat) (st : State)
    (hv : 1 ≤ (st.sem.getD ((st.sema.getD X default).u.sem_base + s) default).semval) :
    semop_loop K cfg td X [⟨s, -1, 0⟩] st =
      SemopResult.ret 0
        { st with
          sem := semop_stamp (st.sema.getD X default).u.sem_base td.p_pid [⟨s, -1, 0⟩]
            (semval_add st.sem ((st.sema.getD X default).u.sem_base + s) (-1))
          sema := st.sema.set X
            { st.sema.getD X default with
              u := { (st.sema.getD X default).u with sem_otime := K.time_second } } } := by
  have hv' : ¬ ((st.sem.getD ((st.sema.getD X default).u.sem_base + s) default).semval : Int) + -1 <
      0 := by omega
  unfold semop_loop
  simp only [semop_try, hv']
  simp [semop_done, semop_do_undos]

theorem getD_set_self {α : Type} (l : List α) (i : Nat) (a d : α) (h : i < l.length) :
    (l.set i a).getD i d = a := by
  rw [getD_set_eq]; simp [h]

theorem semval_add_getD_self (pool : List Sem) (idx : Nat) (d : Int) (h : idx < pool.length) :
    (semval_add pool idx d).getD idx default =
      { pool.getD idx default with
        semval := (((pool.getD idx default).semval + d) % 65536).toNat } := by
  unfold semval_add
  exact getD_set_self _ _ _ _ h

theorem semop_stamp_one_getD (base : Nat) (pid : Int) (o : Sembuf) (pool : List Sem)
    (h : base + o.sem_num < pool.length) :
    (semop_stamp base pid [o] pool).getD (base + o.sem_num) default =
      { pool.getD (base + o.sem_num) default with sempid := pid } ∧
    (semop_stamp base pid [o] pool).length = pool.length := by
  simp only [semop_stamp, List.foldl_cons, List.foldl_nil, List.length_set, and_true]
  exact getD_set_self _ _ _ _ h

theorem semop_loop_blocks_cell (K : Kernel) (cfg : Seminfo) (td : Thread) (X s : Nat) (st : State)
    (hin : (st.sema.getD X default).u.sem_base + s < st.sem.length)
    (hval : (st.sem.getD ((st.sema.getD X default).u.sem_base + s) default).semval = 0) :
    ∃ st1, semop_loop K cfg td X [⟨s, -1, 0⟩] st = SemopResult.sleep 0 st1 ∧
      st1.sema = st.sema ∧ st1.sem.length = st.sem.length ∧
      st1.sem.getD ((st.sema.getD X default).u.sem_base + s) default =
        { st.sem.getD ((st.sema.getD X default).u.sem_base + s) default with
          semncnt := ((st.sem.getD ((st.sema.getD X default).u.sem_base + s) default).semncnt
            + 1) % 65536 } := by
  refine ⟨_, semop_loop_blocks K cfg td X s st hval, rfl, ?_, ?_⟩
  · simp
  · exact getD_set_self _ _ _ _ hin

theorem semop_loop_post_cell (K : Kernel) (cfg : Seminfo) (td : Thread) (X s : Nat) (st : State)
    (hX : X < st.sema.length)
    (hin : (st.sema.getD X default).u.sem_base + s < st.sem.length)
    (hv : ((st.sem.getD ((st.sema.getD X default).u.sem_base + s) default).semval : Int) + 1 ≤
      cfg.semvmx) :
    ∃ st2, semop_loop K cfg td X [⟨s, 1, 0⟩] st = SemopResult.ret 0 st2 ∧
      st2.sema.getD X default =
        { st.sema.getD X default with
          u := { (st.sema.getD X default).u with sem_otime := K.time_second } } ∧
      st2.sem.length = st.sem.length ∧
      st2.sem.getD ((st.sema.getD X default).u.sem_base + s) default =
        { st.sem.getD ((st.sema.getD X default).u.sem_base + s) default with
          semval := (((st.sem.getD ((st.sema.getD X default).u.sem_base + s) default).semval + 1 :
            Int) % 65536).toNat
          sempid := td.p_pid } := by
  refine ⟨_, (semop_loop_post K cfg td X s st hv).1, ?_, ?_, ?_⟩
  · exact getD_set_self _ _ _ _ hX
  · have := (semop_stamp_one_getD (st.sema.getD X default).u.sem_base td.p_pid ⟨s, 1, 0⟩
      (semval_add st.sem ((st.sema.getD X default).u.sem_base + s) 1)
      (by rw [semval_add_length]; exact hin)).2
    rw [semval_add_length] at this
    exact this
  · have := (semop_stamp_one_getD (st.sema.getD X default).u.sem_base td.p_pid ⟨s, 1, 0⟩
      (semval_add st.sem ((st.sema.getD X default).u.sem_base + s) 1)
      (by rw [semval_add_length]; exact hin)).1
    rw [semval_add_getD_self _ _ _ hin] at this
    exact this

theorem semop_loop_take_cell (K : Kernel) (cfg : Seminfo) (td : Thread) (X s : Nat) (st : State)
    (hX : X < st.sema.length)
    (hin : (st.sema.getD X default).u.sem_base + s < st.sem.length)
    (hv : 1 ≤ (st.sem.getD ((st.sema.getD X default).u.sem_base + s) default).semval) :
    ∃ st3, semop_loop K cfg td X [⟨s, -1, 0⟩] st = SemopResult.ret 0 st3 ∧
      st3.sema.getD X default =
        { st.sema.getD X default with
          u := { (st.sema.getD X default).u with sem_otime := K.time_second } } ∧
      st3.sem.length = st.sem.length ∧
      st3.sem.getD ((st.sema.getD X default).u.sem_base + s) default =
        { st.sem.getD ((st.sema.getD X default).u.sem_base + s) default with
          semval := (((st.sem.getD ((st.sema.getD X default).u.sem_base + s) default).semval + -1 :
            Int) % 65536).toNat
          sempid := td.p_pid } := by
  refine ⟨_, semop_loop_take K cfg td X s st hv, ?_, ?_, ?_⟩
  · exact getD_set_self _ _ _ _ hX
  · have := (semop_stamp_one_getD (st.sema.getD X default).u.sem_base td.p_pid ⟨s, -1, 0⟩
      (semval_add st.sem ((st.sema.getD X default).u.sem_base + s) (-1))
      (by rw [semval_add_length]; exact hin)).2
    rw [semval_add_length] at this
    exact this
  · have := (semop_stamp_one_getD (st.sema.getD X default).u.sem_base td.p_pid ⟨s, -1, 0⟩
      (semval_add st.sem ((st.sema.getD X default).u.sem_base + s) (-1))
      (by rw [semval_add_length]; exact hin)).1
    rw [semval_add_getD_self _ _ _ hin] at this
    exact this

theorem semop_wakeup_retry (K : Kernel) (cfg : Seminfo) (td : Thread) (id : Int)
    (s : Nat) (op : Int) (flg : Nat) (st : State)
    (ha : sem_alloc (st.sema.getD (IPCID_TO_IX id) default) = true)
    (hs : (st.sema.getD (IPCID_TO_IX id) default).u.sem_perm.seq = IPCID_TO_SEQ id)
    (hin : (st.sema.getD (IPCID_TO_IX id) default).u.sem_base + s < st.sem.length)
    (hop : op ≠ 0) :
    ∃ st1, semop_wakeup K cfg td id [⟨s, op, flg⟩] 0 0 st =
        semop_loop K cfg td (IPCID_TO_IX id) [⟨s, op, flg⟩] st1 ∧
      st1.sema = st.sema ∧ st1.sem.length = st.sem.length ∧
      st1.sem.getD ((st.sema.getD (IPCID_TO_IX id) default).u.sem_base + s) default =
        { st.sem.getD ((st.sema.getD (IPCID_TO_IX id) default).u.sem_base + s) default with
          semncnt := ((st.sem.getD ((st.sema.getD (IPCID_TO_IX id) default).u.sem_base + s)
            default).semncnt + 65535) % 65536 } := by
  refine ⟨{ st with
            sem := st.sem.set ((st.sema.getD (IPCID_TO_IX id) default).u.sem_base + s)
              { st.sem.getD ((st.sema.getD (IPCID_TO_IX id) default).u.sem_base + s) default with
                semncnt := ((st.sem.getD ((st.sema.getD (IPCID_TO_IX id) default).u.sem_base + s)
                  default).semncnt + 65535) % 65536 } }, ?_, rfl, ?_, ?_⟩
  · unfold semop_wakeup
    simp only [ha, hs, hop, not_true_eq_false, ne_eq, or_self, if_false, not_false_eq_true,
      List.getD_cons_zero]
  · simp
  · exact getD_set_self _ _ _ _ hin

/-- C28. Blocking semantics. Let semaphore `s` of a valid set have value 0 and no
waiter for an increase. A `semop` of thread A with the single operation
`{s, -1, 0}` (no `IPC_NOWAIT`) does not complete: it goes to sleep on operation 0
and leaves the value 0 and `semncnt = 1`. A `semop` of thread B with `{s, +1, 0}`
then returns 0, leaves the value 1 and has `do_wakeup` set. The retry of A after
the wakeup returns 0 and leaves the value 0 and `semncnt = 0`. The value of the
semaphore is 0, 0, 1, 0 in the four states, never negative or wrapped. -/
theorem blocking_scenario (K : Kernel) (cfg : Seminfo) (tdA tdB : Thread) (id : Int) (s : Nat)
    (st : State)
    (hA : SemopAdmitted K cfg tdA id [⟨s, -1, 0⟩] st)
    (hB : SemopAdmitted K cfg tdB id [⟨s, 1, 0⟩] st)
    (hin : sem_index st (IPCID_TO_IX id) s < st.sem.length)
    (hval : (set_sem st (IPCID_TO_IX id) s).semval = 0)
    (hcnt : (set_sem st (IPCID_TO_IX id) s).semncnt = 0)
    (hvmx : 1 ≤ cfg.semvmx) :
    ∃ st1 st2 st3,
      sys_semop K cfg tdA id [⟨s, -1, 0⟩] st = SemopResult.sleep 0 st1 ∧
      (set_sem st1 (IPCID_TO_IX id) s).semval = 0 ∧
      (set_sem st1 (IPCID_TO_IX id) s).semncnt = 1 ∧
      sys_semop K cfg tdB id [⟨s, 1, 0⟩] st1 = SemopResult.ret 0 st2 ∧
      (semop_try cfg (st1.sema.getD (IPCID_TO_IX id) default).u.sem_base [⟨s, 1, 0⟩] 0 false
        st1.sem).2.2.1 = true ∧
      (set_sem st2 (IPCID_TO_IX id) s).semval = 1 ∧
      (set_sem st2 (IPCID_TO_IX id) s).semncnt = 1 ∧
      semop_wakeup K cfg tdA id [⟨s, -1, 0⟩] 0 0 st2 = SemopResult.ret 0 st3 ∧
      (set_sem st3 (IPCID_TO_IX id) s).semval = 0 ∧
      (set_sem st3 (IPCID_TO_IX id) s).semncnt = 0 := by
  unfold set_sem sem_index at *
  have hvalid := (semvalid_eq_zero _ _).1 hA.2.2.2.2.1
  have hX : IPCID_TO_IX id < st.sema.length := sem_alloc_lt _ _ hvalid.1
  -- A goes to sleep
  obtain ⟨st1, h1, hsema1, hlen1, hc1⟩ :=
    semop_loop_blocks_cell K cfg tdA (IPCID_TO_IX id) s st hin hval
  have hB1 : SemopAdmitted K cfg tdB id [⟨s, 1, 0⟩] st1 := by
    unfold SemopAdmitted at hB ⊢
    rw [hsema1]; exact hB
  have hv1 : (st1.sem.getD ((st1.sema.getD (IPCID_TO_IX id) default).u.sem_base + s)
      default).semval = 0 := by rw [hsema1, hc1]; exact hval
  have hn1 : (st1.sem.getD ((st1.sema.getD (IPCID_TO_IX id) default).u.sem_base + s)
      default).semncnt = 1 := by rw [hsema1, hc1]; simp only; rw [hcnt]
  -- B posts
  obtain ⟨st2, h2, hk2, hlen2, hc2⟩ :=
    semop_loop_post_cell K cfg tdB (IPCID_TO_IX id) s st1 (by rw [hsema1]; exact hX)
      (by rw [hsema1, hlen1]; exact hin) (by rw [hv1]; simpa using hvmx)
  have hdw := (semop_loop_post K cfg tdB (IPCID_TO_IX id) s st1
    (by rw [hv1]; simpa using hvmx)).2
  have hbase2 : (st2.sema.getD (IPCID_TO_IX id) default).u.sem_base =
      (st1.sema.getD (IPCID_TO_IX id) default).u.sem_base := by rw [hk2]
  have hv2 : (st2.sem.getD ((st2.sema.getD (IPCID_TO_IX id) default).u.sem_base + s)
      default).semval = 1 := by rw [hbase2, hc2]; simp only; rw [hv1]; rfl
  have hn2 : (st2.sem.getD ((st2.sema.getD (IPCID_TO_IX id) default).u.sem_base + s)
      default).semncnt = 1 := by rw [hbase2, hc2]; exact hn1
  have ha2 : sem_alloc (st2.sema.getD (IPCID_TO_IX id) default) = true := by
    rw [hk2, hsema1]; exact hvalid.1
  have hs2 : (st2.sema.getD (IPCID_TO_IX id) default).u.sem_perm.seq = IPCID_TO_SEQ id := by
    rw [hk2, hsema1]; exact hvalid.2
  have hin2 : (st2.sema.getD (IPCID_TO_IX id) default).u.sem_base + s < st2.sem.length := by
    rw [hbase2, hlen2, hsema1, hlen1]; exact hin
  -- A wakes up and tries again
  obtain ⟨st2w, hw, hsemaw, hlenw, hcw⟩ :=
    semop_wakeup_retry K cfg tdA id s (-1) 0 st2 ha2 hs2 hin2 (by decide)
  have hvw : (st2w.sem.getD ((st2w.sema.getD (IPCID_TO_IX id) default).u.sem_base + s)
      default).semval = 1 := by rw [hsemaw, hcw]; exact hv2
  have hnw : (st2w.sem.getD ((st2w.sema.getD (IPCID_TO_IX id) default).u.sem_base + s)
      default).semncnt = 0 := by rw [hsemaw, hcw]; simp only; rw [hn2]
  obtain ⟨st3, h3, hk3, _, hc3⟩ :=
    semop_loop_take_cell K cfg tdA (IPCID_TO_IX id) s st2w
      (by rw [hsemaw]; exact sem_alloc_lt _ _ ha2) (by rw [hsemaw, hlenw]; exact hin2)
      (by rw [hvw])
  have hbase3 : (st3.sema.getD (IPCID_TO_IX id) default).u.sem_base =
      (st2w.sema.getD (IPCID_TO_IX id) default).u.sem_base := by rw [hk3]
  refine ⟨st1, st2, st3, ?_, hv1, hn1, ?_, ?_, hv2, hn2, hw.trans h3, ?_, ?_⟩
  · rw [sys_semop_admitted K cfg tdA id _ st hA]; exact h1
  · rw [sys_semop_admitted K cfg tdB id _ st1 hB1]; exact h2
  · rw [hdw, hn1]; rfl
  · rw [hbase3, hc3]; simp only; rw [hvw]; rfl
  · rw [hbase3, hc3]; exact hnw

theorem blocking_scenario_witness :
    ∃ st1 st2 st3,
      sys_semop exKernelMode oneCfg exThread 65536 [⟨0, -1, 0⟩] (oneState 1) =
        SemopResult.sleep 0 st1 ∧
      (set_sem st1 (IPCID_TO_IX 65536) 0).semval = 0 ∧
      (set_sem st1 (IPCID_TO_IX 65536) 0).semncnt = 1 ∧
      sys_semop exKernelMode oneCfg exThreadB 65536 [⟨0, 1, 0⟩] st1 = SemopResult.ret 0 st2 ∧
      (semop_try oneCfg (st1.sema.getD (IPCID_TO_IX 65536) default).u.sem_base [⟨0, 1, 0⟩] 0 false
        st1.sem).2.2.1 = true ∧
      (set_sem st2 (IPCID_TO_IX 65536) 0).semval = 1 ∧
      (set_sem st2 (IPCID_TO_IX 65536) 0).semncnt = 1 ∧
      semop_wakeup exKernelMode oneCfg exThread 65536 [⟨0, -1, 0⟩] 0 0 st2 =
        SemopResult.ret 0 st3 ∧
      (set_sem st3 (IPCID_TO_IX 65536) 0).semval = 0 ∧
      (set_sem st3 (IPCID_TO_IX 65536) 0).semncnt = 0 :=
  blocking_scenario exKernelMode oneCfg exThread exThreadB 65536 0 (oneState 1)
    ⟨rfl, by decide, by decide, by decide, by decide, by decide, fun j hj => by cases hj; decide⟩
    ⟨rfl, by decide, by decide, by decide, by decide, by decide, fun j hj => by cases hj; decide⟩
    (by decide) (by decide) (by decide) (by decide)

/-! ## Invariants over runs -/

/-- C29 at its failing input. From `seminit exCfg` (`semvmx = 32767`) the calls of
`overflow_calls` all succeed and the values are within `0..semvmx` after each of
the first four; the `semop` of `exThreadB` leaves semaphore 0 at 32767 and the
exit hook of the process of `exThread` then adds the undo adjustment +1 without a
test against `semvmx`: semaphore 0 of the allocated set in slot 0 ends at 32768. -/
theorem exit_hook_exceeds_semvmx :
    exCfg.semvmx = 32767 ∧
    (∀ n ∈ List.range 5, ValuesInRange exCfg (run exKernel exCfg (overflow_calls.take n)
      (seminit exCfg))) ∧
    sys_semop exKernel exCfg exThread 65536 [⟨0, -1, SEM_UNDO⟩]
        (run exKernel exCfg (overflow_calls.take 2) (seminit exCfg)) =
      SemopResult.ret 0 (run exKernel exCfg (overflow_calls.take 3) (seminit exCfg)) ∧
    sys_semop exKernel exCfg exThreadB 65536 [⟨0, 32767, 0⟩]
        (run exKernel exCfg (overflow_calls.take 3) (seminit exCfg)) =
      SemopResult.ret 0 (run exKernel exCfg (overflow_calls.take 4) (seminit exCfg)) ∧
    semval_of (run exKernel exCfg (overflow_calls.take 4) (seminit exCfg)) 0 0 = 32767 ∧
    undo_adjval (run exKernel exCfg (overflow_calls.take 4) (seminit exCfg)) 100 0 0 = 1 ∧
    semexit_myhook 100 (run exKernel exCfg (overflow_calls.take 4) (seminit exCfg)) =
      some (run exKernel exCfg overflow_calls (seminit exCfg)) ∧
    sem_alloc ((run exKernel exCfg overflow_calls (seminit exCfg)).sema.getD 0 default) = true ∧
    semval_of (run exKernel exCfg overflow_calls (seminit exCfg)) 0 0 = 32768 ∧
    ¬ ValuesInRange exCfg (run exKernel exCfg overflow_calls (seminit exCfg)) := by
  refine ⟨by decide, by decide, by decide, by decide, by decide, by decide, by decide, by decide,
    by decide, by decide⟩

/-- C30 at its failing input. From `seminit exCfg` the calls of `stale_calls` all
succeed. In the `semop` the second operation empties the undo structure of the
process, which `semu_try_free` moves to the free list, and the third operation
adds an entry to it through the pointer that `sys_semop` has kept: afterwards
structure 1 holds one entry, is on the free list and is not on the active list. -/
theorem undo_record_in_use_on_free_list :
    InUseActive (run exKernel exCfg (stale_calls.take 2) (seminit exCfg)) ∧
    sys_semop exKernel exCfg exThread 65536
        [⟨0, -1, SEM_UNDO⟩, ⟨0, 1, SEM_UNDO⟩, ⟨0, -1, SEM_UNDO⟩]
        (run exKernel exCfg (stale_calls.take 2) (seminit exCfg)) =
      SemopResult.ret 0 (run exKernel exCfg stale_calls (seminit exCfg)) ∧
    (SEMU (run exKernel exCfg stale_calls (seminit exCfg)) 1).un_cnt = 1 ∧
    (SEMU (run exKernel exCfg stale_calls (seminit exCfg)) 1).un_proc = some 100 ∧
    (run exKernel exCfg stale_calls (seminit exCfg)).semu_list = [] ∧
    (run exKernel exCfg stale_calls (seminit exCfg)).semu_free_list = [1, 0] ∧
    ¬ InUseActive (run exKernel exCfg stale_calls (seminit exCfg)) := by
  refine ⟨by decide, by decide, by decide, by decide, by decide, by decide, by decide⟩

/-! ## Sequence numbers, counts and keys over single stretches -/

theorem creates_slot_unique (K : Kernel) (cfg : Seminfo) (td : Thread) (key nsems : Int)
    (semflg : Nat) (st : State) (i j : Nat)
    (hi : creates_slot K cfg i (Call.semget td key nsems semflg) st = true)
    (hj : creates_slot K cfg j (Call.semget td key nsems semflg) st = true) : i = j := by
  simp only [creates_slot, step, Bool.and_eq_true, Bool.not_eq_true'] at hi hj
  rcases sys_semget_cases K cfg td key nsems semflg st with h | ⟨semid, hs, _, hst, _⟩
  · rw [h] at hi
    rw [hi.1] at hi
    exact absurd hi.2 (by decide)
  · obtain ⟨hlt, _, _⟩ := first_slot_take _ _ _ _ hs
    rw [hst] at hi hj
    have key : ∀ k, sem_alloc (st.sema.getD k default) = false →
        sem_alloc ((semget_create K td key nsems semflg semid st).sema.getD k default) = true →
        k = semid := by
      intro k h1 h2
      by_contra hne
      rw [(semget_create_slot K td key nsems semflg semid st hlt k).2 hne, h1] at h2
      exact absurd h2 (by decide)
    rw [key i hi.1 hi.2, key j hj.1 hj.2]

/-- C31. The sequence number changes only on allocation: a `semget` sets the
sequence number of the slot it allocates to `(old + 1) mod 0x8000` and leaves the
one of every other slot unchanged; it allocates at most one slot, and a successful
call on the creation path allocates one. `semctl` with any command (`IPC_RMID`,
`IPC_SET`, `SETVAL`, `SETALL` and the reading commands), `semop` up to its return
or sleep, its continuation after a wakeup and the exit hook leave the sequence
number of every slot unchanged. -/
theorem seq_changes_only_on_allocation (K : Kernel) (cfg : Seminfo) (st : State) :
    (∀ td key nsems semflg i,
      slot_seq (sys_semget K cfg td key nsems semflg st).st i =
        if creates_slot K cfg i (Call.semget td key nsems semflg) st
        then (slot_seq st i + 1) % 0x8000 else slot_seq st i) ∧
    (∀ td key nsems semflg i j,
      creates_slot K cfg i (Call.semget td key nsems semflg) st = true →
      creates_slot K cfg j (Call.semget td key nsems semflg) st = true → i = j) ∧
    (∀ td key nsems semflg, K.prison_allow td = true → CreationPath cfg key semflg st →
      (sys_semget K cfg td key nsems semflg st).error = 0 →
      ∃ i, creates_slot K cfg i (Call.semget td key nsems semflg) st = true) ∧
    (∀ td semid semnum cmd arg i,
      slot_seq (kern_semctl K cfg td semid semnum cmd arg st).st i = slot_seq st i) ∧
    (∀ td semid sops i,
      slot_seq ((sys_semop K cfg td semid sops st).state st) i = slot_seq st i) ∧
    (∀ td semid sops k error i,
      slot_seq ((semop_wakeup K cfg td semid sops k error st).state st) i = slot_seq st i) ∧
    (∀ p i, slot_seq ((semexit_myhook p st).getD st) i = slot_seq st i) := by
  refine ⟨?_, ?_, ?_, ?_, ?_, ?_, ?_⟩
  · intro td key nsems semflg i
    exact step_seq K cfg (Call.semget td key nsems semflg) st i
  · intro td key nsems semflg i j
    exact creates_slot_unique K cfg td key nsems semflg st i j
  · intro td key nsems semflg hjail hpath hok
    obtain ⟨semid, hs, _, _, _, heq⟩ := sys_semget_created K cfg td key nsems semflg st hjail hpath hok
    obtain ⟨hlt, _, hfree⟩ := first_slot_take _ _ _ _ hs
    refine ⟨semid, ?_⟩
    simp only [creates_slot, step, Bool.and_eq_true]
    rw [heq]
    exact ⟨hfree, ((semget_create_slot K td key nsems semflg semid st hlt semid).1 rfl).1⟩
  · intro td semid semnum cmd arg i
    exact kern_semctl_seq ..
  · intro td semid sops i
    exact sys_semop_seq ..
  · intro td semid sops k error i
    exact semop_wakeup_seq ..
  · intro p i
    exact semexit_myhook_seq ..

theorem seq_changes_only_on_allocation_witness :
    slot_seq (sys_semget exKernel exCfg exThread IPC_PRIVATE 2 0o600 (seminit exCfg)).st 0 =
      (if creates_slot exKernel exCfg 0 (Call.semget exThread IPC_PRIVATE 2 0o600) (seminit exCfg)
       then (slot_seq (seminit exCfg) 0 + 1) % 0x8000 else slot_seq (seminit exCfg) 0) ∧
    creates_slot exKernel exCfg 0 (Call.semget exThread IPC_PRIVATE 2 0o600) (seminit exCfg) = true ∧
    slot_seq (seminit exCfg) 0 = 0 ∧
    slot_seq (sys_semget exKernel exCfg exThread IPC_PRIVATE 2 0o600 (seminit exCfg)).st 0 = 1 :=
  ⟨(seq_changes_only_on_allocation exKernel exCfg (seminit exCfg)).1 exThread IPC_PRIVATE 2 0o600 0,
   by decide, by decide, by decide⟩

/-! ## What one stretch does to the set table -/

theorem table_same_refl (a : State) : TableSame a a := ⟨rfl, rfl⟩

theorem table_same_of_sets {a b : State} (h : SameSets a b) : TableSame a b := by
  unfold TableSame; rw [h.2.1, h.2.2]; exact ⟨rfl, rfl⟩

theorem table_same_of_sema {a b : State} (h1 : b.sema = a.sema) (h2 : b.semtot = a.semtot) :
    TableSame a b := by
  unfold TableSame; rw [h1, h2]; exact ⟨rfl, rfl⟩

theorem table_same_trans {a b c : State} (h1 : TableSame a b) (h2 : TableSame b c) :
    TableSame a c := ⟨h2.1.trans h1.1, h2.2.trans h1.2⟩

theorem map_layout_set (l : List SemidKernel) (j : Nat) (k : SemidKernel)
    (h : slot_layout k = slot_layout (l.getD j default)) :
    (l.set j k).map slot_layout = l.map slot_layout := by
  apply List.ext_getElem?
  intro n
  simp only [List.getElem?_map, List.getElem?_set]
  by_cases h1 : j = n
  · subst h1
    by_cases h2 : j < l.length
    · simp [h2, h, List.getD_eq_getElem?_getD, List.getElem?_eq_getElem h2]
    · simp [h2, List.getElem?_eq_none (Nat.le_of_not_lt h2)]
  · simp [h1]

theorem table_same_getD {a b : State} (h : TableSame a b) (i : Nat) :
    slot_layout (b.sema.getD i default) = slot_layout (a.sema.getD i default) := by
  have h1 := congrArg (fun l => l[i]?) h.2
  simp only [List.getElem?_map] at h1
  simp only [List.getD_eq_getElem?_getD]
  cases hb : b.sema[i]? <;> cases ha : a.sema[i]? <;> simp [hb, ha] at h1 ⊢
  exact h1

theorem table_same_length {a b : State} (h : TableSame a b) : b.sema.length = a.sema.length := by
  have := congrArg List.length h.2
  simpa using this

theorem kern_semctl_same (K : Kernel) (cfg : Seminfo) (td : Thread) (semid semnum : Int)
    (cmd : Cmd) (arg : Semun) (st : State) (hcmd : cmd ≠ Cmd.IPC_RMID) :
    TableSame st (kern_semctl K cfg td semid semnum cmd arg st).st := by
  unfold kern_semctl
  simp only
  split
  · exact table_same_refl _
  · split
    · repeat' split
      all_goals exact table_same_refl _
    · split
      · exact table_same_refl _
      · cases cmd with
        | IPC_RMID => exact absurd rfl hcmd
        | IPC_SET =>
          simp only
          repeat' split
          all_goals first
            | (with_reducible exact table_same_refl _)
            | (refine ⟨rfl, map_layout_set _ _ _ ?_⟩
               simp only [slot_layout, sem_alloc, mode_set_keeps_alloc])
        | SETVAL =>
          simp only
          repeat' split
          all_goals first
            | (with_reducible exact table_same_refl _)
            | exact table_same_of_sema (semundo_clear_sets _ _ _).2.1 (semundo_clear_sets _ _ _).2.2
        | SETALL =>
          simp only
          repeat' split
          all_goals first
            | (with_reducible exact table_same_refl _)
            | exact table_same_of_sema (semundo_clear_sets _ _ _).2.1 (semundo_clear_sets _ _ _).2.2
        | IPC_STAT | GETNCNT | GETPID | GETVAL | GETALL | GETZCNT | SEM_STAT | other =>
          simp only
          repeat' split
          all_goals (with_reducible exact table_same_refl _)

theorem semop_done_same (K : Kernel) (cfg : Seminfo) (td : Thread) (semid : Nat)
    (sops : List Sembuf) (a st fb : State) (h : TableSame a st) (hfb : TableSame a fb) :
    TableSame a ((semop_done K cfg td semid sops st).state fb) := by
  unfold semop_done
  simp only
  split
  · exact hfb
  · rename_i error st1 hu
    have hsets : SameSets st st1 := by
      split at hu
      · exact ((semop_undos_sets _ _ _ _ _ _ _ _).2 _ _ hu).1
      · exact absurd hu (by simp)
    exact table_same_trans h (table_same_of_sema hsets.2.1 hsets.2.2)
  · rename_i st1 hu
    have hsets : SameSets st st1 := by
      split at hu
      · exact (semop_undos_sets _ _ _ _ _ _ _ _).1 _ hu
      · simp only [UndoResult.ok.injEq] at hu
        rw [← hu]; exact SameSets.rfl st
    refine table_same_trans h ?_
    simp only [SemopResult.state]
    unfold TableSame
    simp only [hsets.2.1, hsets.2.2, true_and]
    exact map_layout_set _ _ _ rfl

theorem semop_loop_same (K : Kernel) (cfg : Seminfo) (td : Thread) (semid : Nat)
    (sops : List Sembuf) (a st fb : State) (h : TableSame a st) (hfb : TableSame a fb) :
    TableSame a ((semop_loop K cfg td semid sops st).state fb) := by
  unfold semop_loop
  simp only
  split
  · exact semop_done_same K cfg td semid sops a _ fb ⟨h.1, h.2⟩ hfb
  · repeat' split
    all_goals exact ⟨h.1, h.2⟩

theorem sys_semop_same (K : Kernel) (cfg : Seminfo) (td : Thread) (uap_semid : Int)
    (sops : List Sembuf) (st : State) :
    TableSame st ((sys_semop K cfg td uap_semid sops st).state st) := by
  unfold sys_semop
  simp only
  repeat' split
  all_goals first
    | exact table_same_refl st
    | exact semop_loop_same K cfg td _ sops st st st (table_same_refl st) (table_same_refl st)

theorem semop_wakeup_same (K : Kernel) (cfg : Seminfo) (td : Thread) (uap_semid : Int)
    (sops : List Sembuf) (k : Nat) (error : Int) (st : State) :
    TableSame st ((semop_wakeup K cfg td uap_semid sops k error st).state st) := by
  unfold semop_wakeup
  simp only
  repeat' split
  all_goals first
    | exact table_same_refl st
    | exact ⟨rfl, rfl⟩
    | exact semop_loop_same K cfg td _ sops st _ st ⟨rfl, rfl⟩ (table_same_refl st)

theorem semexit_apply_semtot (ents : List Undo) (st st' : State)
    (h : semexit_apply ents st = some st') : st'.semtot = st.semtot := by
  induction ents generalizing st with
  | nil =>
    simp only [semexit_apply, Option.some.injEq] at h
    rw [← h]
  | cons e es ih =>
    unfold semexit_apply at h
    simp only at h
    split at h
    · exact ih _ h
    · split at h
      · exact absurd h (by simp)
      · have := ih _ h
        exact this

theorem semexit_myhook_same (p : Nat) (st : State) :
    TableSame st ((semexit_myhook p st).getD st) := by
  unfold semexit_myhook
  split
  · exact table_same_refl st
  · split
    · exact table_same_refl st
    · rename_i st1 h
      simp only [Option.getD_some]
      have h1 := semexit_apply_semtot _ _ _ h
      have h2 := semexit_apply_sets _ _ _ h
      exact ⟨h1, by simp only [h2]⟩

theorem kern_semctl_rmid_cases (K : Kernel) (cfg : Seminfo) (td : Thread) (semid semnum : Int)
    (arg : Semun) (st : State) :
    (kern_semctl K cfg td semid semnum Cmd.IPC_RMID arg st).st = st ∨
    (semvalid semid (st.sema.getD (IPCID_TO_IX semid) default) = 0 ∧
      (IPCID_TO_IX semid : Int) < cfg.semmni ∧
      (kern_semctl K cfg td semid semnum Cmd.IPC_RMID arg st).error = 0 ∧
      (kern_semctl K cfg td semid semnum Cmd.IPC_RMID arg st).st =
        semctl_rmid td (IPCID_TO_IX semid) st) := by
  unfold kern_semctl
  simp only
  split
  · exact Or.inl rfl
  · split
    · rename_i h; exact absurd h (by decide)
    · split
      · exact Or.inl rfl
      · repeat' split
        all_goals first
          | exact Or.inl rfl
          | (rename_i h1 h2 _; exact Or.inr ⟨by simpa using h1, by omega, rfl, rfl⟩)

theorem sys_semget_cases_full (K : Kernel) (cfg : Seminfo) (td : Thread) (key nsems : Int)
    (semflg : Nat) (st : State) :
    (sys_semget K cfg td key nsems semflg st).st = st ∨
    ∃ semid, first_slot (fun k => ! sem_alloc k) (st.sema.take cfg.semmni.toNat) = some semid ∧
      CreationPath cfg key semflg st ∧
      0 < nsems ∧ nsems ≤ cfg.semmsl ∧ nsems ≤ cfg.semmns - st.semtot ∧
      (sys_semget K cfg td key nsems semflg st).st =
        semget_create K td key nsems semflg semid st := by
  rcases sys_semget_cases_path K cfg td key nsems semflg st with h | ⟨semid, hs, hpath, hst⟩
  · exact Or.inl h
  · by_cases hb : 0 < nsems ∧ nsems ≤ cfg.semmsl ∧ nsems ≤ cfg.semmns - st.semtot
    · exact Or.inr ⟨semid, hs, hpath, hb.1, hb.2.1, hb.2.2, hst⟩
    · left
      by_cases hjail : K.prison_allow td = true
      · rw [sys_semget_create_path K cfg td key nsems semflg st hjail hpath]
        by_cases h1 : nsems ≤ 0 ∨ nsems > cfg.semmsl
        · rw [if_pos h1]
        · rw [if_neg h1, if_pos (by omega)]
      · unfold sys_semget
        simp [hjail]

theorem step_cases (K : Kernel) (cfg : Seminfo) (c : Call) (st : State) :
    TableSame st (step K cfg c st) ∨
    (∃ td key nsems semflg semid, c = Call.semget td key nsems semflg ∧
      first_slot (fun k => ! sem_alloc k) (st.sema.take cfg.semmni.toNat) = some semid ∧
      CreationPath cfg key semflg st ∧
      0 < nsems ∧ nsems ≤ cfg.semmsl ∧ nsems ≤ cfg.semmns - st.semtot ∧
      step K cfg c st = semget_create K td key nsems semflg semid st) ∨
    (∃ td semid semnum arg, c = Call.semctl td semid semnum Cmd.IPC_RMID arg ∧
      semvalid semid (st.sema.getD (IPCID_TO_IX semid) default) = 0 ∧
      (IPCID_TO_IX semid : Int) < cfg.semmni ∧
      step K cfg c st = semctl_rmid td (IPCID_TO_IX semid) st) := by
  cases c with
  | semget td key nsems semflg =>
    simp only [step]
    rcases sys_semget_cases_full K cfg td key nsems semflg st with h | ⟨semid, h⟩
    · left; rw [h]; exact table_same_refl st
    · right; left
      exact ⟨td, key, nsems, semflg, semid, rfl, h⟩
  | semctl td semid semnum cmd arg =>
    simp only [step]
    by_cases hcmd : cmd = Cmd.IPC_RMID
    · subst hcmd
      rcases kern_semctl_rmid_cases K cfg td semid semnum arg st with h | ⟨h1, h2, _, h3⟩
      · left; rw [h]; exact table_same_refl st
      · right; right
        exact ⟨td, semid, semnum, arg, rfl, h1, h2, h3⟩
    · left; exact kern_semctl_same K cfg td semid semnum cmd arg st hcmd
  | semop td semid sops => left; exact sys_semop_same ..
  | wakeup td semid sops k error => left; exact semop_wakeup_same ..
  | exit p => left; exact semexit_myhook_same ..

theorem semctl_rmid_slot (td : Thread) (X : Nat) (st : State) (i : Nat) :
    (semctl_rmid td X st).semtot = st.semtot - (st.sema.getD X default).u.sem_nsems ∧
    (semctl_rmid td X st).sema.length = st.sema.length ∧
    (i = X → sem_alloc ((semctl_rmid td X st).sema.getD i default) = false) ∧
    (i ≠ X →
      slot_layout ((semctl_rmid td X st).sema.getD i default) =
        (sem_alloc (st.sema.getD i default), (st.sema.getD i default).u.sem_perm.key,
         (st.sema.getD i default).u.sem_perm.seq, (st.sema.getD i default).u.sem_nsems,
         if sem_alloc (st.sema.getD i default) = true ∧
            (st.sema.getD i default).u.sem_base > (st.sema.getD X default).u.sem_base
         then (st.sema.getD i default).u.sem_base - (st.sema.getD X default).u.sem_nsems
         else (st.sema.getD i default).u.sem_base)) := by
  have hna : ∀ k : SemidKernel, k.u.sem_perm.mode = 0 → sem_alloc k = false := by
    intro k hk; unfold sem_alloc; rw [hk]; decide
  have hout : ∀ (l : List SemidKernel) (n : Nat), l.length ≤ n → l.getD n default = default := by
    intro l n hn
    rw [List.getD_eq_getElem?_getD, List.getElem?_eq_none hn]; rfl
  refine ⟨?_, ?_, ?_, ?_⟩
  · unfold semctl_rmid; rfl
  · rw [semctl_rmid_sema]; simp
  · intro hi
    subst hi
    rw [semctl_rmid_sema]
    by_cases hlt : i < st.sema.length
    · rw [getD_map_lt _ _ _ (by simpa using hlt), getD_set_eq]
      simp only [hlt, and_self, if_true]
      split
      · rename_i h
        rw [hna _ rfl] at h
        exact absurd h.1 (by decide)
      · exact hna _ rfl
    · rw [hout _ i (by simp; omega)]
      rfl
  · intro hi
    rw [semctl_rmid_sema]
    by_cases hlt : i < st.sema.length
    · rw [getD_map_lt _ _ _ (by simpa using hlt), getD_set_eq]
      have : ¬ (X = i ∧ X < st.sema.length) := fun h => hi h.1.symm
      simp only [this, if_false]
      unfold slot_layout
      split
      · rename_i h
        simp only [h, and_self, if_true]
        have ha : sem_alloc { st.sema.getD i default with
            u := { (st.sema.getD i default).u with
              sem_base := (st.sema.getD i default).u.sem_base -
                (st.sema.getD X default).u.sem_nsems } } = true := h.1
        simp only [ha]
      · rename_i h; simp only [h, if_false]
    · rw [hout _ i (by simp; omega), hout _ i (by omega)]
      rfl

theorem semget_create_layout (K : Kernel) (td : Thread) (key nsems : Int) (semflg semid : Nat)
    (st : State) (hlt : semid < st.sema.length) (i : Nat) :
    (semget_create K td key nsems semflg semid st).semtot = st.semtot + nsems.toNat ∧
    (semget_create K td key nsems semflg semid st).sema.length = st.sema.length ∧
    (i = semid →
      slot_layout ((semget_create K td key nsems semflg semid st).sema.getD i default) =
        (true, key, (slot_seq st i + 1) % 32768, nsems.toNat % 65536, st.semtot)) ∧
    (i ≠ semid →
      (semget_create K td key nsems semflg semid st).sema.getD i default =
        st.sema.getD i default) := by
  refine ⟨rfl, (semget_create_key K td key nsems semflg semid st hlt).2.2, ?_,
    (semget_create_slot K td key nsems semflg semid st hlt i).2⟩
  intro hi
  have h1 := (semget_create_slot K td key nsems semflg semid st hlt i).1 hi
  have h2 := semget_create_key K td key nsems semflg semid st hlt
  subst hi
  unfold slot_layout
  rw [h1.1, h2.1, h2.2.1]
  unfold slot_seq at h1
  rw [h1.2]
  unfold semget_create
  simp only [getD_set_eq, hlt, and_self, if_true, slot_seq]

theorem step_slot_alloc (K : Kernel) (cfg : Seminfo) (c : Call) (st : State) (i : Nat)
    (ha' : sem_alloc ((step K cfg c st).sema.getD i default) = true) :
    (sem_alloc (st.sema.getD i default) = true →
      ((step K cfg c st).sema.getD i default).u.sem_nsems =
        (st.sema.getD i default).u.sem_nsems) ∧
    (creates_slot K cfg i c st = false → sem_alloc (st.sema.getD i default) = true) := by
  rcases step_cases K cfg c st with h | ⟨td, key, nsems, semflg, semid, hc, hs, _, _, _, _, hst⟩ |
      ⟨td, semid, semnum, arg, hc, _, _, hst⟩
  · have := table_same_getD h i
    simp only [slot_layout, Prod.mk.injEq] at this
    exact ⟨fun _ => this.2.2.2.1, fun _ => by rw [← this.1]; exact ha'⟩
  · obtain ⟨hlt, _, hfree⟩ := first_slot_take _ _ _ _ hs
    simp only [Bool.not_eq_true'] at hfree
    have hl := semget_create_layout K td key nsems semflg semid st hlt i
    by_cases hi : i = semid
    · subst hi
      refine ⟨fun ha => ?_, fun hcr => ?_⟩
      · rw [hfree] at ha; exact absurd ha (by decide)
      · subst hc
        simp only [creates_slot, hfree, Bool.not_false, Bool.true_and] at hcr
        rw [hcr] at ha'; exact absurd ha' (by decide)
    · rw [hst, hl.2.2.2 hi] at ha' ⊢
      exact ⟨fun _ => rfl, fun _ => ha'⟩
  · have hl := semctl_rmid_slot td (IPCID_TO_IX semid) st i
    rw [hst] at ha' ⊢
    by_cases hi : i = IPCID_TO_IX semid
    · rw [hl.2.2.1 hi] at ha'; exact absurd ha' (by decide)
    · have := hl.2.2.2 hi
      simp only [slot_layout, Prod.mk.injEq] at this
      exact ⟨fun _ => this.2.2.2.1, fun _ => by rw [← this.1]; exact ha'⟩

theorem run_slot_alloc (K : Kernel) (cfg : Seminfo) (cs : List Call) (st : State) (i : Nat)
    (hc : creations K cfg i cs st = 0)
    (ha' : sem_alloc ((run K cfg cs st).sema.getD i default) = true) :
    sem_alloc (st.sema.getD i default) = true ∧
    ((run K cfg cs st).sema.getD i default).u.sem_nsems = (st.sema.getD i default).u.sem_nsems := by
  induction cs generalizing st with
  | nil => exact ⟨ha', rfl⟩
  | cons c rest ih =>
    simp only [creations] at hc
    simp only [run] at ha' ⊢
    have hcr : creates_slot K cfg i c st = false := by
      by_contra h
      simp only [Bool.not_eq_false] at h
      rw [h] at hc
      simp at hc
    have hrest : creations K cfg i rest (step K cfg c st) = 0 := by omega
    obtain ⟨h1, h2⟩ := ih (step K cfg c st) hrest ha'
    have h3 := step_slot_alloc K cfg c st i h1
    have h4 := h3.2 hcr
    exact ⟨h4, h2.trans (h3.1 h4)⟩

/-- C34. The semaphore count is fixed for an allocation. For a slot `i` that is
allocated: after any stretch (a `semget`, a `semctl` with any command, a `semop`
up to its return or sleep, its continuation after a wakeup, the exit hook) that
leaves the slot allocated, `sem_nsems` is unchanged; a stretch that is not a
successful `IPC_RMID` of slot `i` leaves the slot allocated with the same
`sem_nsems`; and when the identifier is valid before and after a run that
allocates the slot fewer than 0x8000 times (the window in which `GETALL` and
`SETALL` allocate their buffer), the count found after the run is the one read
before it. -/
theorem nsems_fixed_while_allocated (K : Kernel) (cfg : Seminfo) (st : State) (i : Nat)
    (ha : sem_alloc (st.sema.getD i default) = true) :
    (∀ c, sem_alloc ((step K cfg c st).sema.getD i default) = true →
      ((step K cfg c st).sema.getD i default).u.sem_nsems =
        (st.sema.getD i default).u.sem_nsems) ∧
    (∀ c, (∀ td semid semnum arg, c = Call.semctl td semid semnum Cmd.IPC_RMID arg →
        IPCID_TO_IX semid = i →
        (kern_semctl K cfg td semid semnum Cmd.IPC_RMID arg st).error ≠ 0) →
      sem_alloc ((step K cfg c st).sema.getD i default) = true ∧
      ((step K cfg c st).sema.getD i default).u.sem_nsems =
        (st.sema.getD i default).u.sem_nsems) ∧
    (∀ semid mid, IPCID_TO_IX semid = i →
      semvalid semid (st.sema.getD i default) = 0 →
      semvalid semid ((run K cfg mid st).sema.getD i default) = 0 →
      creations K cfg i mid st < 0x8000 →
      ((run K cfg mid st).sema.getD i default).u.sem_nsems =
        (st.sema.getD i default).u.sem_nsems) := by
  refine ⟨fun c ha' => (step_slot_alloc K cfg c st i ha').1 ha, ?_, ?_⟩
  · intro c hc
    have hal : sem_alloc ((step K cfg c st).sema.getD i default) = true := by
      rcases step_cases K cfg c st with h | ⟨td, key, nsems, semflg, semid, hcc, hs, _, _, _, _, hst⟩ |
          ⟨td, semid, semnum, arg, hcc, _, _, hst⟩
      · have := table_same_getD h i
        simp only [slot_layout, Prod.mk.injEq] at this
        rw [this.1]; exact ha
      · obtain ⟨hlt, _, hfree⟩ := first_slot_take _ _ _ _ hs
        simp only [Bool.not_eq_true'] at hfree
        have hne : i ≠ semid := by
          intro h; subst h; rw [hfree] at ha; exact absurd ha (by decide)
        rw [hst, (semget_create_layout K td key nsems semflg semid st hlt i).2.2.2 hne]
        exact ha
      · by_cases hi : IPCID_TO_IX semid = i
        · exfalso
          apply hc td semid semnum arg hcc hi
          rcases kern_semctl_rmid_cases K cfg td semid semnum arg st with h | ⟨_, _, he, _⟩
          · exfalso
            subst hcc
            simp only [step] at hst
            rw [h] at hst
            have hl := (semctl_rmid_slot td (IPCID_TO_IX semid) st i).2.2.1 hi.symm
            rw [← hst, ha] at hl
            exact absurd hl (by decide)
          · exact he
        · have := (semctl_rmid_slot td (IPCID_TO_IX semid) st i).2.2.2 (fun h => hi h.symm)
          simp only [slot_layout, Prod.mk.injEq] at this
          rw [hst, this.1]; exact ha
    exact ⟨hal, (step_slot_alloc K cfg c st i hal).1 ha⟩
  · intro semid mid hix hv hv' hn
    rw [semvalid_eq_zero] at hv hv'
    have hseq := run_seq K cfg mid st i
    unfold slot_seq at hseq
    rw [hv'.2, hv.2] at hseq
    have h0 : creations K cfg i mid st = 0 := by
      by_contra hne
      unfold seq_after at hseq
      rw [if_neg hne] at hseq
      have hlt := Nat.mod_lt (IPCID_TO_SEQ semid + creations K cfg i mid st)
        (by decide : 32768 > 0)
      omega
    exact (run_slot_alloc K cfg mid st i h0 hv'.1).2

theorem nsems_fixed_while_allocated_witness :
    ((step exKernel exCfg (Call.semctl exThread 65536 0 Cmd.IPC_RMID ⟨0, default, []⟩)
        exStateTwo).sema.getD 1 default).u.sem_nsems =
      (exStateTwo.sema.getD 1 default).u.sem_nsems ∧
    (exStateTwo.sema.getD 1 default).u.sem_nsems = 2 ∧
    sem_alloc ((step exKernel exCfg (Call.semctl exThread 65536 0 Cmd.IPC_RMID ⟨0, default, []⟩)
        exStateTwo).sema.getD 0 default) = false :=
  ⟨(nsems_fixed_while_allocated exKernel exCfg exStateTwo 1 (by decide)).1
      (Call.semctl exThread 65536 0 Cmd.IPC_RMID ⟨0, default, []⟩) (by decide),
   by decide, by decide⟩

/-! ## Keys -/

theorem step_keys_unique (K : Kernel) (cfg : Seminfo) (c : Call) (st : State)
    (hlen : st.sema.length ≤ cfg.semmni.toNat) (h : KeysUnique st) :
    (step K cfg c st).sema.length ≤ cfg.semmni.toNat ∧ KeysUnique (step K cfg c st) := by
  rcases step_cases K cfg c st with hs | ⟨td, key, nsems, semflg, semid, _, hfs, hpath, _, _, _, hst⟩ |
      ⟨td, semid, semnum, arg, _, _, _, hst⟩
  · refine ⟨by rw [table_same_length hs]; exact hlen, ?_⟩
    intro i j hi hj hk hp
    have e1 := table_same_getD hs i
    have e2 := table_same_getD hs j
    simp only [slot_layout, Prod.mk.injEq] at e1 e2
    rw [e1.1] at hi
    rw [e2.1] at hj
    rw [e1.2.1, e2.2.1] at hk
    rw [e1.2.1] at hp
    exact h i j hi hj hk hp
  · obtain ⟨hlt, _, hfree⟩ := first_slot_take _ _ _ _ hfs
    simp only [Bool.not_eq_true'] at hfree
    have hl := fun i => semget_create_layout K td key nsems semflg semid st hlt i
    rw [hst]
    refine ⟨by rw [(hl 0).2.1]; exact hlen, ?_⟩
    have hnew : ∀ j, j ≠ semid → sem_alloc (st.sema.getD j default) = true →
        (st.sema.getD j default).u.sem_perm.key = key → key = IPC_PRIVATE := by
      intro j _ hj hk
      rcases hpath with hp | ⟨hnone, _⟩
      · exact hp
      · have hjl := sem_alloc_lt _ _ hj
        have := first_slot_none_getD _ _ _ hnone j (by omega) hjl
        simp only [hj, hk, Bool.true_and, beq_self_eq_true] at this
        exact absurd this (by decide)
    intro i j hi hj hk hp
    by_cases hie : i = semid <;> by_cases hje : j = semid
    · rw [hie, hje]
    · have e1 := (hl i).2.2.1 hie
      simp only [slot_layout, Prod.mk.injEq] at e1
      rw [(hl j).2.2.2 hje] at hj hk
      rw [e1.2.1] at hk hp
      exact absurd (hnew j hje hj hk.symm) hp
    · have e2 := (hl j).2.2.1 hje
      simp only [slot_layout, Prod.mk.injEq] at e2
      rw [(hl i).2.2.2 hie] at hi hk hp
      rw [e2.2.1] at hk
      rw [hk] at hp
      exact absurd (hnew i hie hi hk) hp
    · rw [(hl i).2.2.2 hie] at hi hk hp
      rw [(hl j).2.2.2 hje] at hj hk
      exact h i j hi hj hk hp
  · have hl := fun i => semctl_rmid_slot td (IPCID_TO_IX semid) st i
    rw [hst]
    refine ⟨by rw [(hl 0).2.1]; exact hlen, ?_⟩
    intro i j hi hj hk hp
    by_cases hie : i = IPCID_TO_IX semid
    · rw [(hl i).2.2.1 hie] at hi; exact absurd hi (by decide)
    by_cases hje : j = IPCID_TO_IX semid
    · rw [(hl j).2.2.1 hje] at hj; exact absurd hj (by decide)
    have e1 := (hl i).2.2.2 hie
    have e2 := (hl j).2.2.2 hje
    simp only [slot_layout, Prod.mk.injEq] at e1 e2
    rw [e1.1] at hi
    rw [e2.1] at hj
    rw [e1.2.1, e2.2.1] at hk
    rw [e1.2.1] at hp
    exact h i j hi hj hk hp

theorem run_keys_unique (K : Kernel) (cfg : Seminfo) (cs : List Call) (st : State)
    (hlen : st.sema.length ≤ cfg.semmni.toNat) (h : KeysUnique st) :
    (run K cfg cs st).sema.length ≤ cfg.semmni.toNat ∧ KeysUnique (run K cfg cs st) := by
  induction cs generalizing st with
  | nil => exact ⟨hlen, h⟩
  | cons c rest ih =>
    simp only [run]
    obtain ⟨h1, h2⟩ := step_keys_unique K cfg c st hlen h
    exact ih _ h1 h2

theorem seminit_slot (cfg : Seminfo) (i : Nat) :
    (seminit cfg).sema.getD i default = default := by
  unfold seminit
  simp only [List.getD_eq_getElem?_getD]
  by_cases h : i < cfg.semmni.toNat
  · rw [List.getElem?_eq_getElem (by simpa using h)]
    simp
  · rw [List.getElem?_eq_none (by simpa using h)]
    rfl

/-- C39. Key uniqueness. In every state reached from `seminit` by any sequence of
stretches, no two allocated slots have the same key other than `IPC_PRIVATE`.
A `semget` with a key other than `IPC_PRIVATE` allocates a slot only when no
allocated slot has that key, and a stretch that does not allocate slot `i` leaves
the key stored in slot `i` unchanged. -/
theorem key_uniqueness (K : Kernel) (cfg : Seminfo) :
    (∀ cs, KeysUnique (run K cfg cs (seminit cfg))) ∧
    (∀ cs td key nsems semflg i, key ≠ IPC_PRIVATE →
      creates_slot K cfg i (Call.semget td key nsems semflg) (run K cfg cs (seminit cfg)) = true →
      ∀ j, sem_alloc ((run K cfg cs (seminit cfg)).sema.getD j default) = true →
        ((run K cfg cs (seminit cfg)).sema.getD j default).u.sem_perm.key ≠ key) ∧
    (∀ st c i, creates_slot K cfg i c st = false →
      ((step K cfg c st).sema.getD i default).u.sem_perm.key =
        (st.sema.getD i default).u.sem_perm.key) := by
  have hinit : (seminit cfg).sema.length ≤ cfg.semmni.toNat ∧ KeysUnique (seminit cfg) := by
    refine ⟨by simp [seminit], ?_⟩
    intro i j hi
    rw [seminit_slot] at hi
    exact absurd hi (by decide)
  refine ⟨fun cs => (run_keys_unique K cfg cs _ hinit.1 hinit.2).2, ?_, ?_⟩
  · intro cs td key nsems semflg i hkey hc j hj hk
    have hlen := (run_keys_unique K cfg cs _ hinit.1 hinit.2).1
    generalize run K cfg cs (seminit cfg) = st at *
    rcases sys_semget_cases_full K cfg td key nsems semflg st with h | ⟨semid, _, hpath, _, _, _, _⟩
    · simp only [creates_slot, step, h, Bool.and_eq_true, Bool.not_eq_true'] at hc
      rw [hc.1] at hc; exact absurd hc.2 (by decide)
    · rcases hpath with hp | ⟨hnone, _⟩
      · exact hkey hp
      · have := first_slot_none_getD _ _ _ hnone j (by have := sem_alloc_lt _ _ hj; omega)
          (sem_alloc_lt _ _ hj)
        simp only [hj, hk, Bool.true_and, beq_self_eq_true] at this
        exact absurd this (by decide)
  · intro st c i hc
    rcases step_cases K cfg c st with hs | ⟨td, key, nsems, semflg, semid, hcc, hfs, _, _, _, _, hst⟩ |
        ⟨td, semid, semnum, arg, _, _, _, hst⟩
    · have e1 := table_same_getD hs i
      simp only [slot_layout, Prod.mk.injEq] at e1
      exact e1.2.1
    · obtain ⟨hlt, _, hfree⟩ := first_slot_take _ _ _ _ hfs
      simp only [Bool.not_eq_true'] at hfree
      have hl := semget_create_layout K td key nsems semflg semid st hlt i
      by_cases hi : i = semid
      · exfalso
        subst hcc
        have e1 := hl.2.2.1 hi
        simp only [slot_layout, Prod.mk.injEq] at e1
        subst hi
        simp only [creates_slot, hfree, Bool.not_false, Bool.true_and, hst, e1.1] at hc
        exact absurd hc (by decide)
      · rw [hst, hl.2.2.2 hi]
    · by_cases hi : i = IPCID_TO_IX semid
      · subst hi
        rw [hst, semctl_rmid_sema]
        by_cases hlt : IPCID_TO_IX semid < st.sema.length
        · rw [getD_map_lt _ _ _ (by simpa using hlt), getD_set_eq]
          simp only [hlt, and_self, if_true]
          split <;> rfl
        · have hout : ∀ (l : List SemidKernel) (n : Nat), l.length ≤ n →
              l.getD n default = default := by
            intro l n hn
            rw [List.getD_eq_getElem?_getD, List.getElem?_eq_none hn]; rfl
          rw [hout _ _ (by simp; omega), hout _ _ (by omega)]
      · have e1 := (semctl_rmid_slot td (IPCID_TO_IX semid) st i).2.2.2 hi
        simp only [slot_layout, Prod.mk.injEq] at e1
        rw [hst]; exact e1.2.1

theorem key_uniqueness_witness :
    KeysUnique (run exKernel exCfg
      [Call.semget exThread 5 2 (IPC_CREAT ||| 0o600),
       Call.semget exThread 5 2 (IPC_CREAT ||| 0o600),
       Call.semget exThread 6 2 (IPC_CREAT ||| 0o600)] (seminit exCfg)) ∧
    (run exKernel exCfg
      [Call.semget exThread 5 2 (IPC_CREAT ||| 0o600),
       Call.semget exThread 5 2 (IPC_CREAT ||| 0o600),
       Call.semget exThread 6 2 (IPC_CREAT ||| 0o600)] (seminit exCfg)).sema.map
        (fun k => (sem_alloc k, k.u.sem_perm.key)) = [(true, 5), (true, 6)] :=
  ⟨(key_uniqueness exKernel exCfg).1 _, by decide⟩

/-! ## Layout of the pool over runs -/

theorem sum_map_set (l : List SemidKernel) (f : SemidKernel → Nat) (i : Nat) (x : SemidKernel)
    (h : i < l.length) :
    ((l.set i x).map f).sum + f (l.getD i default) = (l.map f).sum + f x := by
  induction l generalizing i with
  | nil => simp at h
  | cons a as ih =>
    cases i with
    | zero => simp; omega
    | succ n =>
      have := ih n (by simpa using h)
      simp only [List.set_cons_succ, List.map_cons, List.sum_cons, List.getD_cons_succ] at this ⊢
      omega

theorem slot_count_layout (k : SemidKernel) :
    slot_count k = (if (slot_layout k).1 then (slot_layout k).2.2.2.1 else 0) := rfl

theorem pool_layout_of_same (cfg : Seminfo) {a b : State} (h : TableSame a b)
    (hl : PoolLayout cfg a) : PoolLayout cfg b := by
  obtain ⟨h1, h2, h3, h4, h5⟩ := hl
  have e : ∀ i, sem_alloc (b.sema.getD i default) = sem_alloc (a.sema.getD i default) ∧
      (b.sema.getD i default).u.sem_nsems = (a.sema.getD i default).u.sem_nsems ∧
      (b.sema.getD i default).u.sem_base = (a.sema.getD i default).u.sem_base := by
    intro i
    have := table_same_getD h i
    simp only [slot_layout, Prod.mk.injEq] at this
    exact ⟨this.1, this.2.2.2.1, this.2.2.2.2⟩
  refine ⟨by rw [h.1]; exact h1, ?_, ?_, ?_, ?_⟩
  · intro i hi
    rw [(e i).1] at hi
    rw [(e i).2.1, (e i).2.2, h.1]; exact h2 i hi
  · intro i j hij hi hj
    rw [(e i).1] at hi
    rw [(e j).1] at hj
    rw [(e i).2.1, (e i).2.2, (e j).2.1, (e j).2.2]; exact h3 i j hij hi hj
  · intro k hk
    rw [h.1] at hk
    obtain ⟨i, hi, hb⟩ := h4 k hk
    refine ⟨i, by rw [(e i).1]; exact hi, ?_⟩
    rw [(e i).2.1, (e i).2.2]; exact hb
  · rw [h.1, ← h5]
    have hf : slot_count = (fun p : Bool × Int × Nat × Nat × Nat =>
        if p.1 then p.2.2.2.1 else 0) ∘ slot_layout := by
      funext k; rfl
    rw [hf, ← List.map_map, ← List.map_map, h.2]

theorem pool_layout_create (K : Kernel) (cfg : Seminfo) (td : Thread) (key nsems : Int)
    (semflg semid : Nat) (st : State)
    (hfs : first_slot (fun k => ! sem_alloc k) (st.sema.take cfg.semmni.toNat) = some semid)
    (h0 : 0 < nsems) (hmsl : nsems ≤ cfg.semmsl) (hroom : nsems ≤ cfg.semmns - st.semtot)
    (h65 : cfg.semmsl ≤ 65535) (hl : PoolLayout cfg st) :
    PoolLayout cfg (semget_create K td key nsems semflg semid st) := by
  obtain ⟨h1, h2, h3, h4, h5⟩ := hl
  obtain ⟨hlt, _, hfree⟩ := first_slot_take _ _ _ _ hfs
  simp only [Bool.not_eq_true'] at hfree
  have hL := fun i => semget_create_layout K td key nsems semflg semid st hlt i
  have hn : nsems.toNat % 65536 = nsems.toNat := Nat.mod_eq_of_lt (by omega)
  have hnew : sem_alloc ((semget_create K td key nsems semflg semid st).sema.getD semid default) =
        true ∧
      ((semget_create K td key nsems semflg semid st).sema.getD semid default).u.sem_nsems =
        nsems.toNat ∧
      ((semget_create K td key nsems semflg semid st).sema.getD semid default).u.sem_base =
        st.semtot := by
    have := (hL semid).2.2.1 rfl
    simp only [slot_layout, Prod.mk.injEq] at this
    exact ⟨this.1, by rw [this.2.2.2.1, hn], this.2.2.2.2⟩
  have hold : ∀ i, i ≠ semid →
      (semget_create K td key nsems semflg semid st).sema.getD i default =
        st.sema.getD i default := fun i hi => (hL i).2.2.2 hi
  have htot : (semget_create K td key nsems semflg semid st).semtot = st.semtot + nsems.toNat :=
    (hL 0).1
  refine ⟨by rw [htot]; push_cast; omega, ?_, ?_, ?_, ?_⟩
  · intro i hi
    by_cases hie : i = semid
    · subst hie; rw [hnew.2.1, hnew.2.2, htot]
    · rw [hold i hie] at hi ⊢
      have := h2 i hi
      rw [htot]; omega
  · intro i j hij hi hj
    by_cases hie : i = semid <;> by_cases hje : j = semid
    · exact absurd (hie.trans hje.symm) hij
    · subst hie
      rw [hold j hje] at hj ⊢
      rw [hnew.2.1, hnew.2.2]
      have := h2 j hj
      right; exact this
    · subst hje
      rw [hold i hie] at hi ⊢
      rw [hnew.2.1, hnew.2.2]
      have := h2 i hi
      left; exact this
    · rw [hold i hie] at hi ⊢
      rw [hold j hje] at hj ⊢
      exact h3 i j hij hi hj
  · intro k hk
    rw [htot] at hk
    by_cases hks : k < st.semtot
    · obtain ⟨i, hi, hb⟩ := h4 k hks
      have hie : i ≠ semid := by
        intro h; subst h; rw [hfree] at hi; exact absurd hi (by decide)
      exact ⟨i, by rw [hold i hie]; exact hi, by rw [hold i hie]; exact hb⟩
    · refine ⟨semid, hnew.1, ?_⟩
      rw [hnew.2.1, hnew.2.2]; omega
  · rw [htot, ← h5]
    have hs : (semget_create K td key nsems semflg semid st).sema =
        st.sema.set semid ((semget_create K td key nsems semflg semid st).sema.getD semid default) := by
      unfold semget_create
      simp only [getD_set_eq, hlt, and_self, if_true]
    rw [hs]
    have := sum_map_set st.sema slot_count semid
      ((semget_create K td key nsems semflg semid st).sema.getD semid default) hlt
    have c1 : slot_count (st.sema.getD semid default) = 0 := by
      unfold slot_count; rw [hfree]; rfl
    have c2 : slot_count
        ((semget_create K td key nsems semflg semid st).sema.getD semid default) = nsems.toNat := by
      unfold slot_count; rw [hnew.1, hnew.2.1]; rfl
    omega

theorem sem_alloc_mode_zero (k : SemidKernel) (hk : k.u.sem_perm.mode = 0) :
    sem_alloc k = false := by
  unfold sem_alloc; rw [hk]; decide

theorem pool_layout_rmid (cfg : Seminfo) (td : Thread) (X : Nat) (st : State)
    (hX : sem_alloc (st.sema.getD X default) = true) (hl : PoolLayout cfg st) :
    PoolLayout cfg (semctl_rmid td X st) := by
  obtain ⟨h1, h2, h3, h4, h5⟩ := hl
  have hL := fun i => semctl_rmid_slot td X st i
  have htot : (semctl_rmid td X st).semtot = st.semtot - (st.sema.getD X default).u.sem_nsems :=
    (hL 0).1
  have hXb := h2 X hX
  have hold : ∀ i, i ≠ X →
      sem_alloc ((semctl_rmid td X st).sema.getD i default) = sem_alloc (st.sema.getD i default) ∧
      ((semctl_rmid td X st).sema.getD i default).u.sem_nsems =
        (st.sema.getD i default).u.sem_nsems ∧
      (sem_alloc (st.sema.getD i default) = true →
        ((st.sema.getD i default).u.sem_base > (st.sema.getD X default).u.sem_base →
          ((semctl_rmid td X st).sema.getD i default).u.sem_base =
            (st.sema.getD i default).u.sem_base - (st.sema.getD X default).u.sem_nsems) ∧
        (¬ (st.sema.getD i default).u.sem_base > (st.sema.getD X default).u.sem_base →
          ((semctl_rmid td X st).sema.getD i default).u.sem_base =
            (st.sema.getD i default).u.sem_base)) := by
    intro i hi
    have := (hL i).2.2.2 hi
    simp only [slot_layout, Prod.mk.injEq] at this
    refine ⟨this.1, this.2.2.2.1, fun ha => ⟨fun hc => ?_, fun hc => ?_⟩⟩
    · rw [this.2.2.2.2, if_pos ⟨ha, hc⟩]
    · rw [this.2.2.2.2, if_neg (fun h => hc h.2)]
  have hgone : ∀ i, sem_alloc ((semctl_rmid td X st).sema.getD i default) = true → i ≠ X := by
    intro i hi hie
    rw [(hL i).2.2.1 hie] at hi
    exact absurd hi (by decide)
  refine ⟨by rw [htot]; omega, ?_, ?_, ?_, ?_⟩
  · intro i hi
    have hie := hgone i hi
    obtain ⟨e1, e2, e3⟩ := hold i hie
    rw [e1] at hi
    have b1 := h2 i hi
    have d1 := h3 i X hie hi hX
    rw [e2, htot]
    by_cases hc : (st.sema.getD i default).u.sem_base > (st.sema.getD X default).u.sem_base
    · rw [(e3 hi).1 hc]; omega
    · rw [(e3 hi).2 hc]; omega
  · intro i j hij hi hj
    have hie := hgone i hi
    have hje := hgone j hj
    obtain ⟨e1, e2, e3⟩ := hold i hie
    obtain ⟨f1, f2, f3⟩ := hold j hje
    rw [e1] at hi
    rw [f1] at hj
    have d1 := h3 i X hie hi hX
    have d2 := h3 j X hje hj hX
    have d3 := h3 i j hij hi hj
    rw [e2, f2]
    by_cases hc : (st.sema.getD i default).u.sem_base > (st.sema.getD X default).u.sem_base <;>
      by_cases hd : (st.sema.getD j default).u.sem_base > (st.sema.getD X default).u.sem_base
    · rw [(e3 hi).1 hc, (f3 hj).1 hd]; omega
    · rw [(e3 hi).1 hc, (f3 hj).2 hd]; omega
    · rw [(e3 hi).2 hc, (f3 hj).1 hd]; omega
    · rw [(e3 hi).2 hc, (f3 hj).2 hd]; omega
  · intro k hk
    rw [htot] at hk
    by_cases hkb : k < (st.sema.getD X default).u.sem_base
    · obtain ⟨i, hi, hb⟩ := h4 k (by omega)
      have hie : i ≠ X := by intro h; subst h; omega
      obtain ⟨e1, e2, e3⟩ := hold i hie
      refine ⟨i, by rw [e1]; exact hi, ?_⟩
      rw [e2, (e3 hi).2 (by omega)]
      exact hb
    · obtain ⟨i, hi, hb⟩ := h4 (k + (st.sema.getD X default).u.sem_nsems) (by omega)
      have hie : i ≠ X := by intro h; subst h; omega
      obtain ⟨e1, e2, e3⟩ := hold i hie
      have d1 := h3 i X hie hi hX
      refine ⟨i, by rw [e1]; exact hi, ?_⟩
      rw [e2]
      by_cases hc : (st.sema.getD i default).u.sem_base > (st.sema.getD X default).u.sem_base
      · rw [(e3 hi).1 hc]; omega
      · rw [(e3 hi).2 hc]; omega
  · rw [htot, ← h5, semctl_rmid_sema, List.map_map]
    have hXl := sem_alloc_lt _ _ hX
    have hf : (slot_count ∘ fun k : SemidKernel =>
        if sem_alloc k = true ∧ k.u.sem_base > (st.sema.getD X default).u.sem_base
        then { k with u := { k.u with
                 sem_base := k.u.sem_base - (st.sema.getD X default).u.sem_nsems } }
        else k) = slot_count := by
      funext k
      simp only [Function.comp]
      split
      · rename_i h
        unfold slot_count
        have ha : sem_alloc { k with u := { k.u with
            sem_base := k.u.sem_base - (st.sema.getD X default).u.sem_nsems } } = true := h.1
        rw [ha, h.1]
      · rfl
    rw [hf]
    have := sum_map_set st.sema slot_count X
      { u := { (st.sema.getD X default).u with
                 sem_perm := { (st.sema.getD X default).u.sem_perm with
                               cuid := td.td_ucred.cr_uid, uid := td.td_ucred.cr_uid, mode := 0 } }
        cred := none } hXl
    have c1 : slot_count (st.sema.getD X default) = (st.sema.getD X default).u.sem_nsems := by
      unfold slot_count; rw [hX]; rfl
    have c2 : slot_count
        { u := { (st.sema.getD X default).u with
                 sem_perm := { (st.sema.getD X default).u.sem_perm with
                               cuid := td.td_ucred.cr_uid, uid := td.td_ucred.cr_uid, mode := 0 } }
          cred := none } = 0 := by
      unfold slot_count; rw [sem_alloc_mode_zero _ rfl]; rfl
    omega

theorem step_pool_layout (K : Kernel) (cfg : Seminfo) (c : Call) (st : State)
    (h65 : cfg.semmsl ≤ 65535) (hl : PoolLayout cfg st) : PoolLayout cfg (step K cfg c st) := by
  rcases step_cases K cfg c st with hs | ⟨td, key, nsems, semflg, semid, _, hfs, _, h0, hmsl, hroom, hst⟩ |
      ⟨td, semid, semnum, arg, _, hv, _, hst⟩
  · exact pool_layout_of_same cfg hs hl
  · rw [hst]
    exact pool_layout_create K cfg td key nsems semflg semid st hfs h0 hmsl hroom h65 hl
  · rw [hst]
    exact pool_layout_rmid cfg td _ st ((semvalid_eq_zero _ _).1 hv).1 hl

theorem run_pool_layout (K : Kernel) (cfg : Seminfo) (cs : List Call) (st : State)
    (h65 : cfg.semmsl ≤ 65535) (hl : PoolLayout cfg st) : PoolLayout cfg (run K cfg cs st) := by
  induction cs generalizing st with
  | nil => exact hl
  | cons c rest ih => exact ih _ (step_pool_layout K cfg c st h65 hl)

theorem seminit_pool_layout (cfg : Seminfo) (hns : 0 ≤ cfg.semmns) :
    PoolLayout cfg (seminit cfg) := by
  have hna : ∀ i, sem_alloc ((seminit cfg).sema.getD i default) = true → False := by
    intro i hi
    rw [seminit_slot] at hi
    exact absurd hi (by decide)
  refine ⟨hns, fun i hi => (hna i hi).elim, fun i j _ hi => (hna i hi).elim, ?_, ?_⟩
  · intro k hk
    exact absurd hk (Nat.not_lt_zero k)
  · have h0 : slot_count default = 0 := by decide
    simp [seminit, List.map_replicate, List.sum_replicate, h0]

/-- C37. Layout of the value pool. When `semmsl ≤ 65535` (so that `sem_nsems`, a
`u_short`, holds the count asked for) and `semmns ≥ 0`: in every state reached
from `seminit` by any sequence of stretches, `semtot ≤ semmns`, the runs
`[sem_base, sem_base + sem_nsems)` of the allocated sets are pairwise disjoint,
lie below `semtot` and cover every offset below `semtot`, and `semtot` is the sum
of the counts of the allocated sets. Every stretch, the allocation by `semget`
and `IPC_RMID` among them, preserves this, and a stretch that is neither a
`semget` nor an `IPC_RMID` leaves `semtot` and the base, count and allocation
status of every slot unchanged. -/
theorem pool_layout_invariant (K : Kernel) (cfg : Seminfo) (h65 : cfg.semmsl ≤ 65535)
    (hns : 0 ≤ cfg.semmns) :
    (∀ cs, PoolLayout cfg (run K cfg cs (seminit cfg))) ∧
    (∀ st c, PoolLayout cfg st → PoolLayout cfg (step K cfg c st)) ∧
    (∀ st c, is_rmid c = false → (∀ td key nsems semflg, c ≠ Call.semget td key nsems semflg) →
      TableSame st (step K cfg c st)) := by
  refine ⟨fun cs => run_pool_layout K cfg cs _ h65 (seminit_pool_layout cfg hns),
    fun st c hl => step_pool_layout K cfg c st h65 hl, ?_⟩
  intro st c hr hg
  rcases step_cases K cfg c st with hs | ⟨td, key, nsems, semflg, semid, hc, _⟩ |
      ⟨td, semid, semnum, arg, hc, _⟩
  · exact hs
  · exact absurd hc (hg td key nsems semflg)
  · subst hc; simp [is_rmid] at hr

theorem pool_layout_invariant_witness :
    PoolLayout exCfg (run exKernel exCfg
      [Call.semget exThread IPC_PRIVATE 2 0o600,
       Call.semget exThread IPC_PRIVATE 2 0o600,
       Call.semctl exThread 65536 0 Cmd.IPC_RMID ⟨0, default, []⟩] (seminit exCfg)) ∧
    (run exKernel exCfg
      [Call.semget exThread IPC_PRIVATE 2 0o600,
       Call.semget exThread IPC_PRIVATE 2 0o600,
       Call.semctl exThread 65536 0 Cmd.IPC_RMID ⟨0, default, []⟩] (seminit exCfg)).sema.map
        slot_layout = [(false, 0, 1, 2, 0), (true, 0, 1, 2, 0)] ∧
    (run exKernel exCfg
      [Call.semget exThread IPC_PRIVATE 2 0o600,
       Call.semget exThread IPC_PRIVATE 2 0o600,
       Call.semctl exThread 65536 0 Cmd.IPC_RMID ⟨0, default, []⟩] (seminit exCfg)).semtot = 2 :=
  ⟨(pool_layout_invariant exKernel exCfg (by decide) (by decide)).1 _, by decide, by decide⟩

/-! ## The compaction loop of `IPC_RMID` -/

/-- C38 at its failing input. Under `exCfg` the pool `sem` has `semmns = 4`
elements. After two `semget` calls for sets of two semaphores the pool is full
(`semtot = 4`, layout in order). `IPC_RMID` of the first set (base 0, two
semaphores) succeeds, and its compaction loop runs `i` from 0 to `semtot - 1 = 3`
and reads `sem[i + 2]`: the offsets 2, 3, 4 and 5, of which 4 and 5 lie past the
end of the pool. -/
theorem rmid_reads_past_pool :
    exCfg.semmns = 4 ∧
    (run exKernel exCfg full_pool_calls (seminit exCfg)).sem.length = 4 ∧
    (run exKernel exCfg full_pool_calls (seminit exCfg)).semtot = 4 ∧
    PoolLayout exCfg (run exKernel exCfg full_pool_calls (seminit exCfg)) ∧
    kern_semctl exKernel exCfg exThread 65536 0 Cmd.IPC_RMID ⟨0, default, []⟩
        (run exKernel exCfg full_pool_calls (seminit exCfg)) =
      ⟨0, 0, none, none,
        semctl_rmid exThread 0 (run exKernel exCfg full_pool_calls (seminit exCfg))⟩ ∧
    semctl_rmid_reads 0 (run exKernel exCfg full_pool_calls (seminit exCfg)) = [2, 3, 4, 5] ∧
    ¬ ∀ r ∈ semctl_rmid_reads 0 (run exKernel exCfg full_pool_calls (seminit exCfg)),
        (r : Int) < exCfg.semmns := by
  refine ⟨by decide, by decide, by decide,
    run_pool_layout exKernel exCfg _ _ (by decide) (seminit_pool_layout exCfg (by decide)),
    kern_semctl_rmid exKernel exCfg exThread 65536 0 _ _ rfl (by decide) (by decide) rfl,
    by decide, by decide⟩

/-! ## Wait counters -/

theorem wait_counts_getD (pool : List Sem) (i : Nat) :
    (wait_counts pool).getD i (0, 0) =
      ((pool.getD i default).semncnt, (pool.getD i default).semzcnt) := by
  unfold wait_counts
  simp only [List.getD_eq_getElem?_getD, List.getElem?_map]
  cases pool[i]? <;> rfl

theorem wait_counts_set (pool : List Sem) (i : Nat) (s : Sem) :
    wait_counts (pool.set i s) = (wait_counts pool).set i (s.semncnt, s.semzcnt) := by
  unfold wait_counts
  rw [List.map_set]

theorem wait_counts_set_same (pool : List Sem) (i : Nat) (s : Sem)
    (h1 : s.semncnt = (pool.getD i default).semncnt)
    (h2 : s.semzcnt = (pool.getD i default).semzcnt) :
    wait_counts (pool.set i s) = wait_counts pool := by
  rw [wait_counts_set, h1, h2, ← wait_counts_getD]
  apply List.ext_getElem?
  intro n
  rw [List.getElem?_set]
  split
  · rename_i h
    subst h
    split
    · rename_i hl
      simp [List.getD_eq_getElem?_getD, List.getElem?_eq_getElem hl]
    · rename_i hl
      rw [List.getElem?_eq_none (by omega)]
  · rfl

theorem wait_counts_semval_add (pool : List Sem) (i : Nat) (d : Int) :
    wait_counts (semval_add pool i d) = wait_counts pool := by
  unfold semval_add
  exact wait_counts_set_same _ _ _ rfl rfl

theorem wait_counts_try (cfg : Seminfo) (base : Nat) (sops : List Sembuf) (i : Nat) (w : Bool)
    (pool : List Sem) :
    wait_counts (semop_try cfg base sops i w pool).2.2.2 = wait_counts pool := by
  induction sops generalizing i w pool with
  | nil => rfl
  | cons o os ih =>
    unfold semop_try
    simp only
    repeat' split
    all_goals first
      | rfl
      | (rw [ih]; exact wait_counts_semval_add _ _ _)
      | exact ih _ _ _

theorem wait_counts_rollback (base : Nat) (sops : List Sembuf) (pool : List Sem) :
    wait_counts (semop_rollback base sops pool) = wait_counts pool := by
  induction sops generalizing pool with
  | nil => rfl
  | cons o os ih =>
    simp only [semop_rollback, List.foldl_cons]
    have := ih (semval_add pool (base + o.sem_num) (-o.sem_op))
    simp only [semop_rollback] at this
    rw [this, wait_counts_semval_add]

theorem wait_counts_stamp (base : Nat) (pid : Int) (sops : List Sembuf) (pool : List Sem) :
    wait_counts (semop_stamp base pid sops pool) = wait_counts pool := by
  induction sops generalizing pool with
  | nil => rfl
  | cons o os ih =>
    simp only [semop_stamp, List.foldl_cons]
    have := ih (pool.set (base + o.sem_num) { pool.getD (base + o.sem_num) default with sempid := pid })
    simp only [semop_stamp] at this
    rw [this]
    exact wait_counts_set_same _ _ _ rfl rfl

theorem wait_counts_done (K : Kernel) (cfg : Seminfo) (td : Thread) (semid : Nat)
    (sops : List Sembuf) (st : State) :
    (∀ i st', semop_done K cfg td semid sops st ≠ SemopResult.sleep i st') ∧
    (∀ e st', semop_done K cfg td semid sops st = SemopResult.ret e st' →
      wait_counts st'.sem = wait_counts st.sem ∧ st'.sema.length = st.sema.length) := by
  unfold semop_done
  simp only
  split
  · exact ⟨(fun _ _ h => by cases h), (fun _ _ h => by cases h)⟩
  · rename_i error st1 hu
    have hsets : SameSets st st1 := by
      split at hu
      · exact ((semop_undos_sets _ _ _ _ _ _ _ _).2 _ _ hu).1
      · exact absurd hu (by simp)
    refine ⟨(fun _ _ h => by cases h), fun e st' h => ?_⟩
    simp only [SemopResult.ret.injEq] at h
    rw [← h.2]
    simp only [wait_counts_rollback, hsets.1, hsets.2.1, and_self]
  · rename_i st1 hu
    have hsets : SameSets st st1 := by
      split at hu
      · exact (semop_undos_sets _ _ _ _ _ _ _ _).1 _ hu
      · simp only [UndoResult.ok.injEq] at hu
        rw [← hu]; exact SameSets.rfl st
    refine ⟨(fun _ _ h => by cases h), fun e st' h => ?_⟩
    simp only [SemopResult.ret.injEq] at h
    rw [← h.2]
    simp only [wait_counts_stamp, hsets.1, hsets.2.1, List.length_set, and_self]

theorem wait_counts_loop (K : Kernel) (cfg : Seminfo) (td : Thread) (X : Nat)
    (sops : List Sembuf) (st : State) :
    (∀ e st', semop_loop K cfg td X sops st = SemopResult.ret e st' →
      wait_counts st'.sem = wait_counts st.sem) ∧
    (∀ i st1, semop_loop K cfg td X sops st = SemopResult.sleep i st1 →
      i < sops.length ∧ (sops.getD i default).sem_flg &&& IPC_NOWAIT = 0 ∧
      st1.sema = st.sema ∧
      ∃ pool, wait_counts pool = wait_counts st.sem ∧
        st1.sem = pool.set ((st.sema.getD X default).u.sem_base + (sops.getD i default).sem_num)
          (if (sops.getD i default).sem_op = 0 then
             { pool.getD ((st.sema.getD X default).u.sem_base + (sops.getD i default).sem_num)
                 default with
               semzcnt := ((pool.getD ((st.sema.getD X default).u.sem_base +
                 (sops.getD i default).sem_num) default).semzcnt + 1) % 65536 }
           else
             { pool.getD ((st.sema.getD X default).u.sem_base + (sops.getD i default).sem_num)
                 default with
               semncnt := ((pool.getD ((st.sema.getD X default).u.sem_base +
                 (sops.getD i default).sem_num) default).semncnt + 1) % 65536 })) := by
  have hpool : wait_counts (semop_rollback (st.sema.getD X default).u.sem_base
      (sops.take (semop_try cfg (st.sema.getD X default).u.sem_base sops 0 false st.sem).1)
      (semop_try cfg (st.sema.getD X default).u.sem_base sops 0 false st.sem).2.2.2) =
      wait_counts st.sem := by
    rw [wait_counts_rollback, wait_counts_try]
  unfold semop_loop
  simp only
  split
  · have hd := wait_counts_done K cfg td X sops
      { st with sem := (semop_try cfg (st.sema.getD X default).u.sem_base sops 0 false st.sem).2.2.2 }
    refine ⟨fun e st' h => ?_, fun i st1 h => absurd h (hd.1 i st1)⟩
    rw [(hd.2 e st' h).1]
    exact wait_counts_try ..
  · rename_i hlt
    split
    · refine ⟨fun e st' h => ?_, (fun i st1 h => by cases h)⟩
      simp only [SemopResult.ret.injEq] at h
      rw [← h.2]; exact hpool
    · split
      · refine ⟨fun e st' h => ?_, (fun i st1 h => by cases h)⟩
        simp only [SemopResult.ret.injEq] at h
        rw [← h.2]; exact hpool
      · rename_i hnw
        refine ⟨(fun e st' h => by cases h), fun i st1 h => ?_⟩
        simp only [SemopResult.sleep.injEq] at h
        obtain ⟨hi, hs⟩ := h
        subst hi
        refine ⟨by omega, by simpa using hnw, by rw [← hs], _, hpool, ?_⟩
        rw [← hs]

theorem sys_semop_to_loop (K : Kernel) (cfg : Seminfo) (td : Thread) (id : Int)
    (sops : List Sembuf) (st : State) :
    (∃ e, sys_semop K cfg td id sops st = SemopResult.ret e st) ∨
    (sem_alloc (st.sema.getD (IPCID_TO_IX id) default) = true ∧
      (st.sema.getD (IPCID_TO_IX id) default).u.sem_perm.seq = IPCID_TO_SEQ id ∧
      sys_semop K cfg td id sops st = semop_loop K cfg td (IPCID_TO_IX id) sops st) := by
  unfold sys_semop
  simp only
  repeat' split
  all_goals first
    | exact Or.inl ⟨_, rfl⟩
    | exact Or.inr ⟨by simp_all, by simp_all, rfl⟩

theorem wait_incr_of_sleep (pool0 pool : List Sem) (idx : Nat) (op : Int)
    (hp : wait_counts pool = wait_counts pool0)
    (hc : (if op = 0 then ((wait_counts pool0).getD idx (0, 0)).2
           else ((wait_counts pool0).getD idx (0, 0)).1) < 65535) :
    wait_counts (pool.set idx
      (if op = 0 then
         { pool.getD idx default with semzcnt := ((pool.getD idx default).semzcnt + 1) % 65536 }
       else
         { pool.getD idx default with semncnt := ((pool.getD idx default).semncnt + 1) % 65536 })) =
      wait_incr (wait_counts pool0) idx op := by
  rw [wait_counts_set]
  unfold wait_incr
  rw [← hp] at hc ⊢
  rw [wait_counts_getD] at hc ⊢
  by_cases h0 : op = 0
  · simp only [h0, if_true] at hc ⊢
    rw [Nat.mod_eq_of_lt (by omega)]
  · simp only [h0, if_false] at hc ⊢
    rw [Nat.mod_eq_of_lt (by omega)]

theorem wait_decr_of_wakeup (pool : List Sem) (idx : Nat) (op : Int)
    (hc : 1 ≤ (if op = 0 then ((wait_counts pool).getD idx (0, 0)).2
               else ((wait_counts pool).getD idx (0, 0)).1))
    (hu : (if op = 0 then ((wait_counts pool).getD idx (0, 0)).2
           else ((wait_counts pool).getD idx (0, 0)).1) < 65536) :
    wait_counts (pool.set idx
      (if op = 0 then
         { pool.getD idx default with semzcnt := ((pool.getD idx default).semzcnt + 65535) % 65536 }
       else
         { pool.getD idx default with semncnt := ((pool.getD idx default).semncnt + 65535) % 65536 })) =
      wait_decr (wait_counts pool) idx op := by
  rw [wait_counts_set]
  unfold wait_decr
  rw [wait_counts_getD] at hc hu ⊢
  by_cases h0 : op = 0
  · simp only [h0, if_true] at hc hu ⊢
    have : ((pool.getD idx default).semzcnt + 65535) % 65536 =
        (pool.getD idx default).semzcnt - 1 := by omega
    rw [this]
  · simp only [h0, if_false] at hc hu ⊢
    have : ((pool.getD idx default).semncnt + 65535) % 65536 =
        (pool.getD idx default).semncnt - 1 := by omega
    rw [this]

theorem wait_decr_incr (l : List (Nat × Nat)) (idx : Nat) (op : Int) :
    wait_decr (wait_incr l idx op) idx op = l := by
  unfold wait_decr wait_incr
  apply List.ext_getElem?
  intro n
  simp only [List.set_set, List.getElem?_set, List.length_set]
  by_cases hn : idx = n
  · subst hn
    by_cases hl : idx < l.length
    · simp only [hl, if_true, List.getD_eq_getElem?_getD, List.getElem?_set, List.getElem?_eq_getElem hl,
        Option.getD_some]
      split <;> simp
    · simp only [hl, if_false, if_true]
      rw [List.getElem?_eq_none (by omega)]
  · simp only [hn, if_false]

theorem semop_wakeup_decr (K : Kernel) (cfg : Seminfo) (td : Thread) (id : Int)
    (sops : List Sembuf) (i : Nat) (error : Int) (st : State)
    (ha : sem_alloc (st.sema.getD (IPCID_TO_IX id) default) = true)
    (hs : (st.sema.getD (IPCID_TO_IX id) default).u.sem_perm.seq = IPCID_TO_SEQ id) :
    ∃ st1, st1.sema = st.sema ∧
      st1.sem = st.sem.set
        ((st.sema.getD (IPCID_TO_IX id) default).u.sem_base + (sops.getD i default).sem_num)
        (if (sops.getD i default).sem_op = 0 then
           { st.sem.getD ((st.sema.getD (IPCID_TO_IX id) default).u.sem_base +
               (sops.getD i default).sem_num) default with
             semzcnt := ((st.sem.getD ((st.sema.getD (IPCID_TO_IX id) default).u.sem_base +
               (sops.getD i default).sem_num) default).semzcnt + 65535) % 65536 }
         else
           { st.sem.getD ((st.sema.getD (IPCID_TO_IX id) default).u.sem_base +
               (sops.getD i default).sem_num) default with
             semncnt := ((st.sem.getD ((st.sema.getD (IPCID_TO_IX id) default).u.sem_base +
               (sops.getD i default).sem_num) default).semncnt + 65535) % 65536 }) ∧
      (error ≠ 0 → semop_wakeup K cfg td id sops i error st = SemopResult.ret EINTR st1) ∧
      (error = 0 → semop_wakeup K cfg td id sops i error st =
        semop_loop K cfg td (IPCID_TO_IX id) sops st1) := by
  refine ⟨{ st with
      sem := st.sem.set
        ((st.sema.getD (IPCID_TO_IX id) default).u.sem_base + (sops.getD i default).sem_num)
        (if (sops.getD i default).sem_op = 0 then
           { st.sem.getD ((st.sema.getD (IPCID_TO_IX id) default).u.sem_base +
               (sops.getD i default).sem_num) default with
             semzcnt := ((st.sem.getD ((st.sema.getD (IPCID_TO_IX id) default).u.sem_base +
               (sops.getD i default).sem_num) default).semzcnt + 65535) % 65536 }
         else
           { st.sem.getD ((st.sema.getD (IPCID_TO_IX id) default).u.sem_base +
               (sops.getD i default).sem_num) default with
             semncnt := ((st.sem.getD ((st.sema.getD (IPCID_TO_IX id) default).u.sem_base +
               (sops.getD i default).sem_num) default).semncnt + 65535) % 65536 }) },
    rfl, rfl, fun he => ?_, fun he => ?_⟩
  · unfold semop_wakeup
    simp only [ha, hs, he, not_true_eq_false, ne_eq, or_self, if_false, not_false_eq_true,
      if_true]
  · unfold semop_wakeup
    simp only [ha, hs, he, not_true_eq_false, ne_eq, or_self, if_false, not_false_eq_true]

/-- C35. Wait counters are balanced. (1) When `sys_semop` goes to sleep on
operation `i`, that operation has no `IPC_NOWAIT`, the descriptors are unchanged
and, the counter being below 65535, the wait counters of the pool are those at
entry with one counter of the semaphore `sem_base + sops[i].sem_num` raised by
one: `semzcnt` when `sem_op == 0`, `semncnt` otherwise. (2) After a wakeup with
the slot still allocated and its sequence number unchanged, the same counter of
the semaphore `sops[i].sem_num` (at least 1) is lowered by one, and then the call
returns `EINTR` when the sleep was interrupted and makes a new attempt
otherwise. (3) A return of `sys_semop` or of a new attempt, with any error or
with success, leaves every wait counter as the attempt found it. (4) Lowering
after raising gives the counters back, so that a call that sleeps and is woken
in the state it left returns `EINTR`, or starts its new attempt, with every wait
counter as at entry. -/
theorem wait_counters_balanced (K : Kernel) (cfg : Seminfo) (td : Thread) (id : Int)
    (sops : List Sembuf) (st : State) :
    (∀ i st1, sys_semop K cfg td id sops st = SemopResult.sleep i st1 →
      i < sops.length ∧ (sops.getD i default).sem_flg &&& IPC_NOWAIT = 0 ∧
      st1.sema = st.sema ∧
      ((if (sops.getD i default).sem_op = 0 then
          ((wait_counts st.sem).getD ((st.sema.getD (IPCID_TO_IX id) default).u.sem_base +
            (sops.getD i default).sem_num) (0, 0)).2
        else
          ((wait_counts st.sem).getD ((st.sema.getD (IPCID_TO_IX id) default).u.sem_base +
            (sops.getD i default).sem_num) (0, 0)).1) < 65535 →
        wait_counts st1.sem =
          wait_incr (wait_counts st.sem)
            ((st.sema.getD (IPCID_TO_IX id) default).u.sem_base + (sops.getD i default).sem_num)
            (sops.getD i default).sem_op ∧
        ∀ error, ∃ st2, wait_counts st2.sem = wait_counts st.sem ∧
          (error ≠ 0 → semop_wakeup K cfg td id sops i error st1 = SemopResult.ret EINTR st2) ∧
          (error = 0 → semop_wakeup K cfg td id sops i error st1 =
            semop_loop K cfg td (IPCID_TO_IX id) sops st2))) ∧
    (∀ i error st2, sem_alloc (st2.sema.getD (IPCID_TO_IX id) default) = true →
      (st2.sema.getD (IPCID_TO_IX id) default).u.sem_perm.seq = IPCID_TO_SEQ id →
      1 ≤ (if (sops.getD i default).sem_op = 0 then
          ((wait_counts st2.sem).getD ((st2.sema.getD (IPCID_TO_IX id) default).u.sem_base +
            (sops.getD i default).sem_num) (0, 0)).2
        else
          ((wait_counts st2.sem).getD ((st2.sema.getD (IPCID_TO_IX id) default).u.sem_base +
            (sops.getD i default).sem_num) (0, 0)).1) →
      (if (sops.getD i default).sem_op = 0 then
          ((wait_counts st2.sem).getD ((st2.sema.getD (IPCID_TO_IX id) default).u.sem_base +
            (sops.getD i default).sem_num) (0, 0)).2
        else
          ((wait_counts st2.sem).getD ((st2.sema.getD (IPCID_TO_IX id) default).u.sem_base +
            (sops.getD i default).sem_num) (0, 0)).1) < 65536 →
      ∃ st3, st3.sema = st2.sema ∧
        wait_counts st3.sem =
          wait_decr (wait_counts st2.sem)
            ((st2.sema.getD (IPCID_TO_IX id) default).u.sem_base + (sops.getD i default).sem_num)
            (sops.getD i default).sem_op ∧
        (error ≠ 0 → semop_wakeup K cfg td id sops i error st2 = SemopResult.ret EINTR st3) ∧
        (error = 0 → semop_wakeup K cfg td id sops i error st2 =
          semop_loop K cfg td (IPCID_TO_IX id) sops st3)) ∧
    (∀ e st', sys_semop K cfg td id sops st = SemopResult.ret e st' →
      wait_counts st'.sem = wait_counts st.sem) ∧
    (∀ st2 e st', semop_loop K cfg td (IPCID_TO_IX id) sops st2 = SemopResult.ret e st' →
      wait_counts st'.sem = wait_counts st2.sem) ∧
    (∀ (l : List (Nat × Nat)) idx op, wait_decr (wait_incr l idx op) idx op = l) := by
  have hwake : ∀ i error st2, sem_alloc (st2.sema.getD (IPCID_TO_IX id) default) = true →
      (st2.sema.getD (IPCID_TO_IX id) default).u.sem_perm.seq = IPCID_TO_SEQ id →
      1 ≤ (if (sops.getD i default).sem_op = 0 then
          ((wait_counts st2.sem).getD ((st2.sema.getD (IPCID_TO_IX id) default).u.sem_base +
            (sops.getD i default).sem_num) (0, 0)).2
        else
          ((wait_counts st2.sem).getD ((st2.sema.getD (IPCID_TO_IX id) default).u.sem_base +
            (sops.getD i default).sem_num) (0, 0)).1) →
      (if (sops.getD i default).sem_op = 0 then
          ((wait_counts st2.sem).getD ((st2.sema.getD (IPCID_TO_IX id) default).u.sem_base +
            (sops.getD i default).sem_num) (0, 0)).2
        else
          ((wait_counts st2.sem).getD ((st2.sema.getD (IPCID_TO_IX id) default).u.sem_base +
            (sops.getD i default).sem_num) (0, 0)).1) < 65536 →
      ∃ st3, st3.sema = st2.sema ∧
        wait_counts st3.sem =
          wait_decr (wait_counts st2.sem)
            ((st2.sema.getD (IPCID_TO_IX id) default).u.sem_base + (sops.getD i default).sem_num)
            (sops.getD i default).sem_op ∧
        (error ≠ 0 → semop_wakeup K cfg td id sops i error st2 = SemopResult.ret EINTR st3) ∧
        (error = 0 → semop_wakeup K cfg td id sops i error st2 =
          semop_loop K cfg td (IPCID_TO_IX id) sops st3) := by
    intro i error st2 ha hs h1 hu
    obtain ⟨st3, e1, e2, e3, e4⟩ := semop_wakeup_decr K cfg td id sops i error st2 ha hs
    refine ⟨st3, e1, ?_, e3, e4⟩
    rw [e2]
    exact wait_decr_of_wakeup _ _ _ h1 hu
  refine ⟨?_, hwake, ?_, fun st2 => (wait_counts_loop K cfg td _ sops st2).1,
    wait_decr_incr⟩
  · intro i st1 h
    rcases sys_semop_to_loop K cfg td id sops st with ⟨e, he⟩ | ⟨ha, hs, hl⟩
    · rw [he] at h; cases h
    · rw [hl] at h
      obtain ⟨h1, h2, h3, pool, hp, h4⟩ := (wait_counts_loop K cfg td _ sops st).2 i st1 h
      refine ⟨h1, h2, h3, fun hc => ?_⟩
      have hinc : wait_counts st1.sem =
          wait_incr (wait_counts st.sem)
            ((st.sema.getD (IPCID_TO_IX id) default).u.sem_base + (sops.getD i default).sem_num)
            (sops.getD i default).sem_op := by
        rw [h4]
        exact wait_incr_of_sleep st.sem pool _ _ hp hc
      refine ⟨hinc, fun error => ?_⟩
      have hget : (wait_counts st1.sem).getD
          ((st1.sema.getD (IPCID_TO_IX id) default).u.sem_base + (sops.getD i default).sem_num)
          (0, 0) =
          (wait_incr (wait_counts st.sem)
            ((st.sema.getD (IPCID_TO_IX id) default).u.sem_base + (sops.getD i default).sem_num)
            (sops.getD i default).sem_op).getD
          ((st.sema.getD (IPCID_TO_IX id) default).u.sem_base + (sops.getD i default).sem_num)
          (0, 0) := by rw [h3, hinc]
      by_cases hlen : (st.sema.getD (IPCID_TO_IX id) default).u.sem_base +
          (sops.getD i default).sem_num < (wait_counts st.sem).length
      · obtain ⟨st2, _, e2, e3, e4⟩ := hwake i error st1 (by rw [h3]; exact ha)
          (by rw [h3]; exact hs)
          (by
            rw [hget]; unfold wait_incr
            rw [getD_set_eq]
            simp only [hlen, and_self, if_true]
            split <;> simp)
          (by
            rw [hget]; unfold wait_incr
            rw [getD_set_eq]
            simp only [hlen, and_self, if_true]
            split
            · rename_i h0; simp only [h0, if_true] at hc ⊢; omega
            · rename_i h0; simp only [h0, if_false] at hc ⊢; omega)
        refine ⟨st2, ?_, e3, e4⟩
        rw [e2, h3, hinc]
        exact wait_decr_incr _ _ _
      · obtain ⟨st2, _, e2, e3, e4⟩ := semop_wakeup_decr K cfg td id sops i error st1
          (by rw [h3]; exact ha) (by rw [h3]; exact hs)
        refine ⟨st2, ?_, e3, e4⟩
        have hl1 : wait_counts st1.sem = wait_counts st.sem := by
          rw [hinc]; unfold wait_incr
          exact List.set_eq_of_length_le (by omega)
        rw [h3] at e2
        rw [e2, wait_counts_set, hl1]
        exact List.set_eq_of_length_le (by omega)
  · intro e st' h
    rcases sys_semop_to_loop K cfg td id sops st with ⟨e', he⟩ | ⟨_, _, hl⟩
    · rw [he] at h
      simp only [SemopResult.ret.injEq] at h
      rw [← h.2]
    · rw [hl] at h
      exact (wait_counts_loop K cfg td _ sops st).1 e st' h

theorem wait_counters_balanced_witness :
    sys_semop exKernel oneCfg exThread 65536 [⟨0, -1, 0⟩] (oneState 1) =
      SemopResult.sleep 0
        ((sys_semop exKernel oneCfg exThread 65536 [⟨0, -1, 0⟩] (oneState 1)).state (oneState 1)) ∧
    wait_counts (oneState 1).sem = [(0, 0)] ∧
    wait_counts
        ((sys_semop exKernel oneCfg exThread 65536 [⟨0, -1, 0⟩] (oneState 1)).state
          (oneState 1)).sem =
      wait_incr (wait_counts (oneState 1).sem) 0 (-1) ∧
    wait_incr (wait_counts (oneState 1).sem) 0 (-1) = [(1, 0)] :=
  ⟨by decide, by decide,
   (((wait_counters_balanced exKernel oneCfg exThread 65536 [⟨0, -1, 0⟩] (oneState 1)).1 0
      ((sys_semop exKernel oneCfg exThread 65536 [⟨0, -1, 0⟩] (oneState 1)).state (oneState 1))
      (by decide)).2.2.2 (by decide)).1,
   by decide⟩

/-! ## Invariants of the undo entries -/

theorem semu_out_of_range (st : State) (r : Nat) (h : st.semu.length ≤ r) :
    SEMU st r = default := by
  unfold SEMU
  rw [List.getD_eq_getElem?_getD, List.getElem?_eq_none h]; rfl

theorem semu_setSEMU (st : State) (r q : Nat) (su : SemUndo) :
    SEMU (setSEMU st r su) q = if r = q ∧ r < st.semu.length then su else SEMU st q := by
  unfold SEMU setSEMU
  simp only
  rw [getD_set_eq]

theorem semu_try_free_SEMU (r q : Nat) (st : State) :
    SEMU (semu_try_free r st).2 q = SEMU st q := by
  unfold SEMU
  rw [semu_try_free_semu]

theorem adjust_entry_ents (cfg : Seminfo) (r : Nat) (semid : Int) (semseq : Nat)
    (semnum adjval : Int) (st : State) :
    (semundo_adjust_entry cfg r semid semseq semnum adjval st).1 =
      (adjust_ents cfg semid semseq semnum adjval (SEMU st r).un_ent).1 ∧
    (semundo_adjust_entry cfg r semid semseq semnum adjval st).2.semu.length = st.semu.length ∧
    (∀ q, SEMU (semundo_adjust_entry cfg r semid semseq semnum adjval st).2 q =
      if r = q ∧ r < st.semu.length then
        { SEMU st r with
          un_ent := (adjust_ents cfg semid semseq semnum adjval (SEMU st r).un_ent).2 }
      else SEMU st q) := by
  have hsame : ∀ q, SEMU st q =
      if r = q ∧ r < st.semu.length then { SEMU st r with un_ent := (SEMU st r).un_ent }
      else SEMU st q := by
    intro q
    split
    · rename_i h; rw [h.1]
    · rfl
  unfold semundo_adjust_entry adjust_ents
  cases hf : undo_find semid semnum (SEMU st r).un_ent with
  | some i =>
    simp only [hf]
    by_cases h1 : adjval ≠ 0 ∧
        ((if adjval ≠ 0 then adjval + ((SEMU st r).un_ent.getD i default).un_adjval else adjval) >
            cfg.semaem ∨
          (if adjval ≠ 0 then adjval + ((SEMU st r).un_ent.getD i default).un_adjval else adjval) <
            -cfg.semaem)
    · rw [if_pos h1, if_pos h1]
      exact ⟨rfl, rfl, hsame⟩
    · rw [if_neg h1, if_neg h1]
      by_cases h2 : toShort
          (if adjval ≠ 0 then adjval + ((SEMU st r).un_ent.getD i default).un_adjval else adjval) = 0
      · rw [if_pos h2, if_pos h2]
        by_cases h3 : (undo_delete (SEMU st r).un_ent i).length = 0
        · rw [if_pos h3]
          refine ⟨rfl, ?_, fun q => ?_⟩
          · rw [semu_try_free_semu]; simp [setSEMU]
          · rw [semu_try_free_SEMU, semu_setSEMU]
        · rw [if_neg h3]
          refine ⟨rfl, by simp [setSEMU], fun q => ?_⟩
          rw [semu_setSEMU]
      · rw [if_neg h2, if_neg h2]
        refine ⟨rfl, by simp [setSEMU], fun q => ?_⟩
        rw [semu_setSEMU]
  | none =>
    simp only [hf]
    by_cases h1 : adjval = 0
    · rw [if_pos h1, if_pos h1]
      exact ⟨rfl, rfl, hsame⟩
    · rw [if_neg h1, if_neg h1]
      by_cases h2 : adjval > cfg.semaem ∨ adjval < -cfg.semaem
      · rw [if_pos h2, if_pos h2]
        exact ⟨rfl, rfl, hsame⟩
      · rw [if_neg h2, if_neg h2]
        by_cases h3 : ((SEMU st r).un_cnt : Int) ≠ cfg.semume
        · have h3' : ((SEMU st r).un_ent.length : Int) ≠ cfg.semume := h3
          rw [if_pos h3, if_pos h3']
          refine ⟨rfl, by simp [setSEMU], fun q => ?_⟩
          rw [semu_setSEMU]
        · have h3' : ¬ ((SEMU st r).un_ent.length : Int) ≠ cfg.semume := h3
          rw [if_neg h3, if_neg h3']
          exact ⟨rfl, rfl, hsame⟩

theorem toShort_id (x : Int) (h1 : -32768 ≤ x) (h2 : x ≤ 32767) : toShort x = x := by
  unfold toShort; omega

theorem undo_find_none (semid semnum : Int) (ents : List Undo)
    (h : undo_find semid semnum ents = none) (a : Nat) (ha : a < ents.length) :
    ¬ ((ents.getD a default).un_id = semid ∧ (ents.getD a default).un_num = semnum) := by
  induction ents generalizing a with
  | nil => simp at ha
  | cons e es ih =>
    unfold undo_find at h
    split at h
    · cases h
    · rename_i hne
      cases hf : undo_find semid semnum es with
      | some j => simp [hf] at h
      | none =>
        cases a with
        | zero => simpa using hne
        | succ n =>
          have := ih hf n (by simpa using ha)
          simpa using this

theorem undo_find_first (semid semnum : Int) (ents : List Undo) (i : Nat)
    (h : undo_find semid semnum ents = some i) (a : Nat) (ha : a < i) :
    ¬ ((ents.getD a default).un_id = semid ∧ (ents.getD a default).un_num = semnum) := by
  induction ents generalizing i a with
  | nil => simp [undo_find] at h
  | cons e es ih =>
    unfold undo_find at h
    split at h
    · cases h; omega
    · rename_i hne
      cases hf : undo_find semid semnum es with
      | none => simp [hf] at h
      | some j =>
        simp [hf] at h
        subst h
        cases a with
        | zero => simpa using hne
        | succ n =>
          have := ih j hf n (by omega)
          simpa using this

theorem recinv_nil (cfg : Seminfo) (h : 0 ≤ cfg.semume) : RecInv cfg [] :=
  ⟨fun a b ha => absurd ha (by simp), fun a ha => absurd ha (by simp), by simpa using h⟩

theorem recinv_delete (cfg : Seminfo) (ents : List Undo) (i : Nat) (hi : i < ents.length)
    (h : RecInv cfg ents) : RecInv cfg (undo_delete ents i) := by
  obtain ⟨h1, h2, h3⟩ := h
  have hlen := undo_delete_length ents i
  refine ⟨?_, ?_, by rw [hlen]; omega⟩
  · intro a b ha hb hk
    rw [hlen] at ha hb
    rw [undo_delete_getD ents i a hi ha, undo_delete_getD ents i b hi hb] at hk
    by_cases hai : a = i <;> by_cases hbi : b = i
    · rw [hai, hbi]
    · simp only [hai, hbi, if_true, if_false] at hk
      have := h1 (ents.length - 1) b (by omega) (by omega) hk
      omega
    · simp only [hai, hbi, if_true, if_false] at hk
      have := h1 a (ents.length - 1) (by omega) (by omega) hk
      omega
    · simp only [hai, hbi, if_false] at hk
      exact h1 a b (by omega) (by omega) hk
  · intro a ha
    rw [hlen] at ha
    rw [undo_delete_getD ents i a hi ha]
    split
    · exact h2 _ (by omega)
    · exact h2 _ (by omega)

theorem recinv_set (cfg : Seminfo) (ents : List Undo) (i : Nat) (e : Undo)
    (hk : undo_key e = undo_key (ents.getD i default))
    (hv : e.un_adjval ≠ 0 ∧ -cfg.semaem ≤ e.un_adjval ∧ e.un_adjval ≤ cfg.semaem)
    (h : RecInv cfg ents) : RecInv cfg (ents.set i e) := by
  obtain ⟨h1, h2, h3⟩ := h
  have hkey : ∀ a, undo_key ((ents.set i e).getD a default) = undo_key (ents.getD a default) := by
    intro a
    rw [getD_set_eq]
    split
    · rename_i hc; rw [hk, hc.1]
    · rfl
  refine ⟨?_, ?_, by simpa using h3⟩
  · intro a b ha hb hkk
    rw [hkey, hkey] at hkk
    exact h1 a b (by simpa using ha) (by simpa using hb) hkk
  · intro a ha
    rw [getD_set_eq]
    split
    · exact hv
    · exact h2 a (by simpa using ha)

theorem recinv_append (cfg : Seminfo) (ents : List Undo) (e : Undo)
    (hnew : ∀ a, a < ents.length → undo_key (ents.getD a default) ≠ undo_key e)
    (hv : e.un_adjval ≠ 0 ∧ -cfg.semaem ≤ e.un_adjval ∧ e.un_adjval ≤ cfg.semaem)
    (hroom : (ents.length : Int) + 1 ≤ cfg.semume)
    (h : RecInv cfg ents) : RecInv cfg (ents ++ [e]) := by
  obtain ⟨h1, h2, h3⟩ := h
  have hget : ∀ a, a < (ents ++ [e]).length →
      (ents ++ [e]).getD a default = if a < ents.length then ents.getD a default else e := by
    intro a ha
    simp only [List.length_append, List.length_singleton] at ha
    simp only [List.getD_eq_getElem?_getD]
    split
    · rename_i hl
      rw [List.getElem?_append_left hl]
    · rename_i hl
      have : a = ents.length := by omega
      subst this
      simp
  refine ⟨?_, ?_, by simp only [List.length_append, List.length_singleton]; push_cast; omega⟩
  · intro a b ha hb hk
    rw [hget a ha, hget b hb] at hk
    simp only [List.length_append, List.length_singleton] at ha hb
    by_cases hal : a < ents.length <;> by_cases hbl : b < ents.length
    · simp only [hal, hbl, if_true] at hk
      exact h1 a b hal hbl hk
    · simp only [hal, hbl, if_true, if_false] at hk
      exact absurd hk (hnew a hal)
    · simp only [hal, hbl, if_true, if_false] at hk
      exact absurd hk.symm (hnew b hbl)
    · omega
  · intro a ha
    rw [hget a ha]
    split
    · rename_i hl; exact h2 a hl
    · exact hv

theorem recinv_adjust (cfg : Seminfo) (semid : Int) (semseq : Nat) (semnum adjval : Int)
    (ents : List Undo) (h0 : 0 ≤ cfg.semaem) (h1 : cfg.semaem ≤ 32767)
    (hnum : -32768 ≤ semnum ∧ semnum ≤ 32767)
    (h : RecInv cfg ents) : RecInv cfg (adjust_ents cfg semid semseq semnum adjval ents).2 := by
  unfold adjust_ents
  cases hf : undo_find semid semnum ents with
  | some i =>
    obtain ⟨hi, _, _⟩ := undo_find_some semid semnum ents i hf
    simp only
    by_cases c1 : adjval ≠ 0 ∧
        ((if adjval ≠ 0 then adjval + (ents.getD i default).un_adjval else adjval) > cfg.semaem ∨
          (if adjval ≠ 0 then adjval + (ents.getD i default).un_adjval else adjval) < -cfg.semaem)
    · rw [if_pos c1]; exact h
    · rw [if_neg c1]
      by_cases c2 : toShort
          (if adjval ≠ 0 then adjval + (ents.getD i default).un_adjval else adjval) = 0
      · rw [if_pos c2]; exact recinv_delete cfg ents i hi h
      · rw [if_neg c2]
        refine recinv_set cfg ents i _ rfl ?_ h
        by_cases ha : adjval = 0
        · simp only [ha, ne_eq, not_true_eq_false, if_false] at c2
          exact absurd (by decide) c2
        · simp only [ne_eq, ha, not_false_eq_true, if_true, true_and, not_or, not_lt] at c1 c2 ⊢
          rw [toShort_id _ (by omega) (by omega)] at c2 ⊢
          exact ⟨c2, by omega, by omega⟩
  | none =>
    simp only
    by_cases c1 : adjval = 0
    · rw [if_pos c1]; exact h
    · rw [if_neg c1]
      by_cases c2 : adjval > cfg.semaem ∨ adjval < -cfg.semaem
      · rw [if_pos c2]; exact h
      · rw [if_neg c2]
        by_cases c3 : (ents.length : Int) ≠ cfg.semume
        · rw [if_pos c3]
          refine recinv_append cfg ents _ ?_ ?_ ?_ h
          · intro a ha hk
            have := undo_find_none semid semnum ents hf a ha
            simp only [undo_key, Prod.mk.injEq] at hk
            rw [toShort_id _ hnum.1 hnum.2] at hk
            exact this hk
          · simp only
            rw [toShort_id _ (by omega) (by omega)]
            exact ⟨c1, by omega, by omega⟩
          · have := h.2.2
            omega
        · rw [if_neg c3]; exact h

theorem reginv_adjust_entry (cfg : Seminfo) (r : Nat) (semid : Int) (semseq : Nat)
    (semnum adjval : Int) (st : State) (h0 : 0 ≤ cfg.semaem) (h1 : cfg.semaem ≤ 32767)
    (hnum : -32768 ≤ semnum ∧ semnum ≤ 32767) (h : RegInv cfg st) :
    RegInv cfg (semundo_adjust_entry cfg r semid semseq semnum adjval st).2 := by
  intro q
  rw [(adjust_entry_ents cfg r semid semseq semnum adjval st).2.2 q]
  split
  · exact recinv_adjust cfg semid semseq semnum adjval _ h0 h1 hnum (h r)
  · exact h q

theorem reginv_alloc (cfg : Seminfo) (td : Thread) (st : State) (hume : 0 ≤ cfg.semume)
    (h : RegInv cfg st) : RegInv cfg (semu_alloc td st).2 := by
  unfold semu_alloc
  split
  · exact h
  · rename_i suptr rest _
    intro q
    have : SEMU { st with
        semu_free_list := rest
        semu_list := suptr :: st.semu_list
        semu := st.semu.set suptr { un_proc := some td.td_proc, un_ent := [] } } q =
        if suptr = q ∧ suptr < st.semu.length then { un_proc := some td.td_proc, un_ent := [] }
        else SEMU st q := by
      unfold SEMU
      simp only
      rw [getD_set_eq]
    rw [this]
    split
    · exact recinv_nil cfg hume
    · exact h q

theorem reginv_adjust (cfg : Seminfo) (td : Thread) (supptr : Option Nat) (semid : Int)
    (semseq : Nat) (semnum adjval : Int) (st : State) (h0 : 0 ≤ cfg.semaem)
    (h1 : cfg.semaem ≤ 32767) (hume : 0 ≤ cfg.semume)
    (hnum : -32768 ≤ semnum ∧ semnum ≤ 32767) (h : RegInv cfg st) :
    RegInv cfg (semundo_adjust cfg td supptr semid semseq semnum adjval st).2.2 := by
  unfold semundo_adjust
  split
  · exact reginv_adjust_entry cfg _ semid semseq semnum adjval st h0 h1 hnum h
  · split
    · exact reginv_adjust_entry cfg _ semid semseq semnum adjval st h0 h1 hnum h
    · split
      · exact h
      · have ha := reginv_alloc cfg td st hume h
        split
        · rename_i st1 heq
          rw [heq] at ha; exact ha
        · rename_i suptr st1 heq
          rw [heq] at ha
          exact reginv_adjust_entry cfg _ semid semseq semnum adjval st1 h0 h1 hnum ha

theorem undo_delete_lt (ents : List Undo) (i : Nat) (h : i < ents.length - 1) :
    (ents.set i (ents.getD (ents.length - 1) default)).take (ents.length - 1) =
      undo_delete ents i := by
  unfold undo_delete
  simp only [h, if_true]

theorem undo_delete_last (ents : List Undo) (i : Nat) (h : ¬ i < ents.length - 1) :
    ents.take (ents.length - 1) = undo_delete ents i := by
  unfold undo_delete
  simp only [h, if_false]

theorem recinv_clear_ents (cfg : Seminfo) (semid semnum : Int) (fuel i : Nat) (ents : List Undo)
    (h : RecInv cfg ents) : RecInv cfg (semundo_clear_ents semid semnum fuel i ents).1 := by
  induction fuel generalizing i ents with
  | zero => exact h
  | succ n ih =>
    unfold semundo_clear_ents
    simp only
    split
    · rename_i hi
      split
      · exact ih _ _ h
      · split
        · split
          · rename_i hlt
            rw [undo_delete_lt ents i hlt]
            exact ih _ _ (recinv_delete cfg ents i hi h)
          · rename_i hlt
            rw [undo_delete_last ents i hlt]
            split
            · exact recinv_delete cfg ents i hi h
            · exact ih _ _ (recinv_delete cfg ents i hi h)
        · split
          · exact h
          · exact ih _ _ h
    · exact h

theorem reginv_clear_one (cfg : Seminfo) (semid semnum : Int) (st : State) (r : Nat)
    (h : RegInv cfg st) : RegInv cfg (semundo_clear_one semid semnum st r) := by
  unfold semundo_clear_one
  simp only
  have key : RegInv cfg (setSEMU st r { SEMU st r with
      un_ent := (semundo_clear_ents semid semnum (SEMU st r).un_cnt 0 (SEMU st r).un_ent).1 }) := by
    intro q
    rw [semu_setSEMU]
    split
    · exact recinv_clear_ents cfg semid semnum _ _ _ (h r)
    · exact h q
  split
  · intro q
    rw [semu_try_free_SEMU]
    exact key q
  · exact key

theorem reginv_clear (cfg : Seminfo) (semid semnum : Int) (st : State) (h : RegInv cfg st) :
    RegInv cfg (semundo_clear semid semnum st) := by
  unfold semundo_clear
  generalize st.semu_list = l
  induction l generalizing st with
  | nil => exact h
  | cons r rs ih =>
    simp only [List.foldl_cons]
    exact ih _ (reginv_clear_one cfg semid semnum st r h)

theorem reginv_of_semu {cfg : Seminfo} {a b : State} (h : b.semu = a.semu) (ha : RegInv cfg a) :
    RegInv cfg b := by
  intro q
  have : SEMU b q = SEMU a q := by unfold SEMU; rw [h]
  rw [this]; exact ha q

theorem reginv_semctl (K : Kernel) (cfg : Seminfo) (td : Thread) (semid semnum : Int)
    (cmd : Cmd) (arg : Semun) (st : State) (h : RegInv cfg st) :
    RegInv cfg (kern_semctl K cfg td semid semnum cmd arg st).st := by
  unfold kern_semctl
  simp only
  split
  · exact h
  · split
    · repeat' split
      all_goals exact h
    · split
      · exact h
      · cases cmd with
        | IPC_RMID =>
          simp only
          repeat' split
          all_goals first
            | (with_reducible exact h)
            | (unfold semctl_rmid
               exact reginv_of_semu (b := { semundo_clear _ _ _ with sem := _, sema := _, semtot := _ })
                 rfl (reginv_clear cfg _ _ _ (reginv_of_semu (a := st) rfl h)))
        | SETVAL =>
          simp only
          repeat' split
          all_goals first
            | (with_reducible exact h)
            | exact reginv_clear cfg _ _ _ (reginv_of_semu (a := st) rfl h)
        | SETALL =>
          simp only
          repeat' split
          all_goals first
            | (with_reducible exact h)
            | exact reginv_clear cfg _ _ _ (reginv_of_semu (a := st) rfl h)
        | IPC_SET | IPC_STAT | GETNCNT | GETPID | GETVAL | GETALL | GETZCNT | SEM_STAT | other =>
          simp only
          repeat' split
          all_goals first
            | (with_reducible exact h)
            | exact reginv_of_semu (a := st) rfl h

theorem sem_num_short (o : Sembuf) (h : o.sem_num < 32768) :
    -32768 ≤ (o.sem_num : Int) ∧ (o.sem_num : Int) ≤ 32767 := by omega

theorem reginv_rollback (cfg : Seminfo) (td : Thread) (semid seq : Nat)
    (prev : List Sembuf) (suptr : Option Nat) (st : State) (r : Option Nat × State)
    (h0 : 0 ≤ cfg.semaem) (h1 : cfg.semaem ≤ 32767) (hume : 0 ≤ cfg.semume)
    (hp : ∀ o ∈ prev, o.sem_num < 32768) (hinv : RegInv cfg st)
    (h : semop_undo_rollback cfg td semid seq prev suptr st = some r) : RegInv cfg r.2 := by
  induction prev generalizing suptr st with
  | nil =>
    simp only [semop_undo_rollback, Option.some.injEq] at h
    subst h; exact hinv
  | cons o os ih =>
    have hos : ∀ o' ∈ os, o'.sem_num < 32768 := fun o' ho' => hp o' (List.mem_cons_of_mem _ ho')
    unfold semop_undo_rollback at h
    split at h
    · exact ih _ _ hos hinv h
    · split at h
      · exact ih _ _ hos hinv h
      · simp only at h
        split at h
        · exact absurd h (by simp)
        · exact ih _ _ hos (reginv_adjust cfg td suptr semid seq o.sem_num o.sem_op st h0 h1 hume
            (sem_num_short o (hp o (List.mem_cons_self _ _))) hinv) h

theorem reginv_undos (cfg : Seminfo) (td : Thread) (semid seq : Nat)
    (prev sops : List Sembuf) (suptr : Option Nat) (st : State)
    (h0 : 0 ≤ cfg.semaem) (h1 : cfg.semaem ≤ 32767) (hume : 0 ≤ cfg.semume)
    (hp : ∀ o ∈ prev, o.sem_num < 32768) (hs : ∀ o ∈ sops, o.sem_num < 32768)
    (hinv : RegInv cfg st) :
    (∀ s, semop_undos cfg td semid seq prev sops suptr st = UndoResult.ok s → RegInv cfg s) ∧
    (∀ e s, semop_undos cfg td semid seq prev sops suptr st = UndoResult.fail e s →
      RegInv cfg s) := by
  induction sops generalizing prev suptr st with
  | nil =>
    constructor
    · intro s h
      simp only [semop_undos, UndoResult.ok.injEq] at h
      subst h; exact hinv
    · intro e s h
      simp [semop_undos] at h
  | cons o os ih =>
    have hos : ∀ o' ∈ os, o'.sem_num < 32768 := fun o' ho' => hs o' (List.mem_cons_of_mem _ ho')
    have ho := hs o (List.mem_cons_self _ _)
    have hpo : ∀ o' ∈ o :: prev, o'.sem_num < 32768 := by
      intro o' ho'
      rcases List.mem_cons.mp ho' with h | h
      · rw [h]; exact ho
      · exact hp o' h
    unfold semop_undos
    split
    · exact ih _ _ _ hpo hos hinv
    · split
      · exact ih _ _ _ hpo hos hinv
      · simp only
        have hadj := reginv_adjust cfg td suptr semid seq o.sem_num (-o.sem_op) st h0 h1 hume
          (sem_num_short o ho) hinv
        split
        · exact ih (o :: prev) _ _ hpo hos hadj
        · split
          · exact ⟨fun s h => by simp at h, fun e s h => by simp at h⟩
          · rename_i r1 hr
            constructor
            · intro s h; simp at h
            · intro e s h
              simp only [UndoResult.fail.injEq] at h
              obtain ⟨_, hs'⟩ := h
              subst hs'
              exact reginv_rollback cfg td semid seq prev _ _ r1 h0 h1 hume hp hadj hr

theorem reginv_done (K : Kernel) (cfg : Seminfo) (td : Thread) (semid : Nat)
    (sops : List Sembuf) (st fb : State)
    (h0 : 0 ≤ cfg.semaem) (h1 : cfg.semaem ≤ 32767) (hume : 0 ≤ cfg.semume)
    (hs : ∀ o ∈ sops, o.sem_num < 32768) (hinv : RegInv cfg st) (hfb : RegInv cfg fb) :
    RegInv cfg ((semop_done K cfg td semid sops st).state fb) := by
  have hu := reginv_undos cfg td semid (st.sema.getD semid default).u.sem_perm.seq [] sops none st
    h0 h1 hume (fun o ho => absurd ho (List.not_mem_nil o)) hs hinv
  unfold semop_done
  simp only
  split
  · exact hfb
  · rename_i error st1 heq
    have : RegInv cfg st1 := by
      split at heq
      · exact hu.2 _ _ heq
      · exact absurd heq (by simp)
    exact reginv_of_semu (a := st1) rfl this
  · rename_i st1 heq
    have : RegInv cfg st1 := by
      split at heq
      · exact hu.1 _ heq
      · simp only [UndoResult.ok.injEq] at heq
        rw [← heq]; exact hinv
    exact reginv_of_semu (a := st1) rfl this

theorem reginv_loop (K : Kernel) (cfg : Seminfo) (td : Thread) (semid : Nat)
    (sops : List Sembuf) (st fb : State)
    (h0 : 0 ≤ cfg.semaem) (h1 : cfg.semaem ≤ 32767) (hume : 0 ≤ cfg.semume)
    (hs : ∀ o ∈ sops, o.sem_num < 32768) (hinv : RegInv cfg st) (hfb : RegInv cfg fb) :
    RegInv cfg ((semop_loop K cfg td semid sops st).state fb) := by
  unfold semop_loop
  simp only
  split
  · exact reginv_done K cfg td semid sops _ fb h0 h1 hume hs (reginv_of_semu (a := st) rfl hinv) hfb
  · repeat' split
    all_goals exact reginv_of_semu (a := st) rfl hinv

theorem reginv_wakeup (K : Kernel) (cfg : Seminfo) (td : Thread) (id : Int)
    (sops : List Sembuf) (i : Nat) (error : Int) (st : State)
    (h0 : 0 ≤ cfg.semaem) (h1 : cfg.semaem ≤ 32767) (hume : 0 ≤ cfg.semume)
    (hs : ∀ o ∈ sops, o.sem_num < 32768) (hinv : RegInv cfg st) :
    RegInv cfg ((semop_wakeup K cfg td id sops i error st).state st) := by
  unfold semop_wakeup
  simp only
  repeat' split
  all_goals first
    | exact hinv
    | exact reginv_of_semu (a := st) rfl hinv
    | exact reginv_loop K cfg td _ sops _ st h0 h1 hume hs (reginv_of_semu (a := st) rfl hinv) hinv

theorem semop_check_lt (nsems : Nat) (sops : List Sembuf) (j j' : Nat)
    (h : semop_check nsems sops j = some j') : ∀ o ∈ sops, o.sem_num < nsems := by
  intro o ho
  by_contra hn
  have := semop_check_none nsems sops j ⟨o, ho, by omega⟩
  rw [this] at h; cases h

theorem reginv_semop (K : Kernel) (cfg : Seminfo) (td : Thread) (id : Int)
    (sops : List Sembuf) (st : State)
    (h0 : 0 ≤ cfg.semaem) (h1 : cfg.semaem ≤ 32767) (hume : 0 ≤ cfg.semume)
    (hn : NsemsShort st) (hinv : RegInv cfg st) :
    RegInv cfg ((sys_semop K cfg td id sops st).state st) := by
  rcases sys_semop_to_loop K cfg td id sops st with ⟨e, h⟩ | ⟨hal, _, h⟩
  · rw [h]; exact hinv
  · by_cases hc : ∃ j, semop_check (st.sema.getD (IPCID_TO_IX id) default).u.sem_nsems sops 0 = some j
    · obtain ⟨j, hj⟩ := hc
      have hlt := semop_check_lt _ _ _ _ hj
      have := hn _ hal
      rw [h]
      exact reginv_loop K cfg td _ sops st st h0 h1 hume
        (fun o ho => by have := hlt o ho; omega) hinv hinv
    · have hnone : semop_check (st.sema.getD (IPCID_TO_IX id) default).u.sem_nsems sops 0 = none := by
        cases hx : semop_check (st.sema.getD (IPCID_TO_IX id) default).u.sem_nsems sops 0 with
        | none => rfl
        | some j => exact absurd ⟨j, hx⟩ hc
      have : sys_semop K cfg td id sops st = SemopResult.ret EFBIG st ∨
          ∃ e, sys_semop K cfg td id sops st = SemopResult.ret e st := by
        unfold sys_semop
        simp only [hnone]
        repeat' split
        all_goals first
          | exact Or.inl rfl
          | exact Or.inr ⟨_, rfl⟩
      rcases this with h2 | ⟨e, h2⟩
      · rw [h2]; exact hinv
      · rw [h2]; exact hinv

theorem reginv_exit (cfg : Seminfo) (p : Nat) (st : State) (hume : 0 ≤ cfg.semume)
    (hinv : RegInv cfg st) : RegInv cfg ((semexit_myhook p st).getD st) := by
  unfold semexit_myhook
  split
  · exact hinv
  · split
    · exact hinv
    · rename_i _ r _ _ st1 h
      simp only [Option.getD_some]
      have hsemu : ∀ (ents : List Undo) (s s' : State), semexit_apply ents s = some s' →
          s'.semu = s.semu := by
        intro ents
        induction ents with
        | nil =>
          intro s s' hh
          simp only [semexit_apply, Option.some.injEq] at hh
          rw [← hh]
        | cons e es ih =>
          intro s s' hh
          unfold semexit_apply at hh
          simp only at hh
          split at hh
          · exact ih _ _ hh
          · split at hh
            · exact absurd hh (by simp)
            · have := ih _ _ hh
              exact this
      have hs1 := hsemu _ _ _ h
      intro q
      have : SEMU { st1 with
          semu := st1.semu.set r { un_proc := none, un_ent := [] }
          semu_free_list := r :: st1.semu_free_list } q =
          if r = q ∧ r < st1.semu.length then { un_proc := none, un_ent := [] }
          else SEMU st1 q := by
        unfold SEMU
        simp only
        rw [getD_set_eq]
      rw [this]
      split
      · exact recinv_nil cfg hume
      · exact reginv_of_semu (a := st) hs1 hinv q

theorem step_nsems_short (K : Kernel) (cfg : Seminfo) (c : Call) (st : State)
    (hmsl : cfg.semmsl ≤ 32767) (hn : NsemsShort st) : NsemsShort (step K cfg c st) := by
  intro i hi
  rcases step_cases K cfg c st with h | ⟨td, key, nsems, semflg, semid, _, hs, _, h0, hle, _, hst⟩ |
      ⟨td, semid, semnum, arg, _, _, _, hst⟩
  · have := table_same_getD h i
    simp only [slot_layout, Prod.mk.injEq] at this
    rw [this.2.2.2.1]
    exact hn i (by rw [← this.1]; exact hi)
  · obtain ⟨hlt, _, _⟩ := first_slot_take _ _ _ _ hs
    have hl := semget_create_layout K td key nsems semflg semid st hlt i
    rw [hst] at hi ⊢
    by_cases hx : i = semid
    · have := hl.2.2.1 hx
      simp only [slot_layout, Prod.mk.injEq] at this
      rw [this.2.2.2.1]
      omega
    · rw [hl.2.2.2 hx] at hi ⊢
      exact hn i hi
  · have hl := semctl_rmid_slot td (IPCID_TO_IX semid) st i
    rw [hst] at hi ⊢
    by_cases hx : i = IPCID_TO_IX semid
    · rw [hl.2.2.1 hx] at hi; exact absurd hi (by decide)
    · have := hl.2.2.2 hx
      simp only [slot_layout, Prod.mk.injEq] at this
      rw [this.2.2.2.1]
      exact hn i (by rw [← this.1]; exact hi)

theorem sys_semget_semu (K : Kernel) (cfg : Seminfo) (td : Thread) (key nsems : Int)
    (semflg : Nat) (st : State) : (sys_semget K cfg td key nsems semflg st).st.semu = st.semu := by
  rcases sys_semget_cases_full K cfg td key nsems semflg st with h | ⟨semid, _, _, _, _, _, h⟩
  · rw [h]
  · rw [h]; rfl

theorem step_reginv (K : Kernel) (cfg : Seminfo) (c : Call) (st : State)
    (h0 : 0 ≤ cfg.semaem) (h1 : cfg.semaem ≤ 32767) (hume : 0 ≤ cfg.semume)
    (hw : WakeupShort c) (hn : NsemsShort st) (hinv : RegInv cfg st) :
    RegInv cfg (step K cfg c st) := by
  cases c with
  | semget td key nsems semflg =>
    exact reginv_of_semu (a := st) (sys_semget_semu K cfg td key nsems semflg st) hinv
  | semctl td semid semnum cmd arg => exact reginv_semctl K cfg td semid semnum cmd arg st hinv
  | semop td semid sops => exact reginv_semop K cfg td semid sops st h0 h1 hume hn hinv
  | wakeup td semid sops i error =>
    exact reginv_wakeup K cfg td semid sops i error st h0 h1 hume hw hinv
  | exit p => exact reginv_exit cfg p st hume hinv

theorem run_reginv (K : Kernel) (cfg : Seminfo) (cs : List Call) (st : State)
    (h0 : 0 ≤ cfg.semaem) (h1 : cfg.semaem ≤ 32767) (hume : 0 ≤ cfg.semume)
    (hmsl : cfg.semmsl ≤ 32767)
    (hw : ∀ c ∈ cs, WakeupShort c) (hn : NsemsShort st) (hinv : RegInv cfg st) :
    RegInv cfg (run K cfg cs st) := by
  induction cs generalizing st with
  | nil => exact hinv
  | cons c rest ih =>
    exact ih _ (fun c' hc' => hw c' (List.mem_cons_of_mem _ hc'))
      (step_nsems_short K cfg c st hmsl hn)
      (step_reginv K cfg c st h0 h1 hume (hw c (List.mem_cons_self _ _)) hn hinv)

theorem seminit_nsems_short (cfg : Seminfo) : NsemsShort (seminit cfg) := by
  intro i hi
  rw [seminit_slot] at hi
  exact absurd hi (by decide)

theorem seminit_reginv (cfg : Seminfo) (hume : 0 ≤ cfg.semume) : RegInv cfg (seminit cfg) := by
  intro r
  have : SEMU (seminit cfg) r = default := by
    unfold SEMU seminit
    simp only [List.getD_eq_getElem?_getD]
    by_cases h : r < cfg.semmnu.toNat
    · rw [List.getElem?_eq_getElem (by simpa using h)]
      simp
    · rw [List.getElem?_eq_none (by simpa using h)]
      rfl
  rw [this]
  exact recinv_nil cfg hume

/-- C40. Invariants of the undo entries. When `0 ≤ semaem ≤ 32767` (`un_adjval`
is a `short`), `0 ≤ semume` and `semmsl ≤ 32767` (`un_num` is a `short`): in every
state reached from `seminit` by any sequence of stretches whose wakeups carry
semaphore numbers below 32768, every undo structure has entries with pairwise
distinct (`un_id`, `un_num`) pairs, every stored `un_adjval` is non-zero and lies
in `[-semaem, semaem]`, and the entry count is at most `semume`. A call of
`semundo_adjust` for a semaphore number that fits a `short`, and any call of
`semundo_clear`, preserve this in any state. -/
theorem undo_entry_invariants (K : Kernel) (cfg : Seminfo)
    (h0 : 0 ≤ cfg.semaem) (h1 : cfg.semaem ≤ 32767) (hume : 0 ≤ cfg.semume)
    (hmsl : cfg.semmsl ≤ 32767) :
    (∀ cs : List Call, (∀ c ∈ cs, WakeupShort c) → RegInv cfg (run K cfg cs (seminit cfg))) ∧
    (∀ (td : Thread) (supptr : Option Nat) (semid : Int) (semseq : Nat) (semnum adjval : Int)
      (st : State), -32768 ≤ semnum → semnum ≤ 32767 → RegInv cfg st →
      RegInv cfg (semundo_adjust cfg td supptr semid semseq semnum adjval st).2.2) ∧
    (∀ (semid semnum : Int) (st : State), RegInv cfg st →
      RegInv cfg (semundo_clear semid semnum st)) :=
  ⟨fun cs hw => run_reginv K cfg cs _ h0 h1 hume hmsl hw (seminit_nsems_short cfg)
      (seminit_reginv cfg hume),
   fun td supptr semid semseq semnum adjval st ha hb h =>
      reginv_adjust cfg td supptr semid semseq semnum adjval st h0 h1 hume ⟨ha, hb⟩ h,
   fun semid semnum st h => reginv_clear cfg semid semnum st h⟩

theorem undo_entry_invariants_witness :
    (0 ≤ exCfg.semaem ∧ exCfg.semaem ≤ 32767 ∧ 0 ≤ exCfg.semume ∧ exCfg.semmsl ≤ 32767) ∧
    RegInv exCfg (run exKernel exCfg stale_calls (seminit exCfg)) ∧
    RegInv exCfg (semundo_adjust exCfg exThread none 0 1 0 (-1) (seminit exCfg)).2.2 :=
  have h := undo_entry_invariants exKernel exCfg (by decide) (by decide) (by decide) (by decide)
  ⟨by decide, h.1 stale_calls (fun c hc => by
      simp only [stale_calls, List.mem_cons, List.mem_singleton, List.not_mem_nil, or_false] at hc
      rcases hc with hc | hc | hc <;> subst hc <;> exact True.intro),
    h.2.1 exThread none 0 1 0 (-1) (seminit exCfg) (by decide) (by decide)
      (seminit_reginv exCfg (by decide))⟩

theorem ownerinv_same {a b : State} (hl : b.semu_list = a.semu_list)
    (hf : b.semu_free_list = a.semu_free_list)
    (ho : ∀ q, (SEMU b q).un_proc = (SEMU a q).un_proc) (h : OwnerInv a) : OwnerInv b := by
  obtain ⟨h1, h2, h3, h4⟩ := h
  refine ⟨by rw [hl]; exact h1, by rw [hf]; exact h2, by rw [hl, hf]; exact h3, ?_⟩
  intro p x hx y hy hpx hpy
  rw [hl] at hx hy
  rw [ho] at hpx hpy
  exact h4 p x hx y hy hpx hpy

theorem ownerinv_of_eq {a b : State} (hs : b.semu = a.semu) (hl : b.semu_list = a.semu_list)
    (hf : b.semu_free_list = a.semu_free_list) (h : OwnerInv a) : OwnerInv b :=
  ownerinv_same hl hf (fun q => by unfold SEMU; rw [hs]) h

theorem ownerinv_setents (st : State) (r : Nat) (ents : List Undo) (h : OwnerInv st) :
    OwnerInv (setSEMU st r { SEMU st r with un_ent := ents }) := by
  refine ownerinv_same (a := st) rfl rfl (fun q => ?_) h
  rw [semu_setSEMU]
  split
  · rename_i hq
    rw [← hq.1]
  · rfl

theorem ownerinv_try_free (r : Nat) (st : State) (h : OwnerInv st) :
    OwnerInv (semu_try_free r st).2 := by
  unfold semu_try_free
  split
  · exact h
  · obtain ⟨h1, h2, h3, h4⟩ := h
    refine ⟨h1.erase r, ?_, ?_, ?_⟩
    · show (r :: st.semu_free_list.erase r).Nodup
      exact List.nodup_cons.2 ⟨fun hm => ((List.Nodup.mem_erase_iff h2).1 hm).1 rfl, h2.erase r⟩
    · intro x hx
      show x ∉ r :: st.semu_free_list.erase r
      have hx' := (List.Nodup.mem_erase_iff h1).1 hx
      intro hm
      rcases List.mem_cons.1 hm with e | e
      · exact hx'.1 e
      · exact h3 x hx'.2 (List.mem_of_mem_erase e)
    · intro p x hx y hy hpx hpy
      exact h4 p x (List.mem_of_mem_erase hx) y (List.mem_of_mem_erase hy) hpx hpy

theorem ownerinv_adjust_entry (cfg : Seminfo) (r : Nat) (semid : Int) (semseq : Nat)
    (semnum adjval : Int) (st : State) (h : OwnerInv st) :
    OwnerInv (semundo_adjust_entry cfg r semid semseq semnum adjval st).2 := by
  unfold semundo_adjust_entry
  simp only
  repeat' split
  all_goals first
    | exact h
    | exact ownerinv_setents st r _ h
    | exact ownerinv_try_free r _ (ownerinv_setents st r _ h)

theorem ownerinv_alloc (td : Thread) (st : State)
    (hnone : st.semu_list.find? (fun ix => (SEMU st ix).un_proc = some td.td_proc) = none)
    (h : OwnerInv st) : OwnerInv (semu_alloc td st).2 := by
  unfold semu_alloc
  split
  · exact h
  · rename_i suptr rest hfree
    obtain ⟨h1, h2, h3, h4⟩ := h
    rw [hfree] at h2 h3
    have hsu : ∀ q, SEMU { st with
        semu_free_list := rest
        semu_list := suptr :: st.semu_list
        semu := st.semu.set suptr { un_proc := some td.td_proc, un_ent := [] } } q =
        if suptr = q ∧ suptr < st.semu.length then { un_proc := some td.td_proc, un_ent := [] }
        else SEMU st q := by
      intro q
      unfold SEMU
      simp only
      rw [getD_set_eq]
    have hnot : suptr ∉ st.semu_list := fun hm => h3 suptr hm (List.mem_cons_self _ _)
    have hno : ∀ x ∈ st.semu_list, (SEMU st x).un_proc ≠ some td.td_proc := by
      intro x hx
      have := List.find?_eq_none.1 hnone x hx
      simpa using this
    have hold : ∀ x ∈ st.semu_list, SEMU { st with
        semu_free_list := rest
        semu_list := suptr :: st.semu_list
        semu := st.semu.set suptr { un_proc := some td.td_proc, un_ent := [] } } x = SEMU st x := by
      intro x hx
      rw [hsu, if_neg]
      intro hq
      exact hnot (by rw [hq.1]; exact hx)
    have hnew : ∀ p, (SEMU { st with
        semu_free_list := rest
        semu_list := suptr :: st.semu_list
        semu := st.semu.set suptr { un_proc := some td.td_proc, un_ent := [] } } suptr).un_proc = some p →
        suptr ∉ st.semu_list ∧ (p = td.td_proc ∨ (SEMU st suptr).un_proc = some p ∧ ¬ suptr < st.semu.length) := by
      intro p hp
      rw [hsu] at hp
      split at hp
      · simp only [Option.some.injEq] at hp
        exact ⟨hnot, Or.inl hp.symm⟩
      · rename_i hq
        exact ⟨hnot, Or.inr ⟨hp, fun hlt => hq ⟨rfl, hlt⟩⟩⟩
    have hout : ¬ suptr < st.semu.length → (SEMU st suptr).un_proc = none := by
      intro hlt
      rw [semu_out_of_range st suptr (by omega)]
      rfl
    have hnew2 : ∀ p, (SEMU { st with
        semu_free_list := rest
        semu_list := suptr :: st.semu_list
        semu := st.semu.set suptr { un_proc := some td.td_proc, un_ent := [] } } suptr).un_proc = some p →
        p = td.td_proc := by
      intro p hp
      rcases (hnew p hp).2 with e | ⟨e1, e2⟩
      · exact e
      · rw [hout e2] at e1; cases e1
    refine ⟨List.nodup_cons.2 ⟨hnot, h1⟩, (List.nodup_cons.1 h2).2, ?_, ?_⟩
    · intro x hx
      show x ∉ rest
      rcases List.mem_cons.1 hx with e | e
      · rw [e]; exact (List.nodup_cons.1 h2).1
      · exact fun hm => h3 x e (List.mem_cons_of_mem _ hm)
    · intro p x hx y hy hpx hpy
      rcases List.mem_cons.1 hx with ex | ex <;> rcases List.mem_cons.1 hy with ey | ey
      · rw [ex, ey]
      · exfalso
        rw [ex] at hpx
        have := hnew2 p hpx
        rw [hold y ey, this] at hpy
        exact hno y ey hpy
      · exfalso
        rw [ey] at hpy
        have := hnew2 p hpy
        rw [hold x ex, this] at hpx
        exact hno x ex hpx
      · rw [hold x ex] at hpx
        rw [hold y ey] at hpy
        exact h4 p x ex y ey hpx hpy

theorem ownerinv_adjust (cfg : Seminfo) (td : Thread) (supptr : Option Nat) (semid : Int)
    (semseq : Nat) (semnum adjval : Int) (st : State) (h : OwnerInv st) :
    OwnerInv (semundo_adjust cfg td supptr semid semseq semnum adjval st).2.2 := by
  unfold semundo_adjust
  split
  · exact ownerinv_adjust_entry cfg _ semid semseq semnum adjval st h
  · split
    · exact ownerinv_adjust_entry cfg _ semid semseq semnum adjval st h
    · rename_i hnone
      split
      · exact h
      · have ha := ownerinv_alloc td st hnone h
        split
        · rename_i st1 heq
          have : st1 = (semu_alloc td st).2 := by rw [heq]
          rw [this]; exact ha
        · rename_i suptr st1 heq
          have : st1 = (semu_alloc td st).2 := by rw [heq]
          simp only
          rw [this]
          exact ownerinv_adjust_entry cfg _ semid semseq semnum adjval _ ha

theorem ownerinv_clear_one (semid semnum : Int) (st : State) (r : Nat)
    (h : OwnerInv st) : OwnerInv (semundo_clear_one semid semnum st r) := by
  unfold semundo_clear_one
  simp only
  split
  · exact ownerinv_try_free r _ (ownerinv_setents st r _ h)
  · exact ownerinv_setents st r _ h

theorem ownerinv_clear (semid semnum : Int) (st : State) (h : OwnerInv st) :
    OwnerInv (semundo_clear semid semnum st) := by
  unfold semundo_clear
  generalize st.semu_list = l
  induction l generalizing st with
  | nil => exact h
  | cons r rs ih =>
    simp only [List.foldl_cons]
    exact ih _ (ownerinv_clear_one semid semnum st r h)

theorem ownerinv_semctl (K : Kernel) (cfg : Seminfo) (td : Thread) (semid semnum : Int)
    (cmd : Cmd) (arg : Semun) (st : State) (h : OwnerInv st) :
    OwnerInv (kern_semctl K cfg td semid semnum cmd arg st).st := by
  unfold kern_semctl
  simp only
  split
  · exact h
  · split
    · repeat' split
      all_goals exact h
    · split
      · exact h
      · cases cmd with
        | IPC_RMID =>
          simp only
          repeat' split
          all_goals first
            | (with_reducible exact h)
            | (unfold semctl_rmid
               exact ownerinv_of_eq (b := { semundo_clear _ _ _ with sem := _, sema := _, semtot := _ })
                 rfl rfl rfl (ownerinv_clear _ _ _ (ownerinv_of_eq (a := st) rfl rfl rfl h)))
        | SETVAL =>
          simp only
          repeat' split
          all_goals first
            | (with_reducible exact h)
            | exact ownerinv_clear _ _ _ (ownerinv_of_eq (a := st) rfl rfl rfl h)
        | SETALL =>
          simp only
          repeat' split
          all_goals first
            | (with_reducible exact h)
            | exact ownerinv_clear _ _ _ (ownerinv_of_eq (a := st) rfl rfl rfl h)
        | IPC_SET | IPC_STAT | GETNCNT | GETPID | GETVAL | GETALL | GETZCNT | SEM_STAT | other =>
          simp only
          repeat' split
          all_goals first
            | (with_reducible exact h)
            | exact ownerinv_of_eq (a := st) rfl rfl rfl h

theorem ownerinv_rollback (cfg : Seminfo) (td : Thread) (semid seq : Nat)
    (prev : List Sembuf) (suptr : Option Nat) (st : State) (r : Option Nat × State)
    (hinv : OwnerInv st)
    (h : semop_undo_rollback cfg td semid seq prev suptr st = some r) : OwnerInv r.2 := by
  induction prev generalizing suptr st with
  | nil =>
    simp only [semop_undo_rollback, Option.some.injEq] at h
    subst h; exact hinv
  | cons o os ih =>
    unfold semop_undo_rollback at h
    split at h
    · exact ih _ _ hinv h
    · split at h
      · exact ih _ _ hinv h
      · simp only at h
        split at h
        · exact absurd h (by simp)
        · exact ih _ _ (ownerinv_adjust cfg td suptr semid seq o.sem_num o.sem_op st hinv) h

theorem ownerinv_undos (cfg : Seminfo) (td : Thread) (semid seq : Nat)
    (prev sops : List Sembuf) (suptr : Option Nat) (st : State) (hinv : OwnerInv st) :
    (∀ s, semop_undos cfg td semid seq prev sops suptr st = UndoResult.ok s → OwnerInv s) ∧
    (∀ e s, semop_undos cfg td semid seq prev sops suptr st = UndoResult.fail e s →
      OwnerInv s) := by
  induction sops generalizing prev suptr st with
  | nil =>
    constructor
    · intro s h
      simp only [semop_undos, UndoResult.ok.injEq] at h
      subst h; exact hinv
    · intro e s h
      simp [semop_undos] at h
  | cons o os ih =>
    unfold semop_undos
    split
    · exact ih _ _ _ hinv
    · split
      · exact ih _ _ _ hinv
      · simp only
        have hadj := ownerinv_adjust cfg td suptr semid seq o.sem_num (-o.sem_op) st hinv
        split
        · exact ih (o :: prev) _ _ hadj
        · split
          · exact ⟨fun s h => by simp at h, fun e s h => by simp at h⟩
          · rename_i r1 hr
            constructor
            · intro s h; simp at h
            · intro e s h
              simp only [UndoResult.fail.injEq] at h
              obtain ⟨_, hs'⟩ := h
              subst hs'
              exact ownerinv_rollback cfg td semid seq prev _ _ r1 hadj hr

theorem ownerinv_done (K : Kernel) (cfg : Seminfo) (td : Thread) (semid : Nat)
    (sops : List Sembuf) (st fb : State) (hinv : OwnerInv st) (hfb : OwnerInv fb) :
    OwnerInv ((semop_done K cfg td semid sops st).state fb) := by
  have hu := ownerinv_undos cfg td semid (st.sema.getD semid default).u.sem_perm.seq [] sops none st
    hinv
  unfold semop_done
  simp only
  split
  · exact hfb
  · rename_i error st1 heq
    have : OwnerInv st1 := by
      split at heq
      · exact hu.2 _ _ heq
      · exact absurd heq (by simp)
    exact ownerinv_of_eq (a := st1) rfl rfl rfl this
  · rename_i st1 heq
    have : OwnerInv st1 := by
      split at heq
      · exact hu.1 _ heq
      · simp only [UndoResult.ok.injEq] at heq
        rw [← heq]; exact hinv
    exact ownerinv_of_eq (a := st1) rfl rfl rfl this

theorem ownerinv_loop (K : Kernel) (cfg : Seminfo) (td : Thread) (semid : Nat)
    (sops : List Sembuf) (st fb : State) (hinv : OwnerInv st) (hfb : OwnerInv fb) :
    OwnerInv ((semop_loop K cfg td semid sops st).state fb) := by
  unfold semop_loop
  simp only
  split
  · exact ownerinv_done K cfg td semid sops _ fb (ownerinv_of_eq (a := st) rfl rfl rfl hinv) hfb
  · repeat' split
    all_goals exact ownerinv_of_eq (a := st) rfl rfl rfl hinv

theorem ownerinv_wakeup (K : Kernel) (cfg : Seminfo) (td : Thread) (id : Int)
    (sops : List Sembuf) (i : Nat) (error : Int) (st : State) (hinv : OwnerInv st) :
    OwnerInv ((semop_wakeup K cfg td id sops i error st).state st) := by
  unfold semop_wakeup
  simp only
  repeat' split
  all_goals first
    | exact hinv
    | exact ownerinv_of_eq (a := st) rfl rfl rfl hinv
    | exact ownerinv_loop K cfg td _ sops _ st (ownerinv_of_eq (a := st) rfl rfl rfl hinv) hinv

theorem ownerinv_semop (K : Kernel) (cfg : Seminfo) (td : Thread) (id : Int)
    (sops : List Sembuf) (st : State) (hinv : OwnerInv st) :
    OwnerInv ((sys_semop K cfg td id sops st).state st) := by
  rcases sys_semop_to_loop K cfg td id sops st with ⟨e, h⟩ | ⟨_, _, h⟩
  · rw [h]; exact hinv
  · rw [h]
    exact ownerinv_loop K cfg td _ sops st st hinv hinv

theorem semexit_apply_undo (ents : List Undo) (s s' : State)
    (h : semexit_apply ents s = some s') :
    s'.semu = s.semu ∧ s'.semu_list = s.semu_list ∧ s'.semu_free_list = s.semu_free_list := by
  induction ents generalizing s with
  | nil =>
    simp only [semexit_apply, Option.some.injEq] at h
    rw [← h]; exact ⟨rfl, rfl, rfl⟩
  | cons e es ih =>
    unfold semexit_apply at h
    simp only at h
    split at h
    · exact ih _ h
    · split at h
      · exact absurd h (by simp)
      · have key := ih _ h
        exact key

theorem ownerinv_exit (p : Nat) (st : State) (hinv : OwnerInv st) :
    OwnerInv ((semexit_myhook p st).getD st) := by
  unfold semexit_myhook
  split
  · exact hinv
  · split
    · exact hinv
    · rename_i _ r hfind _ st1 h
      simp only [Option.getD_some]
      obtain ⟨hs, hl, hf⟩ := semexit_apply_undo _ _ _ h
      simp only at hs hl hf
      obtain ⟨h1, h2, h3, h4⟩ := hinv
      have hr : r ∈ st.semu_list := List.mem_of_find?_eq_some hfind
      have hsu : ∀ q, SEMU { st1 with
          semu := st1.semu.set r { un_proc := none, un_ent := [] }
          semu_free_list := r :: st1.semu_free_list } q =
          if r = q ∧ r < st1.semu.length then { un_proc := none, un_ent := [] }
          else SEMU st q := by
        intro q
        unfold SEMU
        simp only
        rw [getD_set_eq, hs]
      have hmem : ∀ x ∈ st.semu_list.erase r, x ∈ st.semu_list ∧ x ≠ r := by
        intro x hx
        have := (List.Nodup.mem_erase_iff h1).1 hx
        exact ⟨this.2, this.1⟩
      refine ⟨?_, ?_, ?_, ?_⟩
      · show st1.semu_list.Nodup
        rw [hl]; exact h1.erase r
      · show (r :: st1.semu_free_list).Nodup
        rw [hf]
        exact List.nodup_cons.2 ⟨h3 r hr, h2⟩
      · intro x hx
        show x ∉ r :: st1.semu_free_list
        have hx' : x ∈ st.semu_list.erase r := by rw [← hl]; exact hx
        rw [hf]
        intro hm
        rcases List.mem_cons.1 hm with e | e
        · exact (hmem x hx').2 e
        · exact h3 x (hmem x hx').1 e
      · intro q x hx y hy hpx hpy
        have hx' : x ∈ st.semu_list.erase r := by rw [← hl]; exact hx
        have hy' : y ∈ st.semu_list.erase r := by rw [← hl]; exact hy
        rw [hsu, if_neg (fun hq => (hmem x hx').2 hq.1.symm)] at hpx
        rw [hsu, if_neg (fun hq => (hmem y hy').2 hq.1.symm)] at hpy
        exact h4 q x (hmem x hx').1 y (hmem y hy').1 hpx hpy

theorem sys_semget_undo (K : Kernel) (cfg : Seminfo) (td : Thread) (key nsems : Int)
    (semflg : Nat) (st : State) :
    (sys_semget K cfg td key nsems semflg st).st.semu = st.semu ∧
    (sys_semget K cfg td key nsems semflg st).st.semu_list = st.semu_list ∧
    (sys_semget K cfg td key nsems semflg st).st.semu_free_list = st.semu_free_list := by
  rcases sys_semget_cases_full K cfg td key nsems semflg st with h | ⟨semid, _, _, _, _, _, h⟩
  · rw [h]; exact ⟨rfl, rfl, rfl⟩
  · rw [h]; exact ⟨rfl, rfl, rfl⟩

theorem step_ownerinv (K : Kernel) (cfg : Seminfo) (c : Call) (st : State)
    (hinv : OwnerInv st) : OwnerInv (step K cfg c st) := by
  cases c with
  | semget td key nsems semflg =>
    have := sys_semget_undo K cfg td key nsems semflg st
    exact ownerinv_of_eq (a := st) this.1 this.2.1 this.2.2 hinv
  | semctl td semid semnum cmd arg => exact ownerinv_semctl K cfg td semid semnum cmd arg st hinv
  | semop td semid sops => exact ownerinv_semop K cfg td semid sops st hinv
  | wakeup td semid sops i error => exact ownerinv_wakeup K cfg td semid sops i error st hinv
  | exit p => exact ownerinv_exit p st hinv

theorem run_ownerinv (K : Kernel) (cfg : Seminfo) (cs : List Call) (st : State)
    (hinv : OwnerInv st) : OwnerInv (run K cfg cs st) := by
  induction cs generalizing st with
  | nil => exact hinv
  | cons c rest ih => exact ih _ (step_ownerinv K cfg c st hinv)

theorem seminit_ownerinv (cfg : Seminfo) : OwnerInv (seminit cfg) := by
  refine ⟨List.nodup_nil, ?_, ?_, ?_⟩
  · show (List.range cfg.semmnu.toNat).reverse.Nodup
    exact List.nodup_reverse.2 (List.nodup_range _)
  · intro r hr
    exact absurd hr (List.not_mem_nil r)
  · intro p a ha
    exact absurd ha (List.not_mem_nil a)

theorem semu_try_free_sub (r : Nat) (st : State) :
    ∀ x ∈ (semu_try_free r st).2.semu_list, x ∈ st.semu_list := by
  intro x hx
  unfold semu_try_free at hx
  split at hx
  · exact hx
  · exact List.mem_of_mem_erase hx

theorem adjust_entry_sub (cfg : Seminfo) (r : Nat) (semid : Int) (semseq : Nat)
    (semnum adjval : Int) (st : State) :
    ∀ x ∈ (semundo_adjust_entry cfg r semid semseq semnum adjval st).2.semu_list,
      x ∈ st.semu_list := by
  unfold semundo_adjust_entry
  simp only
  repeat' split
  all_goals first
    | exact fun x hx => hx
    | exact fun x hx => semu_try_free_sub r (setSEMU st r _) x hx

/-- C33. One undo structure per process. In every state reached from `seminit`
by any sequence of stretches, no two structures of the active list have the same
process as their `un_proc` (and no structure is twice on a list or on both
lists). `semundo_adjust` puts a structure on the active list that was not there
before only when no structure of the active list has the calling process as its
`un_proc`. -/
theorem one_undo_record_per_process (K : Kernel) (cfg : Seminfo) :
    (∀ cs : List Call, OwnerInv (run K cfg cs (seminit cfg))) ∧
    (∀ (cs : List Call) (p a b : Nat),
      a ∈ (run K cfg cs (seminit cfg)).semu_list → b ∈ (run K cfg cs (seminit cfg)).semu_list →
      (SEMU (run K cfg cs (seminit cfg)) a).un_proc = some p →
      (SEMU (run K cfg cs (seminit cfg)) b).un_proc = some p → a = b) ∧
    (∀ (td : Thread) (supptr : Option Nat) (semid : Int) (semseq : Nat) (semnum adjval : Int)
      (st : State) (r : Nat),
      r ∈ (semundo_adjust cfg td supptr semid semseq semnum adjval st).2.2.semu_list →
      r ∉ st.semu_list →
      ∀ q ∈ st.semu_list, (SEMU st q).un_proc ≠ some td.td_proc) := by
  refine ⟨fun cs => run_ownerinv K cfg cs _ (seminit_ownerinv cfg), ?_, ?_⟩
  · intro cs p a b ha hb hpa hpb
    exact (run_ownerinv K cfg cs _ (seminit_ownerinv cfg)).2.2.2 p a ha b hb hpa hpb
  · intro td supptr semid semseq semnum adjval st r hr hnot q hq
    unfold semundo_adjust at hr
    split at hr
    · exact absurd (adjust_entry_sub cfg _ semid semseq semnum adjval st r hr) hnot
    · split at hr
      · exact absurd (adjust_entry_sub cfg _ semid semseq semnum adjval st r hr) hnot
      · rename_i hnone
        have := List.find?_eq_none.1 hnone q hq
        simpa using this

theorem one_undo_record_per_process_witness :
    1 ∈ (semundo_adjust exCfg exThread none 0 1 0 (-1) (seminit exCfg)).2.2.semu_list ∧
    1 ∉ (seminit exCfg).semu_list ∧
    ∀ q ∈ (seminit exCfg).semu_list, (SEMU (seminit exCfg) q).un_proc ≠ some exThread.td_proc :=
  ⟨by decide, by decide,
    (one_undo_record_per_process exKernel exCfg).2.2 exThread none 0 1 0 (-1) (seminit exCfg) 1
      (by decide) (by decide)⟩

theorem acquisitions_append (held : List Mtx) (a b : List LockOp) :
    acquisitions held (a ++ b) = acquisitions held a ++ acquisitions (held_after held a) b := by
  induction a generalizing held with
  | nil => rfl
  | cons e es ih =>
    cases e with
    | mtx_lock m =>
      show (m, held) :: acquisitions (m :: held) (es ++ b) =
        (m, held) :: acquisitions (m :: held) es ++ acquisitions (held_after (m :: held) es) b
      rw [ih]; rfl
    | mtx_unlock m => exact ih (held.erase m)

theorem held_after_append (held : List Mtx) (a b : List LockOp) :
    held_after held (a ++ b) = held_after (held_after held a) b := by
  induction a generalizing held with
  | nil => rfl
  | cons e es ih =>
    cases e with
    | mtx_lock m => exact ih (m :: held)
    | mtx_unlock m => exact ih (held.erase m)

/-- In a sequence that never locks `sem_undo_mtx`, run with `sem_undo_mtx` not
held and the mutex `s` held and never unlocked, every acquisition is made with
`sem_undo_mtx` not held and `s` held, and so it is afterwards. -/
theorem acquisitions_no_undo (s : Mtx) (held : List Mtx) (tr : List LockOp)
    (hno : ∀ e ∈ tr, e ≠ LockOp.mtx_lock Mtx.sem_undo_mtx)
    (hs : ∀ e ∈ tr, e ≠ LockOp.mtx_unlock s)
    (hu : Mtx.sem_undo_mtx ∉ held) :
    (∀ a ∈ acquisitions held tr, Mtx.sem_undo_mtx ∉ a.2 ∧ a.1 ≠ Mtx.sem_undo_mtx) ∧
    Mtx.sem_undo_mtx ∉ held_after held tr ∧
    (s ∈ held → s ∈ held_after held tr) := by
  induction tr generalizing held with
  | nil => exact ⟨fun a ha => absurd ha (List.not_mem_nil a), hu, fun h => h⟩
  | cons e es ih =>
    have hno' : ∀ e' ∈ es, e' ≠ LockOp.mtx_lock Mtx.sem_undo_mtx :=
      fun e' he' => hno e' (List.mem_cons_of_mem _ he')
    have hs' : ∀ e' ∈ es, e' ≠ LockOp.mtx_unlock s :=
      fun e' he' => hs e' (List.mem_cons_of_mem _ he')
    cases e with
    | mtx_lock m =>
      have hm : m ≠ Mtx.sem_undo_mtx := by
        intro h
        exact hno _ (List.mem_cons_self _ _) (by rw [h])
      have hu' : Mtx.sem_undo_mtx ∉ m :: held := by
        intro h
        rcases List.mem_cons.1 h with e | e
        · exact hm e.symm
        · exact hu e
      obtain ⟨i1, i2, i3⟩ := ih (m :: held) hno' hs' hu'
      refine ⟨?_, i2, fun h => i3 (List.mem_cons_of_mem _ h)⟩
      intro a ha
      simp only [acquisitions, List.mem_cons] at ha
      rcases ha with e | e
      · rw [e]; exact ⟨hu, hm⟩
      · exact i1 a e
    | mtx_unlock m =>
      have hm : m ≠ s := by
        intro h
        exact hs _ (List.mem_cons_self _ _) (by rw [h])
      have hu' : Mtx.sem_undo_mtx ∉ held.erase m := fun h => hu (List.mem_of_mem_erase h)
      obtain ⟨i1, i2, i3⟩ := ih (held.erase m) hno' hs' hu'
      refine ⟨?_, i2, fun h => i3 ((List.mem_erase_of_ne (Ne.symm hm)).2 h)⟩
      intro a ha
      simp only [acquisitions] at ha
      exact i1 a ha

theorem semctl_lock_order (K : Kernel) (cfg : Seminfo) (td : Thread) (semid semnum : Int)
    (cmd : Cmd) (arg : Semun) (st : State) :
    ∀ a ∈ acquisitions [] (kern_semctl_locks K cfg td semid semnum cmd arg st),
      Mtx.sem_undo_mtx ∉ a.2 ∧
      (a.1 = Mtx.sem_undo_mtx → Mtx.sema_mtx (IPCID_TO_IX semid) ∈ a.2) := by
  unfold kern_semctl_locks
  simp only
  split
  · simp [acquisitions]
  · split
    · split <;> simp [acquisitions]
    · split
      · simp [acquisitions]
      · cases cmd with
        | IPC_RMID =>
          simp only [if_true]
          repeat' split
          all_goals first
            | (simp [acquisitions]; done)
            | skip
          generalize List.filter _ (List.range cfg.semmni.toNat) = behind
          have hrest := acquisitions_no_undo Mtx.sem_undo_mtx
            [Mtx.sema_mtx (IPCID_TO_IX semid), Mtx.sem_mtx]
            (List.map (fun i => LockOp.mtx_lock (Mtx.sema_mtx i)) behind ++
              (List.map (fun i => LockOp.mtx_unlock (Mtx.sema_mtx i)) behind ++
                [LockOp.mtx_unlock (Mtx.sema_mtx (IPCID_TO_IX semid)),
                 LockOp.mtx_unlock Mtx.sem_mtx]))
            (by
              intro e he
              simp only [List.mem_append, List.mem_map, List.mem_cons, List.mem_singleton,
                List.not_mem_nil, or_false] at he
              rcases he with ⟨i, _, rfl⟩ | ⟨i, _, rfl⟩ | rfl | rfl <;> simp)
            (by
              intro e he
              simp only [List.mem_append, List.mem_map, List.mem_cons, List.mem_singleton,
                List.not_mem_nil, or_false] at he
              rcases he with ⟨i, _, rfl⟩ | ⟨i, _, rfl⟩ | rfl | rfl <;> simp)
            (by simp)
          intro a ha
          simp only [List.append_assoc, List.cons_append, List.nil_append,
            List.singleton_append] at ha
          simp only [acquisitions, List.erase_cons_head, List.mem_cons] at ha
          rcases ha with rfl | rfl | rfl | h
          · simp
          · simp
          · simp
          · have := hrest.1 a h
            exact ⟨this.1, fun e => absurd e this.2⟩
        | SETVAL =>
          simp only
          repeat' split
          all_goals simp [acquisitions]
        | SETALL =>
          simp only
          repeat' split
          all_goals simp [acquisitions]
        | GETALL =>
          simp only
          repeat' split
          all_goals simp [acquisitions]
        | IPC_SET | IPC_STAT | GETNCNT | GETPID | GETVAL | GETZCNT | SEM_STAT | other =>
          simp [acquisitions]

theorem semget_lock_order (K : Kernel) (cfg : Seminfo) (td : Thread) (key nsems : Int)
    (semflg : Nat) (st : State) :
    ∀ a ∈ acquisitions [] (sys_semget_locks K cfg td key nsems semflg st),
      Mtx.sem_undo_mtx ∉ a.2 ∧ a.1 ≠ Mtx.sem_undo_mtx := by
  unfold sys_semget_locks
  simp only
  repeat' split
  all_goals simp [acquisitions]

theorem semop_done_lock_order (cfg : Seminfo) (td : Thread) (semid : Nat) (sops : List Sembuf)
    (st : State) :
    ∀ a ∈ acquisitions [Mtx.sema_mtx semid] (semop_done_locks cfg td semid sops st),
      Mtx.sem_undo_mtx ∉ a.2 ∧ (a.1 = Mtx.sem_undo_mtx → Mtx.sema_mtx semid ∈ a.2) := by
  unfold semop_done_locks
  simp only
  repeat' split
  all_goals simp [acquisitions]

theorem semop_loop_lock_order (cfg : Seminfo) (td : Thread) (semid : Nat) (sops : List Sembuf)
    (st : State) :
    ∀ a ∈ acquisitions [Mtx.sema_mtx semid] (semop_loop_locks cfg td semid sops st),
      Mtx.sem_undo_mtx ∉ a.2 ∧ (a.1 = Mtx.sem_undo_mtx → Mtx.sema_mtx semid ∈ a.2) := by
  unfold semop_loop_locks
  simp only
  split
  · exact semop_done_lock_order cfg td semid sops _
  · simp [acquisitions]

theorem semop_lock_order (K : Kernel) (cfg : Seminfo) (td : Thread) (semid : Int)
    (sops : List Sembuf) (st : State) :
    ∀ a ∈ acquisitions [] (sys_semop_locks K cfg td semid sops st),
      Mtx.sem_undo_mtx ∉ a.2 ∧
      (a.1 = Mtx.sem_undo_mtx → Mtx.sema_mtx (IPCID_TO_IX semid) ∈ a.2) := by
  unfold sys_semop_locks
  simp only
  repeat' split
  all_goals first
    | (simp [acquisitions]; done)
    | (intro a ha
       simp only [acquisitions, List.mem_cons] at ha
       rcases ha with rfl | h
       · simp
       · exact semop_loop_lock_order cfg td _ sops st a h)

theorem wakeup_lock_order (cfg : Seminfo) (td : Thread) (semid : Int)
    (sops : List Sembuf) (i : Nat) (error : Int) (st : State) :
    ∀ a ∈ acquisitions [] (semop_wakeup_locks cfg td semid sops i error st),
      Mtx.sem_undo_mtx ∉ a.2 ∧
      (a.1 = Mtx.sem_undo_mtx → Mtx.sema_mtx (IPCID_TO_IX semid) ∈ a.2) := by
  unfold semop_wakeup_locks
  simp only
  repeat' split
  all_goals first
    | (simp [acquisitions]; done)
    | (intro a ha
       simp only [acquisitions, List.mem_cons] at ha
       rcases ha with rfl | h
       · simp
       · exact semop_loop_lock_order cfg td _ sops _ a h)

theorem semexit_apply_lock_order (ents : List Undo) (st : State) :
    (∀ a ∈ acquisitions [] (semexit_apply_locks ents st).1,
      a.1 ≠ Mtx.sem_undo_mtx ∧ Mtx.sem_undo_mtx ∉ a.2) ∧
    ((semexit_apply_locks ents st).2 = true →
      held_after [] (semexit_apply_locks ents st).1 = []) := by
  induction ents generalizing st with
  | nil => simp [semexit_apply_locks, acquisitions, held_after]
  | cons e es ih =>
    unfold semexit_apply_locks
    simp only
    split
    · simp only [acquisitions, held_after, List.erase_cons_head, List.mem_cons]
      refine ⟨?_, (ih st).2⟩
      intro a ha
      rcases ha with rfl | h
      · simp
      · exact (ih st).1 a h
    · split
      · simp [acquisitions]
      · simp only [acquisitions, held_after, List.erase_cons_head, List.mem_cons]
        refine ⟨?_, (ih _).2⟩
        intro a ha
        rcases ha with rfl | h
        · simp
        · exact (ih _).1 a h

theorem semexit_lock_order (p : Nat) (st : State) :
    ∀ a ∈ acquisitions [] (semexit_myhook_locks p st),
      Mtx.sem_undo_mtx ∉ a.2 ∧ (a.1 = Mtx.sem_undo_mtx → a.2 = []) ∧ holds_both a = false := by
  unfold semexit_myhook_locks
  split
  · simp [acquisitions, holds_both, is_slot]
  · split
    · rename_i suptr _ _
      simp only
      have h := semexit_apply_lock_order (SEMU st suptr).un_ent
        { st with semu_list := st.semu_list.erase suptr }
      intro a ha
      simp only [List.append_assoc, List.cons_append, List.nil_append] at ha
      simp only [acquisitions, List.erase_cons_head, List.mem_cons, acquisitions_append,
        List.mem_append] at ha
      rcases ha with rfl | h1 | h2
      · simp [holds_both, is_slot]
      · have := h.1 a h1
        refine ⟨this.2, fun e => absurd e this.1, ?_⟩
        unfold holds_both
        have h3 : (a.1 == Mtx.sem_undo_mtx) = false := by simpa using this.1
        have h4 : a.2.contains Mtx.sem_undo_mtx = false := by simpa using this.2
        rw [h3, h4]; simp
      · split at h2
        · rename_i hc
          rw [h.2 hc] at h2
          simp only [acquisitions, List.mem_cons, List.not_mem_nil, or_false] at h2
          rw [h2]
          simp [holds_both, is_slot]
        · simp [acquisitions] at h2
    · simp [acquisitions, holds_both, is_slot]

theorem releases_append (held : List Mtx) (a b : List LockOp) :
    releases held (a ++ b) = releases held a ++ releases (held_after held a) b := by
  induction a generalizing held with
  | nil => rfl
  | cons e es ih =>
    cases e with
    | mtx_lock m => exact ih (m :: held)
    | mtx_unlock m =>
      show (m, held) :: releases (held.erase m) (es ++ b) =
        (m, held) :: releases (held.erase m) es ++ releases (held_after (held.erase m) es) b
      rw [ih]; rfl

/-- In a sequence that never locks `sem_undo_mtx`, run with `sem_undo_mtx` not
held, every release is made with `sem_undo_mtx` not held. -/
theorem releases_no_undo (held : List Mtx) (tr : List LockOp)
    (hno : ∀ e ∈ tr, e ≠ LockOp.mtx_lock Mtx.sem_undo_mtx)
    (hu : Mtx.sem_undo_mtx ∉ held) :
    ∀ a ∈ releases held tr, Mtx.sem_undo_mtx ∉ a.2 := by
  induction tr generalizing held with
  | nil => exact fun a ha => absurd ha (List.not_mem_nil a)
  | cons e es ih =>
    have hno' : ∀ e' ∈ es, e' ≠ LockOp.mtx_lock Mtx.sem_undo_mtx :=
      fun e' he' => hno e' (List.mem_cons_of_mem _ he')
    cases e with
    | mtx_lock m =>
      have hm : m ≠ Mtx.sem_undo_mtx := by
        intro h
        exact hno _ (List.mem_cons_self _ _) (by rw [h])
      have hu' : Mtx.sem_undo_mtx ∉ m :: held := by
        intro h
        rcases List.mem_cons.1 h with e | e
        · exact hm e.symm
        · exact hu e
      exact ih (m :: held) hno' hu'
    | mtx_unlock m =>
      have hu' : Mtx.sem_undo_mtx ∉ held.erase m := fun h => hu (List.mem_of_mem_erase h)
      intro a ha
      simp only [releases, List.mem_cons] at ha
      rcases ha with e | e
      · rw [e]; exact hu
      · exact ih (held.erase m) hno' hu' a e

/-- In a sequence that never unlocks `sem_undo_mtx` no release is of
`sem_undo_mtx`. -/
theorem releases_not_undo (held : List Mtx) (tr : List LockOp)
    (hno : ∀ e ∈ tr, e ≠ LockOp.mtx_unlock Mtx.sem_undo_mtx) :
    ∀ a ∈ releases held tr, a.1 ≠ Mtx.sem_undo_mtx := by
  induction tr generalizing held with
  | nil => exact fun a ha => absurd ha (List.not_mem_nil a)
  | cons e es ih =>
    have hno' : ∀ e' ∈ es, e' ≠ LockOp.mtx_unlock Mtx.sem_undo_mtx :=
      fun e' he' => hno e' (List.mem_cons_of_mem _ he')
    cases e with
    | mtx_lock m => exact ih (m :: held) hno'
    | mtx_unlock m =>
      have hm : m ≠ Mtx.sem_undo_mtx := by
        intro h
        exact hno _ (List.mem_cons_self _ _) (by rw [h])
      intro a ha
      simp only [releases, List.mem_cons] at ha
      rcases ha with e | e
      · rw [e]; exact hm
      · exact ih (held.erase m) hno' a e

theorem semctl_unlock_order (K : Kernel) (cfg : Seminfo) (td : Thread) (semid semnum : Int)
    (cmd : Cmd) (arg : Semun) (st : State) :
    ∀ a ∈ releases [] (kern_semctl_locks K cfg td semid semnum cmd arg st),
      (a.1 ≠ Mtx.sem_undo_mtx → Mtx.sem_undo_mtx ∉ a.2) ∧
      (a.1 = Mtx.sem_undo_mtx → Mtx.sema_mtx (IPCID_TO_IX semid) ∈ a.2) := by
  unfold kern_semctl_locks
  simp only
  split
  · simp [releases]
  · split
    · split <;> simp [releases]
    · split
      · simp [releases]
      · cases cmd with
        | IPC_RMID =>
          simp only [if_true]
          repeat' split
          all_goals first
            | (simp [releases]; done)
            | skip
          generalize List.filter _ (List.range cfg.semmni.toNat) = behind
          have hrest := releases_no_undo
            [Mtx.sema_mtx (IPCID_TO_IX semid), Mtx.sem_mtx]
            (List.map (fun i => LockOp.mtx_lock (Mtx.sema_mtx i)) behind ++
              (List.map (fun i => LockOp.mtx_unlock (Mtx.sema_mtx i)) behind ++
                [LockOp.mtx_unlock (Mtx.sema_mtx (IPCID_TO_IX semid)),
                 LockOp.mtx_unlock Mtx.sem_mtx]))
            (by
              intro e he
              simp only [List.mem_append, List.mem_map, List.mem_cons, List.mem_singleton,
                List.not_mem_nil, or_false] at he
              rcases he with ⟨i, _, rfl⟩ | ⟨i, _, rfl⟩ | rfl | rfl <;> simp)
            (by simp)
          have hrest2 := releases_not_undo
            [Mtx.sema_mtx (IPCID_TO_IX semid), Mtx.sem_mtx]
            (List.map (fun i => LockOp.mtx_lock (Mtx.sema_mtx i)) behind ++
              (List.map (fun i => LockOp.mtx_unlock (Mtx.sema_mtx i)) behind ++
                [LockOp.mtx_unlock (Mtx.sema_mtx (IPCID_TO_IX semid)),
                 LockOp.mtx_unlock Mtx.sem_mtx]))
            (by
              intro e he
              simp only [List.mem_append, List.mem_map, List.mem_cons, List.mem_singleton,
                List.not_mem_nil, or_false] at he
              rcases he with ⟨i, _, rfl⟩ | ⟨i, _, rfl⟩ | rfl | rfl <;> simp)
          intro a ha
          simp only [List.append_assoc, List.cons_append, List.nil_append,
            List.singleton_append] at ha
          simp only [releases, List.erase_cons_head, List.mem_cons] at ha
          rcases ha with rfl | h
          · simp
          · exact ⟨fun _ => hrest a h, fun e => absurd e (hrest2 a h)⟩
        | SETVAL =>
          simp only
          repeat' split
          all_goals simp [releases]
        | SETALL =>
          simp only
          repeat' split
          all_goals simp [releases]
        | GETALL =>
          simp only
          repeat' split
          all_goals simp [releases]
        | IPC_SET | IPC_STAT | GETNCNT | GETPID | GETVAL | GETZCNT | SEM_STAT | other =>
          simp [releases]

theorem semget_unlock_order (K : Kernel) (cfg : Seminfo) (td : Thread) (key nsems : Int)
    (semflg : Nat) (st : State) :
    ∀ a ∈ releases [] (sys_semget_locks K cfg td key nsems semflg st),
      a.1 ≠ Mtx.sem_undo_mtx → Mtx.sem_undo_mtx ∉ a.2 := by
  unfold sys_semget_locks
  simp only
  repeat' split
  all_goals simp [releases]

theorem semop_done_unlock_order (cfg : Seminfo) (td : Thread) (semid : Nat) (sops : List Sembuf)
    (st : State) :
    ∀ a ∈ releases [Mtx.sema_mtx semid] (semop_done_locks cfg td semid sops st),
      (a.1 ≠ Mtx.sem_undo_mtx → Mtx.sem_undo_mtx ∉ a.2) ∧
      (a.1 = Mtx.sem_undo_mtx → Mtx.sema_mtx semid ∈ a.2) := by
  unfold semop_done_locks
  simp only
  repeat' split
  all_goals simp [releases]

theorem semop_loop_unlock_order (cfg : Seminfo) (td : Thread) (semid : Nat) (sops : List Sembuf)
    (st : State) :
    ∀ a ∈ releases [Mtx.sema_mtx semid] (semop_loop_locks cfg td semid sops st),
      (a.1 ≠ Mtx.sem_undo_mtx → Mtx.sem_undo_mtx ∉ a.2) ∧
      (a.1 = Mtx.sem_undo_mtx → Mtx.sema_mtx semid ∈ a.2) := by
  unfold semop_loop_locks
  simp only
  split
  · exact semop_done_unlock_order cfg td semid sops _
  · simp [releases]

theorem semop_unlock_order (K : Kernel) (cfg : Seminfo) (td : Thread) (semid : Int)
    (sops : List Sembuf) (st : State) :
    ∀ a ∈ releases [] (sys_semop_locks K cfg td semid sops st),
      (a.1 ≠ Mtx.sem_undo_mtx → Mtx.sem_undo_mtx ∉ a.2) ∧
      (a.1 = Mtx.sem_undo_mtx → Mtx.sema_mtx (IPCID_TO_IX semid) ∈ a.2) := by
  unfold sys_semop_locks
  simp only
  repeat' split
  all_goals first
    | (simp [releases]; done)
    | (intro a ha
       simp only [releases] at ha
       exact semop_loop_unlock_order cfg td _ sops st a ha)

theorem wakeup_unlock_order (cfg : Seminfo) (td : Thread) (semid : Int)
    (sops : List Sembuf) (i : Nat) (error : Int) (st : State) :
    ∀ a ∈ releases [] (semop_wakeup_locks cfg td semid sops i error st),
      (a.1 ≠ Mtx.sem_undo_mtx → Mtx.sem_undo_mtx ∉ a.2) ∧
      (a.1 = Mtx.sem_undo_mtx → Mtx.sema_mtx (IPCID_TO_IX semid) ∈ a.2) := by
  unfold semop_wakeup_locks
  simp only
  repeat' split
  all_goals first
    | (simp [releases]; done)
    | (intro a ha
       simp only [releases] at ha
       exact semop_loop_unlock_order cfg td _ sops _ a ha)

theorem semexit_apply_unlock_order (ents : List Undo) (st : State) :
    ∀ a ∈ releases [] (semexit_apply_locks ents st).1,
      Mtx.sem_undo_mtx ∉ a.2 ∧ a.1 ≠ Mtx.sem_undo_mtx := by
  induction ents generalizing st with
  | nil => simp [semexit_apply_locks, releases]
  | cons e es ih =>
    unfold semexit_apply_locks
    simp only
    split
    · simp only [releases, List.erase_cons_head, List.mem_cons]
      intro a ha
      rcases ha with rfl | h
      · simp
      · exact ih st a h
    · split
      · simp [releases]
      · simp only [releases, List.erase_cons_head, List.mem_cons]
        intro a ha
        rcases ha with rfl | h
        · simp
        · exact ih _ a h

theorem semexit_unlock_order (p : Nat) (st : State) :
    ∀ a ∈ releases [] (semexit_myhook_locks p st),
      (a.1 ≠ Mtx.sem_undo_mtx → Mtx.sem_undo_mtx ∉ a.2) ∧
      (a.1 = Mtx.sem_undo_mtx → a.2 = [Mtx.sem_undo_mtx]) := by
  unfold semexit_myhook_locks
  split
  · simp [releases]
  · split
    · rename_i suptr _ _
      simp only
      have h := semexit_apply_unlock_order (SEMU st suptr).un_ent
        { st with semu_list := st.semu_list.erase suptr }
      have hb := (semexit_apply_lock_order (SEMU st suptr).un_ent
        { st with semu_list := st.semu_list.erase suptr }).2
      intro a ha
      simp only [List.append_assoc, List.cons_append, List.nil_append] at ha
      simp only [releases, List.erase_cons_head, List.mem_cons, releases_append,
        List.mem_append] at ha
      rcases ha with rfl | h1 | h2
      · simp
      · exact ⟨fun _ => (h a h1).1, fun e => absurd e (h a h1).2⟩
      · split at h2
        · rename_i hc
          rw [hb hc] at h2
          simp only [releases, List.mem_cons, List.not_mem_nil, or_false] at h2
          rw [h2]
          simp
        · simp [releases] at h2
    · simp [releases]

/-- C36 (as stated) fails: `SETVAL` on a set of the example state succeeds and
takes `sem_undo_mtx` for `semundo_clear` while it holds the slot mutex
`sema_mtx[0]`, and so does a `semop` with `SEM_UNDO` at label `done:`; both
threads hold a slot mutex and `sem_undo_mtx` together. -/
theorem undo_lock_taken_under_slot_lock :
    (kern_semctl exKernel exCfg exThread 65536 0 Cmd.SETVAL ⟨1, default, []⟩
      (exState 5 7)).error = 0 ∧
    acquisitions []
      (kern_semctl_locks exKernel exCfg exThread 65536 0 Cmd.SETVAL ⟨1, default, []⟩
        (exState 5 7)) =
      [(Mtx.sema_mtx 0, []), (Mtx.sem_undo_mtx, [Mtx.sema_mtx 0])] ∧
    holds_both (Mtx.sem_undo_mtx, [Mtx.sema_mtx 0]) = true ∧
    acquisitions []
      (sys_semop_locks exKernel exCfg exThread 65536 [⟨0, -1, SEM_UNDO⟩] (exState 5 7)) =
      [(Mtx.sema_mtx 0, []), (Mtx.sem_undo_mtx, [Mtx.sema_mtx 0])] := by
  decide

/-- C36 (amended). Lock order. In every stretch (`semget`, `semctl`, `semop` from
its entry or from a wakeup, the exit hook) no mutex is locked while
`sem_undo_mtx` is held, and no other mutex is unlocked while `sem_undo_mtx` is
held. `kern_semctl` and `sys_semop` lock `sem_undo_mtx` only while they hold the
mutex of the slot they work on, and they unlock it while they still hold that
mutex: `sem_undo_mtx` is taken after the slot mutex and released before it.
`semexit_myhook` alone never holds a slot mutex and `sem_undo_mtx` together: it
locks and unlocks `sem_undo_mtx` with no other mutex held and the slot mutexes
with `sem_undo_mtx` released. -/
theorem undo_lock_innermost (K : Kernel) (cfg : Seminfo) (st : State) :
    (∀ (c : Call), ∀ a ∈ acquisitions [] (step_locks K cfg c st), Mtx.sem_undo_mtx ∉ a.2) ∧
    (∀ (c : Call), ∀ a ∈ releases [] (step_locks K cfg c st),
      a.1 ≠ Mtx.sem_undo_mtx → Mtx.sem_undo_mtx ∉ a.2) ∧
    (∀ (td : Thread) (semid semnum : Int) (cmd : Cmd) (arg : Semun),
      (∀ a ∈ acquisitions [] (kern_semctl_locks K cfg td semid semnum cmd arg st),
        a.1 = Mtx.sem_undo_mtx → Mtx.sema_mtx (IPCID_TO_IX semid) ∈ a.2) ∧
      (∀ a ∈ releases [] (kern_semctl_locks K cfg td semid semnum cmd arg st),
        a.1 = Mtx.sem_undo_mtx → Mtx.sema_mtx (IPCID_TO_IX semid) ∈ a.2)) ∧
    (∀ (td : Thread) (semid : Int) (sops : List Sembuf),
      (∀ a ∈ acquisitions [] (sys_semop_locks K cfg td semid sops st),
        a.1 = Mtx.sem_undo_mtx → Mtx.sema_mtx (IPCID_TO_IX semid) ∈ a.2) ∧
      (∀ a ∈ releases [] (sys_semop_locks K cfg td semid sops st),
        a.1 = Mtx.sem_undo_mtx → Mtx.sema_mtx (IPCID_TO_IX semid) ∈ a.2)) ∧
    (∀ (td : Thread) (semid : Int) (sops : List Sembuf) (i : Nat) (error : Int),
      (∀ a ∈ acquisitions [] (semop_wakeup_locks cfg td semid sops i error st),
        a.1 = Mtx.sem_undo_mtx → Mtx.sema_mtx (IPCID_TO_IX semid) ∈ a.2) ∧
      (∀ a ∈ releases [] (semop_wakeup_locks cfg td semid sops i error st),
        a.1 = Mtx.sem_undo_mtx → Mtx.sema_mtx (IPCID_TO_IX semid) ∈ a.2)) ∧
    (∀ (p : Nat),
      (∀ a ∈ acquisitions [] (semexit_myhook_locks p st),
        (a.1 = Mtx.sem_undo_mtx → a.2 = []) ∧ holds_both a = false) ∧
      (∀ a ∈ releases [] (semexit_myhook_locks p st),
        a.1 = Mtx.sem_undo_mtx → a.2 = [Mtx.sem_undo_mtx])) := by
  refine ⟨?_, ?_, ?_, ?_, ?_, ?_⟩
  · intro c a ha
    cases c with
    | semget td key nsems semflg => exact (semget_lock_order K cfg td key nsems semflg st a ha).1
    | semctl td semid semnum cmd arg =>
      exact (semctl_lock_order K cfg td semid semnum cmd arg st a ha).1
    | semop td semid sops => exact (semop_lock_order K cfg td semid sops st a ha).1
    | wakeup td semid sops i error =>
      exact (wakeup_lock_order cfg td semid sops i error st a ha).1
    | exit p => exact (semexit_lock_order p st a ha).1
  · intro c a ha
    cases c with
    | semget td key nsems semflg => exact semget_unlock_order K cfg td key nsems semflg st a ha
    | semctl td semid semnum cmd arg =>
      exact (semctl_unlock_order K cfg td semid semnum cmd arg st a ha).1
    | semop td semid sops => exact (semop_unlock_order K cfg td semid sops st a ha).1
    | wakeup td semid sops i error =>
      exact (wakeup_unlock_order cfg td semid sops i error st a ha).1
    | exit p => exact (semexit_unlock_order p st a ha).1
  · intro td semid semnum cmd arg
    exact ⟨fun a ha => (semctl_lock_order K cfg td semid semnum cmd arg st a ha).2,
      fun a ha => (semctl_unlock_order K cfg td semid semnum cmd arg st a ha).2⟩
  · intro td semid sops
    exact ⟨fun a ha => (semop_lock_order K cfg td semid sops st a ha).2,
      fun a ha => (semop_unlock_order K cfg td semid sops st a ha).2⟩
  · intro td semid sops i error
    exact ⟨fun a ha => (wakeup_lock_order cfg td semid sops i error st a ha).2,
      fun a ha => (wakeup_unlock_order cfg td semid sops i error st a ha).2⟩
  · intro p
    exact ⟨fun a ha => (semexit_lock_order p st a ha).2,
      fun a ha => (semexit_unlock_order p st a ha).2⟩

theorem undo_lock_innermost_witness :
    acquisitions []
      (kern_semctl_locks exKernel exCfg exThread 65536 0 Cmd.SETALL ⟨0, default, [1, 2]⟩
        (exState 5 7)) =
      [(Mtx.sema_mtx 0, []), (Mtx.sema_mtx 0, []), (Mtx.sem_undo_mtx, [Mtx.sema_mtx 0])] ∧
    releases []
      (kern_semctl_locks exKernel exCfg exThread 65536 0 Cmd.SETALL ⟨0, default, [1, 2]⟩
        (exState 5 7)) =
      [(Mtx.sema_mtx 0, [Mtx.sema_mtx 0]), (Mtx.sem_undo_mtx, [Mtx.sem_undo_mtx, Mtx.sema_mtx 0]),
       (Mtx.sema_mtx 0, [Mtx.sema_mtx 0])] ∧
    Mtx.sem_undo_mtx ∉ [Mtx.sema_mtx 0] ∧
    Mtx.sema_mtx (IPCID_TO_IX 65536) ∈ [Mtx.sema_mtx 0] ∧
    Mtx.sema_mtx (IPCID_TO_IX 65536) ∈ [Mtx.sem_undo_mtx, Mtx.sema_mtx 0] ∧
    (Mtx.sem_undo_mtx, []) ∈ acquisitions [] (semexit_myhook_locks 100 (exStateUndo 5 7)) ∧
    holds_both (Mtx.sem_undo_mtx, ([] : List Mtx)) = false :=
  have h := undo_lock_innermost exKernel exCfg (exState 5 7)
  have h' := undo_lock_innermost exKernel exCfg (exStateUndo 5 7)
  ⟨by decide, by decide,
   h.2.1 (Call.semctl exThread 65536 0 Cmd.SETALL ⟨0, default, [1, 2]⟩)
     (Mtx.sema_mtx 0, [Mtx.sema_mtx 0]) (by decide) (by decide),
   (h.2.2.1 exThread 65536 0 Cmd.SETALL ⟨0, default, [1, 2]⟩).1
     (Mtx.sem_undo_mtx, [Mtx.sema_mtx 0]) (by decide) rfl,
   (h.2.2.1 exThread 65536 0 Cmd.SETALL ⟨0, default, [1, 2]⟩).2
     (Mtx.sem_undo_mtx, [Mtx.sem_undo_mtx, Mtx.sema_mtx 0]) (by decide) rfl,
   by decide,
   ((h'.2.2.2.2.2 100).1 (Mtx.sem_undo_mtx, []) (by decide)).2⟩

theorem undo_lookup_none_iff (semid semnum : Int) (ents : List Undo) :
    undo_lookup semid semnum ents = none ↔ undo_find semid semnum ents = none := by
  unfold undo_lookup
  cases undo_find semid semnum ents <;> simp

theorem undo_lookup_of_find (semid semnum : Int) (ents : List Undo) (i : Nat)
    (h : undo_find semid semnum ents = some i) :
    undo_lookup semid semnum ents = some (ents.getD i default).un_adjval := by
  unfold undo_lookup
  rw [h]; rfl

theorem undo_lookup_of_index (cfg : Seminfo) (semid semnum : Int) (ents : List Undo) (i : Nat)
    (hinv : RecInv cfg ents) (hi : i < ents.length)
    (hk : (ents.getD i default).un_id = semid ∧ (ents.getD i default).un_num = semnum) :
    undo_lookup semid semnum ents = some (ents.getD i default).un_adjval := by
  cases hf : undo_find semid semnum ents with
  | none => exact absurd hk (undo_find_none semid semnum ents hf i hi)
  | some j =>
    obtain ⟨hj, hj1, hj2⟩ := undo_find_some semid semnum ents j hf
    have : j = i := hinv.1 j i hj hi (by
      simp only [undo_key, Prod.mk.injEq]
      exact ⟨hj1.trans hk.1.symm, hj2.trans hk.2.symm⟩)
    rw [undo_lookup_of_find _ _ _ _ hf, this]

theorem undo_lookup_none_of (semid semnum : Int) (ents : List Undo)
    (h : ∀ i, i < ents.length →
      ¬ ((ents.getD i default).un_id = semid ∧ (ents.getD i default).un_num = semnum)) :
    undo_lookup semid semnum ents = none := by
  rw [undo_lookup_none_iff]
  cases hf : undo_find semid semnum ents with
  | none => rfl
  | some j =>
    obtain ⟨hj, hj1, hj2⟩ := undo_find_some semid semnum ents j hf
    exact absurd ⟨hj1, hj2⟩ (h j hj)

/-- When every entry of `a` for the pair has an entry of `b` with the same
adjustment, and every entry of `b` for the pair comes from one of `a`, both
arrays store the same adjustment for the pair. -/
theorem undo_lookup_transfer (cfg : Seminfo) (semid semnum : Int) (a b : List Undo)
    (hb : RecInv cfg b)
    (fwd : ∀ i, i < a.length →
      (a.getD i default).un_id = semid ∧ (a.getD i default).un_num = semnum →
      ∃ j, j < b.length ∧ (b.getD j default).un_id = semid ∧
        (b.getD j default).un_num = semnum ∧
        (b.getD j default).un_adjval = (a.getD i default).un_adjval)
    (bwd : ∀ j, j < b.length →
      (b.getD j default).un_id = semid ∧ (b.getD j default).un_num = semnum →
      ∃ i, i < a.length ∧ (a.getD i default).un_id = semid ∧
        (a.getD i default).un_num = semnum) :
    undo_lookup semid semnum b = undo_lookup semid semnum a := by
  cases hf : undo_find semid semnum a with
  | none =>
    rw [(undo_lookup_none_iff semid semnum a).2 hf]
    apply undo_lookup_none_of
    intro j hj hk
    obtain ⟨i, hi, hk1, hk2⟩ := bwd j hj hk
    exact undo_find_none semid semnum a hf i hi ⟨hk1, hk2⟩
  | some i =>
    obtain ⟨hi, hk1, hk2⟩ := undo_find_some semid semnum a i hf
    obtain ⟨j, hj, hj1, hj2, hj3⟩ := fwd i hi ⟨hk1, hk2⟩
    rw [undo_lookup_of_find _ _ _ _ hf, undo_lookup_of_index cfg semid semnum b j hb hj ⟨hj1, hj2⟩,
      hj3]

/-- The error of `semundo_adjust`, from the adjustment stored for the pair and the
number of entries. -/
theorem adjust_ents_code (cfg : Seminfo) (semid : Int) (semseq : Nat) (semnum adjval : Int)
    (ents : List Undo) :
    (adjust_ents cfg semid semseq semnum adjval ents).1 =
      match undo_lookup semid semnum ents with
      | some v => if adjval ≠ 0 ∧ (adjval + v > cfg.semaem ∨ adjval + v < -cfg.semaem)
          then ERANGE else 0
      | none =>
        if adjval = 0 then 0
        else if adjval > cfg.semaem ∨ adjval < -cfg.semaem then ERANGE
        else if (ents.length : Int) ≠ cfg.semume then 0 else EINVAL := by
  unfold adjust_ents
  cases hf : undo_find semid semnum ents with
  | some i =>
    rw [undo_lookup_of_find _ _ _ _ hf]
    simp only
    by_cases ha : adjval = 0
    · simp [ha]
      split <;> rfl
    · simp only [ne_eq, ha, not_false_eq_true, if_true, true_and]
      repeat' split
      all_goals rfl
  | none =>
    rw [(undo_lookup_none_iff semid semnum ents).2 hf]
    simp only
    repeat' split
    all_goals rfl

theorem getD_append_one (ents : List Undo) (e : Undo) (a : Nat) :
    (ents ++ [e]).getD a default =
      if a < ents.length then ents.getD a default
      else if a = ents.length then e else default := by
  simp only [List.getD_eq_getElem?_getD]
  split
  · rename_i hl
    rw [List.getElem?_append_left hl]
  · rename_i hl
    split
    · rename_i he
      subst he
      simp
    · rw [List.getElem?_eq_none (by simp only [List.length_append, List.length_singleton]; omega)]
      rfl

theorem adjust_ents_found (cfg : Seminfo) (semid : Int) (semseq : Nat) (semnum adjval : Int)
    (ents : List Undo) (i : Nat) (h0 : 0 ≤ cfg.semaem) (h1 : cfg.semaem ≤ 32767)
    (hadj : adjval ≠ 0) (hf : undo_find semid semnum ents = some i)
    (hok : (adjust_ents cfg semid semseq semnum adjval ents).1 = 0) :
    (-cfg.semaem ≤ adjval + (ents.getD i default).un_adjval ∧
      adjval + (ents.getD i default).un_adjval ≤ cfg.semaem) ∧
    (adjust_ents cfg semid semseq semnum adjval ents).2 =
      if adjval + (ents.getD i default).un_adjval = 0 then undo_delete ents i
      else ents.set i { ents.getD i default with
        un_adjval := adjval + (ents.getD i default).un_adjval } := by
  unfold adjust_ents at hok ⊢
  simp only [hf, ne_eq, hadj, not_false_eq_true, if_true, true_and] at hok ⊢
  by_cases c1 : adjval + (ents.getD i default).un_adjval > cfg.semaem ∨
      adjval + (ents.getD i default).un_adjval < -cfg.semaem
  · rw [if_pos c1] at hok
    have hne : ERANGE ≠ 0 := by decide
    exact absurd hok hne
  · rw [if_neg c1]
    have hr : -cfg.semaem ≤ adjval + (ents.getD i default).un_adjval ∧
        adjval + (ents.getD i default).un_adjval ≤ cfg.semaem := by omega
    refine ⟨hr, ?_⟩
    rw [toShort_id _ (by omega) (by omega)]
    split <;> rfl

theorem adjust_ents_fresh (cfg : Seminfo) (semid : Int) (semseq : Nat) (semnum adjval : Int)
    (ents : List Undo) (h0 : 0 ≤ cfg.semaem) (h1 : cfg.semaem ≤ 32767)
    (hnum : -32768 ≤ semnum ∧ semnum ≤ 32767)
    (hadj : adjval ≠ 0) (hf : undo_find semid semnum ents = none)
    (hok : (adjust_ents cfg semid semseq semnum adjval ents).1 = 0) :
    (-cfg.semaem ≤ adjval ∧ adjval ≤ cfg.semaem ∧ (ents.length : Int) ≠ cfg.semume) ∧
    (adjust_ents cfg semid semseq semnum adjval ents).2 =
      ents ++ [{ un_adjval := adjval, un_id := semid, un_num := semnum,
                 un_seq := semseq % 65536 }] := by
  unfold adjust_ents at hok ⊢
  simp only [hf, hadj, if_false] at hok ⊢
  by_cases c1 : adjval > cfg.semaem ∨ adjval < -cfg.semaem
  · rw [if_pos c1] at hok
    have hne : ERANGE ≠ 0 := by decide
    exact absurd hok hne
  · rw [if_neg c1] at hok ⊢
    by_cases c2 : (ents.length : Int) ≠ cfg.semume
    · rw [if_pos c2]
      refine ⟨⟨by omega, by omega, c2⟩, ?_⟩
      rw [toShort_id _ (by omega) (by omega), toShort_id _ hnum.1 hnum.2]
    · rw [if_neg c2] at hok
      have hne : EINVAL ≠ 0 := by decide
      exact absurd hok hne

/-- What a successful `semundo_adjust` with a non-zero `adjval` leaves in the
entries: the adjustment stored for the pair is the sum (no entry when the sum is
0), the adjustments stored for the other pairs are unchanged, and the number of
entries follows. -/
theorem adjust_ents_after (cfg : Seminfo) (semid : Int) (semseq : Nat) (semnum adjval : Int)
    (ents : List Undo) (h0 : 0 ≤ cfg.semaem) (h1 : cfg.semaem ≤ 32767)
    (hnum : -32768 ≤ semnum ∧ semnum ≤ 32767) (hinv : RecInv cfg ents)
    (hadj : adjval ≠ 0) (hok : (adjust_ents cfg semid semseq semnum adjval ents).1 = 0) :
    (adjust_ents cfg semid semseq semnum adjval ents).2.length =
      (match undo_lookup semid semnum ents with
       | some v => if adjval + v = 0 then ents.length - 1 else ents.length
       | none => ents.length + 1) ∧
    (∀ id num, undo_lookup id num (adjust_ents cfg semid semseq semnum adjval ents).2 =
      if id = semid ∧ num = semnum then
        (match undo_lookup semid semnum ents with
         | some v => if adjval + v = 0 then none else some (adjval + v)
         | none => some adjval)
      else undo_lookup id num ents) := by
  have hinv' := recinv_adjust cfg semid semseq semnum adjval ents h0 h1 hnum hinv
  cases hf : undo_find semid semnum ents with
  | some i =>
    obtain ⟨hi, hk1, hk2⟩ := undo_find_some semid semnum ents i hf
    obtain ⟨_, hE⟩ := adjust_ents_found cfg semid semseq semnum adjval ents i h0 h1 hadj hf hok
    rw [undo_lookup_of_find _ _ _ _ hf]
    simp only
    rw [hE] at hinv' ⊢
    by_cases c2 : adjval + (ents.getD i default).un_adjval = 0
    · simp only [c2, if_true] at hinv' ⊢
      have hlen := undo_delete_length ents i
      have hget : ∀ j, j < ents.length - 1 → (undo_delete ents i).getD j default =
          if j = i then ents.getD (ents.length - 1) default else ents.getD j default :=
        fun j hj => undo_delete_getD ents i j hi hj
      refine ⟨hlen, ?_⟩
      intro id num
      by_cases hk : id = semid ∧ num = semnum
      · rw [if_pos hk, hk.1, hk.2]
        apply undo_lookup_none_of
        intro j hj hkj
        rw [hlen] at hj
        rw [hget j hj] at hkj
        by_cases hji : j = i
        · rw [if_pos hji] at hkj
          have := hinv.1 (ents.length - 1) i (by omega) hi (by
            simp only [undo_key, Prod.mk.injEq]
            exact ⟨hkj.1.trans hk1.symm, hkj.2.trans hk2.symm⟩)
          omega
        · rw [if_neg hji] at hkj
          have := hinv.1 j i (by omega) hi (by
            simp only [undo_key, Prod.mk.injEq]
            exact ⟨hkj.1.trans hk1.symm, hkj.2.trans hk2.symm⟩)
          exact hji this
      · rw [if_neg hk]
        apply undo_lookup_transfer cfg id num ents _ hinv'
        · intro a ha hka
          have hai : a ≠ i := by
            intro e
            rw [e] at hka
            exact hk ⟨hka.1.symm.trans hk1, hka.2.symm.trans hk2⟩
          by_cases hlast : a = ents.length - 1
          · refine ⟨i, by rw [hlen]; omega, ?_⟩
            rw [hget i (by omega), if_pos rfl, ← hlast]
            exact ⟨hka.1, hka.2, rfl⟩
          · refine ⟨a, by rw [hlen]; omega, ?_⟩
            rw [hget a (by omega), if_neg hai]
            exact ⟨hka.1, hka.2, rfl⟩
        · intro j hj hkj
          rw [hlen] at hj
          rw [hget j hj] at hkj
          by_cases hji : j = i
          · rw [if_pos hji] at hkj
            exact ⟨ents.length - 1, by omega, hkj⟩
          · rw [if_neg hji] at hkj
            exact ⟨j, by omega, hkj⟩
    · simp only [c2, if_false] at hinv' ⊢
      have hget : ∀ j, (ents.set i { ents.getD i default with
          un_adjval := adjval + (ents.getD i default).un_adjval }).getD j default =
          if i = j ∧ i < ents.length then { ents.getD i default with
            un_adjval := adjval + (ents.getD i default).un_adjval }
          else ents.getD j default := fun j => getD_set_eq ents i j _ default
      refine ⟨List.length_set _ _ _, ?_⟩
      intro id num
      by_cases hk : id = semid ∧ num = semnum
      · rw [if_pos hk, hk.1, hk.2]
        have := undo_lookup_of_index cfg semid semnum _ i hinv'
          (by rw [List.length_set]; exact hi)
          (by rw [hget i, if_pos ⟨rfl, hi⟩]; exact ⟨hk1, hk2⟩)
        rw [this, hget i, if_pos ⟨rfl, hi⟩]
      · rw [if_neg hk]
        apply undo_lookup_transfer cfg id num ents _ hinv'
        · intro a ha hka
          have hai : ¬ (i = a ∧ i < ents.length) := by
            intro e
            rw [← e.1] at hka
            exact hk ⟨hka.1.symm.trans hk1, hka.2.symm.trans hk2⟩
          refine ⟨a, by rw [List.length_set]; exact ha, ?_⟩
          rw [hget a, if_neg hai]
          exact ⟨hka.1, hka.2, rfl⟩
        · intro j hj hkj
          rw [List.length_set] at hj
          rw [hget j] at hkj
          by_cases hji : i = j ∧ i < ents.length
          · rw [if_pos hji] at hkj
            exact absurd ⟨hkj.1.symm.trans hk1, hkj.2.symm.trans hk2⟩ hk
          · rw [if_neg hji] at hkj
            exact ⟨j, hj, hkj⟩
  | none =>
    obtain ⟨_, hE⟩ :=
      adjust_ents_fresh cfg semid semseq semnum adjval ents h0 h1 hnum hadj hf hok
    rw [(undo_lookup_none_iff semid semnum ents).2 hf]
    simp only
    rw [hE] at hinv' ⊢
    refine ⟨by simp, ?_⟩
    intro id num
    by_cases hk : id = semid ∧ num = semnum
    · rw [if_pos hk, hk.1, hk.2]
      have := undo_lookup_of_index cfg semid semnum _ ents.length hinv' (by simp)
        (by rw [getD_append_one, if_neg (by omega), if_pos rfl]; exact ⟨rfl, rfl⟩)
      rw [this, getD_append_one, if_neg (by omega), if_pos rfl]
    · rw [if_neg hk]
      apply undo_lookup_transfer cfg id num ents _ hinv'
      · intro a ha hka
        refine ⟨a, by simp only [List.length_append, List.length_singleton]; omega, ?_⟩
        rw [getD_append_one, if_pos ha]
        exact ⟨hka.1, hka.2, rfl⟩
      · intro j hj hkj
        simp only [List.length_append, List.length_singleton] at hj
        rw [getD_append_one] at hkj
        by_cases hjl : j < ents.length
        · rw [if_pos hjl] at hkj
          exact ⟨j, hjl, hkj⟩
        · rw [if_neg hjl, if_pos (by omega)] at hkj
          exact absurd ⟨hkj.1.symm, hkj.2.symm⟩ hk

theorem undo_lookup_some_range (cfg : Seminfo) (semid semnum : Int) (ents : List Undo) (v : Int)
    (hinv : RecInv cfg ents) (h : undo_lookup semid semnum ents = some v) :
    v ≠ 0 ∧ -cfg.semaem ≤ v ∧ v ≤ cfg.semaem ∧ 0 < ents.length := by
  cases hf : undo_find semid semnum ents with
  | none =>
    rw [(undo_lookup_none_iff semid semnum ents).2 hf] at h
    cases h
  | some i =>
    obtain ⟨hi, _, _⟩ := undo_find_some semid semnum ents i hf
    rw [undo_lookup_of_find _ _ _ _ hf] at h
    simp only [Option.some.injEq] at h
    have := hinv.2.1 i hi
    rw [h] at this
    exact ⟨this.1, this.2.1, this.2.2, by omega⟩

theorem entseq_refl (a : List Undo) : EntsEq a a := ⟨rfl, fun _ _ => rfl⟩

theorem adjust_ents_congr (cfg : Seminfo) (semid : Int) (s1 s2 : Nat) (semnum adjval : Int)
    (a b : List Undo) (h : EntsEq a b) :
    (adjust_ents cfg semid s1 semnum adjval a).1 = (adjust_ents cfg semid s2 semnum adjval b).1 := by
  rw [adjust_ents_code, adjust_ents_code, h.1, h.2]

theorem adjust_ents_congr_after (cfg : Seminfo) (semid : Int) (s1 s2 : Nat) (semnum adjval : Int)
    (a b : List Undo) (h0 : 0 ≤ cfg.semaem) (h1 : cfg.semaem ≤ 32767)
    (hnum : -32768 ≤ semnum ∧ semnum ≤ 32767) (ha : RecInv cfg a) (hb : RecInv cfg b)
    (hadj : adjval ≠ 0) (hok : (adjust_ents cfg semid s1 semnum adjval a).1 = 0)
    (h : EntsEq a b) :
    EntsEq (adjust_ents cfg semid s1 semnum adjval a).2 (adjust_ents cfg semid s2 semnum adjval b).2 := by
  have hok' : (adjust_ents cfg semid s2 semnum adjval b).1 = 0 := by
    rw [← adjust_ents_congr cfg semid s1 s2 semnum adjval a b h]; exact hok
  obtain ⟨la, ka⟩ := adjust_ents_after cfg semid s1 semnum adjval a h0 h1 hnum ha hadj hok
  obtain ⟨lb, kb⟩ := adjust_ents_after cfg semid s2 semnum adjval b h0 h1 hnum hb hadj hok'
  refine ⟨?_, ?_⟩
  · rw [la, lb, h.1, h.2]
  · intro id num
    rw [ka, kb, h.2, h.2]

/-- The reverse adjustment succeeds. After a successful `semundo_adjust` with
`-d` the call with `d` for the same pair returns 0 and leaves entries that store
the adjustments stored before the first call. -/
theorem adjust_ents_inverse (cfg : Seminfo) (semid : Int) (s1 s2 : Nat) (semnum d : Int)
    (ents : List Undo) (h0 : 0 ≤ cfg.semaem) (h1 : cfg.semaem ≤ 32767)
    (hnum : -32768 ≤ semnum ∧ semnum ≤ 32767) (hinv : RecInv cfg ents)
    (hd : d ≠ 0) (hok : (adjust_ents cfg semid s1 semnum (-d) ents).1 = 0) :
    (adjust_ents cfg semid s2 semnum d (adjust_ents cfg semid s1 semnum (-d) ents).2).1 = 0 ∧
    EntsEq (adjust_ents cfg semid s2 semnum d (adjust_ents cfg semid s1 semnum (-d) ents).2).2
      ents := by
  have hnd : -d ≠ 0 := by omega
  have hinv' := recinv_adjust cfg semid s1 semnum (-d) ents h0 h1 hnum hinv
  obtain ⟨l1, k1⟩ := adjust_ents_after cfg semid s1 semnum (-d) ents h0 h1 hnum hinv hnd hok
  have hc1 := adjust_ents_code cfg semid s1 semnum (-d) ents
  rw [hok] at hc1
  have hc2 := adjust_ents_code cfg semid s2 semnum d (adjust_ents cfg semid s1 semnum (-d) ents).2
  have kk := k1 semid semnum
  rw [if_pos ⟨rfl, rfl⟩] at kk
  have hlen := hinv.2.2
  cases hl : undo_lookup semid semnum ents with
  | some v =>
    obtain ⟨v0, v1, v2, vlen⟩ := undo_lookup_some_range cfg semid semnum ents v hinv hl
    rw [hl] at kk l1
    simp only at kk l1
    by_cases hz : -d + v = 0
    · rw [if_pos hz] at kk l1
      rw [kk] at hc2
      simp only [hd, if_false] at hc2
      rw [if_neg (by omega), l1, if_pos (by omega)] at hc2
      refine ⟨hc2, ?_⟩
      obtain ⟨l2, k2⟩ := adjust_ents_after cfg semid s2 semnum d _ h0 h1 hnum hinv' hd hc2
      refine ⟨?_, ?_⟩
      · rw [l2, kk, l1]; simp only
        exact Nat.sub_add_cancel vlen
      · intro id num
        rw [k2, kk]
        simp only
        by_cases hk : id = semid ∧ num = semnum
        · rw [if_pos hk, hk.1, hk.2, hl]
          congr 1; omega
        · rw [if_neg hk, k1, if_neg hk]
    · rw [if_neg hz] at kk l1
      rw [kk] at hc2
      simp only [ne_eq, hd, not_false_eq_true, true_and] at hc2
      rw [if_neg (by omega)] at hc2
      refine ⟨hc2, ?_⟩
      obtain ⟨l2, k2⟩ := adjust_ents_after cfg semid s2 semnum d _ h0 h1 hnum hinv' hd hc2
      refine ⟨?_, ?_⟩
      · rw [l2, kk, l1]; simp only
        rw [if_neg (by omega)]
      · intro id num
        rw [k2, kk]
        simp only
        by_cases hk : id = semid ∧ num = semnum
        · rw [if_pos hk, hk.1, hk.2, hl, if_neg (by omega)]
          congr 1; omega
        · rw [if_neg hk, k1, if_neg hk]
  | none =>
    rw [hl] at kk l1
    simp only at kk l1
    rw [kk] at hc2
    simp only [ne_eq, hd, not_false_eq_true, true_and] at hc2
    rw [if_neg (by omega)] at hc2
    refine ⟨hc2, ?_⟩
    obtain ⟨l2, k2⟩ := adjust_ents_after cfg semid s2 semnum d _ h0 h1 hnum hinv' hd hc2
    refine ⟨?_, ?_⟩
    · rw [l2, kk, l1]; simp only
      rw [if_pos (by omega)]; exact Nat.add_sub_cancel _ _
    · intro id num
      rw [k2, kk]
      simp only
      by_cases hk : id = semid ∧ num = semnum
      · rw [if_pos hk, hk.1, hk.2, hl, if_pos (by omega)]
      · rw [if_neg hk, k1, if_neg hk]

theorem rollback_ents_congr (cfg : Seminfo) (semid : Int) (seq : Nat) (live : Bool)
    (prev : List Sembuf) (a b : List Undo) (h0 : 0 ≤ cfg.semaem) (h1 : cfg.semaem ≤ 32767)
    (hp : ∀ o ∈ prev, o.sem_num < 32768) (ha : RecInv cfg a) (hb : RecInv cfg b)
    (h : EntsEq a b) :
    rollback_ents cfg semid seq live prev a = rollback_ents cfg semid seq live prev b := by
  induction prev generalizing a b with
  | nil => rfl
  | cons o os ih =>
    have hos : ∀ o' ∈ os, o'.sem_num < 32768 := fun o' ho' => hp o' (List.mem_cons_of_mem _ ho')
    have hnum := sem_num_short o (hp o (List.mem_cons_self _ _))
    unfold rollback_ents
    split
    · exact ih a b hos ha hb h
    · split
      · exact ih a b hos ha hb h
      · rename_i hop
        simp only
        have hc := adjust_ents_congr cfg semid seq seq o.sem_num o.sem_op a b h
        rw [← hc]
        split
        · rfl
        · rename_i hok
          have hok' : (adjust_ents cfg semid seq o.sem_num o.sem_op a).1 = 0 := by
            simpa using hok
          cases live with
          | false => exact ih a b hos ha hb h
          | true =>
            exact ih _ _ hos
              (recinv_adjust cfg semid seq o.sem_num o.sem_op a h0 h1 hnum ha)
              (recinv_adjust cfg semid seq o.sem_num o.sem_op b h0 h1 hnum hb)
              (adjust_ents_congr_after cfg semid seq seq o.sem_num o.sem_op a b h0 h1 hnum ha hb
                hop hok' h)

theorem adjust_entry_live (cfg : Seminfo) (r : Nat) (semid : Int) (semseq : Nat)
    (semnum adjval : Int) (st : State) :
    (SEMU (semundo_adjust_entry cfg r semid semseq semnum adjval st).2 r).un_ent =
      if decide (r < st.semu.length) = true then
        (adjust_ents cfg semid semseq semnum adjval (SEMU st r).un_ent).2
      else (SEMU st r).un_ent := by
  rw [(adjust_entry_ents cfg r semid semseq semnum adjval st).2.2 r]
  by_cases h : r < st.semu.length
  · simp [h]
  · simp [h]

/-- The rollback loop of `sys_semop`, run with a cached pointer, succeeds exactly
when it does on the entries of the structure pointed to. -/
theorem rollback_state_ents (cfg : Seminfo) (td : Thread) (semid seq : Nat)
    (prev : List Sembuf) (r : Nat) (st : State) :
    (semop_undo_rollback cfg td semid seq prev (some r) st).isSome =
      rollback_ents cfg semid seq (decide (r < st.semu.length)) prev (SEMU st r).un_ent := by
  induction prev generalizing st with
  | nil => rfl
  | cons o os ih =>
    unfold semop_undo_rollback rollback_ents
    split
    · exact ih st
    · split
      · exact ih st
      · simp only [semundo_adjust]
        rw [(adjust_entry_ents cfg r semid seq o.sem_num o.sem_op st).1]
        split
        · rfl
        · rw [ih, (adjust_entry_ents cfg r semid seq o.sem_num o.sem_op st).2.1,
            adjust_entry_live]

theorem rollback_ineffective (cfg : Seminfo) (td : Thread) (semid seq : Nat)
    (prev : List Sembuf) (suptr : Option Nat) (st : State)
    (h : ∀ o ∈ prev, o.sem_flg &&& SEM_UNDO = 0 ∨ o.sem_op = 0) :
    semop_undo_rollback cfg td semid seq prev suptr st = some (suptr, st) := by
  induction prev with
  | nil => rfl
  | cons o os ih =>
    have hos := ih (fun o' ho' => h o' (List.mem_cons_of_mem _ ho'))
    unfold semop_undo_rollback
    split
    · exact hos
    · split
      · exact hos
      · exfalso
        rcases h o (List.mem_cons_self _ _) with h1 | h1 <;> contradiction

theorem adjust_entry_fail_state (cfg : Seminfo) (r : Nat) (semid : Int) (semseq : Nat)
    (semnum adjval : Int) (st : State)
    (h : (semundo_adjust_entry cfg r semid semseq semnum adjval st).1 ≠ 0) :
    (semundo_adjust_entry cfg r semid semseq semnum adjval st).2 = st := by
  have key : (semundo_adjust_entry cfg r semid semseq semnum adjval st).1 = 0 ∨
      (semundo_adjust_entry cfg r semid semseq semnum adjval st).2 = st := by
    unfold semundo_adjust_entry
    simp only
    repeat' split
    all_goals first
      | exact Or.inl rfl
      | exact Or.inr rfl
  rcases key with k | k
  · exact absurd k h
  · exact k

/-- The ways `semundo_adjust` with a non-zero `adjval` goes: no structure for the
process and none free (`ENOSPC`, pointer still `NULL`), or the second half run on
a structure `r` from a state `s` that is the state before, or the state after
`semu_alloc`. -/
theorem semundo_adjust_cases (cfg : Seminfo) (td : Thread) (supptr : Option Nat) (semid : Int)
    (semseq : Nat) (semnum adjval : Int) (st : State) (hadj : adjval ≠ 0) :
    (supptr = none ∧
      (semundo_adjust cfg td supptr semid semseq semnum adjval st).1 ≠ 0 ∧
      (semundo_adjust cfg td supptr semid semseq semnum adjval st).2.1 = none) ∨
    ∃ r s, semundo_adjust cfg td supptr semid semseq semnum adjval st =
        ((semundo_adjust_entry cfg r semid semseq semnum adjval s).1, some r,
          (semundo_adjust_entry cfg r semid semseq semnum adjval s).2) ∧
      ((supptr = some r ∧ s = st) ∨
       (supptr = none ∧ (s = st ∨ s = (semu_alloc td st).2))) := by
  unfold semundo_adjust
  split
  · rename_i r
    exact Or.inr ⟨r, st, rfl, Or.inl ⟨rfl, rfl⟩⟩
  · split
    · rename_i r _
      exact Or.inr ⟨r, st, rfl, Or.inr ⟨rfl, Or.inl rfl⟩⟩
    · rw [if_neg hadj]
      split
      · left
        refine ⟨rfl, ?_, rfl⟩
        show ENOSPC ≠ 0
        decide
      · rename_i r s heq
        refine Or.inr ⟨r, s, rfl, Or.inr ⟨rfl, Or.inr ?_⟩⟩
        rw [heq]

/-- The reverse adjustment on the undo structure `r`: after a successful second
half of `semundo_adjust` with `-d`, the one with `d` returns 0 and leaves in `r`
entries that store the adjustments stored at the start. -/
theorem adjust_entry_inverse (cfg : Seminfo) (r : Nat) (semid : Int) (semseq : Nat)
    (semnum d : Int) (st : State) (h0 : 0 ≤ cfg.semaem) (h1 : cfg.semaem ≤ 32767)
    (hnum : -32768 ≤ semnum ∧ semnum ≤ 32767) (hinv : RegInv cfg st) (hd : d ≠ 0)
    (hok : (semundo_adjust_entry cfg r semid semseq semnum (-d) st).1 = 0) :
    (semundo_adjust_entry cfg r semid semseq semnum d
      (semundo_adjust_entry cfg r semid semseq semnum (-d) st).2).1 = 0 ∧
    (semundo_adjust_entry cfg r semid semseq semnum d
      (semundo_adjust_entry cfg r semid semseq semnum (-d) st).2).2.semu.length =
        st.semu.length ∧
    EntsEq (SEMU (semundo_adjust_entry cfg r semid semseq semnum d
      (semundo_adjust_entry cfg r semid semseq semnum (-d) st).2).2 r).un_ent
      (SEMU st r).un_ent := by
  have e1 := adjust_entry_ents cfg r semid semseq semnum (-d) st
  have e2 := adjust_entry_ents cfg r semid semseq semnum d
    (semundo_adjust_entry cfg r semid semseq semnum (-d) st).2
  have l1 := adjust_entry_live cfg r semid semseq semnum (-d) st
  have l2 := adjust_entry_live cfg r semid semseq semnum d
    (semundo_adjust_entry cfg r semid semseq semnum (-d) st).2
  rw [e1.1] at hok
  rw [e2.1, e2.2.1, e1.2.1, l2, l1, e1.2.1]
  by_cases hr : r < st.semu.length
  · simp only [hr, decide_True, if_true]
    have := adjust_ents_inverse cfg semid semseq semseq semnum d (SEMU st r).un_ent h0 h1 hnum
      (hinv r) hd hok
    exact ⟨this.1, trivial, this.2⟩
  · simp only [hr, decide_False, if_false]
    have hE : (SEMU st r).un_ent = [] := by
      rw [semu_out_of_range st r (by omega)]; rfl
    refine ⟨?_, trivial, entseq_refl _⟩
    rw [hE] at hok ⊢
    have c1 := adjust_ents_code cfg semid semseq semnum (-d) []
    have c2 := adjust_ents_code cfg semid semseq semnum d []
    have hl : undo_lookup semid semnum [] = none := rfl
    rw [hl] at c1 c2
    simp only at c1 c2
    rw [hok] at c1
    simp only [Bool.false_eq_true, if_false]
    rw [c2]
    rw [if_neg (by omega)] at c1
    rw [if_neg hd]
    by_cases hb : -d > cfg.semaem ∨ -d < -cfg.semaem
    · rw [if_pos hb] at c1
      exact absurd c1.symm (by decide)
    · rw [if_neg hb] at c1
      rw [if_neg (by omega)]
      exact c1.symm

/-- The rollback of the undo adjustments cannot fail. In the loop "Process any
SEM_UNDO requests", run on the operations `sops` after the operations `prev`, when
the rollback of `prev` would succeed from the present state, the loop does not
reach `panic("semop - can't undo undos")`. -/
theorem semop_undos_no_panic (cfg : Seminfo) (td : Thread) (semid seq : Nat)
    (prev sops : List Sembuf) (suptr : Option Nat) (st : State)
    (h0 : 0 ≤ cfg.semaem) (h1 : cfg.semaem ≤ 32767) (hume : 0 ≤ cfg.semume)
    (hp : ∀ o ∈ prev, o.sem_num < 32768) (hs : ∀ o ∈ sops, o.sem_num < 32768)
    (hinv : RegInv cfg st)
    (hJ : (suptr = none ∧ ∀ o ∈ prev, o.sem_flg &&& SEM_UNDO = 0 ∨ o.sem_op = 0) ∨
      (∃ r, suptr = some r ∧
        (semop_undo_rollback cfg td semid seq prev (some r) st).isSome = true)) :
    semop_undos cfg td semid seq prev sops suptr st ≠ UndoResult.panic := by
  induction sops generalizing prev suptr st with
  | nil =>
    unfold semop_undos
    exact fun h => by cases h
  | cons o os ih =>
    have hos : ∀ o' ∈ os, o'.sem_num < 32768 := fun o' ho' => hs o' (List.mem_cons_of_mem _ ho')
    have ho := hs o (List.mem_cons_self _ _)
    have hnum := sem_num_short o ho
    have hpo : ∀ o' ∈ o :: prev, o'.sem_num < 32768 := by
      intro o' ho'
      rcases List.mem_cons.mp ho' with h | h
      · rw [h]; exact ho
      · exact hp o' h
    have hskip : (o.sem_flg &&& SEM_UNDO = 0 ∨ o.sem_op = 0) →
        ((suptr = none ∧ ∀ o' ∈ o :: prev, o'.sem_flg &&& SEM_UNDO = 0 ∨ o'.sem_op = 0) ∨
        (∃ r, suptr = some r ∧
          (semop_undo_rollback cfg td semid seq (o :: prev) (some r) st).isSome = true)) := by
      intro hineff
      rcases hJ with ⟨hn, hall⟩ | ⟨r, hr, hroll⟩
      · left
        refine ⟨hn, ?_⟩
        intro o' ho'
        rcases List.mem_cons.mp ho' with h | h
        · rw [h]; exact hineff
        · exact hall o' h
      · right
        refine ⟨r, hr, ?_⟩
        unfold semop_undo_rollback
        rcases hineff with h | h
        · rw [if_pos h]; exact hroll
        · split
          · exact hroll
          · exact hroll
    unfold semop_undos
    split
    · rename_i hflag
      exact ih _ _ _ hpo hos hinv (hskip (Or.inl hflag))
    · rename_i hflag
      split
      · rename_i hop
        exact ih _ _ _ hpo hos hinv (hskip (Or.inr hop))
      · rename_i hop
        have hnop : -o.sem_op ≠ 0 := by omega
        simp only
        rcases semundo_adjust_cases cfg td suptr semid seq o.sem_num (-o.sem_op) st hnop with
          ⟨hsn, hne, hnone⟩ | ⟨r0, s, heq, hcase⟩
        · rw [if_neg hne, hnone]
          have hall : ∀ o' ∈ prev, o'.sem_flg &&& SEM_UNDO = 0 ∨ o'.sem_op = 0 := by
            rcases hJ with ⟨_, hall⟩ | ⟨r, hr, _⟩
            · exact hall
            · rw [hsn] at hr; cases hr
          rw [rollback_ineffective cfg td semid seq prev none _ hall]
          exact fun h => by cases h
        · rw [heq]
          simp only
          have hs_inv : RegInv cfg s := by
            rcases hcase with ⟨_, e⟩ | ⟨_, e | e⟩
            · rw [e]; exact hinv
            · rw [e]; exact hinv
            · rw [e]; exact reginv_alloc cfg td st hume hinv
          have hready : (semop_undo_rollback cfg td semid seq prev (some r0) s).isSome = true := by
            rcases hJ with ⟨hn, hall⟩ | ⟨r, hr, hroll⟩
            · rw [rollback_ineffective cfg td semid seq prev (some r0) s hall]; rfl
            · rcases hcase with ⟨e1, e2⟩ | ⟨e1, _⟩
              · rw [e1] at hr
                simp only [Option.some.injEq] at hr
                rw [hr, e2]; exact hroll
              · rw [e1] at hr; cases hr
          by_cases hc : (semundo_adjust_entry cfg r0 semid seq o.sem_num (-o.sem_op) s).1 = 0
          · rw [if_pos hc]
            refine ih (o :: prev) (some r0) _ hpo hos
              (reginv_adjust_entry cfg r0 semid seq o.sem_num (-o.sem_op) s h0 h1 hnum hs_inv)
              (Or.inr ⟨r0, rfl, ?_⟩)
            obtain ⟨i1, i2, i3⟩ := adjust_entry_inverse cfg r0 semid seq o.sem_num o.sem_op s
              h0 h1 hnum hs_inv hop hc
            unfold semop_undo_rollback
            rw [if_neg hflag, if_neg hop]
            simp only [semundo_adjust]
            rw [if_neg (by rw [i1]; exact fun h => h rfl)]
            rw [rollback_state_ents] at hready ⊢
            rw [i2]
            rw [← hready]
            exact rollback_ents_congr cfg semid seq _ prev _ _ h0 h1 hp
              (reginv_adjust_entry cfg r0 semid seq o.sem_num o.sem_op _ h0 h1 hnum
                (reginv_adjust_entry cfg r0 semid seq o.sem_num (-o.sem_op) s h0 h1 hnum hs_inv) r0)
              (hs_inv r0) i3
          · rw [if_neg hc, adjust_entry_fail_state cfg r0 semid seq o.sem_num (-o.sem_op) s hc]
            cases hr : semop_undo_rollback cfg td semid seq prev (some r0) s with
            | none => rw [hr] at hready; cases hready
            | some r1 => exact fun h => by cases h

theorem semop_done_no_panic (K : Kernel) (cfg : Seminfo) (td : Thread) (semid : Nat)
    (sops : List Sembuf) (st : State)
    (h0 : 0 ≤ cfg.semaem) (h1 : cfg.semaem ≤ 32767) (hume : 0 ≤ cfg.semume)
    (hs : ∀ o ∈ sops, o.sem_num < 32768) (hinv : RegInv cfg st) :
    semop_done K cfg td semid sops st ≠ SemopResult.panic := by
  have hu := semop_undos_no_panic cfg td semid (st.sema.getD semid default).u.sem_perm.seq [] sops
    none st h0 h1 hume (fun o ho => absurd ho (List.not_mem_nil o)) hs hinv
    (Or.inl ⟨rfl, fun o ho => absurd ho (List.not_mem_nil o)⟩)
  unfold semop_done
  simp only
  split
  · rename_i heq
    split at heq
    · exact absurd heq hu
    · cases heq
  · exact fun h => by cases h
  · exact fun h => by cases h

theorem semop_loop_no_panic (K : Kernel) (cfg : Seminfo) (td : Thread) (semid : Nat)
    (sops : List Sembuf) (st : State)
    (h0 : 0 ≤ cfg.semaem) (h1 : cfg.semaem ≤ 32767) (hume : 0 ≤ cfg.semume)
    (hs : ∀ o ∈ sops, o.sem_num < 32768) (hinv : RegInv cfg st) :
    semop_loop K cfg td semid sops st ≠ SemopResult.panic := by
  unfold semop_loop
  simp only
  split
  · exact semop_done_no_panic K cfg td semid sops _ h0 h1 hume hs
      (reginv_of_semu (a := st) rfl hinv)
  · repeat' split
    all_goals exact fun h => by cases h

theorem sys_semop_no_panic (K : Kernel) (cfg : Seminfo) (td : Thread) (id : Int)
    (sops : List Sembuf) (st : State)
    (h0 : 0 ≤ cfg.semaem) (h1 : cfg.semaem ≤ 32767) (hume : 0 ≤ cfg.semume)
    (hn : NsemsShort st) (hinv : RegInv cfg st) :
    sys_semop K cfg td id sops st ≠ SemopResult.panic := by
  rcases sys_semop_to_loop K cfg td id sops st with ⟨e, h⟩ | ⟨hal, _, h⟩
  · rw [h]; exact fun h => by cases h
  · by_cases hc : ∃ j, semop_check (st.sema.getD (IPCID_TO_IX id) default).u.sem_nsems sops 0 = some j
    · obtain ⟨j, hj⟩ := hc
      have hlt := semop_check_lt _ _ _ _ hj
      have := hn _ hal
      rw [h]
      exact semop_loop_no_panic K cfg td _ sops st h0 h1 hume
        (fun o ho => by have := hlt o ho; omega) hinv
    · have hnone : semop_check (st.sema.getD (IPCID_TO_IX id) default).u.sem_nsems sops 0 = none := by
        cases hx : semop_check (st.sema.getD (IPCID_TO_IX id) default).u.sem_nsems sops 0 with
        | none => rfl
        | some j => exact absurd ⟨j, hx⟩ hc
      unfold sys_semop
      simp only [hnone]
      repeat' split
      all_goals exact fun h => by cases h

theorem semop_wakeup_no_panic (K : Kernel) (cfg : Seminfo) (td : Thread) (id : Int)
    (sops : List Sembuf) (i : Nat) (error : Int) (st : State)
    (h0 : 0 ≤ cfg.semaem) (h1 : cfg.semaem ≤ 32767) (hume : 0 ≤ cfg.semume)
    (hs : ∀ o ∈ sops, o.sem_num < 32768) (hinv : RegInv cfg st) :
    semop_wakeup K cfg td id sops i error st ≠ SemopResult.panic := by
  unfold semop_wakeup
  simp only
  repeat' split
  all_goals first
    | exact fun h => by cases h
    | exact semop_loop_no_panic K cfg td _ sops _ h0 h1 hume hs
        (reginv_of_semu (a := st) rfl hinv)

theorem run_nsems_short (K : Kernel) (cfg : Seminfo) (cs : List Call) (st : State)
    (hmsl : cfg.semmsl ≤ 32767) (hn : NsemsShort st) : NsemsShort (run K cfg cs st) := by
  induction cs generalizing st with
  | nil => exact hn
  | cons c rest ih => exact ih _ (step_nsems_short K cfg c st hmsl hn)

/-- C32 at its failing input. Under `wideCfg` (`semaem = 40000`, the other limits
as compiled in) the calls of `wide_calls` succeed from `seminit` and leave no undo
entry at all. The `semop` of `wide_sops` gets through its walk (semaphore 0 goes
20000, 0, 20000, 0, 20000). In the undo loop the first adjustment creates the
entry +20000 and the third makes it 40000, which passes the test against `semaem`
and is stored in the `short` field `un_adjval` as -25536. The adjustment -20000 for
the fourth operation then fails with `ERANGE` (-45536), and so does the reverse
adjustment -20000 for the third: the call ends in
`panic("semop - can't undo undos")`. -/
theorem undo_rollback_panics :
    (run exKernel wideCfg wide_calls (seminit wideCfg)).semu_list = [] ∧
    (∀ r, r < 2 → (SEMU (run exKernel wideCfg wide_calls (seminit wideCfg)) r).un_ent = []) ∧
    (semop_try wideCfg 0 wide_sops 0 false
      (run exKernel wideCfg wide_calls (seminit wideCfg)).sem).1 = wide_sops.length ∧
    toShort 40000 = -25536 ∧
    sys_semop exKernel wideCfg exThread 65536 wide_sops
      (run exKernel wideCfg wide_calls (seminit wideCfg)) = SemopResult.panic ∧
    step_panics exKernel wideCfg (Call.semop exThread 65536 wide_sops)
      (run exKernel wideCfg wide_calls (seminit wideCfg)) = true := by
  decide

/-- The rollback of the undo adjustments cannot fail when `semaem` fits the
`short` field `un_adjval`. With `0 ≤ semaem ≤ 32767` and `0 ≤ semume`: from a state
in which every undo structure has entries for pairwise distinct (slot, semaphore)
pairs, with non-zero adjustments within `[-semaem, semaem]` and at most `semume`
entries, the loop "Process any SEM_UNDO requests" over operations with semaphore
numbers below 32768 does not reach `panic("semop - can't undo undos")`, and neither
does `sys_semop` when every allocated set has at most 32767 semaphores. With
`semmsl ≤ 32767` no stretch of a run from `seminit` ends in this panic. -/
theorem undo_rollback_succeeds (K : Kernel) (cfg : Seminfo)
    (h0 : 0 ≤ cfg.semaem) (h1 : cfg.semaem ≤ 32767) (hume : 0 ≤ cfg.semume) :
    (∀ (td : Thread) (semid seq : Nat) (sops : List Sembuf) (st : State),
      (∀ o ∈ sops, o.sem_num < 32768) → RegInv cfg st →
      semop_undos cfg td semid seq [] sops none st ≠ UndoResult.panic) ∧
    (∀ (td : Thread) (semid : Int) (sops : List Sembuf) (st : State),
      NsemsShort st → RegInv cfg st →
      sys_semop K cfg td semid sops st ≠ SemopResult.panic) ∧
    (cfg.semmsl ≤ 32767 → ∀ (cs : List Call) (c : Call),
      (∀ c' ∈ cs, WakeupShort c') → WakeupShort c →
      step_panics K cfg c (run K cfg cs (seminit cfg)) = false) := by
  refine ⟨?_, ?_, ?_⟩
  · intro td semid seq sops st hs hinv
    exact semop_undos_no_panic cfg td semid seq [] sops none st h0 h1 hume
      (fun o ho => absurd ho (List.not_mem_nil o)) hs hinv
      (Or.inl ⟨rfl, fun o ho => absurd ho (List.not_mem_nil o)⟩)
  · intro td semid sops st hn hinv
    exact sys_semop_no_panic K cfg td semid sops st h0 h1 hume hn hinv
  · intro hmsl cs c hw hc
    have hinv := run_reginv K cfg cs _ h0 h1 hume hmsl hw (seminit_nsems_short cfg)
      (seminit_reginv cfg hume)
    have hn := run_nsems_short K cfg cs _ hmsl (seminit_nsems_short cfg)
    cases c with
    | semop td semid sops =>
      simp only [step_panics, decide_eq_false_iff_not]
      exact sys_semop_no_panic K cfg td semid sops _ h0 h1 hume hn hinv
    | wakeup td semid sops i error =>
      simp only [step_panics, decide_eq_false_iff_not]
      exact semop_wakeup_no_panic K cfg td semid sops i error _ h0 h1 hume hc hinv
    | semget td key nsems semflg => rfl
    | semctl td semid semnum cmd arg => rfl
    | exit p => rfl

theorem undo_rollback_succeeds_witness :
    (0 ≤ exCfg.semaem ∧ exCfg.semaem ≤ 32767 ∧ 0 ≤ exCfg.semume ∧ exCfg.semmsl ≤ 32767) ∧
    run exKernel exCfg rollback_calls (seminit exCfg) = exStateUndo 5 20000 ∧
    step_panics exKernel exCfg
      (Call.semop exThread 65536 [⟨0, 1, SEM_UNDO⟩, ⟨1, -16385, SEM_UNDO⟩])
      (run exKernel exCfg rollback_calls (seminit exCfg)) = false :=
  ⟨by decide, by decide,
    (undo_rollback_succeeds exKernel exCfg (by decide) (by decide) (by decide)).2.2 (by decide)
      rollback_calls (Call.semop exThread 65536 [⟨0, 1, SEM_UNDO⟩, ⟨1, -16385, SEM_UNDO⟩])
      (fun c hc => by
        simp only [rollback_calls, List.mem_cons, List.mem_singleton, List.not_mem_nil,
          or_false] at hc
        rcases hc with hc | hc | hc <;> subst hc <;> exact True.intro)
      True.intro⟩

end SysvSem
